import Mathlib

/-!
# Laminar cortex model: delay lines, connectivity tables and the step engine

A shallow embedding of the numerical core of the laminar cortex model
(`array.h`, `array.cpp`, `misc.cpp`, `lcm.h`, `lcm.cpp`, `layer.h`, `layer.cpp`,
`neurgrp.h`, `receptor.h`, `receptor.cpp`, `synpconn.h`, `synpconn.cpp`, `stimulator.h`,
`stimulator.cpp`, `rand.h`, `rand.cpp`, `exsource.cpp`, `spikesrc.cpp`, `simulation.h`,
`simulation.cpp`, and the loop of `main` in `runlcm.cpp`).

Conventions of the embedding.
* `TInt` values are natural numbers or integers; all index arithmetic of the
  delay line stays below `2 * capacity`, so no 32-bit overflow occurs for
  capacities up to `2 ^ 30`.
* `TReal` values live in an arbitrary carrier `α` with the operations the code uses.
* A pointer into the storage of a delay line is its offset from `_p_bgn`.
* `defines.h` defines `NDEBUG`, so `assert` is compiled out: the functions are total
  and the asserted conditions appear as hypotheses of the theorems.
* A `std::vector` that is only iterated is a list; a raw array is a map from indices.
* A `std::string` is a list of characters; the stream extraction of an integer is the
  function `stream_int`.
* A loop that the code may never leave carries a bound on its rounds and returns
  `none` when the bound is used up.
* Functions whose body is floating-point analysis (`sqrt`, `eqn_J`, the stimulator
  waveforms) or lies in neurgrp.cpp, which is not among the sources, are parameters.
-/

namespace LCM

/-! ## misc.cpp -/

/-- One evaluation of `x &= (x ^ (~x + 1))` on a 32-bit word. -/
def nextpow2_step (x : Nat) : Nat :=
  x &&& (x ^^^ (((4294967295 - x) + 1) % 4294967296))

/-- The loop `while (x &= (x ^ (~x + 1))) y = x << 1;` of `nextpow2`; the first
argument bounds the number of iterations (each iteration clears the lowest set bit
of `x`, so `x` iterations always suffice). -/
def nextpow2_loop : Nat → Nat → Nat → Nat
  | 0, _, y => y
  | fuel + 1, x, y =>
    if nextpow2_step x ≠ 0 then nextpow2_loop fuel (nextpow2_step x) (nextpow2_step x <<< 1)
    else y

/-- The function `TInt nextpow2(TInt x)` of misc.cpp. -/
def nextpow2 (x : Nat) : Nat := nextpow2_loop x x x

/-! ## array.h / array.cpp -/

/-- Embedding of `class DynamicArray`: the storage behind `_p_bgn` as a map from offsets to cells,
the four index fields, the three derived pointers as offsets, and the default value. -/
structure DynamicArray (α : Type) where
  p_bgn : Nat → α
  f_front : Nat
  f_last : Nat
  f_rear : Nat
  f_size : Nat
  p_rear : Nat
  p_end : Nat
  p_front : Nat
  f_val : α

namespace DynamicArray

variable {α : Type}

/-- The function `set_default`. -/
def set_default (a : DynamicArray α) (val : α) : DynamicArray α :=
  { a with f_val := val }

/-- The call `std::fill(_p_bgn, _p_end, val)`. -/
def fill_range (mem : Nat → α) (p_end : Nat) (val : α) : Nat → α :=
  fun i => if i < p_end then val else mem i

/-- The function `fill(val)`: fills the storage when it is allocated. -/
def fill (a : DynamicArray α) (val : α) : DynamicArray α :=
  if a.f_size ≠ 0 then { a with p_bgn := fill_range a.p_bgn a.p_end val } else a

/-- The function `resize(size)`: empties the array for `size = 0`; moves only the front when the
storage is large enough; allocates `nextpow2(size)` cells otherwise. In every case
all cells are reset to the default value. -/
def resize (a : DynamicArray α) (size : Nat) : DynamicArray α :=
  if size = 0 then
    { a with p_end := 0, p_front := 0, f_size := 0, f_last := 0, f_front := 0, f_rear := 0 }
  else if size ≤ a.f_size then
    { a with
      f_front := (a.f_rear + size - 1) &&& a.f_last
      p_front := (a.f_rear + size - 1) &&& a.f_last
      p_bgn := fill_range a.p_bgn a.p_end a.f_val }
  else
    { a with
      f_size := nextpow2 size
      f_last := nextpow2 size - 1
      f_rear := 0
      f_front := size - 1
      p_end := nextpow2 size
      p_rear := 0
      p_front := size - 1
      p_bgn := fill_range a.p_bgn (nextpow2 size) a.f_val }

/-- The constructor `DynamicArray(size, val)`. -/
def mk_array (mem : Nat → α) (size : Nat) (val : α) : DynamicArray α :=
  let a : DynamicArray α :=
    { p_bgn := mem, f_front := 0, f_last := 0, f_rear := 0, f_size := 0,
      p_rear := 0, p_end := 0, p_front := 0, f_val := val }
  if size ≠ 0 then a.resize size else a

/-- The function `size()`: the logical size. -/
def size (a : DynamicArray α) : Nat :=
  if a.f_size = 0 then 0 else (((a.f_front ||| a.f_size) - a.f_rear) &&& a.f_last) + 1

/-- The function `capacity()`. -/
def capacity (a : DynamicArray α) : Nat := a.f_size

/-- The function `rear()`: the cell under `_p_rear`. -/
def rear (a : DynamicArray α) : α := a.p_bgn a.p_rear

/-- The function `front()`: the cell under `_p_front`. -/
def front (a : DynamicArray α) : α := a.p_bgn a.p_front

/-- The function `get_rear(eps)`: the cell `eps` slots after the rear. -/
def get_rear (a : DynamicArray α) (eps : Nat) : α :=
  a.p_bgn ((a.f_rear + eps) &&& a.f_last)

/-- The function `get_front(eps)`: the cell `eps` slots before the front. -/
def get_front (a : DynamicArray α) (eps : Nat) : α :=
  a.p_bgn (((a.f_front ||| a.f_size) - eps) &&& a.f_last)

/-- The function `set_rear(val, eps)`. -/
def set_rear (a : DynamicArray α) (val : α) (eps : Nat) : DynamicArray α :=
  { a with p_bgn := Function.update a.p_bgn ((a.f_rear + eps) &&& a.f_last) val }

/-- The function `set_front(val, eps)`. -/
def set_front (a : DynamicArray α) (val : α) (eps : Nat) : DynamicArray α :=
  { a with p_bgn := Function.update a.p_bgn (((a.f_front ||| a.f_size) - eps) &&& a.f_last) val }

/-- The loop `while (it_tmp != stop) { *it_tmp += (*p_val) * mag; ++it_tmp; ++p_val; }`
of `add2rear`, run for the `stop - it_tmp` cells between the two pointers; `j` is the
position of `p_val` in the kernel. -/
def add_run [Add α] [Mul α] (p_val : Nat → α) (mag : α) :
    Nat → Nat → Nat → (Nat → α) → (Nat → α)
  | 0, _, _, mem => mem
  | n + 1, it_tmp, j, mem =>
    add_run p_val mag n (it_tmp + 1) (j + 1)
      (Function.update mem it_tmp (mem it_tmp + p_val j * mag))

/-- The function `add2rear(p_val, num, eps, mag)`: adds `mag * p_val[0 .. num-1]` to the cells
`eps .. eps+num-1` after the rear, in one run when the destination is contiguous in
the storage and in two runs when it wraps past `_p_end`. -/
def add2rear [Add α] [Mul α] (a : DynamicArray α) (p_val : Nat → α) (num eps : Nat) (mag : α) :
    DynamicArray α :=
  if num = 0 then a
  else
    let it_bgn := (a.f_rear + eps) &&& a.f_last
    let it_end := ((a.f_rear + eps + num - 1) &&& a.f_last) + 1
    if it_end > it_bgn then
      { a with p_bgn := add_run p_val mag (it_end - it_bgn) it_bgn 0 a.p_bgn }
    else
      { a with
        p_bgn := add_run p_val mag it_end 0 (a.p_end - it_bgn)
          (add_run p_val mag (a.p_end - it_bgn) it_bgn 0 a.p_bgn) }

/-- The function `step_backward()`: front and rear advance one cell; the new front is reset. -/
def step_backward (a : DynamicArray α) : DynamicArray α :=
  { a with
    f_front := (a.f_front + 1) &&& a.f_last
    f_rear := (a.f_rear + 1) &&& a.f_last
    p_front := (a.f_front + 1) &&& a.f_last
    p_rear := (a.f_rear + 1) &&& a.f_last
    p_bgn := Function.update a.p_bgn ((a.f_front + 1) &&& a.f_last) a.f_val }

/-- The function `step_forward()`: front and rear retreat one cell; the new rear is reset. -/
def step_forward (a : DynamicArray α) : DynamicArray α :=
  { a with
    f_front := (a.f_front + a.f_size - 1) &&& a.f_last
    f_rear := (a.f_rear + a.f_size - 1) &&& a.f_last
    p_front := (a.f_front + a.f_size - 1) &&& a.f_last
    p_rear := (a.f_rear + a.f_size - 1) &&& a.f_last
    p_bgn := Function.update a.p_bgn ((a.f_rear + a.f_size - 1) &&& a.f_last) a.f_val }

/-- The PSP write cycle of `Simulation::advance` (step 4):
`step_backward(); set_front(v);`. -/
def write_cycle (a : DynamicArray α) (v : α) : DynamicArray α :=
  (a.step_backward).set_front v 0

/-- The delay line after the write cycle has been driven with the values `vs`, in order. -/
def drive (a : DynamicArray α) (vs : List α) : DynamicArray α :=
  vs.foldl write_cycle a

/-- A call of one of the two shift operations. -/
inductive Shift where
  | forward
  | backward
  deriving DecidableEq, Repr

/-- Runs a sequence of `step_forward` / `step_backward` calls, in order. -/
def shifts (a : DynamicArray α) : List Shift → DynamicArray α
  | [] => a
  | Shift.forward :: ss => shifts (a.step_forward) ss
  | Shift.backward :: ss => shifts (a.step_backward) ss

/-- The delay line after `k` calls of `step_forward`. -/
def forward_steps (a : DynamicArray α) : Nat → DynamicArray α
  | 0 => a
  | k + 1 => forward_steps (a.step_forward) k

/-- The class invariant stated in array.h: the capacity is a power of two, `_f_last`
is the mask `_f_size - 1`, both indices lie inside the storage and the three pointers
agree with the indices. -/
structure Valid (a : DynamicArray α) : Prop where
  pow : ∃ e, a.f_size = 2 ^ e
  last : a.f_last = a.f_size - 1
  rear_lt : a.f_rear < a.f_size
  front_lt : a.f_front < a.f_size
  end_eq : a.p_end = a.f_size
  rear_eq : a.p_rear = a.f_rear
  front_eq : a.p_front = a.f_front

end DynamicArray

/-! ## lcm.h / lcm.cpp: the connectivity tables built by `LCM::init` -/

/-- The constant `MAX_INT_NUM` of defines.h. -/
def MAX_INT_NUM : Int := 2147483647

/-- The constant `SPK_PATH_NUM` of neurgrp.h. -/
def SPK_PATH_NUM : Nat := 4

/-- The constant `SYNP_RATIO_EPS` of neurgrp.h (`1e-4`). -/
def SYNP_RATIO_EPS (α : Type) [LinearOrderedField α] : α := 1 / 10000

/-- The macro `SPK_DELAY_IDX(dx, dy, ipath)` of lcm.h. -/
def SPK_DELAY_IDX (gGrid_row dx dy ipath : Nat) : Nat :=
  ipath + SPK_PATH_NUM * (dy + gGrid_row * dx)

/-- The macro `SYNP_PCT_IDX(ix, iy, ipath)` of lcm.h. -/
def SYNP_PCT_IDX (gElmt_num ix iy ipath : Nat) : Nat :=
  ipath + SPK_PATH_NUM * (iy + gElmt_num * ix)

/-- What the table-building loop of `LCM::init` reads for one neuron group: the grid,
the element and step sizes, the group's spike speed and `eqn_synp_ratio` (neurgrp.cpp
is not part of the sources, so the function is a parameter), and the two library
operations `sqrt` and `static_cast<TInt>` on `TReal`. -/
structure ConnEnv (α : Type) where
  gGrid_row : Nat
  gElmt_num : Nat
  gElmt_size : α
  gStep_size : α
  spk_speed : α
  sqrt : α → α
  to_int : α → Int
  eqn_synp_ratio : α → α → α → α

/-- The state of the table-building loop for one neuron group: `gSpk_delay[ineur]`,
`gSynp_pct[ineur]`, and the values the generator returns for the coming calls of
`rand_gauss(1., 0.2)`. -/
structure ConnTables (α : Type) where
  spk_delay : Nat → Int
  synp_pct : Nat → α
  draws : List α

section Connectivity

variable {α : Type} [LinearOrderedField α]

/-- The delay expression of `LCM::init` for the displacement components `a`, `b`:
`static_cast<TInt>(sqrt(1.0*a*a + b*b) * gElmt_size / (spk_speed * gStep_size) + 0.5)`. -/
def ConnEnv.elmt_delay (env : ConnEnv α) (a b : Nat) : Int :=
  env.to_int
    (env.sqrt (1 * (a : α) * (a : α) + ((b * b : Nat) : α)) * env.gElmt_size /
      (env.spk_speed * env.gStep_size) + 1 / 2)

/-- The loop `do { tmp = rand_gauss(1., 0.2); } while (tmp < 0.);`: the first
non-negative value of the generator, with the values left after it; `none` when the
generator has no non-negative value left. -/
def draw_jitter : List α → Option (α × List α)
  | [] => none
  | tmp :: rest => if tmp < 0 then draw_jitter rest else some (tmp, rest)

/-- The work of `LCM::init` on one path: `spk_delay` and `synp_pct` are the two table
pointers, `a` and `b` the displacement components of the path. The delay is stored
only while the entry still holds `MAX_INT_NUM`; the density is the jitter times the
synapse ratio, set to zero below `SYNP_RATIO_EPS`. -/
def path_fill (env : ConnEnv α) (a b spk_delay synp_pct : Nat) (t : ConnTables α) :
    Option (ConnTables α) :=
  match draw_jitter t.draws with
  | none => none
  | some (tmp, rest) =>
    let pct := tmp * env.eqn_synp_ratio ((a : α) * env.gElmt_size) ((b : α) * env.gElmt_size)
      env.gElmt_size
    some
      { spk_delay :=
          if t.spk_delay spk_delay = MAX_INT_NUM then
            Function.update t.spk_delay spk_delay (env.elmt_delay a b)
          else t.spk_delay
        synp_pct :=
          Function.update t.synp_pct synp_pct (if pct < SYNP_RATIO_EPS α then 0 else pct)
        draws := rest }

/-- The assignment `d_x = abs(ielmt / gGrid_row - jelmt / gGrid_row)` of `LCM::init`. -/
def init_d_x (gGrid_row ielmt jelmt : Nat) : Nat :=
  Int.natAbs ((ielmt / gGrid_row : Nat) - (jelmt / gGrid_row : Nat) : Int)

/-- The assignment `d_y = abs(ielmt % gGrid_row - jelmt % gGrid_row)` of `LCM::init`. -/
def init_d_y (gGrid_row ielmt jelmt : Nat) : Nat :=
  Int.natAbs ((ielmt % gGrid_row : Nat) - (jelmt % gGrid_row : Nat) : Int)

/-- The body of the two element loops of `LCM::init`: the four paths of the pair
`(ielmt, jelmt)`, the two pointers advancing by one entry from path to path. -/
def pair_fill (env : ConnEnv α) (t : ConnTables α) (ielmt jelmt : Nat) :
    Option (ConnTables α) :=
  let d_x := init_d_x env.gGrid_row ielmt jelmt
  let d_y := init_d_y env.gGrid_row ielmt jelmt
  let spk_delay := SPK_DELAY_IDX env.gGrid_row d_x d_y 0
  let synp_pct := SYNP_PCT_IDX env.gElmt_num ielmt jelmt 0
  (path_fill env d_x d_y spk_delay synp_pct t).bind fun t1 =>
  (path_fill env (env.gGrid_row - d_x) d_y (spk_delay + 1) (synp_pct + 1) t1).bind fun t2 =>
  (path_fill env d_x (env.gGrid_row - d_y) (spk_delay + 2) (synp_pct + 2) t2).bind fun t3 =>
  path_fill env (env.gGrid_row - d_x) (env.gGrid_row - d_y) (spk_delay + 3) (synp_pct + 3) t3

/-- The inner loop `for (jelmt = 0; jelmt < gElmt_num; ++jelmt)`. -/
def row_fill (env : ConnEnv α) (t : ConnTables α) (ielmt : Nat) : Option (ConnTables α) :=
  (List.range env.gElmt_num).foldlM (fun t jelmt => pair_fill env t ielmt jelmt) t

/-- The tables of one neuron group as `LCM::init` builds them: the delay table of
`gGrid_row * gGrid_row * SPK_PATH_NUM` entries is filled with `MAX_INT_NUM`, the
density table is allocated with arbitrary content `junk`, and both element loops run. -/
def build_tables (env : ConnEnv α) (junk_delay : Nat → Int) (junk_pct : Nat → α)
    (draws : List α) : Option (ConnTables α) :=
  (List.range env.gElmt_num).foldlM (row_fill env)
    { spk_delay := fun i =>
        if i < env.gGrid_row * env.gGrid_row * SPK_PATH_NUM then MAX_INT_NUM else junk_delay i
      synp_pct := junk_pct
      draws := draws }

/-- The displacement a wrap path stands for: `(dx, dy)`, `(S - dx, dy)`, `(dx, S - dy)`,
`(S - dx, S - dy)` for path 0, 1, 2, 3 (comment of `SPK_DELAY_IDX` in lcm.h). -/
def wrap_disp (gGrid_row ipath dx dy : Nat) : Nat × Nat :=
  (if ipath = 1 ∨ ipath = 3 then gGrid_row - dx else dx,
   if ipath = 2 ∨ ipath = 3 then gGrid_row - dy else dy)

end Connectivity


section ConnectivityReference

variable {α : Type} [LinearOrderedField α]

/-- The delay the table of a group must hold at `(dx, dy, ipath)`: the delay expression
at the displacement the path stands for. -/
def delay_ref (env : ConnEnv α) (dx dy ipath : Nat) : Int :=
  env.elmt_delay (wrap_disp env.gGrid_row ipath dx dy).1 (wrap_disp env.gGrid_row ipath dx dy).2

/-- Every entry of the delay table inside the grid is still unwritten or holds its
reference delay. -/
def DelayInv (env : ConnEnv α) (t : ConnTables α) : Prop :=
  ∀ dx dy p, dx < env.gGrid_row → dy < env.gGrid_row → p < 4 →
    t.spk_delay (SPK_DELAY_IDX env.gGrid_row dx dy p) = MAX_INT_NUM ∨
      t.spk_delay (SPK_DELAY_IDX env.gGrid_row dx dy p) = delay_ref env dx dy p

end ConnectivityReference


/-! ## simulation.h / simulation.cpp, exsource.cpp, stimulator.h: the step engine -/

/-- The constant `VOLT_EPS` of simulation.h (`1e-6`). -/
def VOLT_EPS (α : Type) [LinearOrderedField α] : α := 1 / 1000000

/-- Embedding of `enum TNeur` of defines.h. -/
inductive TNeur where
  | cNaN
  | cEXCIT
  | cINHIB
  deriving DecidableEq, Repr

/-- The step fields of `class TTimeWin`. -/
structure TTimeWin where
  bgn_step : Int
  end_step : Int
  inc_step : Int
  deriving DecidableEq, Repr

/-- The fields of `class SynpConn` that `advance` reads. -/
structure SynpConn (α : Type) where
  sy_spk_delay : Nat
  sy_psp_delay : Nat
  sy_weight : α
  sy_post : Nat

/-- Embedding of `class Receptor` as `advance` uses it: the kernel `_rcpt_psp` and `eqn_J`. -/
structure Receptor (α : Type) where
  rcpt_psp : List α
  eqn_J : α → α

/-- Embedding of `class NeurGrp` as `advance` uses it; `eqn_firing` is defined in neurgrp.cpp, which
is not part of the sources, and is carried as a function. -/
structure NeurGrp (α : Type) where
  index : Nat
  ng_type : TNeur
  V_rev : α
  V_0 : α
  mp_decay_step : α
  synp_conn : List (SynpConn α)
  eqn_firing : α → α

/-- Embedding of `class Stimulator`: the activation window, the activation flag, and the waveform
state `wave` (mode, position, filter buffers and random streams taken together). -/
structure Stimulator (ω : Type) where
  st_start : Int
  st_stop : Int
  st_active : Bool
  wave : ω

/-- The three waveform operations of `Stimulator`: what `init()`, `advance()` and
`generate(ielmt)` do to, and read from, the waveform state of an active stimulator. -/
structure StimOps (α ω : Type) where
  init : ω → ω
  advance : ω → ω
  generate : ω → Int → α

/-- Embedding of `class ExSource`: the attached stimulators, the elements projected to, the matrix
`_elmt_stim`, the counters `_Nact_stim` and `_chk_pnt`, and the outgoing connections. -/
structure ExSource (α ω : Type) where
  es_stim : List (Stimulator ω)
  es_elmt : List Nat
  elmt_stim : Nat → Nat → Int
  Nact_stim : Nat
  chk_pnt : Int
  synp_conn : List (SynpConn α)

/-- Embedding of `class Simulation` (with the members of `LCM` it inherits) as `advance` uses it. -/
structure Simulation (α ω : Type) where
  gPSP : Nat → Nat → Nat → DynamicArray α
  gVolt : Nat → Nat → DynamicArray α
  gElmtX : Nat → Nat
  gElmtY : Nat → Nat
  tCheck_pnt : Int
  tEvlt_step : Int
  output_time : List TTimeWin
  tOut_flg : Bool
  gSpk_delay : Nat → Nat → Int
  gSynp_pct : Nat → Nat → α
  gRcpt_excit : List (Receptor α)
  gRcpt_inhib : List (Receptor α)
  gNeur : List (NeurGrp α)
  gExSrc : List (ExSource α ω)
  gElmt_num : Nat
  gGrid_row : Nat
  gTotal_step : Int
  gV_rev_min : α
  gV_rev_max : α

/-- A loop over a vector that also carries the position of the current item
(`for (i = 0; i < v.size(); ++i)` with `v[i]`, or an iterator with a counter). -/
def fold_idx {β γ : Type} (f : β → Nat → γ → β) : List γ → Nat → β → β
  | [], _, b => b
  | x :: xs, i, b => fold_idx f xs (i + 1) (f b i x)

section Engine

variable {α ω : Type} [LinearOrderedField α]

/-- The function `psp()`: the pointer to the kernel samples. -/
def Receptor.psp (rc : Receptor α) : Nat → α := fun i => rc.rcpt_psp.getD i 0

/-- The function `psp_size()`. -/
def Receptor.psp_size (rc : Receptor α) : Nat := rc.rcpt_psp.length

/-- The function `activate()`: sets the flag and restarts the stimulator with `init()`. -/
def Stimulator.activate (ops : StimOps α ω) (st : Stimulator ω) : Stimulator ω :=
  { st with st_active := true, wave := ops.init st.wave }

/-- The function `deactivate()`. -/
def Stimulator.deactivate (st : Stimulator ω) : Stimulator ω :=
  { st with st_active := false }

/-- The function `Stimulator::generate(ielmt)`: nothing while inactive. -/
def Stimulator.generate (ops : StimOps α ω) (st : Stimulator ω) (ielmt : Int) : α :=
  if st.st_active then ops.generate st.wave ielmt else 0

/-- The loop of `ExSource::check(c_step)` over the stimulators, with the running values
of `_Nact_stim` and `_chk_pnt`. -/
def check_loop (ops : StimOps α ω) (c_step : Int) :
    List (Stimulator ω) → Nat → Int → List (Stimulator ω) × Nat × Int
  | [], nact, chk => ([], nact, chk)
  | st :: rest, nact, chk =>
    if c_step < st.st_start then
      let r := check_loop ops c_step rest nact (if st.st_start < chk then st.st_start else chk)
      (st.deactivate :: r.1, r.2)
    else if c_step < st.st_stop then
      let r := check_loop ops c_step rest (nact + 1)
        (if st.st_stop < chk then st.st_stop else chk)
      (st.activate ops :: r.1, r.2)
    else
      let r := check_loop ops c_step rest nact chk
      (st.deactivate :: r.1, r.2)

/-- The function `ExSource::check(c_step)`: the updated source and the returned check point. -/
def ExSource.check (ops : StimOps α ω) (es : ExSource α ω) (c_step : Int) :
    ExSource α ω × Int :=
  let r := check_loop ops c_step es.es_stim 0 MAX_INT_NUM
  ({ es with es_stim := r.1, Nact_stim := r.2.1, chk_pnt := r.2.2 }, r.2.2)

/-- The loop of `advance` over the external sources at a check point:
`tmp = es_it->check(tEvlt_step); if (tCheck_pnt > tmp) tCheck_pnt = tmp;`. -/
def check_sources (ops : StimOps α ω) (step : Int) :
    List (ExSource α ω) → Int → List (ExSource α ω) × Int
  | [], chk => ([], chk)
  | es :: rest, chk =>
    let r := check_sources ops step rest
      (if chk > (es.check ops step).2 then (es.check ops step).2 else chk)
    ((es.check ops step).1 :: r.1, r.2)

/-- The check-point part of `Simulation::init`: every source is initialised, which
initialises its stimulators and ends with `check(0)`, and `tCheck_pnt` becomes the
smallest check point of the sources. (The element list and the matrix `_elmt_stim`,
which `ExSource::init` also rebuilds, are left as they are.) -/
def init_sources (ops : StimOps α ω) :
    List (ExSource α ω) → Int → List (ExSource α ω) × Int
  | [], chk => ([], chk)
  | es :: rest, chk =>
    let es0 : ExSource α ω :=
      { es with es_stim := es.es_stim.map fun st => { st with wave := ops.init st.wave } }
    let r := init_sources ops rest
      (if chk > (es0.check ops 0).2 then (es0.check ops 0).2 else chk)
    ((es0.check ops 0).1 :: r.1, r.2)

/-- The loop over the output windows at the head of `advance`: expired windows are
erased, the first window that has begun decides the flag and ends the loop, windows
that have not begun are skipped. Returns the remaining windows and `tOut_flg`. -/
def window_scan (tEvlt_step : Int) : List TTimeWin → List TTimeWin × Bool
  | [] => ([], false)
  | w :: ws =>
    if tEvlt_step > w.end_step then window_scan tEvlt_step ws
    else if tEvlt_step ≥ w.bgn_step then
      (w :: ws, decide (Int.tmod (tEvlt_step - w.bgn_step) w.inc_step = 0))
    else ((w :: (window_scan tEvlt_step ws).1), (window_scan tEvlt_step ws).2)

end Engine


section EngineSteps

variable {α ω : Type} [LinearOrderedField α]

/-- The function `ExSource::generate(idx)`: the sum of what the active stimulators attached to the
element generate; `pos` walks along the row `_elmt_stim[idx]`. -/
def ExSource.generate (ops : StimOps α ω) (es : ExSource α ω) (idx : Nat) : α :=
  fold_idx
    (fun phi pos st =>
      if ¬ st.st_active ∨ es.elmt_stim idx pos = -1 then phi
      else phi + st.generate ops (es.elmt_stim idx pos))
    es.es_stim 0 0

/-- The function `ExSource::advance()`: every active stimulator advances. -/
def ExSource.advance (ops : StimOps α ω) (es : ExSource α ω) : ExSource α ω :=
  { es with
    es_stim := es.es_stim.map fun st =>
      if st.st_active then { st with wave := ops.advance st.wave } else st }

/-- Step 3 of `advance` for one connection of an external source at one target
element: every excitatory receptor kernel is added to the target voltage line. -/
def ext_conn (s : Simulation α ω) (phi : α) (elmt : Nat) (volt : Nat → Nat → DynamicArray α)
    (sy : SynpConn α) : Nat → Nat → DynamicArray α :=
  let t_volt := volt elmt sy.sy_post
  let tmp_NM := sy.sy_weight * (s.gV_rev_max - t_volt.rear)
  Function.update volt elmt
    (Function.update (volt elmt) sy.sy_post
      (s.gRcpt_excit.foldl
        (fun tv rc => tv.add2rear rc.psp rc.psp_size sy.sy_psp_delay (tmp_NM * rc.eqn_J phi))
        t_volt))

/-- Step 3 of `advance` for one external source: nothing without an active stimulator;
otherwise every projected element with a non-zero drive receives it. -/
def ext_source (ops : StimOps α ω) (s : Simulation α ω) (volt : Nat → Nat → DynamicArray α)
    (es : ExSource α ω) : Nat → Nat → DynamicArray α :=
  if es.Nact_stim = 0 then volt
  else
    fold_idx
      (fun volt idx elmt =>
        if es.generate ops idx = 0 then volt
        else es.synp_conn.foldl (ext_conn s (es.generate ops idx) elmt) volt)
      es.es_elmt 0 volt

/-- Step 3 of `advance`: the drive of the external sources. -/
def ext_drive (ops : StimOps α ω) (s : Simulation α ω) : Simulation α ω :=
  { s with gVolt := s.gExSrc.foldl (ext_source ops s) s.gVolt }

/-- Step 4 of `advance` for one neuron group of one element: the firing rate at the
current voltage goes through `eqn_J` of every receptor of the group's polarity into
the PSP traces, by `step_backward(); set_front(...)`. -/
def psp_group (s : Simulation α ω) (ielmt : Nat) (psp : Nat → Nat → Nat → DynamicArray α)
    (ineur : Nat) (ng : NeurGrp α) : Nat → Nat → Nat → DynamicArray α :=
  let phi := ng.eqn_firing (s.gVolt ielmt ineur).rear
  fold_idx
    (fun psp ircpt rc =>
      Function.update psp ielmt
        (Function.update (psp ielmt) ineur
          (Function.update (psp ielmt ineur) ircpt
            (((psp ielmt ineur ircpt).step_backward).set_front (rc.eqn_J phi) 0))))
    (if ng.ng_type = TNeur.cEXCIT then s.gRcpt_excit else s.gRcpt_inhib) 0 psp

/-- Step 4 of `advance`: the PSP traces of all elements and neuron groups. -/
def psp_update (s : Simulation α ω) : Simulation α ω :=
  { s with
    gPSP := (List.range s.gElmt_num).foldl
      (fun psp ielmt => fold_idx (psp_group s ielmt) s.gNeur 0 psp) s.gPSP }

/-- One of the four unrolled path blocks of step 5: `spk_delay` and `synp_pct` are the
table entries under the two pointers. -/
def path_term (tmp_NM : α) (sy : SynpConn α) (s_psp : DynamicArray α) (spk_delay : Int)
    (synp_pct : α) (mag : α) : α :=
  if synp_pct > SYNP_RATIO_EPS α then
    mag + tmp_NM * synp_pct * s_psp.get_front (((sy.sy_spk_delay : Int) + spk_delay).toNat)
  else mag

/-- The body of the source-element loop of step 5: the two pointers start at the
path-0 entries and advance by one entry from block to block. -/
def source_term (s : Simulation α ω) (s_neur ircpt t_elmt : Nat) (sy : SynpConn α)
    (tmp_NM : α) (mag : α) (s_elmt : Nat) : α :=
  let d_x := Int.natAbs ((s.gElmtX t_elmt : Int) - (s.gElmtX s_elmt : Int))
  let d_y := Int.natAbs ((s.gElmtY t_elmt : Int) - (s.gElmtY s_elmt : Int))
  let s_psp := s.gPSP s_elmt s_neur ircpt
  let spk_delay := SPK_DELAY_IDX s.gGrid_row d_x d_y 0
  let synp_pct := SYNP_PCT_IDX s.gElmt_num s_elmt t_elmt 0
  path_term tmp_NM sy s_psp (s.gSpk_delay s_neur (spk_delay + 3))
      (s.gSynp_pct s_neur (synp_pct + 3))
    (path_term tmp_NM sy s_psp (s.gSpk_delay s_neur (spk_delay + 2))
        (s.gSynp_pct s_neur (synp_pct + 2))
      (path_term tmp_NM sy s_psp (s.gSpk_delay s_neur (spk_delay + 1))
          (s.gSynp_pct s_neur (synp_pct + 1))
        (path_term tmp_NM sy s_psp (s.gSpk_delay s_neur spk_delay)
          (s.gSynp_pct s_neur synp_pct) mag)))

/-- The magnitude `mag` that step 5 accumulates over the source elements for one
target element, source group, connection and receptor. -/
def source_walk (s : Simulation α ω) (s_neur ircpt t_elmt : Nat) (sy : SynpConn α)
    (tmp_NM : α) : α :=
  (List.range s.gElmt_num).foldl (source_term s s_neur ircpt t_elmt sy tmp_NM) 0

/-- The body of the receptor loop of step 5: the kernel scaled by `mag` goes into the
target voltage line when `mag > VOLT_EPS`. -/
def rcpt_body (s : Simulation α ω) (sn : NeurGrp α) (sy : SynpConn α) (t_elmt : Nat)
    (tmp_NM : α) (t_volt : DynamicArray α) (ircpt : Nat) (rc : Receptor α) :
    DynamicArray α :=
  if source_walk s sn.index ircpt t_elmt sy tmp_NM > VOLT_EPS α then
    t_volt.add2rear rc.psp rc.psp_size sy.sy_psp_delay
      (source_walk s sn.index ircpt t_elmt sy tmp_NM)
  else t_volt

/-- The body of the connection loop of step 5 on the voltage lines of one target
element. -/
def conn_body (s : Simulation α ω) (sn : NeurGrp α) (t_elmt : Nat)
    (row : Nat → DynamicArray α) (sy : SynpConn α) : Nat → DynamicArray α :=
  Function.update row sy.sy_post
    (fold_idx
      (rcpt_body s sn sy t_elmt (sy.sy_weight * (sn.V_rev - (row sy.sy_post).rear)))
      (if sn.ng_type = TNeur.cEXCIT then s.gRcpt_excit else s.gRcpt_inhib) 0
      (row sy.sy_post))

/-- Step 5 of `advance`: for every target element, every source group, connection and
receptor. -/
def synaptic_drive (s : Simulation α ω) : Simulation α ω :=
  { s with
    gVolt := (List.range s.gElmt_num).foldl
      (fun volt t_elmt =>
        Function.update volt t_elmt
          (s.gNeur.foldl (fun row sn => sn.synp_conn.foldl (conn_body s sn t_elmt) row)
            (volt t_elmt)))
      s.gVolt }

/-- Step 6 of `advance` for one voltage line: decay towards the resting potential, add
the accumulated drive, clamp to `[gV_rev_min, gV_rev_max]`. -/
def volt_cell (s : Simulation α ω) (ng : NeurGrp α) (t_volt : DynamicArray α) :
    DynamicArray α :=
  let pre_volt := t_volt.rear
  let curr_volt := (pre_volt - ng.V_0) * ng.mp_decay_step + t_volt.step_backward.rear
  t_volt.step_backward.set_rear
    (if curr_volt < s.gV_rev_min then s.gV_rev_min
     else if curr_volt > s.gV_rev_max then s.gV_rev_max
     else curr_volt) 0

/-- Step 6 of `advance`: the membrane potentials of all elements and neuron groups. -/
def volt_update (s : Simulation α ω) : Simulation α ω :=
  { s with
    gVolt := (List.range s.gElmt_num).foldl
      (fun volt s_elmt =>
        Function.update volt s_elmt
          (fold_idx
            (fun row s_neur ng => Function.update row s_neur (volt_cell s ng (row s_neur)))
            s.gNeur 0 (volt s_elmt)))
      s.gVolt }

/-- Step 7 of `advance`: the sources with active stimulators advance them. -/
def stim_advance (ops : StimOps α ω) (s : Simulation α ω) : Simulation α ω :=
  { s with
    gExSrc := s.gExSrc.map fun es => if es.Nact_stim = 0 then es else es.advance ops }

/-- Steps 1 and 2 of `advance` after the counter has been incremented: the output
windows, then the check point. -/
def advance_head (ops : StimOps α ω) (s : Simulation α ω) : Simulation α ω :=
  let s1 : Simulation α ω :=
    { s with
      tOut_flg := (window_scan s.tEvlt_step s.output_time).2
      output_time := (window_scan s.tEvlt_step s.output_time).1 }
  if s1.tEvlt_step = s1.tCheck_pnt then
    { s1 with
      gExSrc := (check_sources ops s1.tEvlt_step s1.gExSrc MAX_INT_NUM).1
      tCheck_pnt := (check_sources ops s1.tEvlt_step s1.gExSrc MAX_INT_NUM).2 }
  else s1

/-- The function `Simulation::advance()`. -/
def advance (ops : StimOps α ω) (s : Simulation α ω) : Simulation α ω :=
  let s0 : Simulation α ω := { s with tEvlt_step := s.tEvlt_step + 1, tOut_flg := false }
  if s0.tEvlt_step > s0.gTotal_step then s0
  else
    stim_advance ops
      (volt_update (synaptic_drive (psp_update (ext_drive ops (advance_head ops s0)))))

/-- The simulation after `n` calls of `advance()`. -/
def run (ops : StimOps α ω) (s : Simulation α ω) : Nat → Simulation α ω
  | 0 => s
  | n + 1 => advance ops (run ops s n)

/-- The body of the loop of `LCM::init` over the neuron groups that updates
`(gV_rev_min, gV_rev_max)`. -/
def V_rev_step (b : α × α) (ng : NeurGrp α) : α × α :=
  (if ng.V_rev < b.1 then ng.V_rev else b.1, if ng.V_rev > b.2 then ng.V_rev else b.2)

/-- The pair `(gV_rev_min, gV_rev_max)` as `LCM::init` computes it: both start from the
reversal potential of `gNeur[0]` and the loop runs over all groups. (For an empty
`gNeur` the source reads past the end of the vector; the model takes 0 there.) -/
def init_V_rev (gNeur : List (NeurGrp α)) : α × α :=
  match gNeur with
  | [] => (0, 0)
  | ng0 :: _ => gNeur.foldl V_rev_step (ng0.V_rev, ng0.V_rev)

/-- The magnitude of step 5 as the double sum over the source elements `s_elmt` and the
paths `p = 0..3` of `[density > SYNP_RATIO_EPS] * weight * (V_rev - V) * density *
PSP[s_elmt][g][r].get_front(spk_delay + delay(g, |x_t - x_s|, |y_t - y_s|, p))`. -/
def mag_ref (s : Simulation α ω) (sn : NeurGrp α) (sy : SynpConn α) (ircpt t_elmt : Nat)
    (V : α) : α :=
  ((List.range s.gElmt_num).map fun s_elmt =>
    ((List.range 4).map fun p =>
      (if s.gSynp_pct sn.index (SYNP_PCT_IDX s.gElmt_num s_elmt t_elmt p) > SYNP_RATIO_EPS α
        then 1 else 0) *
      sy.sy_weight * (sn.V_rev - V) *
      s.gSynp_pct sn.index (SYNP_PCT_IDX s.gElmt_num s_elmt t_elmt p) *
      (s.gPSP s_elmt sn.index ircpt).get_front
        (((sy.sy_spk_delay : Int) +
          s.gSpk_delay sn.index
            (SPK_DELAY_IDX s.gGrid_row
              (Int.natAbs ((s.gElmtX t_elmt : Int) - (s.gElmtX s_elmt : Int)))
              (Int.natAbs ((s.gElmtY t_elmt : Int) - (s.gElmtY s_elmt : Int))) p)).toNat)).sum).sum

end EngineSteps


section CheckPointReference

variable {α ω : Type}

/-- The minimum start or stop value of the stimulators that lies ahead of the step `c`,
`MAX_INT_NUM` if there is none. -/
def min_ahead (c : Int) (stims : List (Stimulator ω)) : Int :=
  stims.foldl
    (fun m st =>
      if c < st.st_stop ∧ st.st_stop < (if c < st.st_start ∧ st.st_start < m then st.st_start else m)
      then st.st_stop
      else (if c < st.st_start ∧ st.st_start < m then st.st_start else m))
    MAX_INT_NUM

/-- The activation windows `(start, stop)` of the stimulators of every source. -/
def stim_windows (srcs : List (ExSource α ω)) : List (List (Int × Int)) :=
  srcs.map fun es => es.es_stim.map fun st => (st.st_start, st.st_stop)

/-- Every stimulator of every source is active exactly when `start ≤ n < stop`. -/
def ActiveAt (n : Int) (srcs : List (ExSource α ω)) : Prop :=
  ∀ es ∈ srcs, ∀ st ∈ es.es_stim, st.st_active = decide (st.st_start ≤ n ∧ n < st.st_stop)

/-- The check point `chk` does not lie after the start of a stimulator that has not
started at step `n`, nor after the stop of one that is running at step `n`. -/
def CheckBound (n chk : Int) (srcs : List (ExSource α ω)) : Prop :=
  ∀ es ∈ srcs, ∀ st ∈ es.es_stim,
    (n < st.st_start → chk ≤ st.st_start) ∧
      (st.st_start ≤ n → n < st.st_stop → chk ≤ st.st_stop)

end CheckPointReference


/-! ## misc.cpp and array.cpp: the loops with their exits made explicit -/

/-- The loop of `nextpow2` with its exit made explicit: `some y` when the loop
condition `x &= (x ^ (~x + 1))` evaluates to zero within `fuel` evaluations, `none`
when the evaluations are used up before the loop is left. -/
def nextpow2_exit : Nat → Nat → Nat → Option Nat
  | 0, _, _ => none
  | fuel + 1, x, y =>
    if nextpow2_step x ≠ 0 then nextpow2_exit fuel (nextpow2_step x) (nextpow2_step x <<< 1)
    else some y

namespace DynamicArray

variable {α : Type}

/-- The delay line after `k` calls of `step_backward`. -/
def backward_steps (a : DynamicArray α) : Nat → DynamicArray α
  | 0 => a
  | k + 1 => backward_steps (a.step_backward) k

end DynamicArray

/-! ## synpconn.h / synpconn.cpp: the synaptic connection with all its members -/

/-- All the data members of `class SynpConn`. -/
structure SynpConnObj (α : Type) where
  sy_spk_delay : Int
  sy_psp_delay : Int
  sy_weight : α
  sy_eqM_const : α
  sy_psp_decay : α
  sy_pre : Int
  sy_post : Int
  sy_layer : Int
  sy_synp : α
  sy_state : Bool

namespace SynpConnObj

variable {α : Type} [LinearOrderedField α]

/-- The constructor `SynpConn()`. -/
def ctor_default : SynpConnObj α :=
  { sy_spk_delay := 0, sy_psp_delay := 0, sy_weight := 0, sy_eqM_const := 0, sy_psp_decay := 1,
    sy_pre := MAX_INT_NUM, sy_post := MAX_INT_NUM, sy_layer := MAX_INT_NUM, sy_synp := 0,
    sy_state := false }

/-- The constructor `SynpConn(val, pre, post, ilayer)`. -/
def ctor_value (val : α) (pre post ilayer : Int) : SynpConnObj α :=
  { sy_spk_delay := 0, sy_psp_delay := 0, sy_weight := 0, sy_eqM_const := 0, sy_psp_decay := 1,
    sy_pre := pre, sy_post := post, sy_layer := ilayer, sy_synp := val, sy_state := false }

/-- The copy constructor `SynpConn(const SynpConn &p)`: member-wise assignment. -/
def ctor_copy (p : SynpConnObj α) : SynpConnObj α := p

/-- The function `synp()`. -/
def synp (s : SynpConnObj α) : α := s.sy_synp

/-- The function `psp_decay()`. -/
def psp_decay (s : SynpConnObj α) : α := s.sy_psp_decay

/-- The function `eqM_const()`. -/
def eqM_const (s : SynpConnObj α) : α := s.sy_eqM_const

/-- The function `weight()`. -/
def weight (s : SynpConnObj α) : α := s.sy_weight

/-- The function `set_presynp(pre)`: the returned flag and the object afterwards. -/
def set_presynp (s : SynpConnObj α) (pre : Int) : Bool × SynpConnObj α :=
  if pre < 0 then (false, s) else (true, { s with sy_pre := pre })

/-- The function `set_postsynp(post)`. -/
def set_postsynp (s : SynpConnObj α) (post : Int) : Bool × SynpConnObj α :=
  if post < 0 then (false, s) else (true, { s with sy_post := post })

/-- The function `set_layer(ly)`. -/
def set_layer (s : SynpConnObj α) (ly : Int) : Bool × SynpConnObj α :=
  if ly < 0 then (false, s) else (true, { s with sy_layer := ly })

/-- The function `set_synp(sy)`: a negative count is rejected; otherwise the count is
stored and the weight recomputed. -/
def set_synp (s : SynpConnObj α) (sy : α) : Bool × SynpConnObj α :=
  if sy < 0 then (false, s)
  else (true, { s with sy_synp := sy, sy_weight := sy * s.sy_psp_decay * s.sy_eqM_const })

/-- The function `set_spk_delay(delay)`. -/
def set_spk_delay (s : SynpConnObj α) (delay : Int) : SynpConnObj α :=
  { s with sy_spk_delay := delay }

/-- The function `set_psp_delay(delay)`. -/
def set_psp_delay (s : SynpConnObj α) (delay : Int) : SynpConnObj α :=
  { s with sy_psp_delay := delay }

/-- The function `set_psp_decay(decay)`: a value outside `[0, 1]` is rejected; otherwise
the factor is stored and the weight recomputed. -/
def set_psp_decay (s : SynpConnObj α) (decay : α) : Bool × SynpConnObj α :=
  if decay < 0 ∨ decay > 1 then (false, s)
  else (true, { s with sy_psp_decay := decay, sy_weight := s.sy_synp * decay * s.sy_eqM_const })

/-- The function `set_eqM_const(val)`. -/
def set_eqM_const (s : SynpConnObj α) (val : α) : SynpConnObj α :=
  { s with sy_eqM_const := val, sy_weight := s.sy_synp * s.sy_psp_decay * val }

/-- The function `set(val, pre, post, ilayer)`. -/
def set (s : SynpConnObj α) (val : α) (pre post ilayer : Int) : SynpConnObj α :=
  { s with
    sy_pre := pre, sy_post := post, sy_layer := ilayer, sy_synp := val
    sy_weight := val * s.sy_psp_decay * s.sy_eqM_const
    sy_state := true }

/-- The function `swap(p)` on two distinct objects (`this != &p`):
`tmp = p; p = *this; *this = tmp;`. Returns `(*this, p)` afterwards. -/
def swap (this p : SynpConnObj α) : SynpConnObj α × SynpConnObj α :=
  let tmp := p
  let p1 := this
  let this1 := tmp
  (this1, p1)

/-- The states of a `SynpConn` object that can be reached from the three constructors
through `set`, the setters and `swap` (with another reachable object). -/
inductive Reachable : SynpConnObj α → Prop where
  | default : Reachable ctor_default
  | value (val : α) (pre post ilayer : Int) : Reachable (ctor_value val pre post ilayer)
  | copy (p : SynpConnObj α) : Reachable p → Reachable (ctor_copy p)
  | set (s : SynpConnObj α) (val : α) (pre post ilayer : Int) :
      Reachable s → Reachable (s.set val pre post ilayer)
  | set_presynp (s : SynpConnObj α) (pre : Int) : Reachable s → Reachable (s.set_presynp pre).2
  | set_postsynp (s : SynpConnObj α) (post : Int) :
      Reachable s → Reachable (s.set_postsynp post).2
  | set_layer (s : SynpConnObj α) (ly : Int) : Reachable s → Reachable (s.set_layer ly).2
  | set_synp (s : SynpConnObj α) (sy : α) : Reachable s → Reachable (s.set_synp sy).2
  | set_psp_decay (s : SynpConnObj α) (decay : α) :
      Reachable s → Reachable (s.set_psp_decay decay).2
  | set_eqM_const (s : SynpConnObj α) (val : α) : Reachable s → Reachable (s.set_eqM_const val)
  | set_spk_delay (s : SynpConnObj α) (delay : Int) :
      Reachable s → Reachable (s.set_spk_delay delay)
  | set_psp_delay (s : SynpConnObj α) (delay : Int) :
      Reachable s → Reachable (s.set_psp_delay delay)
  | swap_this (s p : SynpConnObj α) : Reachable s → Reachable p → Reachable (s.swap p).1
  | swap_other (s p : SynpConnObj α) : Reachable s → Reachable p → Reachable (s.swap p).2

/-- The fields of the connection that `advance` reads. -/
def view (s : SynpConnObj α) : SynpConn α :=
  { sy_spk_delay := s.sy_spk_delay.toNat, sy_psp_delay := s.sy_psp_delay.toNat,
    sy_weight := s.sy_weight, sy_post := s.sy_post.toNat }

end SynpConnObj

/-! ## simulation.cpp: the sizing of the voltage lines in `Simulation::init` -/

section Sizing

variable {α ω : Type} [LinearOrderedField α]

/-- The value of `max_psp_size` in `Simulation::init`: the longest kernel of the
excitatory and of the inhibitory receptors. -/
def max_psp_size (s : Simulation α ω) : Nat :=
  s.gRcpt_inhib.foldl (fun m rc => max m rc.psp_size)
    (s.gRcpt_excit.foldl (fun m rc => max m rc.psp_size) 0)

/-- The value of `max_psp_delay` in `Simulation::init`: the loop runs over the
connections of the neuron groups `gNeur`. -/
def max_psp_delay (s : Simulation α ω) : Nat :=
  s.gNeur.foldl (fun m ng => ng.synp_conn.foldl (fun m sy => max m sy.sy_psp_delay) m) 0

/-- The value of `volt_arry_size` in `Simulation::init`. -/
def volt_arry_size (s : Simulation α ω) : Nat :=
  nextpow2 (max_psp_size s + max_psp_delay s + 1)

/-- What `Simulation::init` does to one freshly allocated voltage line:
`resize(volt_arry_size); set_default(V_0); fill(V_0); step_backward();`. -/
def init_volt_line (junk : Nat → α) (size : Nat) (V_0 : α) : DynamicArray α :=
  ((((DynamicArray.mk_array junk 0 0).resize size).set_default V_0).fill V_0).step_backward

/-- The voltage part of `Simulation::init`: the lines of all elements and neuron
groups are allocated and sized. -/
def init_volt (junk : Nat → α) (s : Simulation α ω) : Simulation α ω :=
  { s with
    gVolt := (List.range s.gElmt_num).foldl
      (fun volt ielmt =>
        Function.update volt ielmt
          (fold_idx
            (fun row ineur ng =>
              Function.update row ineur (init_volt_line junk (volt_arry_size s) ng.V_0))
            s.gNeur 0 (volt ielmt)))
      s.gVolt }

end Sizing

/-! ## stimulator.h / stimulator.cpp: the waveform of a stimulator -/

/-- The constant `ST_PARA_NUM` of stimulator.h. -/
def ST_PARA_NUM : Nat := 7

/-- The constant `BUTTER_COEFF_NUM` of stimulator.h. -/
def BUTTER_COEFF_NUM : Nat := 4

/-- Embedding of `enum StimMode` of stimulator.h. -/
inductive StimMode where
  | ST_NONE
  | ST_NOISE
  | ST_GAUSS
  | ST_SYNC_NOISE
  deriving DecidableEq, Repr

namespace DynamicArray

variable {α : Type}

/-- The function `clear()`. -/
def clear (a : DynamicArray α) : DynamicArray α := a.resize 0

/-- The function `operator[](eps)`, read: the cell `eps` slots after the rear. -/
def elem (a : DynamicArray α) (eps : Nat) : α :=
  a.p_bgn ((a.f_rear + eps) &&& a.f_last)

/-- The function `operator[](eps)`, assigned to: `a[eps] = val`. -/
def set_elem (a : DynamicArray α) (eps : Nat) (val : α) : DynamicArray α :=
  { a with p_bgn := Function.update a.p_bgn ((a.f_rear + eps) &&& a.f_last) val }

end DynamicArray

/-- The global state of rand.cpp (built without OpenMP): the stream `gRStream` and the
flag `Rand::Rand_state`. -/
structure RandGlobal (ρ : Type) where
  gRStream : ρ
  Rand_state : Bool

/-- The data members of `class Stimulator` behind its waveform: the two filter
buffers, the filter coefficients, the random streams of the noise modes, the
amplitude, the position, the mode, the attached elements, the period and update
interval in steps, the two state flags and the parameter flags. -/
structure StimWave (α ρ : Type) where
  st_phi_in : DynamicArray α
  st_phi_out : DynamicArray α
  st_coeff_in : List α
  st_coeff_out : List α
  st_rand : List ρ
  st_ampl : α
  st_pos : Nat
  st_mode : StimMode
  st_elmts : List Int
  st_period_win : Nat
  st_update_intvl : Nat
  st_state : Bool
  st_active : Bool
  st_paramFlg : Nat → Bool

/-- What the waveform code calls outside the stimulator: `exp` of the C library,
`RandStream::set_seed`, and the two noise modes, whose filter set-up, initialisation
and update (they draw from the generator) are carried as functions. -/
structure WaveEnv (α ρ : Type) where
  exp : α → α
  set_seed : Nat → ρ → ρ
  noise_init : StimWave α ρ → RandGlobal ρ → StimWave α ρ × RandGlobal ρ
  noise_advance : StimWave α ρ → RandGlobal ρ → StimWave α ρ × RandGlobal ρ

section Waveform

variable {α ρ : Type} [LinearOrderedField α]

/-- The function `rand_init(seed)` of rand.cpp, built without OpenMP. -/
def rand_init (env : WaveEnv α ρ) (seed : Nat) (g : RandGlobal ρ) : RandGlobal ρ :=
  { gRStream := env.set_seed seed g.gRStream, Rand_state := true }

/-- The table entry that `Stimulator::init` stores for the index `idx` in the mode
`ST_GAUSS`: `_st_ampl * exp((idx - peak) * (idx - peak) / (-2. * devn * devn))` with
`devn = _st_period_win / 8.` and `peak = 0.5 * _st_period_win`. -/
def gauss_entry (env : WaveEnv α ρ) (ampl : α) (period_win idx : Nat) : α :=
  let devn : α := (period_win : α) / 8
  let peak : α := (1 / 2) * (period_win : α)
  ampl * env.exp (((idx : α) - peak) * ((idx : α) - peak) / (-2 * devn * devn))

/-- The loop `for (idx = 0; idx < _st_period_win; idx++) _st_phi_out[idx] = ...` of
`Stimulator::init`. -/
def gauss_fill (env : WaveEnv α ρ) (ampl : α) (period_win : Nat) (a : DynamicArray α) :
    DynamicArray α :=
  (List.range period_win).foldl
    (fun a idx => a.set_elem idx (gauss_entry env ampl period_win idx)) a

/-- The function `Stimulator::init()`: nothing happens while a parameter is unset or no
element is attached; otherwise the generator is seeded if it is not ready, the
elements are sorted, and the waveform of the mode is set up. -/
def StimWave.init (env : WaveEnv α ρ) (w : StimWave α ρ) (g : RandGlobal ρ) :
    StimWave α ρ × RandGlobal ρ :=
  if ¬ (∀ idx, idx < ST_PARA_NUM → w.st_paramFlg idx = true) then (w, g)
  else if w.st_elmts.isEmpty then (w, g)
  else
    let g1 := if g.Rand_state then g else rand_init env 0 g
    let w1 : StimWave α ρ := { w with st_elmts := w.st_elmts.insertionSort fun a b => a ≤ b }
    match w1.st_mode with
    | StimMode.ST_GAUSS =>
      ({ w1 with
         st_phi_in := w1.st_phi_in.clear
         st_phi_out :=
           gauss_fill env w1.st_ampl w1.st_period_win (w1.st_phi_out.resize w1.st_period_win)
         st_pos := 0
         st_state := true }, g1)
    | StimMode.ST_NOISE => env.noise_init w1 g1
    | StimMode.ST_SYNC_NOISE => env.noise_init w1 g1
    | StimMode.ST_NONE => (w1, g1)

/-- The function `Stimulator::generate(ielmt)`. -/
def StimWave.generate (w : StimWave α ρ) (ielmt : Nat) : α :=
  if ¬ w.st_active then 0
  else if w.st_mode = StimMode.ST_GAUSS then w.st_phi_out.elem w.st_pos
  else if w.st_mode = StimMode.ST_SYNC_NOISE then w.st_phi_out.elem 0
  else w.st_phi_out.elem (ielmt * BUTTER_COEFF_NUM + 0)

/-- The function `Stimulator::advance()`: in the mode `ST_GAUSS` the position moves on
by one and returns to 0 at the end of the period. -/
def StimWave.advance (env : WaveEnv α ρ) (w : StimWave α ρ) (g : RandGlobal ρ) :
    StimWave α ρ × RandGlobal ρ :=
  if w.st_mode = StimMode.ST_GAUSS then
    ({ w with st_pos := if w.st_pos + 1 = w.st_period_win then 0 else w.st_pos + 1 }, g)
  else env.noise_advance w g

/-- The stimulator and the generator after `init()` and `k` calls of `advance()`. -/
def StimWave.after (env : WaveEnv α ρ) (w : StimWave α ρ) (g : RandGlobal ρ) :
    Nat → StimWave α ρ × RandGlobal ρ
  | 0 => StimWave.init env w g
  | k + 1 => StimWave.advance env (StimWave.after env w g k).1 (StimWave.after env w g k).2

end Waveform

/-! ## Voltage lines without pending drive -/

/-- A voltage line that holds no pending drive for the resting potential `V_0`: it is
valid, its logical size is its capacity (as `Simulation::init` sizes it), its default
is `V_0`, and every cell other than the rear holds `V_0`. -/
def RestLine {α : Type} (V_0 : α) (a : DynamicArray α) : Prop :=
  a.Valid ∧ (a.f_front + 1) % a.f_size = a.f_rear ∧ a.f_val = V_0 ∧
    ∀ i, i < a.f_size → i ≠ a.f_rear → a.p_bgn i = V_0


/-! ## simulation.cpp: element coordinates and the PSP lines in `Simulation::init` -/

section Coordinates

variable {α ω : Type}

/-- The loop of `Simulation::init` over the elements:
`gElmtY[ielmt] = ielmt / gGrid_row; gElmtX[ielmt] = ielmt - gElmtY[ielmt] * gGrid_row;`.
The state is the pair `(gElmtX, gElmtY)`. -/
def init_coords (gGrid_row gElmt_num : Nat) (xy : (Nat → Nat) × (Nat → Nat)) :
    (Nat → Nat) × (Nat → Nat) :=
  (List.range gElmt_num).foldl
    (fun xy ielmt =>
      let gElmtY := Function.update xy.2 ielmt (ielmt / gGrid_row)
      (Function.update xy.1 ielmt (ielmt - gElmtY ielmt * gGrid_row), gElmtY))
    xy

/-- The coordinate part of `Simulation::init`. -/
def init_elmt (s : Simulation α ω) : Simulation α ω :=
  { s with
    gElmtX := (init_coords s.gGrid_row s.gElmt_num (s.gElmtX, s.gElmtY)).1
    gElmtY := (init_coords s.gGrid_row s.gElmt_num (s.gElmtX, s.gElmtY)).2 }

/-- The assignment `d_x = abs(gElmtX[t_elmt] - gElmtX[s_elmt])` of step 5 of `advance`. -/
def advance_d_x (s : Simulation α ω) (t_elmt s_elmt : Nat) : Nat :=
  Int.natAbs ((s.gElmtX t_elmt : Int) - (s.gElmtX s_elmt : Int))

/-- The assignment `d_y = abs(gElmtY[t_elmt] - gElmtY[s_elmt])` of step 5 of `advance`. -/
def advance_d_y (s : Simulation α ω) (t_elmt s_elmt : Nat) : Nat :=
  Int.natAbs ((s.gElmtY t_elmt : Int) - (s.gElmtY s_elmt : Int))

/-- The value `spk_delay_size` of `LCM::init`: the length of the delay table of a
neuron group. -/
def spk_delay_size (gGrid_row : Nat) : Nat := gGrid_row * gGrid_row * SPK_PATH_NUM

/-- The value of `max_elmt_delay` in `Simulation::init`: for every neuron group the
entry `gSpk_delay[index][SPK_DELAY_IDX(gGrid_row, gGrid_row, 0)]` is read. -/
def max_elmt_delay (s : Simulation α ω) : Int :=
  s.gNeur.foldl
    (fun m ng =>
      max m (s.gSpk_delay ng.index (SPK_DELAY_IDX s.gGrid_row s.gGrid_row s.gGrid_row 0)))
    0

end Coordinates

/-! ## layer.h / layer.cpp: cortical layers -/

/-- The constant `LY_IDX_UPPER` of layer.h. -/
def LY_IDX_UPPER : Nat := 0

/-- The constant `LY_IDX_LOWER` of layer.h. -/
def LY_IDX_LOWER : Nat := 1

/-- The data members of `class Layer` other than its name. -/
structure Layer (α : Type) where
  ly_idx : Int
  ly_paramVal : Nat → α
  ly_paramFlg : Nat → Bool
  ly_depth : α
  ly_thickness : α
  ly_state : Bool

section Layers

variable {α : Type} [LinearOrderedField α]

/-- The function `upper()`. -/
def Layer.upper (l : Layer α) : α := l.ly_paramVal LY_IDX_UPPER

/-- The function `lower()`. -/
def Layer.lower (l : Layer α) : α := l.ly_paramVal LY_IDX_LOWER

/-- The function `Layer::init()`: with both bounds set and `upper < lower` the depth
and the thickness are computed and the layer becomes ready. -/
def Layer.init (l : Layer α) : Layer α :=
  if ¬ l.ly_paramFlg LY_IDX_LOWER then l
  else if ¬ l.ly_paramFlg LY_IDX_UPPER then l
  else if l.ly_paramVal LY_IDX_UPPER ≥ l.ly_paramVal LY_IDX_LOWER then l
  else
    { l with
      ly_depth := (l.ly_paramVal LY_IDX_LOWER + l.ly_paramVal LY_IDX_UPPER) / 2
      ly_thickness := |l.ly_paramVal LY_IDX_LOWER - l.ly_paramVal LY_IDX_UPPER|
      ly_state := true }

/-- The function `Layer::set_param(paramName, val)`: the returned flag and the layer
afterwards. -/
def Layer.set_param (l : Layer α) (paramName : String) (val : α) : Bool × Layer α :=
  if val < 0 then (false, l)
  else if paramName = "LOWER_BOUND" then
    (true, Layer.init
      { l with
        ly_paramVal := Function.update l.ly_paramVal LY_IDX_LOWER val
        ly_paramFlg := Function.update l.ly_paramFlg LY_IDX_LOWER true
        ly_state := false })
  else if paramName = "UPPER_BOUND" then
    (true, Layer.init
      { l with
        ly_paramVal := Function.update l.ly_paramVal LY_IDX_UPPER val
        ly_paramFlg := Function.update l.ly_paramFlg LY_IDX_UPPER true
        ly_state := false })
  else (false, l)

/-- The function `Layer::is_ready()`: every path that does not find `_ly_state` set
returns false. -/
def Layer.is_ready (l : Layer α) : Bool := l.ly_state

/-- The condition under which `ly_chk_boundary` reports the layers `it` and `it2` as
overlapping. -/
def ly_chk_pair (it it2 : Layer α) : Bool :=
  decide ((it2.lower > it.lower ∧ it2.lower < it.upper) ∨
    (it2.upper > it.lower ∧ it2.upper < it.upper) ∨
    (it2.upper > it.upper ∧ it2.lower < it.lower))

/-- The inner loop of `ly_chk_boundary` over the layers after `it`: false as soon as
one of them is reported. -/
def ly_chk_inner (it : Layer α) : List (Layer α) → Bool
  | [] => true
  | it2 :: rest => if ly_chk_pair it it2 then false else ly_chk_inner it rest

/-- The outer loop of `ly_chk_boundary`. -/
def ly_chk_outer : List (Layer α) → Bool
  | [] => true
  | it :: rest => if ly_chk_inner it rest then ly_chk_outer rest else false

/-- The function `ly_chk_boundary(LyArry)`. -/
def ly_chk_boundary (LyArry : List (Layer α)) : Bool :=
  if LyArry.isEmpty ∨ LyArry.length = 1 then true else ly_chk_outer LyArry

/-- Two layers overlap in depth when their depth intervals `[upper, lower]` share more
than a boundary point. -/
def ly_overlap (a b : Layer α) : Prop :=
  max a.upper b.upper < min a.lower b.lower

end Layers

/-! ## simulation.cpp: the output windows in `Simulation::load` -/

/-- The time fields of `class TTimeWin`, which `Simulation::load` fills from the text
`bgn:inc:end` of one window. -/
structure TimeWin (α : Type) where
  bgn_time : α
  inc_time : α
  end_time : α

/-- How the inner loop of the window check of `Simulation::load` ends for one window
`*it3`: with the overlap error, with a swap with the window at position `j`, or at
the end of the list. -/
inductive WinScan where
  | overlap
  | swap (j : Nat)
  | done
  deriving DecidableEq, Repr

section OutputWindows

variable {α : Type} [LinearOrderedField α]

/-- The first loop of `Simulation::load` over the parts of `SIMU.OUTPUT_TIME`: a part
that does not give three numbers (`none`) or has `bgn + inc > end` ends the program
(`none`); the other windows are appended to `output_time`. -/
def load_parse : List (Option (TimeWin α)) → List (TimeWin α) → Option (List (TimeWin α))
  | [], output_time => some output_time
  | none :: _, _ => none
  | some tmpWin :: parts, output_time =>
    if tmpWin.bgn_time + tmpWin.inc_time > tmpWin.end_time then none
    else load_parse parts (output_time ++ [tmpWin])

/-- The inner loop `for (it4 = it3 + 1; it4 != end; ++it4)`: `rest` holds the windows
from `it4` on and `j` is the position of `it4`. -/
def load_scan (it3 : TimeWin α) : List (TimeWin α) → Nat → WinScan
  | [], _ => WinScan.done
  | it4 :: rest, j =>
    if ¬ ((it3.end_time < it4.bgn_time) ∨ (it3.bgn_time > it4.bgn_time)) then WinScan.overlap
    else if it3.bgn_time > it4.end_time then WinScan.swap j
    else load_scan it3 rest (j + 1)

/-- The outer loop `for (it3 = begin; it3 != end; ++it3)`, `i` being the position of
`it3`: after a swap (`--it3; break;`) the same position is scanned again. The first
argument bounds the number of scans; the result is `none` when it is used up,
`some none` when the program ends with the overlap error, and the stored list
otherwise. -/
def load_sort : Nat → List (TimeWin α) → Nat → Option (Option (List (TimeWin α)))
  | 0, _, _ => none
  | fuel + 1, output_time, i =>
    match output_time.get? i with
    | none => some (some output_time)
    | some it3 =>
      match load_scan it3 (output_time.drop (i + 1)) (i + 1) with
      | WinScan.overlap => some none
      | WinScan.swap j =>
        load_sort fuel ((output_time.set i (output_time.getD j it3)).set j it3) i
      | WinScan.done => load_sort fuel output_time (i + 1)

/-- The window part of `Simulation::load`: `none` when the program ends with an
error, the stored windows otherwise. -/
def load_windows (fuel : Nat) (parts : List (Option (TimeWin α)))
    (output_time : List (TimeWin α)) : Option (Option (List (TimeWin α))) :=
  match load_parse parts output_time with
  | none => some none
  | some l => load_sort fuel l 0

/-- Two windows overlap in time when their intervals `[bgn, end]` share a point. -/
def win_overlap (a b : TimeWin α) : Prop :=
  max a.bgn_time b.bgn_time ≤ min a.end_time b.end_time

end OutputWindows

/-! ## receptor.h / receptor.cpp: the receptor with all its members -/

/-- The constant `RCPT_PARA_NUM` of receptor.h. -/
def RCPT_PARA_NUM : Nat := 5

/-- The constant `RCPT_IDX_G0` of receptor.h. -/
def RCPT_IDX_G0 : Nat := 0

/-- The constant `RCPT_IDX_LAMBDA` of receptor.h. -/
def RCPT_IDX_LAMBDA : Nat := 1

/-- The constant `RCPT_IDX_DELAY` of receptor.h. -/
def RCPT_IDX_DELAY : Nat := 2

/-- The constant `RCPT_IDX_TAU_RISE` of receptor.h. -/
def RCPT_IDX_TAU_RISE : Nat := 3

/-- The constant `RCPT_IDX_TAU_FALL` of receptor.h. -/
def RCPT_IDX_TAU_FALL : Nat := 4

/-- The table `Receptor::RCPT_ParamName`. -/
def RCPT_ParamName : List String := ["G0", "LAMBDA", "DELAY", "TAU_RISE", "TAU_FALL"]

/-- The data members of `class Receptor` other than its name. -/
structure ReceptorObj (α : Type) where
  rcpt_psp : List α
  Jconst : α
  rcpt_paramVal : Nat → α
  rcpt_paramFlg : Nat → Bool
  rcpt_type : TNeur
  rcpt_state : Bool
  rcpt_idx : Int

/-- How the loop of `Receptor::set_param` over the parameter names ends: the value is
outside the range of the parameter it names, the value has been stored, or no name
matched. -/
inductive ParamScan (α : Type) where
  | rejected
  | stored (r : ReceptorObj α)
  | unknown

section ReceptorParams

variable {α : Type} [LinearOrderedField α]

/-- The table `Receptor::RCPT_ParamMin`. -/
def RCPT_ParamMin (α : Type) [LinearOrderedField α] : List α := [-1, 0, 0, 0, 0]

/-- The table `Receptor::RCPT_ParamMax` (`1e4` is 10000). -/
def RCPT_ParamMax (α : Type) [LinearOrderedField α] : List α := [1, 1, 10000, 10000, 10000]

/-- The function `type()`. -/
def ReceptorObj.type (r : ReceptorObj α) : TNeur := r.rcpt_type

/-- The function `gain()`. -/
def ReceptorObj.gain (r : ReceptorObj α) : α := r.rcpt_paramVal RCPT_IDX_G0

/-- The function `delay()`. -/
def ReceptorObj.delay (r : ReceptorObj α) : α := r.rcpt_paramVal RCPT_IDX_DELAY

/-- The function `psp_rise()`. -/
def ReceptorObj.psp_rise (r : ReceptorObj α) : α := r.rcpt_paramVal RCPT_IDX_TAU_RISE

/-- The function `psp_fall()`. -/
def ReceptorObj.psp_fall (r : ReceptorObj α) : α := r.rcpt_paramVal RCPT_IDX_TAU_FALL

/-- The function `Receptor::init()`: with every parameter set, a valid type and a gain
of the sign of the type, `_Jconst` is computed and the receptor becomes ready. -/
def ReceptorObj.init (r : ReceptorObj α) : ReceptorObj α :=
  if ¬ (∀ ii, ii < RCPT_PARA_NUM → r.rcpt_paramFlg ii = true) then r
  else if r.rcpt_type = TNeur.cNaN then r
  else if r.type = TNeur.cEXCIT ∧ r.gain ≤ 0 then r
  else if r.type = TNeur.cINHIB ∧ r.gain ≥ 0 then r
  else { r with Jconst := -1 * r.rcpt_paramVal RCPT_IDX_LAMBDA, rcpt_state := true }

/-- The loop `for (idx = 0; idx < RCPT_PARA_NUM; ++idx)` of `Receptor::set_param`: the
first argument counts the names still to compare, the second is `idx`. -/
def param_scan (r : ReceptorObj α) (paramName : String) (val : α) :
    Nat → Nat → ParamScan α
  | 0, _ => ParamScan.unknown
  | n + 1, idx =>
    if paramName = RCPT_ParamName.getD idx "" then
      if val < (RCPT_ParamMin α).getD idx 0 ∨ val > (RCPT_ParamMax α).getD idx 0 then
        ParamScan.rejected
      else
        ParamScan.stored
          { r with
            rcpt_paramVal := Function.update r.rcpt_paramVal idx val
            rcpt_paramFlg := Function.update r.rcpt_paramFlg idx true }
    else param_scan r paramName val n (idx + 1)

/-- The function `Receptor::set_param(paramName, val)`: the returned flag and the
receptor afterwards. -/
def ReceptorObj.set_param (r : ReceptorObj α) (paramName : String) (val : α) :
    Bool × ReceptorObj α :=
  if paramName = "G0" ∧ r.type = TNeur.cEXCIT ∧ val ≤ 0 then (false, r)
  else if paramName = "G0" ∧ r.type = TNeur.cINHIB ∧ val ≥ 0 then (false, r)
  else
    match param_scan r paramName val RCPT_PARA_NUM 0 with
    | ParamScan.rejected => (false, r)
    | ParamScan.unknown => (false, r)
    | ParamScan.stored r1 => (true, ReceptorObj.init { r1 with rcpt_state := false })

/-- The function `Receptor::set_type(type)`. -/
def ReceptorObj.set_type (r : ReceptorObj α) (type : TNeur) : Bool × ReceptorObj α :=
  if type = TNeur.cNaN then (false, r)
  else (true, ReceptorObj.init { r with rcpt_type := type, rcpt_state := false })

/-- The constructor `Receptor(xname)`; `count` is the value of `RCPT_count`. -/
def ReceptorObj.ctor (count : Int) : ReceptorObj α :=
  { rcpt_psp := [], Jconst := 0, rcpt_paramVal := fun _ => 0, rcpt_paramFlg := fun _ => false,
    rcpt_type := TNeur.cNaN, rcpt_state := false, rcpt_idx := count }

end ReceptorParams

/-! ## rand.h / rand.cpp: the uniform generator -/

/-- Embedding of `class RandStream`: the four `unsigned int` state words. -/
structure RandStream where
  fSeed : Nat
  fSeed1 : Nat
  fSeed2 : Nat
  fSeed3 : Nat
  deriving DecidableEq, Repr

/-- The state words are 32-bit words. -/
def RandStream.Valid (st : RandStream) : Prop :=
  st.fSeed < 2 ^ 32 ∧ st.fSeed1 < 2 ^ 32 ∧ st.fSeed2 < 2 ^ 32 ∧ st.fSeed3 < 2 ^ 32

/-- The macro `TAUSWORTHE(s,a,b,c,d)` of `Rand::rndm`:
`(((s & c) << d) & 0xffffffffUL) ^ ((((s << a) & 0xffffffffUL) ^ s) >> b)`. -/
def TAUSWORTHE (s a b c d : Nat) : Nat :=
  (((s &&& c) <<< d) &&& 4294967295) ^^^ ((((s <<< a) &&& 4294967295) ^^^ s) >>> b)

/-- The three state updates at the head of `Rand::rndm`. -/
def rndm_step (st : RandStream) : RandStream :=
  { st with
    fSeed1 := TAUSWORTHE st.fSeed1 13 19 4294967294 12
    fSeed2 := TAUSWORTHE st.fSeed2 2 25 4294967288 4
    fSeed3 := TAUSWORTHE st.fSeed3 3 11 4294967280 17 }

/-- The word `iy = _fSeed1 ^ _fSeed2 ^ _fSeed3` of `Rand::rndm`. -/
def rndm_iy (st : RandStream) : Nat := st.fSeed1 ^^^ st.fSeed2 ^^^ st.fSeed3

/-- The constant `kScale` of `Rand::rndm`: the literal `2.3283064365386963e-10` denotes
the `double` `2^-32`. -/
def kScale (α : Type) [LinearOrderedField α] : α := 1 / 4294967296

/-- The function `Rand::rndm(stream)`: the value returned and the stream afterwards.
A zero `iy` makes the function call itself; the first argument bounds the number of
updates, and the result is `none` when it is used up. -/
def rndm {α : Type} [LinearOrderedField α] : Nat → RandStream → Option (α × RandStream)
  | 0, _ => none
  | fuel + 1, stream =>
    if rndm_iy (rndm_step stream) ≠ 0 then
      some (kScale α * (rndm_iy (rndm_step stream) : α), rndm_step stream)
    else rndm fuel (rndm_step stream)


/-! ## simulation.cpp: the output record -/

/-- The value `sizeof(TFloat)`: `TFloat` is `float`. -/
def sizeof_TFloat : Nat := 4

section OutputRecord

variable {α ω : Type} [LinearOrderedField α]

/-- The bytes that `buff.insert(buff.end(), pos, pos + sizeof(TFloat))` appends for
the value `x`: `to_bytes x k` is byte `k` of `static_cast<TFloat>(x)` in memory. -/
def float_bytes (to_bytes : α → Fin sizeof_TFloat → Nat) (x : α) : List Nat :=
  List.ofFn (to_bytes x)

/-- The function `evlt_time()`. -/
def evlt_time (s : Simulation α ω) (gStep_size : α) : α := (s.tEvlt_step : α) * gStep_size

/-- The value `block_size` that `get_data_header` prints as `BLOCK_SIZE`:
`(elmt_num() * ng_num() + 1) * sizeof(TFloat) + 1`. -/
def header_block_size (s : Simulation α ω) : Nat :=
  (s.gElmt_num * s.gNeur.length + 1) * sizeof_TFloat + 1

/-- The function `get_data_block(buff)`: the buffer after the time sample, the two
loops over elements and neuron groups and the terminating zero; `none` when the
final size test ends the program. -/
def get_data_block (to_bytes : α → Fin sizeof_TFloat → Nat) (s : Simulation α ω)
    (gStep_size : α) : Option (List Nat) :=
  let block_size := (s.gElmt_num * s.gNeur.length + 1) * sizeof_TFloat + 1
  let buff0 : List Nat := float_bytes to_bytes (evlt_time s gStep_size)
  let buff1 := (List.range s.gElmt_num).foldl
    (fun buff ielmt =>
      (List.range s.gNeur.length).foldl
        (fun buff ineur => buff ++ float_bytes to_bytes (s.gVolt ielmt ineur).rear) buff)
    buff0
  let buff2 := buff1 ++ [0]
  if buff2.length ≠ block_size then none else some buff2

end OutputRecord

/-! ## receptor.cpp: the PSP kernel -/

/-- What the kernel code calls outside the receptor: `exp` of the C library and the
conversion `static_cast<TInt>` of a `TReal`. -/
structure RcptEnv (α : Type) where
  exp : α → α
  to_int : α → Int

section Kernel

variable {α : Type} [LinearOrderedField α]

/-- The constant `PSP_EPS` of receptor.h (`1e-3`). -/
def PSP_EPS (α : Type) [LinearOrderedField α] : α := 1 / 1000

/-- The function `Receptor::eqn_R(tau)`: zero up to the conduction delay, then
`gain * (rise + fall) * exp(t_m / fall) * (1 - exp(t_m / rise)) / (fall * fall)` with
`t_m = delay - tau`. -/
def ReceptorObj.eqn_R (env : RcptEnv α) (r : ReceptorObj α) (tau : α) : α :=
  if tau ≤ r.rcpt_paramVal RCPT_IDX_DELAY then 0
  else
    let t_m := r.rcpt_paramVal RCPT_IDX_DELAY - tau
    r.gain * (r.psp_rise + r.psp_fall) * env.exp (t_m / r.psp_fall) *
      (1 - env.exp (t_m / r.psp_rise)) / (r.psp_fall * r.psp_fall)

/-- The loop `while ((eqn_R(Nstep * step_size) / gain()) >= PSP_EPS) ++Nstep;` of
`Receptor::precalc`: the value of `Nstep` at which the loop is left, `none` when the
number of tests given by the first argument is used up before. -/
def precalc_stop (env : RcptEnv α) (r : ReceptorObj α) (step_size : α) :
    Nat → Int → Option Int
  | 0, _ => none
  | fuel + 1, Nstep =>
    if r.eqn_R env ((Nstep : α) * step_size) / r.gain ≥ PSP_EPS α then
      precalc_stop env r step_size fuel (Nstep + 1)
    else some Nstep

/-- The function `Receptor::precalc(step_size)`: `Nstep` starts at
`static_cast<TInt>((delay + 20.) / step_size)`, the loop extends it, one more sample
is added, and the kernel is filled with `eqn_R((istep + 0.5) * step_size) * step_size`. -/
def ReceptorObj.precalc (env : RcptEnv α) (r : ReceptorObj α) (step_size : α) (fuel : Nat) :
    Option (ReceptorObj α) :=
  match precalc_stop env r step_size fuel
      (env.to_int ((r.rcpt_paramVal RCPT_IDX_DELAY + 20) / step_size)) with
  | none => none
  | some Nstep =>
    some
      { r with
        rcpt_psp := (List.range (Nstep + 1).toNat).map fun (istep : Nat) =>
          r.eqn_R env (((istep : α) + 1 / 2) * step_size) * step_size }

/-- A ready excitatory receptor with gain 1/2, no conduction delay, a rise time of 1
and a fall time of 2000. -/
def slow_rcpt (α : Type) [LinearOrderedField α] : ReceptorObj α :=
  { rcpt_psp := [], Jconst := -1 * (1 / 2)
    rcpt_paramVal := fun i => ([1 / 2, 1 / 2, 0, 1, 2000] : List α).getD i 0
    rcpt_paramFlg := fun _ => true, rcpt_type := TNeur.cEXCIT, rcpt_state := true, rcpt_idx := 0 }

end Kernel

/-! ## misc.cpp: numbers and text -/

/-- The blank test of `strtrim`: space, form feed, line feed, carriage return, tab and
vertical tab. -/
def is_blank (c : Char) : Bool :=
  c = ' ' || c = Char.ofNat 12 || c = Char.ofNat 10 || c = Char.ofNat 13 || c = Char.ofNat 9 ||
    c = Char.ofNat 11

/-- The call `str.substr(pos, n)`. -/
def substr (str : List Char) (pos n : Nat) : List Char := (str.drop pos).take n

/-- The function `strtrim(str)`: `pos_bgn` walks up from 0 and `pos_end` walks down from
`size() - 1` while they are on a blank; a text of blanks only gives the empty text
(`pos_end` is then below 0, where the source reads outside the text). -/
def strtrim (str : List Char) : List Char :=
  if str.length ≠ 0 then
    let pos_bgn : Int := ((str.takeWhile is_blank).length : Int)
    let pos_end : Int := (str.length : Int) - 1 - ((str.reverse.takeWhile is_blank).length : Int)
    if pos_bgn ≤ pos_end then substr str pos_bgn.toNat (pos_end - pos_bgn + 1).toNat else []
  else str

/-- The digits read by the stream extraction `iss >> val`: the value of a text made of
decimal digits only. -/
def read_digits : List Char → Nat → Option Nat
  | [], acc => some acc
  | c :: cs, acc => if c.isDigit then read_digits cs (acc * 10 + (c.toNat - 48)) else none

/-- The stream extraction `iss >> val` for a `TInt` followed by the test
`iss.eof() && !iss.fail()`: an optional sign and at least one decimal digit up to the end
of the text, with a value that fits 32 bits. -/
def stream_int (str : List Char) : Option Int :=
  let body (ds : List Char) (neg : Bool) : Option Int :=
    if ds.isEmpty then none
    else match read_digits ds 0 with
      | none => none
      | some n =>
        if neg then (if n ≤ 2147483648 then some (-(n : Int)) else none)
        else (if n ≤ 2147483647 then some (n : Int) else none)
  match str with
  | '-' :: ds => body ds true
  | '+' :: ds => body ds false
  | ds => body ds false

/-- The function `str2int(str, val)`: `none` for the result `false`, the value stored in
`val` for the result `true`. -/
def str2int (str : List Char) : Option Int :=
  let str := strtrim str
  if str.isEmpty then none else stream_int str

/-- The call `str.find(c)`: the position of the first `c`, `none` for `npos`. -/
def find_char (c : Char) : List Char → Option Nat
  | [] => none
  | x :: xs => if x = c then some 0 else (find_char c xs).map fun p => p + 1

/-- The call `str.find(c, start)`. -/
def str_find (str : List Char) (c : Char) (start : Nat) : Option Nat :=
  (find_char c (str.drop start)).map fun p => p + start

/-- The loop `for (TInt ii = val1; ii <= val2; ii += val) nums.push_back(ii);` of
`str2nums`; `none` when the fuel is used up before the loop is left. -/
def push_loop : Nat → Int → Int → Int → List Int → Option (List Int)
  | 0, _, _, _, _ => none
  | fuel + 1, ii, val2, val, nums =>
    if ii ≤ val2 then push_loop fuel (ii + val) val2 val (nums ++ [ii]) else some nums

/-- The function `str2nums(str, nums)`. The outer `none` says that the fuel was used up
inside a loop; otherwise the inner value is `none` for the result `false` and the list
left in `nums` for the result `true`. The last branch returns `false` when `str2int`
succeeds and otherwise pushes `val`, whose content after the failed conversion is
`junk`. -/
def str2nums (junk : Int) (fuel : Nat) (str : List Char) : Option (Option (List Int)) :=
  let str := strtrim str
  match find_char '-' str with
  | some pos =>
    match str2int (substr str 0 pos), str2int (str.drop (pos + 1)) with
    | some val1, some val2 =>
      if val1 > val2 then (push_loop fuel val2 val1 1 []).map some
      else (push_loop fuel val1 val2 1 []).map some
    | _, _ => some none
  | none =>
    match find_char ':' str with
    | some pos1 =>
      match str_find str ':' (pos1 + 1) with
      | none => some none
      | some pos2 =>
        match str2int (substr str 0 pos1), str2int (substr str (pos1 + 1) (pos2 - pos1 - 1)),
            str2int (str.drop (pos2 + 1)) with
        | some val1, some val, some val2 => (push_loop fuel val1 val2 val []).map some
        | _, _, _ => some none
    | none =>
      match str2int str with
      | some _ => some none
      | none => some (some [junk])

/-- The loop of `strsplit`: the text is cut at every character of `delim`; `cur` is the
piece begun at `pre_pos`. -/
def split_loop (delim : List Char) : List Char → List Char → List (List Char)
  | [], cur => [cur]
  | c :: cs, cur =>
    if c ∈ delim then cur :: split_loop delim cs [] else split_loop delim cs (cur ++ [c])

/-- The function `strsplit(str, delim, parts)`. -/
def strsplit (str delim : List Char) : List (List Char) :=
  if str.isEmpty then [] else split_loop delim str []

/-- The text that `oss << n` writes for a `TInt`. -/
def int_text (n : Int) : List Char :=
  if n < 0 then '-' :: Nat.toDigits 10 n.natAbs else Nat.toDigits 10 n.natAbs

/-- The loop of `nums2str` from position `cnt` on: `prev` is `nums[cnt - 1]`. -/
def nums2str_loop : List Int → Int → Bool → List Char → List Char
  | [], prev, flag, oss => if flag then oss ++ '-' :: int_text prev else oss
  | x :: xs, prev, flag, oss =>
    if x - 1 = prev then nums2str_loop xs x true oss
    else if flag then
      nums2str_loop xs x false (oss ++ '-' :: int_text prev ++ ',' :: int_text x)
    else nums2str_loop xs x false (oss ++ ',' :: int_text x)

/-- The function `nums2str(nums)`: the numbers in ascending order, separated by commas,
with every run of successive numbers written as `first-last`. -/
def nums2str (nums : List Int) : List Char :=
  match nums.insertionSort fun a b => a ≤ b with
  | [] => [' ']
  | x :: xs => nums2str_loop xs x false (int_text x)

/-! ## lcm.cpp and stimulator.cpp: the elements of a stimulator -/

section StimElements

variable {α ρ : Type}

/-- The function `Stimulator::add_elmt(ielmt)`: the element is appended unless it is
already in the list. -/
def StimWave.add_elmt (w : StimWave α ρ) (ielmt : Int) : StimWave α ρ :=
  if ielmt ∈ w.st_elmts then w else { w with st_elmts := w.st_elmts ++ [ielmt] }

/-- The function `Stimulator::is_ready()`: `true` exactly when `_st_state` is set. -/
def StimWave.is_ready (w : StimWave α ρ) : Bool := w.st_state

/-- The loop over the parts in the branch `ELEMENT` of `LCM::set_stim_param`: every
part is read by `str2nums` and its numbers are added to the stimulator; the first part
that is refused ends the function with `false`. The result is `none` when a loop of
`str2nums` uses up the fuel. -/
def stim_parts (junk : Int) (fuel : Nat) :
    List (List Char) → StimWave α ρ → Option (Bool × StimWave α ρ)
  | [], obj => some (true, obj)
  | it :: rest, obj =>
    match str2nums junk fuel it with
    | none => none
    | some none => some (false, obj)
    | some (some nums) => stim_parts junk fuel rest (nums.foldl StimWave.add_elmt obj)

/-- The branch `paramName == "ELEMENT"` of `LCM::set_stim_param(obj, paramName, paramVal)`:
the value must be enclosed in braces, which are deleted; the rest is split at the
commas. Character 123 is the opening and 125 the closing brace. -/
def set_stim_elmts (junk : Int) (fuel : Nat) (obj : StimWave α ρ) (paramVal : List Char) :
    Option (Bool × StimWave α ρ) :=
  if paramVal.head? ≠ some (Char.ofNat 123) ∨ paramVal.getLast? ≠ some (Char.ofNat 125) then
    some (false, obj)
  else
    stim_parts junk fuel (strsplit (substr paramVal 1 (paramVal.length - 2)) [',']) obj

/-- The value that `Stimulator::print()` writes for the parameter `ELEMENT`: the text
of `nums2str(_st_elmts)` between braces. -/
def print_elmts (w : StimWave α ρ) : List Char :=
  Char.ofNat 123 :: nums2str w.st_elmts ++ [Char.ofNat 125]

/-- The list `_es_elmt` that `ExSource::init` builds from the attached stimulators:
every element of every stimulator once, in ascending order. -/
def es_elmt_init (es_stim : List (StimWave α ρ)) : List Int :=
  (es_stim.foldl
    (fun es_elmt st =>
      st.st_elmts.foldl (fun es_elmt el => if el ∈ es_elmt then es_elmt else es_elmt ++ [el])
        es_elmt) []).insertionSort fun a b => a ≤ b

end StimElements

/-! ## simulation.h / simulation.cpp: the output windows in `Simulation::init` and the header -/

/-- All the data members of `struct TTimeWin`. -/
structure TTimeWinObj (α : Type) where
  bgn_time : α
  end_time : α
  inc_time : α
  bgn_step : Int
  end_step : Int
  inc_step : Int
  pnt_num : Int

section WindowSteps

variable {α : Type} [LinearOrderedField α]

/-- The first four statements of the window loop of `Simulation::init`: the three
step fields are the times divided by the time step, converted by `static_cast<TInt>`,
and `if (it->inc_step <= 0) it->inc_time = 1;`. -/
def init_window_steps (to_int : α → Int) (time_step : α) (it : TTimeWinObj α) : TTimeWinObj α :=
  let it1 : TTimeWinObj α :=
    { it with
      bgn_step := to_int (it.bgn_time / time_step)
      end_step := to_int (it.end_time / time_step)
      inc_step := to_int (it.inc_time / time_step) }
  if it1.inc_step ≤ 0 then { it1 with inc_time := 1 } else it1

/-- One round of the window loop of `Simulation::init`, with the last statement
`it->pnt_num = (it->end_step - it->bgn_step) / it->inc_step + 1;`. The result is `none`
when the divisor is zero, where the integer division is undefined. -/
def init_window (to_int : α → Int) (time_step : α) (it : TTimeWinObj α) :
    Option (TTimeWinObj α) :=
  let it1 := init_window_steps to_int time_step it
  if it1.inc_step = 0 then none
  else some { it1 with pnt_num := Int.tdiv (it1.end_step - it1.bgn_step) it1.inc_step + 1 }

/-- The window loop of `Simulation::init` over `output_time`. -/
def init_output_time (to_int : α → Int) (time_step : α) :
    List (TTimeWinObj α) → Option (List (TTimeWinObj α))
  | [] => some []
  | it :: rest =>
    match init_window to_int time_step it with
    | none => none
    | some it1 => (init_output_time to_int time_step rest).map fun r => it1 :: r

/-- The step fields of a window, which `advance` reads. -/
def TTimeWinObj.view (w : TTimeWinObj α) : TTimeWin :=
  { bgn_step := w.bgn_step, end_step := w.end_step, inc_step := w.inc_step }

/-- The value `block_num` of `Simulation::get_data_header`: the sum of `pnt_num` over
the output windows, written to the header as `BLOCK_NUM`. -/
def header_block_num (output_time : List (TTimeWinObj α)) : Int :=
  output_time.foldl (fun block_num it => block_num + it.pnt_num) 0

end WindowSteps

section FrontEnd

variable {α ω : Type} [LinearOrderedField α]

/-- The loop `while (simu.evlt_step() != simu.total_step())` of `main` in runlcm.cpp:
every round calls `advance()` and writes one data block when `is_out()` holds. The
second argument counts the blocks written; the result is `none` when the number of
rounds given by the first argument is used up before the loop is left. -/
def write_loop (ops : StimOps α ω) : Nat → Simulation α ω → Nat → Option Nat
  | 0, _, _ => none
  | fuel + 1, simu, blocks =>
    if simu.tEvlt_step ≠ simu.gTotal_step then
      write_loop ops fuel (advance ops simu)
        (if (advance ops simu).tOut_flg then blocks + 1 else blocks)
    else some blocks

end FrontEnd

/-! ## lcm.cpp: the receptor tables in `LCM::init` -/

/-- The three receptor lists of `class LCM`. -/
structure RcptTables (α : Type) where
  gRcpt : List (ReceptorObj α)
  gRcpt_excit : List (ReceptorObj α)
  gRcpt_inhib : List (ReceptorObj α)

section ReceptorTables

variable {α : Type} [LinearOrderedField α]

/-- The function `Receptor::is_ready()`: `true` exactly when the state flag is set and
the kernel is not empty. -/
def ReceptorObj.is_ready (r : ReceptorObj α) : Bool := r.rcpt_state && !r.rcpt_psp.isEmpty

/-- The loop over `gRcpt` in `LCM::init`: every receptor is initialised and its kernel
computed in place; a receptor that is not ready ends `init` with `false`; a ready one
is appended to `gRcpt_excit` or to `gRcpt_inhib`. `done` holds the receptors already
visited. The result is `none` when the loop of `precalc` uses up the fuel. -/
def rcpt_loop (env : RcptEnv α) (gStep_size : α) (fuel : Nat) :
    List (ReceptorObj α) → List (ReceptorObj α) → List (ReceptorObj α) →
      List (ReceptorObj α) → Option (Bool × RcptTables α)
  | [], done, excit, inhib =>
    some (true, { gRcpt := done, gRcpt_excit := excit, gRcpt_inhib := inhib })
  | it :: rest, done, excit, inhib =>
    match (it.init).precalc env gStep_size fuel with
    | none => none
    | some it1 =>
      if ¬ it1.is_ready then
        some (false, { gRcpt := done ++ it1 :: rest, gRcpt_excit := excit, gRcpt_inhib := inhib })
      else if it1.type = TNeur.cEXCIT then
        rcpt_loop env gStep_size fuel rest (done ++ [it1]) (excit ++ [it1]) inhib
      else rcpt_loop env gStep_size fuel rest (done ++ [it1]) excit (inhib ++ [it1])

/-- The receptor section of `LCM::init`: the loop, then `false` when one of the two
lists is empty. Returns the flag (`false` when `init` returns `false` here) and the
lists afterwards. -/
def init_rcpt (env : RcptEnv α) (gStep_size : α) (fuel : Nat) (t : RcptTables α) :
    Option (Bool × RcptTables α) :=
  match rcpt_loop env gStep_size fuel t.gRcpt [] t.gRcpt_excit t.gRcpt_inhib with
  | none => none
  | some (false, t1) => some (false, t1)
  | some (true, t1) =>
    if t1.gRcpt_excit.isEmpty then some (false, t1)
    else if t1.gRcpt_inhib.isEmpty then some (false, t1)
    else some (true, t1)

end ReceptorTables

/-! ## spikesrc.cpp and lcm.cpp: the connection list of a spike source -/

section ConnectionList

variable {α : Type} [LinearOrderedField α]

/-- The constant `SYNP_EPS` of synpconn.h (`0.01`). -/
def SYNP_EPS (α : Type) [LinearOrderedField α] : α := 1 / 100

/-- The function `SynpConn::is_dummy()`. -/
def SynpConnObj.is_dummy (s : SynpConnObj α) : Bool :=
  if s.sy_synp < SYNP_EPS α then true else false

/-- The loop of `SpikeSrc::init()`,
`for (it = begin(); it != end(); ++it) if (it->is_dummy()) { erase(it); it = begin(); }`,
with the iterator as a position: after an erasure the position is set to 0 and then
incremented. The result is `none` when the position has left the list (it is beyond
`end()`) or when the fuel is used up. -/
def spikesrc_loop : Nat → List (SynpConnObj α) → Nat → Option (List (SynpConnObj α))
  | 0, _, _ => none
  | fuel + 1, synpLst, it =>
    if it = synpLst.length then some synpLst
    else
      match synpLst[it]? with
      | none => none
      | some c =>
        if c.is_dummy then spikesrc_loop fuel (synpLst.eraseIdx it) (0 + 1)
        else spikesrc_loop fuel synpLst (it + 1)

/-- The function `SpikeSrc::init()` on the list `_synpLst`. -/
def spikesrc_init (fuel : Nat) (synpLst : List (SynpConnObj α)) :
    Option (List (SynpConnObj α)) :=
  spikesrc_loop fuel synpLst 0

/-- The body of the inner loop of the sorting pass of `LCM::init` for the positions
`it` and `it2`: the two connections are swapped when the postsynaptic index of the
first is larger, or when the indices are equal and its layer is larger. -/
def sort_cmp (synp_conn : List (SynpConnObj α)) (it it2 : Nat) : List (SynpConnObj α) :=
  match synp_conn[it]?, synp_conn[it2]? with
  | some a, some b =>
    if a.sy_post < b.sy_post then synp_conn
    else if a.sy_post > b.sy_post then
      (synp_conn.set it (a.swap b).1).set it2 (a.swap b).2
    else if a.sy_layer < b.sy_layer then synp_conn
    else if a.sy_layer > b.sy_layer then
      (synp_conn.set it (a.swap b).1).set it2 (a.swap b).2
    else synp_conn
  | _, _ => synp_conn

/-- The inner loop `for (it2 = it + 1; it2 != end(); ++it2)` of the sorting pass. -/
def sort_inner (synp_conn : List (SynpConnObj α)) (it : Nat) : List (SynpConnObj α) :=
  (List.range (synp_conn.length - (it + 1))).foldl
    (fun l k => sort_cmp l it (it + 1 + k)) synp_conn

/-- The sorting pass of `LCM::init` on the connection list of one neuron group. -/
def sort_conn (synp_conn : List (SynpConnObj α)) : List (SynpConnObj α) :=
  (List.range synp_conn.length).foldl sort_inner synp_conn

end ConnectionList

/-! ## array.cpp: sequences of calls on a delay line -/

namespace DynamicArray

/-- A call of one of the members that `LCM` uses on a sized delay line. -/
inductive Call (α : Type) where
  | step_forward
  | step_backward
  | set_rear (val : α) (eps : Nat)
  | set_front (val : α) (eps : Nat)
  | add2rear (p_val : Nat → α) (num eps : Nat) (mag : α)

/-- The delay line after one call. -/
def call {α : Type} [Add α] [Mul α] (a : DynamicArray α) : Call α → DynamicArray α
  | Call.step_forward => a.step_forward
  | Call.step_backward => a.step_backward
  | Call.set_rear val eps => a.set_rear val eps
  | Call.set_front val eps => a.set_front val eps
  | Call.add2rear p_val num eps mag => a.add2rear p_val num eps mag

/-- The delay line after a sequence of calls, in order. -/
def calls {α : Type} [Add α] [Mul α] (a : DynamicArray α) (cs : List (Call α)) :
    DynamicArray α :=
  cs.foldl call a

end DynamicArray

/-! ## rand.cpp: seeding -/

/-- The state words that `RandStream::set_seed(seed)` computes before the warm-up
draws; `time` is the value of `time(NULL)`, used for the seed 0. The products and sums
are taken in 32 bits. -/
def seed_words (time seed : Nat) : RandStream :=
  let fSeed0 := if seed ≤ 0 then time &&& 2147483647 else seed
  let fSeed := fSeed0 ||| 1
  let fSeed1 := ((1103515245 * fSeed + 99991) % 2 ^ 32) &&& 2147483647
  let fSeed2 := ((1103515245 * fSeed1 + 99991) % 2 ^ 32) &&& 2147483647
  let fSeed3 := ((1103515245 * fSeed2 + 99991) % 2 ^ 32) &&& 2147483647
  { fSeed := fSeed
    fSeed1 := if fSeed1 < 2 then fSeed1 + 2 else fSeed1
    fSeed2 := if fSeed2 < 8 then fSeed2 + 8 else fSeed2
    fSeed3 := if fSeed3 < 16 then fSeed3 + 16 else fSeed3 }

/-- The loop `for (idx = 0; idx < 6; ++idx) Rand::rndm(*this);` of `set_seed`, with
the number of draws as first argument; `fuel` bounds the updates of each draw. -/
def warm_up (fuel : Nat) : Nat → RandStream → Option RandStream
  | 0, st => some st
  | n + 1, st =>
    match @rndm ℚ _ fuel st with
    | none => none
    | some r => warm_up fuel n r.2

/-- The function `RandStream::set_seed(seed)`. -/
def RandStream.set_seed (time fuel seed : Nat) : Option RandStream :=
  warm_up fuel 6 (seed_words time seed)

/-- The condition that no component of the generator is degenerate: the state words
are at least 2, 8 and 16. -/
def RandStream.Live (st : RandStream) : Prop :=
  2 ≤ st.fSeed1 ∧ 8 ≤ st.fSeed2 ∧ 16 ≤ st.fSeed3

/-! ## The order of the sorting pass -/

section ConnectionOrder

variable {α : Type}

/-- The order that the sorting pass of `LCM::init` is to establish: ascending
postsynaptic index and, for equal indices, ascending layer. -/
def conn_le (a b : SynpConnObj α) : Prop :=
  a.sy_post < b.sy_post ∨ (a.sy_post = b.sy_post ∧ a.sy_layer ≤ b.sy_layer)

/-- The invariant of the sorting pass at the outer position `it` and the inner
position `it2`: every entry before `it` precedes all later entries, and the entry at
`it` precedes the entries between `it` and `it2`. -/
def SortInv (l : List (SynpConnObj α)) (it it2 : Nat) : Prop :=
  ∀ p q a b, p < q → l[p]? = some a → l[q]? = some b → (p < it ∨ (p = it ∧ q < it2)) →
    conn_le a b

end ConnectionOrder

section SortingPass

variable {α : Type} [LinearOrderedField α]

/-- The sorting pass of `LCM::init` over `gNeur`, on the connection lists of the
groups: a group without connections is skipped, every other list is sorted. -/
def sort_pass (gNeur : List (List (SynpConnObj α))) : List (List (SynpConnObj α)) :=
  gNeur.map fun synp_conn => if synp_conn.length = 0 then synp_conn else sort_conn synp_conn

end SortingPass

/-! ## Concrete instances used to exercise the statements -/

namespace DynamicArray

/-- A delay line of capacity 4 whose rear sits on the last cell of the storage, so
that every destination of more than one cell wraps. -/
def wrapped_line : DynamicArray Int :=
  { p_bgn := fun i => (i : Int), f_front := 2, f_last := 3, f_rear := 3, f_size := 4,
    p_rear := 3, p_end := 4, p_front := 2, f_val := 0 }

end DynamicArray

namespace DynamicArray

/-- The default-constructed delay line `DynamicArray()` over the integers. -/
def empty_line : DynamicArray Int := mk_array (fun _ => 0) 0 0

end DynamicArray

/-- A 3 x 3 grid over the rationals; `sqrt` is the integer square root of the integer
part and `static_cast<TInt>` the integer part. -/
def grid_env : ConnEnv ℚ :=
  { gGrid_row := 3, gElmt_num := 9, gElmt_size := 1 / 2, gStep_size := 1 / 10, spk_speed := 2,
    sqrt := fun q => (Nat.sqrt (Rat.floor q).toNat : ℚ), to_int := Rat.floor,
    eqn_synp_ratio := fun x y _ => 1 / (1 + 10000 * (x + y)) }

/-- A supply of generator values: two negative ones, which the redraw loop skips, and
324 non-negative ones. -/
def jitter_supply : List ℚ := -1 :: -1 / 2 :: List.replicate 324 1


/-- Stimulator waveform operations over a counter: `init` resets it, `advance`
increments it, `generate` returns it. -/
def toy_ops : StimOps ℚ Nat :=
  { init := fun _ => 0, advance := fun w => w + 1, generate := fun w _ => (w : ℚ) }

/-- An external source with two stimulators, active on the steps 2..4 and 0..2. -/
def toy_src : ExSource ℚ Nat :=
  { es_stim :=
      [{ st_start := 2, st_stop := 5, st_active := false, wave := 0 },
       { st_start := 0, st_stop := 3, st_active := false, wave := 0 }]
    es_elmt := [0]
    elmt_stim := fun _ _ => 0
    Nact_stim := 0
    chk_pnt := 0
    synp_conn := [{ sy_spk_delay := 0, sy_psp_delay := 1, sy_weight := 1 / 100, sy_post := 0 }] }

/-- An external source whose only stimulator stops (step 3) before it starts (step 5). -/
def reversed_src : ExSource ℚ Nat :=
  { es_stim := [{ st_start := 5, st_stop := 3, st_active := false, wave := 0 }]
    es_elmt := [0]
    elmt_stim := fun _ _ => 0
    Nact_stim := 0
    chk_pnt := 0
    synp_conn := [] }

/-- A receptor with a three-sample kernel. -/
def toy_rcpt : Receptor ℚ :=
  { rcpt_psp := [0, 1 / 2, 1 / 4], eqn_J := fun phi => phi / 2 }

/-- An excitatory group projecting to group 1. -/
def toy_excit : NeurGrp ℚ :=
  { index := 0, ng_type := TNeur.cEXCIT, V_rev := 0, V_0 := -65, mp_decay_step := 9 / 10
    synp_conn := [{ sy_spk_delay := 1, sy_psp_delay := 0, sy_weight := 1 / 100, sy_post := 1 }]
    eqn_firing := fun v => v + 80 }

/-- An inhibitory group projecting to group 0. -/
def toy_inhib : NeurGrp ℚ :=
  { index := 1, ng_type := TNeur.cINHIB, V_rev := -80, V_0 := -65, mp_decay_step := 4 / 5
    synp_conn := [{ sy_spk_delay := 0, sy_psp_delay := 1, sy_weight := 1 / 50, sy_post := 0 }]
    eqn_firing := fun v => v + 80 }

/-- A one-element model with the two groups, one receptor of each polarity, two
output windows and the source `toy_src`, in the state `Simulation::init` leaves. -/
def toy_sim : Simulation ℚ Nat :=
  { gPSP := fun _ _ _ => DynamicArray.mk_array (fun _ => 0) 4 0
    gVolt := fun _ _ => DynamicArray.mk_array (fun _ => -65) 4 (-65)
    gElmtX := fun i => i % 1
    gElmtY := fun i => i / 1
    tCheck_pnt := (init_sources toy_ops [toy_src] MAX_INT_NUM).2
    tEvlt_step := 0
    output_time :=
      [{ bgn_step := 2, end_step := 6, inc_step := 2 },
       { bgn_step := 10, end_step := 12, inc_step := 1 }]
    tOut_flg := false
    gSpk_delay := fun _ _ => 0
    gSynp_pct := fun _ _ => 1
    gRcpt_excit := [toy_rcpt]
    gRcpt_inhib := [toy_rcpt]
    gNeur := [toy_excit, toy_inhib]
    gExSrc := (init_sources toy_ops [toy_src] MAX_INT_NUM).1
    gElmt_num := 1
    gGrid_row := 1
    gTotal_step := 20
    gV_rev_min := -80
    gV_rev_max := 0 }


/-- A connection of three synapses built by the value constructor, with the constant
of equation M set to 1/5 and the PSP decay factor to 1/2. -/
def lab_conn : SynpConnObj ℚ :=
  (((SynpConnObj.ctor_value 3 0 1 2).set_eqM_const (1 / 5)).set_psp_decay (1 / 2)).2


/-- An external source with one running stimulator whose connection to group 0 has a
PSP delay of 10 steps, more than any connection between the neuron groups. -/
def far_src : ExSource ℚ Nat :=
  { es_stim := [{ st_start := 0, st_stop := 5, st_active := true, wave := 1 }]
    es_elmt := [0]
    elmt_stim := fun _ _ => 0
    Nact_stim := 1
    chk_pnt := 5
    synp_conn := [{ sy_spk_delay := 0, sy_psp_delay := 10, sy_weight := 1 / 100, sy_post := 0 }] }

/-- The one-element model with the source `far_src`, its voltage lines sized by
`Simulation::init`. -/
def far_sim : Simulation ℚ Nat :=
  init_volt (fun _ => 0) { toy_sim with gExSrc := [far_src], tCheck_pnt := 5 }


/-- A waveform environment over the rationals: a rational stand-in for `exp`, streams
that are their seed, and noise modes that draw by incrementing the stream. -/
def lab_env : WaveEnv ℚ Nat :=
  { exp := fun x => 1 / (1 + x * x)
    set_seed := fun seed _ => seed
    noise_init := fun w g => (w, { g with gRStream := g.gRStream + 1 })
    noise_advance := fun w g => (w, { g with gRStream := g.gRStream + 1 }) }

/-- A stimulator in the mode `ST_GAUSS` with amplitude 3 and a period of 5 steps, all
parameters set, attached to element 0 and active, before `init()`. -/
def gauss_stim : StimWave ℚ Nat :=
  { st_phi_in := DynamicArray.mk_array (fun _ => 0) 0 0
    st_phi_out := DynamicArray.mk_array (fun _ => 0) 0 0
    st_coeff_in := []
    st_coeff_out := []
    st_rand := []
    st_ampl := 3
    st_pos := 0
    st_mode := StimMode.ST_GAUSS
    st_elmts := [0]
    st_period_win := 5
    st_update_intvl := 1
    st_state := false
    st_active := true
    st_paramFlg := fun _ => true }

/-- A generator that has been seeded. -/
def ready_rng : RandGlobal Nat := { gRStream := 42, Rand_state := true }


/-- Waveform operations that generate nothing. -/
def silent_ops : StimOps ℚ Nat :=
  { init := fun _ => 0, advance := fun w => w + 1, generate := fun _ _ => 0 }

/-- The excitatory group of the one-element model without its connection. -/
def rest_excit : NeurGrp ℚ := { toy_excit with synp_conn := [] }

/-- The inhibitory group of the one-element model without its connection. -/
def rest_inhib : NeurGrp ℚ := { toy_inhib with synp_conn := [] }

/-- A voltage line of four cells at the resting potential -65 whose current voltage
has been set to -60. -/
def displaced_line : DynamicArray ℚ :=
  (DynamicArray.mk_array (fun _ => -65) 4 (-65)).set_rear (-60) 0

/-- The one-element model without connections between the groups, every voltage
displaced from rest. -/
def quiet_sim : Simulation ℚ Nat :=
  { toy_sim with gNeur := [rest_excit, rest_inhib], gVolt := fun _ _ => displaced_line }


/-- The one-element model enlarged to the 3 x 3 grid, with the element coordinates
as `Simulation::init` computes them. -/
def grid_sim : Simulation ℚ Nat :=
  init_elmt { toy_sim with gGrid_row := 3, gElmt_num := 9 }


/-- A layer between the depths 10 and 100, as `set_param` leaves it. -/
def shallow_layer : Layer ℚ :=
  ((({ ly_idx := 0, ly_paramVal := fun _ => 0, ly_paramFlg := fun _ => false, ly_depth := 0,
       ly_thickness := 0, ly_state := false } : Layer ℚ).set_param "UPPER_BOUND" 10).2.set_param
    "LOWER_BOUND" 100).2

/-- A layer between the depths 50 and 150, as `set_param` leaves it. -/
def deep_layer : Layer ℚ :=
  ((({ ly_idx := 1, ly_paramVal := fun _ => 0, ly_paramFlg := fun _ => false, ly_depth := 0,
       ly_thickness := 0, ly_state := false } : Layer ℚ).set_param "UPPER_BOUND" 50).2.set_param
    "LOWER_BOUND" 150).2


/-- The windows of `OUTPUT_TIME = {5:1:10, 3:1:7}`. -/
def crossed_windows : List (Option (TimeWin ℚ)) :=
  [some { bgn_time := 5, inc_time := 1, end_time := 10 },
   some { bgn_time := 3, inc_time := 1, end_time := 7 }]


/-- A receptor whose type has been set to excitatory and whose parameters are unset. -/
def lab_rcpt : ReceptorObj ℚ := ((ReceptorObj.ctor 0).set_type TNeur.cEXCIT).2


/-- A stream with the state words 12345, 67890 and 424242. -/
def lab_stream : RandStream := { fSeed := 1, fSeed1 := 12345, fSeed2 := 67890, fSeed3 := 424242 }


/-- The stimulator `gauss_stim` before any element is attached. -/
def blank_stim : StimWave ℚ Nat := { gauss_stim with st_elmts := [] }

/-- The stimulator `blank_stim` after `ELEMENT = {100-101}` has been read. -/
def outside_stim : StimWave ℚ Nat :=
  ((set_stim_elmts 0 4 blank_stim "\x7b100-101\x7d".data).getD (false, blank_stim)).2

/-- An output window from 0 to 1 with the increment 1/20, as `Simulation::load` leaves
it. -/
def fine_window : TTimeWinObj ℚ :=
  { bgn_time := 0, end_time := 1, inc_time := 1 / 20, bgn_step := 0, end_step := 0,
    inc_step := 0, pnt_num := 0 }

/-- An output window from 0 to 2 with the increment 1, as `Simulation::load` leaves it. -/
def zero_window : TTimeWinObj ℚ :=
  { bgn_time := 0, end_time := 2, inc_time := 1, bgn_step := 0, end_step := 0,
    inc_step := 0, pnt_num := 0 }

/-- The one-element model with two steps to run and the step fields that
`Simulation::init` computes for `zero_window` with the time step 1. -/
def zero_sim : Simulation ℚ Nat :=
  { toy_sim with
    output_time := [{ bgn_step := 0, end_step := 2, inc_step := 1 }]
    gTotal_step := 2 }

/-- A connection without synapses, as the default constructor leaves it. -/
def idle_conn : SynpConnObj ℚ := SynpConnObj.ctor_default

/-- The inhibitory twin of `slow_rcpt`: gain -1/2, no conduction delay, a rise time of 1
and a fall time of 2000, all parameters set, before `init()`. -/
def slow_inhib (α : Type) [LinearOrderedField α] : ReceptorObj α :=
  { rcpt_psp := [], Jconst := 0
    rcpt_paramVal := fun i => ([-1 / 2, 1 / 2, 0, 1, 2000] : List α).getD i 0
    rcpt_paramFlg := fun _ => true, rcpt_type := TNeur.cINHIB, rcpt_state := false, rcpt_idx := 1 }

/-- The receptor lists of a model before its first `init()`: one excitatory and one
inhibitory receptor, and the two derived lists empty. -/
def loaded_tables (α : Type) [LinearOrderedField α] : RcptTables α :=
  { gRcpt := [slow_rcpt α, slow_inhib α], gRcpt_excit := [], gRcpt_inhib := [] }

end LCM

/-! # Verification -/

namespace LCM

/-! ## nextpow2 -/

theorem nextpow2_step_eq (x : Nat) (h0 : 0 < x) (hx : x < 4294967296) :
    nextpow2_step x = x &&& (x - 1) := by
  have e1 : (4294967295 - x + 1) % 4294967296 = 2 ^ 32 - ((x - 1) + 1) := by
    rw [Nat.mod_eq_of_lt (by omega)]; norm_num; omega
  have hx1 : x - 1 < 2 ^ 32 := by norm_num; omega
  unfold nextpow2_step
  rw [e1]
  apply Nat.eq_of_testBit_eq
  intro i
  simp only [Nat.testBit_and, Nat.testBit_xor, Nat.testBit_two_pow_sub_succ hx1]
  by_cases hi : i < 32
  · simp only [hi, decide_True, Bool.true_and]
    cases x.testBit i <;> cases (x - 1).testBit i <;> rfl
  · have hxi : x.testBit i = false := by
      apply Nat.testBit_lt_two_pow
      calc x < 2 ^ 32 := by norm_num; omega
        _ ≤ 2 ^ i := Nat.pow_le_pow_right (by decide) (by omega)
    simp [hxi]

theorem testBit_top (x h : Nat) (h1 : 2 ^ h ≤ x) (h2 : x < 2 ^ (h + 1)) : x.testBit h = true := by
  obtain ⟨i, hi, hb⟩ := Nat.ge_two_pow_implies_high_bit_true h1
  by_cases hih : i = h
  · exact hih ▸ hb
  · have : x.testBit i = false := by
      apply Nat.testBit_lt_two_pow
      exact Nat.lt_of_lt_of_le h2 (Nat.pow_le_pow_right (by decide) (by omega))
    rw [this] at hb
    exact absurd hb (by decide)

theorem clear_low_bounds (x h : Nat) (h1 : 2 ^ h < x) (h2 : x < 2 ^ (h + 1)) :
    2 ^ h ≤ x &&& (x - 1) ∧ x &&& (x - 1) < x := by
  constructor
  · apply Nat.testBit_implies_ge
    rw [Nat.testBit_and, testBit_top x h (Nat.le_of_lt h1) h2,
      testBit_top (x - 1) h (by omega) (by omega)]
    rfl
  · have := @Nat.and_le_right x (x - 1)
    omega

theorem clear_low_pow (h : Nat) : 2 ^ h &&& (2 ^ h - 1) = 0 := by
  rw [Nat.and_pow_two_sub_one_eq_mod, Nat.mod_self]


theorem nextpow2_loop_spec (h : Nat) (hh : h < 32) :
    ∀ (fuel x y : Nat), 2 ^ h ≤ x → x < 2 ^ (h + 1) → x ≤ fuel + 2 ^ h →
      nextpow2_loop fuel x y = if x = 2 ^ h then y else 2 ^ (h + 1)
  | 0, x, y, h1, _, h3 => by
    have hx : x = 2 ^ h := by omega
    simp [nextpow2_loop, hx]
  | fuel + 1, x, y, h1, h2, h3 => by
    have hpos : 0 < 2 ^ h := Nat.two_pow_pos h
    have hlt : x < 4294967296 :=
      Nat.lt_of_lt_of_le h2 (Nat.pow_le_pow_right (by decide) (by omega : h + 1 ≤ 32))
    rw [nextpow2_loop, nextpow2_step_eq x (by omega) hlt]
    by_cases hx : x = 2 ^ h
    · rw [hx, clear_low_pow]
      simp
    · have hb := clear_low_bounds x h (by omega) h2
      have hne : x &&& (x - 1) ≠ 0 := by omega
      rw [if_pos hne, if_neg hx,
        nextpow2_loop_spec h hh fuel _ _ hb.1 (by omega) (by omega)]
      split
      · rename_i he
        rw [he, Nat.shiftLeft_eq, Nat.pow_one]
        exact (pow_succ 2 h).symm
      · rfl

theorem nextpow2_spec (x : Nat) (h1 : 1 ≤ x) (h2 : x ≤ 2 ^ 30) :
    ∃ e, nextpow2 x = 2 ^ e ∧ x ≤ 2 ^ e ∧ 2 ^ e < 2 * x := by
  have hx0 : x ≠ 0 := by omega
  have hlo : 2 ^ x.log2 ≤ x := Nat.log2_self_le hx0
  have hhi : x < 2 ^ (x.log2 + 1) := Nat.lt_log2_self
  have hh : x.log2 < 32 := by
    by_contra hc
    have : 2 ^ 32 ≤ 2 ^ x.log2 := Nat.pow_le_pow_right (by decide) (by omega)
    have : (2:Nat) ^ 30 < 2 ^ 32 := by norm_num
    omega
  have hs := nextpow2_loop_spec x.log2 hh x x x hlo hhi (by omega)
  unfold nextpow2
  rw [hs]
  split
  · rename_i he
    exact ⟨x.log2, he, by omega, by omega⟩
  · rename_i hne
    refine ⟨x.log2 + 1, rfl, by omega, ?_⟩
    rw [Nat.pow_succ]
    omega

/-! ## Delay line: auxiliary facts -/

namespace DynamicArray

variable {α : Type}

theorem mod_cases (x c : Nat) (h : x < 2 * c) :
    (x < c ∧ x % c = x) ∨ (c ≤ x ∧ x % c + c = x) := by
  by_cases hx : x < c
  · exact Or.inl ⟨hx, Nat.mod_eq_of_lt hx⟩
  · have hc : c ≤ x := by omega
    refine Or.inr ⟨hc, ?_⟩
    rw [Nat.mod_eq_sub_mod hc, Nat.mod_eq_of_lt (by omega)]
    omega

theorem Valid.mask_eq_mod {a : DynamicArray α} (hv : a.Valid) (x : Nat) :
    x &&& a.f_last = x % a.f_size := by
  obtain ⟨e, he⟩ := hv.pow
  rw [hv.last, he]
  exact Nat.and_pow_two_sub_one_eq_mod x e

theorem Valid.or_eq_add {a : DynamicArray α} (hv : a.Valid) :
    a.f_front ||| a.f_size = a.f_front + a.f_size := by
  obtain ⟨e, he⟩ := hv.pow
  have hlt : a.f_front < 2 ^ e := he ▸ hv.front_lt
  have h := Nat.mul_add_lt_is_or hlt 1
  rw [he, Nat.or_comm]
  simpa [Nat.add_comm] using h.symm

theorem Valid.size_pos {a : DynamicArray α} (hv : a.Valid) : 0 < a.f_size :=
  Nat.lt_of_le_of_lt (Nat.zero_le _) hv.rear_lt

theorem add_run_apply [Add α] [Mul α] (p_val : Nat → α) (mag : α) :
    ∀ (n it_tmp j : Nat) (mem : Nat → α) (i : Nat),
      add_run p_val mag n it_tmp j mem i =
        if it_tmp ≤ i ∧ i < it_tmp + n then mem i + p_val (j + (i - it_tmp)) * mag else mem i
  | 0, it_tmp, j, mem, i => by
    have h0 : ¬ (it_tmp ≤ i ∧ i < it_tmp + 0) := by omega
    rw [add_run, if_neg h0]
  | n + 1, it_tmp, j, mem, i => by
    rw [add_run, add_run_apply p_val mag n (it_tmp + 1) (j + 1)]
    by_cases hi : i = it_tmp
    · subst hi
      have h1 : ¬ (i + 1 ≤ i ∧ i < i + 1 + n) := by omega
      have h2 : i ≤ i ∧ i < i + (n + 1) := by omega
      simp [h1, h2]
    · by_cases hr : it_tmp + 1 ≤ i ∧ i < it_tmp + 1 + n
      · have h2 : it_tmp ≤ i ∧ i < it_tmp + (n + 1) := by omega
        have h3 : j + 1 + (i - (it_tmp + 1)) = j + (i - it_tmp) := by omega
        rw [if_pos hr, if_pos h2, Function.update_noteq hi, h3]
      · have h2 : ¬ (it_tmp ≤ i ∧ i < it_tmp + (n + 1)) := by omega
        rw [if_neg hr, if_neg h2, Function.update_noteq hi]

/-- The cell of the storage that `add2rear` leaves at physical index `b + k` (modulo
the capacity `c`), for a destination of `n` cells starting at physical index `b`. -/
theorem add2rear_cell [Add α] [Mul α] (a : DynamicArray α) (hv : a.Valid)
    (p_val : Nat → α) (n eps : Nat) (mag : α) (hn : 1 ≤ n) (hle : eps + n ≤ a.f_size)
    (j : Nat) (hj : j < a.f_size) :
    (a.add2rear p_val n eps mag).get_rear j =
      if eps ≤ j ∧ j < eps + n then a.get_rear j + p_val (j - eps) * mag else a.get_rear j := by
  have hr := hv.rear_lt
  have hm := hv.mask_eq_mod
  have he := hv.end_eq
  have hn0 : n ≠ 0 := by omega
  have m1 := mod_cases (a.f_rear + eps) a.f_size (by omega)
  have m2 := mod_cases (a.f_rear + eps + n - 1) a.f_size (by omega)
  have m3 := mod_cases (a.f_rear + j) a.f_size (by omega)
  simp only [add2rear, get_rear, hn0, if_false, hm, he]
  generalize (a.f_rear + eps) % a.f_size = b at m1 ⊢
  generalize (a.f_rear + eps + n - 1) % a.f_size = t at m2 ⊢
  split
  · simp only [hm, add_run_apply]
    generalize (a.f_rear + j) % a.f_size = q at m3 ⊢
    split_ifs <;> first | omega | rfl | (congr 2; congr 1; omega)
  · simp only [hm, add_run_apply]
    generalize (a.f_rear + j) % a.f_size = q at m3 ⊢
    split_ifs <;> first | omega | rfl | (congr 2; congr 1; omega)

theorem wrapped_line_valid : wrapped_line.Valid :=
  ⟨⟨2, rfl⟩, rfl, by decide, by decide, rfl, rfl, rfl⟩

/-- C1. On a valid delay line of capacity `C`, for a kernel of length `n ≥ 1` and an
offset with `off + n ≤ C`, `add2rear(kernel, n, off, m)` adds `kernel[k] * m` to the
cell at offset `off + k` for every `k < n` and leaves every other offset `j < C`
unchanged, whether or not the destination wraps past the end of the storage. -/
theorem add2rear_get_rear [Add α] [Mul α] (a : DynamicArray α) (hv : a.Valid)
    (kernel : Nat → α) (n off : Nat) (m : α) (hn : 1 ≤ n) (hoff : off + n ≤ a.capacity) :
    (∀ k, k < n →
      (a.add2rear kernel n off m).get_rear (off + k) = a.get_rear (off + k) + kernel k * m) ∧
    (∀ j, j < a.capacity → (j < off ∨ off + n ≤ j) →
      (a.add2rear kernel n off m).get_rear j = a.get_rear j) := by
  unfold capacity at *
  constructor
  · intro k hk
    rw [add2rear_cell a hv kernel n off m hn hoff (off + k) (by omega),
      if_pos (by omega), Nat.add_sub_cancel_left]
  · intro j hj hout
    rw [add2rear_cell a hv kernel n off m hn hoff j hj, if_neg (by omega)]

/-- C1 at a wrapping destination: capacity 4, rear on the last cell, three kernel
samples written from offset 1. -/
theorem add2rear_get_rear_witness :
    (∀ k, k < 3 →
      (wrapped_line.add2rear (fun i => (i : Int) + 5) 3 1 2).get_rear (1 + k) =
        wrapped_line.get_rear (1 + k) + ((k : Int) + 5) * 2) ∧
    (∀ j, j < wrapped_line.capacity → (j < 1 ∨ 1 + 3 ≤ j) →
      (wrapped_line.add2rear (fun i => (i : Int) + 5) 3 1 2).get_rear j =
        wrapped_line.get_rear j) :=
  add2rear_get_rear wrapped_line wrapped_line_valid (fun i => (i : Int) + 5) 3 1 2
    (by decide) (by decide)

end DynamicArray

/-! ## Delay line: resize and the write cycle -/

namespace DynamicArray

variable {α : Type}

theorem get_front_eq {a : DynamicArray α} (hv : a.Valid) (k : Nat) :
    a.get_front k = a.p_bgn ((a.f_front + a.f_size - k) % a.f_size) := by
  unfold get_front
  rw [hv.mask_eq_mod, hv.or_eq_add]

theorem get_rear_eq {a : DynamicArray α} (hv : a.Valid) (k : Nat) :
    a.get_rear k = a.p_bgn ((a.f_rear + k) % a.f_size) := by
  unfold get_rear
  rw [hv.mask_eq_mod]

/-- Calling `resize(n)` with `1 ≤ n ≤ 2^30`, on an empty or a valid delay line, gives a valid
delay line all of whose cells hold the default value. -/
theorem resize_spec (a : DynamicArray α) (h0 : a.Valid ∨ a.f_size = 0) (n : Nat)
    (h1 : 1 ≤ n) (h2 : n ≤ 2 ^ 30) :
    (a.resize n).Valid ∧ (a.resize n).f_val = a.f_val ∧
      ∀ i, i < (a.resize n).f_size → (a.resize n).p_bgn i = a.f_val := by
  have hn0 : n ≠ 0 := by omega
  by_cases hle : n ≤ a.f_size
  · have hv : a.Valid := by
      rcases h0 with hv | hz
      · exact hv
      · omega
    have hr : a.resize n = { a with
        f_front := (a.f_rear + n - 1) &&& a.f_last
        p_front := (a.f_rear + n - 1) &&& a.f_last
        p_bgn := fill_range a.p_bgn a.p_end a.f_val } := by
      simp [resize, hn0, hle]
    rw [hr]
    refine ⟨⟨hv.pow, hv.last, hv.rear_lt, ?_, hv.end_eq, hv.rear_eq, rfl⟩, rfl, ?_⟩
    · show (a.f_rear + n - 1) &&& a.f_last < a.f_size
      rw [hv.mask_eq_mod]
      exact Nat.mod_lt _ hv.size_pos
    · intro i hi
      show fill_range a.p_bgn a.p_end a.f_val i = a.f_val
      rw [hv.end_eq]
      simp only [fill_range]
      rw [if_pos hi]
  · obtain ⟨e, he, hge, _⟩ := nextpow2_spec n h1 h2
    have hr : a.resize n = { a with
        f_size := nextpow2 n, f_last := nextpow2 n - 1, f_rear := 0, f_front := n - 1,
        p_end := nextpow2 n, p_rear := 0, p_front := n - 1,
        p_bgn := fill_range a.p_bgn (nextpow2 n) a.f_val } := by
      simp [resize, hn0, hle]
    rw [hr]
    refine ⟨⟨⟨e, he⟩, rfl, ?_, ?_, rfl, rfl, rfl⟩, rfl, ?_⟩
    · show 0 < nextpow2 n
      omega
    · show n - 1 < nextpow2 n
      omega
    · intro i hi
      show fill_range a.p_bgn (nextpow2 n) a.f_val i = a.f_val
      simp only [fill_range]
      rw [if_pos hi]

theorem step_backward_valid {a : DynamicArray α} (hv : a.Valid) : a.step_backward.Valid := by
  refine ⟨hv.pow, hv.last, ?_, ?_, hv.end_eq, rfl, rfl⟩
  · show (a.f_rear + 1) &&& a.f_last < a.f_size
    rw [hv.mask_eq_mod]
    exact Nat.mod_lt _ hv.size_pos
  · show (a.f_front + 1) &&& a.f_last < a.f_size
    rw [hv.mask_eq_mod]
    exact Nat.mod_lt _ hv.size_pos

theorem step_forward_valid {a : DynamicArray α} (hv : a.Valid) : a.step_forward.Valid := by
  refine ⟨hv.pow, hv.last, ?_, ?_, hv.end_eq, rfl, rfl⟩
  · show (a.f_rear + a.f_size - 1) &&& a.f_last < a.f_size
    rw [hv.mask_eq_mod]
    exact Nat.mod_lt _ hv.size_pos
  · show (a.f_front + a.f_size - 1) &&& a.f_last < a.f_size
    rw [hv.mask_eq_mod]
    exact Nat.mod_lt _ hv.size_pos

theorem set_front_valid {a : DynamicArray α} (hv : a.Valid) (v : α) (k : Nat) :
    (a.set_front v k).Valid :=
  ⟨hv.pow, hv.last, hv.rear_lt, hv.front_lt, hv.end_eq, hv.rear_eq, hv.front_eq⟩

theorem set_rear_valid {a : DynamicArray α} (hv : a.Valid) (v : α) (k : Nat) :
    (a.set_rear v k).Valid :=
  ⟨hv.pow, hv.last, hv.rear_lt, hv.front_lt, hv.end_eq, hv.rear_eq, hv.front_eq⟩

theorem write_cycle_valid {a : DynamicArray α} (hv : a.Valid) (v : α) :
    (a.write_cycle v).Valid :=
  set_front_valid (step_backward_valid hv) v 0

theorem write_cycle_size (a : DynamicArray α) (v : α) :
    (a.write_cycle v).f_size = a.f_size := rfl

/-- One write cycle shifts the view from the front by one delay and puts the written
value at delay 0. -/
theorem write_cycle_get_front {a : DynamicArray α} (hv : a.Valid) (v : α) (k : Nat)
    (hk : k < a.f_size) :
    (a.write_cycle v).get_front k = if k = 0 then v else a.get_front (k - 1) := by
  have hw := write_cycle_valid hv v
  have hb := step_backward_valid hv
  have hf := hv.front_lt
  have e1 : (a.write_cycle v).f_front = (a.f_front + 1) % a.f_size := hv.mask_eq_mod _
  have e2 : (a.write_cycle v).f_size = a.f_size := rfl
  have e3 : (a.write_cycle v).p_bgn =
      Function.update (Function.update a.p_bgn ((a.f_front + 1) % a.f_size) a.f_val)
        ((a.f_front + 1) % a.f_size) v := by
    have h1 : a.step_backward.f_front = (a.f_front + 1) % a.f_size := hv.mask_eq_mod _
    have h2 : a.step_backward.p_bgn =
        Function.update a.p_bgn ((a.f_front + 1) % a.f_size) a.f_val := by
      show Function.update a.p_bgn ((a.f_front + 1) &&& a.f_last) a.f_val = _
      rw [hv.mask_eq_mod]
    have h3 : a.step_backward.f_size = a.f_size := rfl
    show Function.update a.step_backward.p_bgn
      (((a.step_backward.f_front ||| a.step_backward.f_size) - 0) &&&
        a.step_backward.f_last) v = _
    rw [hb.or_eq_add, hb.mask_eq_mod, h2, h1, h3, Nat.sub_zero, Nat.add_mod_right,
      Nat.mod_mod]
  rw [get_front_eq hw, get_front_eq hv, e1, e2, e3]
  have c1 := mod_cases (a.f_front + 1) a.f_size (by omega)
  generalize (a.f_front + 1) % a.f_size = f1 at c1 ⊢
  have c2 := mod_cases (f1 + a.f_size - k) a.f_size (by omega)
  have c4 := mod_cases (a.f_front + a.f_size - (k - 1)) a.f_size (by omega)
  generalize (f1 + a.f_size - k) % a.f_size = i2 at c2 ⊢
  generalize (a.f_front + a.f_size - (k - 1)) % a.f_size = i4 at c4 ⊢
  by_cases hk0 : k = 0
  · have h21 : i2 = f1 := by omega
    rw [if_pos hk0, h21, Function.update_same]
  · have h21 : i2 ≠ f1 := by omega
    have h24 : i2 = i4 := by omega
    rw [if_neg hk0, Function.update_noteq h21, Function.update_noteq h21, h24]

/-- Driving the write cycle with `vs` makes delay `k` show the value written `k`
cycles ago while `k < vs.length`, and the view of `k - vs.length` cycles earlier
otherwise. -/
theorem drive_get_front (d : α) :
    ∀ (vs : List α) (a : DynamicArray α), a.Valid → ∀ k, k < a.f_size →
      (a.drive vs).get_front k =
        if k < vs.length then vs.getD (vs.length - 1 - k) d else a.get_front (k - vs.length)
  | [], a, _, k, _ => by simp [drive]
  | v :: vs, a, hv, k, hk => by
    have ih := drive_get_front d vs (a.write_cycle v) (write_cycle_valid hv v) k
      (by rw [write_cycle_size]; exact hk)
    have hstep : (a.drive (v :: vs)) = (a.write_cycle v).drive vs := rfl
    rw [hstep, ih]
    by_cases h1 : k < vs.length
    · have h2 : k < (v :: vs).length := by simp; omega
      have h3 : (v :: vs).length - 1 - k = (vs.length - 1 - k) + 1 := by simp; omega
      rw [if_pos h1, if_pos h2, h3, List.getD_cons_succ]
    · rw [if_neg h1, write_cycle_get_front hv v _ (by omega)]
      by_cases h4 : k = vs.length
      · have h2 : k < (v :: vs).length := by simp; omega
        have h3 : (v :: vs).length - 1 - k = 0 := by simp; omega
        rw [if_pos (by omega), if_pos h2, h3, List.getD_cons_zero]
      · have h2 : ¬ k < (v :: vs).length := by simp; omega
        have h3 : k - vs.length - 1 = k - (v :: vs).length := by simp; omega
        rw [if_neg (by omega), if_neg h2, h3]

end DynamicArray

namespace DynamicArray

variable {α : Type}

/-- C2. A delay line freshly sized by `resize(n)` (default `d`, capacity `C`) and then
driven by the write cycle `step_backward(); set_front(v_i)` for `i = 1..m` shows, for
every delay `k < C`, the value `v_(m-k)` written `k` cycles ago when `k < m`, and the
default `d` otherwise; in particular `get_front(0)` is the value of the current cycle. -/
theorem drive_fresh_get_front (a : DynamicArray α) (h0 : a.Valid ∨ a.f_size = 0) (n : Nat)
    (h1 : 1 ≤ n) (h2 : n ≤ 2 ^ 30) (vs : List α) (k : Nat)
    (hk : k < (a.resize n).capacity) :
    ((a.resize n).drive vs).get_front k =
      if k < vs.length then vs.getD (vs.length - 1 - k) a.f_val else a.f_val := by
  obtain ⟨hv, _, hcells⟩ := resize_spec a h0 n h1 h2
  unfold capacity at hk
  rw [drive_get_front a.f_val vs (a.resize n) hv k hk]
  by_cases hkm : k < vs.length
  · rw [if_pos hkm, if_pos hkm]
  · rw [if_neg hkm, if_neg hkm, get_front_eq hv]
    exact hcells _ (Nat.mod_lt _ hv.size_pos)

/-- C2 on an empty line resized to 3 cells (capacity 4) and driven five times. -/
theorem drive_fresh_get_front_witness :
    (empty_line.Valid ∨ empty_line.f_size = 0) ∧ 1 ≤ 3 ∧ 3 ≤ 2 ^ 30 ∧
      2 < (empty_line.resize 3).capacity ∧
      ((empty_line.resize 3).drive [10, 20, 30, 40, 50]).get_front 2 =
        if 2 < [10, 20, 30, 40, 50].length
          then [10, 20, 30, 40, 50].getD ([10, 20, 30, 40, 50].length - 1 - 2) empty_line.f_val
          else empty_line.f_val :=
  ⟨Or.inr rfl, by decide, by decide, by decide,
    drive_fresh_get_front empty_line (Or.inr rfl) 3 (by decide) (by decide)
      [10, 20, 30, 40, 50] 2 (by decide)⟩

end DynamicArray

/-! ## Delay line: shifting after a write at the rear -/

namespace DynamicArray

variable {α : Type}

theorem step_forward_get_rear_succ {a : DynamicArray α} (hv : a.Valid) (j : Nat)
    (hj : j + 1 < a.f_size) : a.step_forward.get_rear (j + 1) = a.get_rear j := by
  have hr := hv.rear_lt
  have e1 : a.step_forward.f_rear = (a.f_rear + a.f_size - 1) % a.f_size := hv.mask_eq_mod _
  have e2 : a.step_forward.f_size = a.f_size := rfl
  have e3 : a.step_forward.p_bgn =
      Function.update a.p_bgn ((a.f_rear + a.f_size - 1) % a.f_size) a.f_val := by
    show Function.update a.p_bgn ((a.f_rear + a.f_size - 1) &&& a.f_last) a.f_val = _
    rw [hv.mask_eq_mod]
  rw [get_rear_eq (step_forward_valid hv), get_rear_eq hv, e1, e2, e3]
  have c1 := mod_cases (a.f_rear + a.f_size - 1) a.f_size (by omega)
  generalize (a.f_rear + a.f_size - 1) % a.f_size = r1 at c1 ⊢
  have c2 := mod_cases (r1 + (j + 1)) a.f_size (by omega)
  have c3 := mod_cases (a.f_rear + j) a.f_size (by omega)
  generalize (r1 + (j + 1)) % a.f_size = i2 at c2 ⊢
  generalize (a.f_rear + j) % a.f_size = i3 at c3 ⊢
  have h21 : i2 ≠ r1 := by omega
  have h23 : i2 = i3 := by omega
  rw [Function.update_noteq h21, h23]

theorem step_forward_get_rear_zero {a : DynamicArray α} (hv : a.Valid) :
    a.step_forward.get_rear 0 = a.f_val := by
  have e1 : a.step_forward.f_rear = (a.f_rear + a.f_size - 1) % a.f_size := hv.mask_eq_mod _
  have e2 : a.step_forward.f_size = a.f_size := rfl
  have e3 : a.step_forward.p_bgn =
      Function.update a.p_bgn ((a.f_rear + a.f_size - 1) % a.f_size) a.f_val := by
    show Function.update a.p_bgn ((a.f_rear + a.f_size - 1) &&& a.f_last) a.f_val = _
    rw [hv.mask_eq_mod]
  rw [get_rear_eq (step_forward_valid hv), e1, e2, e3, Nat.add_zero, Nat.mod_mod,
    Function.update_same]

theorem forward_steps_get_rear :
    ∀ (k : Nat) (a : DynamicArray α), a.Valid → ∀ j, j + k < a.f_size →
      (a.forward_steps k).get_rear (j + k) = a.get_rear j
  | 0, _, _, _, _ => rfl
  | k + 1, a, hv, j, hj => by
    have ih := forward_steps_get_rear k a.step_forward (step_forward_valid hv) (j + 1)
      (by show j + 1 + k < a.f_size; omega)
    have hidx : j + (k + 1) = j + 1 + k := by omega
    rw [hidx]
    show (a.step_forward.forward_steps k).get_rear (j + 1 + k) = a.get_rear j
    rw [ih, step_forward_get_rear_succ hv j (by omega)]

theorem forward_steps_get_rear_zero :
    ∀ (k : Nat) (a : DynamicArray α), a.Valid → 1 ≤ k → k < a.f_size →
      (a.forward_steps k).get_rear 0 = a.f_val
  | 0, _, _, h1, _ => absurd h1 (by decide)
  | 1, a, hv, _, _ => step_forward_get_rear_zero hv
  | k + 2, a, hv, _, hk => by
    show (a.step_forward.forward_steps (k + 1)).get_rear 0 = a.f_val
    exact forward_steps_get_rear_zero (k + 1) a.step_forward (step_forward_valid hv)
      (by omega) (by show k + 1 < a.f_size; omega)

theorem set_rear_get_rear_zero (a : DynamicArray α) (v : α) :
    (a.set_rear v 0).get_rear 0 = v := by
  show Function.update a.p_bgn ((a.f_rear + 0) &&& a.f_last) v ((a.f_rear + 0) &&& a.f_last) = v
  exact Function.update_same _ _ _

/-- C10 as stated fails: on a line freshly sized to 3 cells (capacity 4), after
`set_rear(7, 0)` a single `step_forward()` makes `get_rear(0)` return the default 0. -/
theorem get_rear_after_shifts_counterexample :
    [Shift.forward].length ≤ (empty_line.resize 3).capacity ∧
      ((((empty_line.resize 3).set_rear 7 0).shifts [Shift.forward]).get_rear 0 = 0 ∧
        (((empty_line.resize 3).set_rear 7 0).shifts [Shift.forward]).get_rear 0 ≠ 7) := by
  decide

/-- C10, amended. After `set_rear(v, 0)` and `k` calls of `step_forward()` with `k` below
the capacity, the written value is read back by `get_rear(k)`: it has moved `k` slots
away from the rear. It is `get_rear(0)` only for `k = 0`; after at least one step
`get_rear(0)` is the default value. -/
theorem get_rear_after_forward_steps (a : DynamicArray α) (hv : a.Valid) (v : α) (k : Nat)
    (hk : k < a.capacity) :
    ((a.set_rear v 0).forward_steps k).get_rear k = v ∧
      (1 ≤ k → ((a.set_rear v 0).forward_steps k).get_rear 0 = a.f_val) := by
  unfold capacity at hk
  have hs := set_rear_valid hv v 0
  constructor
  · have h := forward_steps_get_rear k (a.set_rear v 0) hs 0
      (by show 0 + k < a.f_size; omega)
    rw [Nat.zero_add] at h
    rw [h, set_rear_get_rear_zero a v]
  · intro h1
    exact forward_steps_get_rear_zero k (a.set_rear v 0) hs h1 hk

/-- C10, amended, on the wrapped line of capacity 4 after three steps. -/
theorem get_rear_after_forward_steps_witness :
    wrapped_line.Valid ∧ 3 < wrapped_line.capacity ∧
      (((wrapped_line.set_rear 7 0).forward_steps 3).get_rear 3 = 7 ∧
        (1 ≤ 3 → ((wrapped_line.set_rear 7 0).forward_steps 3).get_rear 0 =
          wrapped_line.f_val)) :=
  ⟨wrapped_line_valid, by decide,
    get_rear_after_forward_steps wrapped_line wrapped_line_valid 7 3 (by decide)⟩

end DynamicArray

/-! ## Loops that may fail: invariants of `List.foldlM` in `Option` -/

theorem foldlM_some_inv {σ ι : Type} (f : σ → ι → Option σ) (P : σ → Prop) :
    ∀ (l : List ι) (s s' : σ),
      (∀ s x s', x ∈ l → f s x = some s' → P s → P s') →
      l.foldlM f s = some s' → P s → P s'
  | [], s, s', _, h, hs => by
    have : s = s' := by simpa using h
    exact this ▸ hs
  | x :: l, s, s', hP, h, hs => by
    rw [List.foldlM_cons] at h
    obtain ⟨s1, h1, h2⟩ := Option.bind_eq_some.mp h
    exact foldlM_some_inv f P l s1 s'
      (fun s y s' hy => hP s y s' (List.mem_cons_of_mem x hy)) h2
      (hP s x s1 (List.mem_cons_self x l) h1 hs)

theorem foldlM_some_mem {σ ι : Type} (f : σ → ι → Option σ) (J Q : σ → Prop) (x0 : ι)
    (hest : ∀ s s', f s x0 = some s' → J s → Q s') :
    ∀ (l : List ι) (s s' : σ),
      (∀ s x s', x ∈ l → f s x = some s' → J s → J s') →
      (∀ s x s', x ∈ l → f s x = some s' → J s → Q s → Q s') →
      x0 ∈ l → l.foldlM f s = some s' → J s → Q s'
  | [], _, _, _, _, hx, _, _ => absurd hx (List.not_mem_nil _)
  | x :: l, s, s', hJ, hpres, hx, h, hs => by
    rw [List.foldlM_cons] at h
    obtain ⟨s1, h1, h2⟩ := Option.bind_eq_some.mp h
    have hJ1 : J s1 := hJ s x s1 (List.mem_cons_self x l) h1 hs
    have hJl : ∀ s y s', y ∈ l → f s y = some s' → J s → J s' :=
      fun s y s' hy => hJ s y s' (List.mem_cons_of_mem x hy)
    have hpl : ∀ s y s', y ∈ l → f s y = some s' → J s → Q s → Q s' :=
      fun s y s' hy => hpres s y s' (List.mem_cons_of_mem x hy)
    by_cases hxl : x0 ∈ l
    · exact foldlM_some_mem f J Q x0 hest l s1 s' hJl hpl hxl h2 hJ1
    · have hx0 : x0 = x := by
        rcases List.mem_cons.mp hx with h0 | h0
        · exact h0
        · exact absurd h0 hxl
      have hQ1 : Q s1 := hest s s1 (hx0 ▸ h1) hs
      have hJQ := foldlM_some_inv f (fun s => J s ∧ Q s) l s1 s'
        (fun s y s' hy hf hjq => ⟨hJl s y s' hy hf hjq.1, hpl s y s' hy hf hjq.1 hjq.2⟩)
        h2 ⟨hJ1, hQ1⟩
      exact hJQ.2

/-! ## Connectivity tables: one path -/

section Connectivity

variable {α : Type} [LinearOrderedField α]

theorem SPK_DELAY_IDX_succ (S dx dy p : Nat) :
    SPK_DELAY_IDX S dx dy 0 + p = SPK_DELAY_IDX S dx dy p := by
  unfold SPK_DELAY_IDX
  omega

theorem SYNP_PCT_IDX_succ (E i j p : Nat) :
    SYNP_PCT_IDX E i j 0 + p = SYNP_PCT_IDX E i j p := by
  unfold SYNP_PCT_IDX
  omega

theorem SPK_DELAY_IDX_inj (S dx dy p dx' dy' p' : Nat) (hy : dy < S) (hy' : dy' < S)
    (hp : p < 4) (hp' : p' < 4)
    (h : SPK_DELAY_IDX S dx dy p = SPK_DELAY_IDX S dx' dy' p') :
    dx = dx' ∧ dy = dy' ∧ p = p' := by
  unfold SPK_DELAY_IDX SPK_PATH_NUM at h
  have h1 : p = p' := by omega
  have h2 : dy + S * dx = dy' + S * dx' := by omega
  have h3 : (dy + S * dx) % S = (dy' + S * dx') % S := by rw [h2]
  rw [Nat.add_mul_mod_self_left, Nat.add_mul_mod_self_left, Nat.mod_eq_of_lt hy,
    Nat.mod_eq_of_lt hy'] at h3
  have h4 : S * dx = S * dx' := by omega
  have hS : 0 < S := by omega
  exact ⟨Nat.eq_of_mul_eq_mul_left hS h4, h3, h1⟩

theorem SPK_DELAY_IDX_lt (S dx dy p : Nat) (hx : dx < S) (hy : dy < S) (hp : p < 4) :
    SPK_DELAY_IDX S dx dy p < S * S * SPK_PATH_NUM := by
  unfold SPK_DELAY_IDX SPK_PATH_NUM
  have h1 : S * dx + S ≤ S * S := by
    have : S * (dx + 1) ≤ S * S := Nat.mul_le_mul_left S hx
    rw [Nat.mul_add, Nat.mul_one] at this
    exact this
  omega

/-- What one successful `path_fill` leaves in the two tables. -/
theorem path_fill_eq (env : ConnEnv α) (a b sd sp : Nat) (t t' : ConnTables α)
    (h : path_fill env a b sd sp t = some t') :
    (t'.spk_delay = if t.spk_delay sd = MAX_INT_NUM then
        Function.update t.spk_delay sd (env.elmt_delay a b) else t.spk_delay) ∧
    ∃ pct : α, t'.synp_pct =
      Function.update t.synp_pct sp (if pct < SYNP_RATIO_EPS α then 0 else pct) := by
  unfold path_fill at h
  split at h
  · exact absurd h (by simp)
  · rename_i tmp rest _
    have h' := Option.some.inj h
    subst h'
    exact ⟨rfl, _, rfl⟩

end Connectivity

/-! ## Connectivity tables: the delay table -/

section Connectivity

variable {α : Type} [LinearOrderedField α]

theorem path_fill_delay (env : ConnEnv α) (dx0 dy0 p0 a b sd sp : Nat) (t t' : ConnTables α)
    (hy0 : dy0 < env.gGrid_row) (hp0 : p0 < 4)
    (hsd : sd = SPK_DELAY_IDX env.gGrid_row dx0 dy0 p0)
    (hab : env.elmt_delay a b = delay_ref env dx0 dy0 p0)
    (h : path_fill env a b sd sp t = some t') (hJ : DelayInv env t)
    (hx0 : dx0 < env.gGrid_row) :
    DelayInv env t' ∧
    t'.spk_delay (SPK_DELAY_IDX env.gGrid_row dx0 dy0 p0) = delay_ref env dx0 dy0 p0 ∧
    ∀ dx dy p, dx < env.gGrid_row → dy < env.gGrid_row → p < 4 →
      t.spk_delay (SPK_DELAY_IDX env.gGrid_row dx dy p) = delay_ref env dx dy p →
      t'.spk_delay (SPK_DELAY_IDX env.gGrid_row dx dy p) = delay_ref env dx dy p := by
  obtain ⟨hspk, _⟩ := path_fill_eq env a b sd sp t t' h
  have key : ∀ dx dy p, dx < env.gGrid_row → dy < env.gGrid_row → p < 4 →
      t'.spk_delay (SPK_DELAY_IDX env.gGrid_row dx dy p) =
        if SPK_DELAY_IDX env.gGrid_row dx dy p = sd ∧ t.spk_delay sd = MAX_INT_NUM then
          delay_ref env dx dy p
        else t.spk_delay (SPK_DELAY_IDX env.gGrid_row dx dy p) := by
    intro dx dy p _ hy hp
    rw [hspk]
    by_cases hm : t.spk_delay sd = MAX_INT_NUM
    · rw [if_pos hm]
      by_cases hi : SPK_DELAY_IDX env.gGrid_row dx dy p = sd
      · rw [if_pos ⟨hi, hm⟩, hi, Function.update_same, hab]
        rw [hsd] at hi
        obtain ⟨e1, e2, e3⟩ := SPK_DELAY_IDX_inj _ _ _ _ _ _ _ hy hy0 hp hp0 hi
        rw [e1, e2, e3]
      · rw [if_neg (fun hc => hi hc.1), Function.update_noteq hi]
    · rw [if_neg hm, if_neg (fun hc => hm hc.2)]
  refine ⟨?_, ?_, ?_⟩
  · intro dx dy p hx hy hp
    rw [key dx dy p hx hy hp]
    split
    · exact Or.inr rfl
    · exact hJ dx dy p hx hy hp
  · rw [key dx0 dy0 p0 hx0 hy0 hp0]
    split
    · rfl
    · rename_i hn
      rcases hJ dx0 dy0 p0 hx0 hy0 hp0 with hm | hm
      · exact absurd ⟨hsd.symm, hsd ▸ hm⟩ hn
      · exact hm
  · intro dx dy p hx hy hp hold
    rw [key dx dy p hx hy hp]
    split
    · rfl
    · exact hold

theorem init_d_x_lt (S i j : Nat) (hi : i < S * S) (hj : j < S * S) :
    init_d_x S i j < S := by
  have h1 : i / S < S := Nat.div_lt_of_lt_mul hi
  have h2 : j / S < S := Nat.div_lt_of_lt_mul hj
  unfold init_d_x
  generalize i / S = u at h1 ⊢
  generalize j / S = v at h2 ⊢
  omega

theorem init_d_y_lt (S i j : Nat) (hS : 0 < S) : init_d_y S i j < S := by
  have h1 : i % S < S := Nat.mod_lt _ hS
  have h2 : j % S < S := Nat.mod_lt _ hS
  unfold init_d_y
  generalize i % S = u at h1 ⊢
  generalize j % S = v at h2 ⊢
  omega

theorem pair_fill_delay (env : ConnEnv α)
    (hE : env.gElmt_num = env.gGrid_row * env.gGrid_row) (t t' : ConnTables α)
    (i j : Nat) (hi : i < env.gElmt_num) (hj : j < env.gElmt_num)
    (h : pair_fill env t i j = some t') (hJ : DelayInv env t) :
    DelayInv env t' ∧
    (∀ p, p < 4 →
      t'.spk_delay
          (SPK_DELAY_IDX env.gGrid_row (init_d_x env.gGrid_row i j)
            (init_d_y env.gGrid_row i j) p) =
        delay_ref env (init_d_x env.gGrid_row i j) (init_d_y env.gGrid_row i j) p) ∧
    ∀ dx dy p, dx < env.gGrid_row → dy < env.gGrid_row → p < 4 →
      t.spk_delay (SPK_DELAY_IDX env.gGrid_row dx dy p) = delay_ref env dx dy p →
      t'.spk_delay (SPK_DELAY_IDX env.gGrid_row dx dy p) = delay_ref env dx dy p := by
  rw [hE] at hi hj
  have hS : 0 < env.gGrid_row := by
    rcases Nat.eq_zero_or_pos env.gGrid_row with h0 | h0
    · rw [h0] at hi
      omega
    · exact h0
  have hx := init_d_x_lt env.gGrid_row i j hi hj
  have hy := init_d_y_lt env.gGrid_row i j hS
  unfold pair_fill at h
  simp only [Option.bind_eq_some] at h
  obtain ⟨t1, h1, t2, h2, t3, h3, h4⟩ := h
  obtain ⟨J1, A1, K1⟩ := path_fill_delay env _ _ 0 _ _ _ _ t t1 hy (by decide) rfl
    (by simp [delay_ref, wrap_disp]) h1 hJ hx
  obtain ⟨J2, A2, K2⟩ := path_fill_delay env _ _ 1 _ _ _ _ t1 t2 hy (by decide)
    (SPK_DELAY_IDX_succ _ _ _ 1) (by simp [delay_ref, wrap_disp]) h2 J1 hx
  obtain ⟨J3, A3, K3⟩ := path_fill_delay env _ _ 2 _ _ _ _ t2 t3 hy (by decide)
    (SPK_DELAY_IDX_succ _ _ _ 2) (by simp [delay_ref, wrap_disp]) h3 J2 hx
  obtain ⟨J4, A4, K4⟩ := path_fill_delay env _ _ 3 _ _ _ _ t3 t' hy (by decide)
    (SPK_DELAY_IDX_succ _ _ _ 3) (by simp [delay_ref, wrap_disp]) h4 J3 hx
  refine ⟨J4, ?_, ?_⟩
  · intro p hp
    have hp' : p = 0 ∨ p = 1 ∨ p = 2 ∨ p = 3 := by omega
    rcases hp' with rfl | rfl | rfl | rfl
    · exact K4 _ _ 0 hx hy (by decide) (K3 _ _ 0 hx hy (by decide) (K2 _ _ 0 hx hy (by decide) A1))
    · exact K4 _ _ 1 hx hy (by decide) (K3 _ _ 1 hx hy (by decide) A2)
    · exact K4 _ _ 2 hx hy (by decide) A3
    · exact A4
  · intro dx dy p hdx hdy hp hold
    exact K4 dx dy p hdx hdy hp (K3 dx dy p hdx hdy hp (K2 dx dy p hdx hdy hp
      (K1 dx dy p hdx hdy hp hold)))

end Connectivity

section Connectivity

variable {α : Type} [LinearOrderedField α]

theorem row_fill_delay_inv (env : ConnEnv α)
    (hE : env.gElmt_num = env.gGrid_row * env.gGrid_row) (t t' : ConnTables α) (i : Nat)
    (hi : i < env.gElmt_num) (h : row_fill env t i = some t') (hJ : DelayInv env t) :
    DelayInv env t' :=
  foldlM_some_inv (fun t j => pair_fill env t i j) (DelayInv env) _ t t'
    (fun s j s' hj hf hs =>
      (pair_fill_delay env hE s s' i j hi (List.mem_range.mp hj) hf hs).1) h hJ

theorem row_fill_delay_keep (env : ConnEnv α)
    (hE : env.gElmt_num = env.gGrid_row * env.gGrid_row) (t t' : ConnTables α) (i : Nat)
    (hi : i < env.gElmt_num) (h : row_fill env t i = some t') (hJ : DelayInv env t)
    (dx dy p : Nat) (hx : dx < env.gGrid_row) (hy : dy < env.gGrid_row) (hp : p < 4)
    (hold : t.spk_delay (SPK_DELAY_IDX env.gGrid_row dx dy p) = delay_ref env dx dy p) :
    t'.spk_delay (SPK_DELAY_IDX env.gGrid_row dx dy p) = delay_ref env dx dy p :=
  (foldlM_some_inv (fun t j => pair_fill env t i j)
    (fun t => DelayInv env t ∧
      t.spk_delay (SPK_DELAY_IDX env.gGrid_row dx dy p) = delay_ref env dx dy p) _ t t'
    (fun s j s' hj hf hs =>
      have hpf := pair_fill_delay env hE s s' i j hi (List.mem_range.mp hj) hf hs.1
      ⟨hpf.1, hpf.2.2 dx dy p hx hy hp hs.2⟩) h ⟨hJ, hold⟩).2

theorem row_fill_delay_at (env : ConnEnv α)
    (hE : env.gElmt_num = env.gGrid_row * env.gGrid_row) (t t' : ConnTables α) (i j : Nat)
    (hi : i < env.gElmt_num) (hj : j < env.gElmt_num)
    (h : row_fill env t i = some t') (hJ : DelayInv env t) (p : Nat) (hp : p < 4) :
    t'.spk_delay
        (SPK_DELAY_IDX env.gGrid_row (init_d_x env.gGrid_row i j)
          (init_d_y env.gGrid_row i j) p) =
      delay_ref env (init_d_x env.gGrid_row i j) (init_d_y env.gGrid_row i j) p := by
  have hi' : i < env.gGrid_row * env.gGrid_row := hE ▸ hi
  have hj' : j < env.gGrid_row * env.gGrid_row := hE ▸ hj
  have hS : 0 < env.gGrid_row := by
    rcases Nat.eq_zero_or_pos env.gGrid_row with h0 | h0
    · rw [h0] at hi'
      omega
    · exact h0
  have hx := init_d_x_lt env.gGrid_row i j hi' hj'
  have hy := init_d_y_lt env.gGrid_row i j hS
  exact foldlM_some_mem (fun t j => pair_fill env t i j) (DelayInv env)
    (fun t => t.spk_delay
        (SPK_DELAY_IDX env.gGrid_row (init_d_x env.gGrid_row i j)
          (init_d_y env.gGrid_row i j) p) =
      delay_ref env (init_d_x env.gGrid_row i j) (init_d_y env.gGrid_row i j) p) j
    (fun s s' hf hs => (pair_fill_delay env hE s s' i j hi hj hf hs).2.1 p hp)
    _ t t'
    (fun s k s' hk hf hs => (pair_fill_delay env hE s s' i k hi (List.mem_range.mp hk) hf hs).1)
    (fun s k s' hk hf hs hq =>
      (pair_fill_delay env hE s s' i k hi (List.mem_range.mp hk) hf hs).2.2 _ _ p hx hy hp hq)
    (List.mem_range.mpr hj) h hJ

/-- The delay table of a group after `LCM::init`: every entry inside the grid holds the
delay expression at the displacement of its path. -/
theorem build_tables_delay (env : ConnEnv α)
    (hE : env.gElmt_num = env.gGrid_row * env.gGrid_row) (junk_delay : Nat → Int)
    (junk_pct : Nat → α) (draws : List α) (t : ConnTables α)
    (h : build_tables env junk_delay junk_pct draws = some t)
    (dx dy p : Nat) (hx : dx < env.gGrid_row) (hy : dy < env.gGrid_row) (hp : p < 4) :
    t.spk_delay (SPK_DELAY_IDX env.gGrid_row dx dy p) = delay_ref env dx dy p := by
  have hS : 0 < env.gGrid_row := by omega
  have hi0 : dx * env.gGrid_row + dy < env.gElmt_num := by
    rw [hE]
    have : (dx + 1) * env.gGrid_row ≤ env.gGrid_row * env.gGrid_row :=
      Nat.mul_le_mul_right _ hx
    rw [Nat.add_mul, Nat.one_mul] at this
    omega
  have hj0 : 0 < env.gElmt_num := by omega
  have edx : init_d_x env.gGrid_row (dx * env.gGrid_row + dy) 0 = dx := by
    unfold init_d_x
    rw [Nat.zero_div, Nat.mul_comm, Nat.mul_add_div hS, Nat.div_eq_of_lt hy]
    simp
  have edy : init_d_y env.gGrid_row (dx * env.gGrid_row + dy) 0 = dy := by
    unfold init_d_y
    rw [Nat.zero_mod, Nat.mul_comm, Nat.mul_add_mod, Nat.mod_eq_of_lt hy]
    simp
  have hinit : DelayInv env
      { spk_delay := fun i =>
          if i < env.gGrid_row * env.gGrid_row * SPK_PATH_NUM then MAX_INT_NUM
          else junk_delay i
        synp_pct := junk_pct
        draws := draws } := by
    intro dx' dy' p' hx' hy' hp'
    left
    show (if SPK_DELAY_IDX env.gGrid_row dx' dy' p' <
        env.gGrid_row * env.gGrid_row * SPK_PATH_NUM then MAX_INT_NUM else _) = MAX_INT_NUM
    rw [if_pos (SPK_DELAY_IDX_lt _ _ _ _ hx' hy' hp')]
  have := foldlM_some_mem (row_fill env) (DelayInv env)
    (fun t => t.spk_delay (SPK_DELAY_IDX env.gGrid_row dx dy p) = delay_ref env dx dy p)
    (dx * env.gGrid_row + dy)
    (fun s s' hf hs => by
      have := row_fill_delay_at env hE s s' _ 0 hi0 hj0 hf hs p hp
      rwa [edx, edy] at this)
    _ _ t
    (fun s k s' hk hf hs => row_fill_delay_inv env hE s s' k (List.mem_range.mp hk) hf hs)
    (fun s k s' hk hf hs hq =>
      row_fill_delay_keep env hE s s' k (List.mem_range.mp hk) hf hs dx dy p hx hy hp hq)
    (List.mem_range.mpr hi0) h hinit
  exact this

end Connectivity

/-! ## Connectivity tables: the loops return when the generator supplies enough
non-negative values -/

theorem foldlM_some_of_budget {σ ι : Type} (f : σ → ι → Option σ) (m : σ → Nat) (c : Nat)
    (hstep : ∀ s x n, n + c ≤ m s → ∃ s', f s x = some s' ∧ n ≤ m s') :
    ∀ (l : List ι) (s : σ) (n : Nat), n + c * l.length ≤ m s →
      ∃ s', l.foldlM f s = some s' ∧ n ≤ m s'
  | [], s, n, h => ⟨s, rfl, by simpa using h⟩
  | x :: l, s, n, h => by
    have hlen : n + c * (x :: l).length = (n + c * l.length) + c := by
      rw [List.length_cons, Nat.mul_succ]
      omega
    obtain ⟨s1, h1, hm1⟩ := hstep s x (n + c * l.length) (hlen ▸ h)
    obtain ⟨s', h2, hm2⟩ := foldlM_some_of_budget f m c hstep l s1 n hm1
    refine ⟨s', ?_, hm2⟩
    rw [List.foldlM_cons, h1]
    exact h2

section Connectivity

variable {α : Type} [LinearOrderedField α]

theorem draw_jitter_some :
    ∀ (l : List α) (n : Nat), n + 1 ≤ l.countP (fun x => decide (0 ≤ x)) →
      ∃ tmp rest, draw_jitter l = some (tmp, rest) ∧
        n ≤ rest.countP (fun x => decide (0 ≤ x))
  | [], n, h => by simp at h
  | x :: l, n, h => by
    by_cases hx : x < 0
    · have hnx : ¬ (0 ≤ x) := not_le.mpr hx
      rw [List.countP_cons_of_neg _ _ (by simpa using hnx)] at h
      obtain ⟨tmp, rest, h1, h2⟩ := draw_jitter_some l n h
      exact ⟨tmp, rest, by rw [draw_jitter, if_pos hx, h1], h2⟩
    · have hnx : 0 ≤ x := not_lt.mp hx
      rw [List.countP_cons_of_pos _ _ (by simpa using hnx)] at h
      exact ⟨x, l, by rw [draw_jitter, if_neg hx], by omega⟩

theorem path_fill_some (env : ConnEnv α) (a b sd sp : Nat) (t : ConnTables α) (n : Nat)
    (h : n + 1 ≤ t.draws.countP (fun x => decide (0 ≤ x))) :
    ∃ t', path_fill env a b sd sp t = some t' ∧
      n ≤ t'.draws.countP (fun x => decide (0 ≤ x)) := by
  obtain ⟨tmp, rest, h1, h2⟩ := draw_jitter_some t.draws n h
  unfold path_fill
  rw [h1]
  exact ⟨_, rfl, h2⟩

theorem pair_fill_some (env : ConnEnv α) (t : ConnTables α) (i j n : Nat)
    (h : n + 4 ≤ t.draws.countP (fun x => decide (0 ≤ x))) :
    ∃ t', pair_fill env t i j = some t' ∧
      n ≤ t'.draws.countP (fun x => decide (0 ≤ x)) := by
  unfold pair_fill
  obtain ⟨t1, h1, m1⟩ := path_fill_some env (init_d_x env.gGrid_row i j)
    (init_d_y env.gGrid_row i j)
    (SPK_DELAY_IDX env.gGrid_row (init_d_x env.gGrid_row i j) (init_d_y env.gGrid_row i j) 0)
    (SYNP_PCT_IDX env.gElmt_num i j 0) t (n + 3) h
  obtain ⟨t2, h2, m2⟩ := path_fill_some env (env.gGrid_row - init_d_x env.gGrid_row i j)
    (init_d_y env.gGrid_row i j)
    (SPK_DELAY_IDX env.gGrid_row (init_d_x env.gGrid_row i j) (init_d_y env.gGrid_row i j) 0 + 1)
    (SYNP_PCT_IDX env.gElmt_num i j 0 + 1) t1 (n + 2) m1
  obtain ⟨t3, h3, m3⟩ := path_fill_some env (init_d_x env.gGrid_row i j)
    (env.gGrid_row - init_d_y env.gGrid_row i j)
    (SPK_DELAY_IDX env.gGrid_row (init_d_x env.gGrid_row i j) (init_d_y env.gGrid_row i j) 0 + 2)
    (SYNP_PCT_IDX env.gElmt_num i j 0 + 2) t2 (n + 1) m2
  obtain ⟨t4, h4, m4⟩ := path_fill_some env (env.gGrid_row - init_d_x env.gGrid_row i j)
    (env.gGrid_row - init_d_y env.gGrid_row i j)
    (SPK_DELAY_IDX env.gGrid_row (init_d_x env.gGrid_row i j) (init_d_y env.gGrid_row i j) 0 + 3)
    (SYNP_PCT_IDX env.gElmt_num i j 0 + 3) t3 n m3
  refine ⟨t4, ?_, m4⟩
  simp only [h1, h2, h3, h4, Option.some_bind]

theorem row_fill_some (env : ConnEnv α) (t : ConnTables α) (i n : Nat)
    (h : n + 4 * env.gElmt_num ≤ t.draws.countP (fun x => decide (0 ≤ x))) :
    ∃ t', row_fill env t i = some t' ∧ n ≤ t'.draws.countP (fun x => decide (0 ≤ x)) := by
  have := foldlM_some_of_budget (fun t j => pair_fill env t i j)
    (fun t => t.draws.countP (fun x => decide (0 ≤ x))) 4
    (fun s x n hn => pair_fill_some env s i x n hn) (List.range env.gElmt_num) t n
    (by rw [List.length_range]; exact h)
  exact this

/-- The table-building loops of `LCM::init` return for a neuron group as soon as the
generator supplies `4 * gElmt_num * gElmt_num` non-negative values. -/
theorem build_tables_some (env : ConnEnv α) (junk_delay : Nat → Int) (junk_pct : Nat → α)
    (draws : List α)
    (h : 4 * env.gElmt_num * env.gElmt_num ≤ draws.countP (fun x => decide (0 ≤ x))) :
    ∃ t, build_tables env junk_delay junk_pct draws = some t := by
  obtain ⟨t, ht, _⟩ := foldlM_some_of_budget (row_fill env)
    (fun t => t.draws.countP (fun x => decide (0 ≤ x))) (4 * env.gElmt_num)
    (fun s x n hn => row_fill_some env s x n hn) (List.range env.gElmt_num)
    { spk_delay := fun i =>
        if i < env.gGrid_row * env.gGrid_row * SPK_PATH_NUM then MAX_INT_NUM else junk_delay i
      synp_pct := junk_pct
      draws := draws } 0
    (by rw [List.length_range, Nat.zero_add]; exact h)
  exact ⟨t, ht⟩

end Connectivity

/-! ## Connectivity tables: the density table -/

section Connectivity

variable {α : Type} [LinearOrderedField α]

theorem path_fill_pct (env : ConnEnv α) (a b sd sp : Nat) (t t' : ConnTables α)
    (h : path_fill env a b sd sp t = some t') :
    (t'.synp_pct sp = 0 ∨ SYNP_RATIO_EPS α ≤ t'.synp_pct sp) ∧
    ∀ idx, (t.synp_pct idx = 0 ∨ SYNP_RATIO_EPS α ≤ t.synp_pct idx) →
      (t'.synp_pct idx = 0 ∨ SYNP_RATIO_EPS α ≤ t'.synp_pct idx) := by
  obtain ⟨_, pct, hpct⟩ := path_fill_eq env a b sd sp t t' h
  have hsp : t'.synp_pct sp = 0 ∨ SYNP_RATIO_EPS α ≤ t'.synp_pct sp := by
    rw [hpct, Function.update_same]
    by_cases hlt : pct < SYNP_RATIO_EPS α
    · rw [if_pos hlt]
      exact Or.inl rfl
    · rw [if_neg hlt]
      exact Or.inr (not_lt.mp hlt)
  refine ⟨hsp, ?_⟩
  intro idx hold
  by_cases hi : idx = sp
  · rw [hi]
    exact hsp
  · rw [hpct, Function.update_noteq hi]
    exact hold

theorem pair_fill_pct (env : ConnEnv α) (t t' : ConnTables α) (i j : Nat)
    (h : pair_fill env t i j = some t') :
    (∀ p, p < 4 →
      (t'.synp_pct (SYNP_PCT_IDX env.gElmt_num i j p) = 0 ∨
        SYNP_RATIO_EPS α ≤ t'.synp_pct (SYNP_PCT_IDX env.gElmt_num i j p))) ∧
    ∀ idx, (t.synp_pct idx = 0 ∨ SYNP_RATIO_EPS α ≤ t.synp_pct idx) →
      (t'.synp_pct idx = 0 ∨ SYNP_RATIO_EPS α ≤ t'.synp_pct idx) := by
  unfold pair_fill at h
  simp only [Option.bind_eq_some] at h
  obtain ⟨t1, h1, t2, h2, t3, h3, h4⟩ := h
  obtain ⟨A1, K1⟩ := path_fill_pct env _ _ _ _ t t1 h1
  obtain ⟨A2, K2⟩ := path_fill_pct env _ _ _ _ t1 t2 h2
  obtain ⟨A3, K3⟩ := path_fill_pct env _ _ _ _ t2 t3 h3
  obtain ⟨A4, K4⟩ := path_fill_pct env _ _ _ _ t3 t' h4
  refine ⟨?_, fun idx hold => K4 idx (K3 idx (K2 idx (K1 idx hold)))⟩
  intro p hp
  have hp' : p = 0 ∨ p = 1 ∨ p = 2 ∨ p = 3 := by omega
  rcases hp' with rfl | rfl | rfl | rfl
  · exact K4 _ (K3 _ (K2 _ A1))
  · rw [← SYNP_PCT_IDX_succ]
    exact K4 _ (K3 _ A2)
  · rw [← SYNP_PCT_IDX_succ]
    exact K4 _ A3
  · rw [← SYNP_PCT_IDX_succ]
    exact A4

theorem row_fill_pct (env : ConnEnv α) (t t' : ConnTables α) (i : Nat)
    (h : row_fill env t i = some t') :
    (∀ j p, j < env.gElmt_num → p < 4 →
      (t'.synp_pct (SYNP_PCT_IDX env.gElmt_num i j p) = 0 ∨
        SYNP_RATIO_EPS α ≤ t'.synp_pct (SYNP_PCT_IDX env.gElmt_num i j p))) ∧
    ∀ idx, (t.synp_pct idx = 0 ∨ SYNP_RATIO_EPS α ≤ t.synp_pct idx) →
      (t'.synp_pct idx = 0 ∨ SYNP_RATIO_EPS α ≤ t'.synp_pct idx) := by
  constructor
  · intro j p hj hp
    exact foldlM_some_mem (fun t j => pair_fill env t i j) (fun _ => True)
      (fun t => t.synp_pct (SYNP_PCT_IDX env.gElmt_num i j p) = 0 ∨
        SYNP_RATIO_EPS α ≤ t.synp_pct (SYNP_PCT_IDX env.gElmt_num i j p)) j
      (fun s s' hf _ => (pair_fill_pct env s s' i j hf).1 p hp)
      _ t t' (fun _ _ _ _ _ _ => trivial)
      (fun s k s' _ hf _ hq => (pair_fill_pct env s s' i k hf).2 _ hq)
      (List.mem_range.mpr hj) h trivial
  · intro idx hold
    exact foldlM_some_inv (fun t j => pair_fill env t i j)
      (fun t => t.synp_pct idx = 0 ∨ SYNP_RATIO_EPS α ≤ t.synp_pct idx) _ t t'
      (fun s k s' _ hf hq => (pair_fill_pct env s s' i k hf).2 idx hq) h hold

theorem build_tables_pct (env : ConnEnv α) (junk_delay : Nat → Int) (junk_pct : Nat → α)
    (draws : List α) (t : ConnTables α)
    (h : build_tables env junk_delay junk_pct draws = some t)
    (i j p : Nat) (hi : i < env.gElmt_num) (hj : j < env.gElmt_num) (hp : p < 4) :
    t.synp_pct (SYNP_PCT_IDX env.gElmt_num i j p) = 0 ∨
      SYNP_RATIO_EPS α ≤ t.synp_pct (SYNP_PCT_IDX env.gElmt_num i j p) :=
  foldlM_some_mem (row_fill env) (fun _ => True)
    (fun t => t.synp_pct (SYNP_PCT_IDX env.gElmt_num i j p) = 0 ∨
      SYNP_RATIO_EPS α ≤ t.synp_pct (SYNP_PCT_IDX env.gElmt_num i j p)) i
    (fun s s' hf _ => (row_fill_pct env s s' i hf).1 j p hj hp)
    _ _ t (fun _ _ _ _ _ _ => trivial)
    (fun s k s' _ hf _ hq => (row_fill_pct env s s' k hf).2 _ hq)
    (List.mem_range.mpr hi) h trivial

theorem SYNP_RATIO_EPS_pos : (0 : α) < SYNP_RATIO_EPS α := by
  unfold SYNP_RATIO_EPS
  positivity

end Connectivity

/-! ## Connectivity tables: the claims -/

section Connectivity

variable {α : Type} [LinearOrderedField α]

theorem jitter_supply_count :
    4 * grid_env.gElmt_num * grid_env.gElmt_num ≤
      jitter_supply.countP (fun x => decide (0 ≤ x)) := by
  have h2 : ¬ ((0 : ℚ) ≤ -1 / 2) := by norm_num
  unfold jitter_supply
  rw [List.countP_cons_of_neg _ _ (by simp),
    List.countP_cons_of_neg _ _ (by simpa using h2), List.countP_replicate,
    if_pos (by simp)]
  decide

/-- C7. In the delay table `LCM::init` builds for a neuron group on a grid of side `S`,
the entry `(dx, dy, path 0)` equals the entry `(S - dx, S - dy, path 3)` for all
displacements with `1 ≤ dx ≤ S - 1` and `1 ≤ dy ≤ S - 1`. -/
theorem delay_periodic_symmetry (env : ConnEnv α)
    (hE : env.gElmt_num = env.gGrid_row * env.gGrid_row) (junk_delay : Nat → Int)
    (junk_pct : Nat → α) (draws : List α) (t : ConnTables α)
    (h : build_tables env junk_delay junk_pct draws = some t) (dx dy : Nat)
    (hx1 : 1 ≤ dx) (hx2 : dx ≤ env.gGrid_row - 1) (hy1 : 1 ≤ dy)
    (hy2 : dy ≤ env.gGrid_row - 1) :
    t.spk_delay (SPK_DELAY_IDX env.gGrid_row dx dy 0) =
      t.spk_delay
        (SPK_DELAY_IDX env.gGrid_row (env.gGrid_row - dx) (env.gGrid_row - dy) 3) := by
  rw [build_tables_delay env hE junk_delay junk_pct draws t h dx dy 0 (by omega) (by omega)
      (by decide),
    build_tables_delay env hE junk_delay junk_pct draws t h (env.gGrid_row - dx)
      (env.gGrid_row - dy) 3 (by omega) (by omega) (by decide)]
  have e1 : env.gGrid_row - (env.gGrid_row - dx) = dx := by omega
  have e2 : env.gGrid_row - (env.gGrid_row - dy) = dy := by omega
  simp [delay_ref, wrap_disp, e1, e2]

/-- C7 on the 3 x 3 grid at the displacement `(1, 2)`. -/
theorem delay_periodic_symmetry_witness :
    ∃ t, build_tables grid_env (fun _ => 0) (fun _ => -1) jitter_supply = some t ∧
      grid_env.gElmt_num = grid_env.gGrid_row * grid_env.gGrid_row ∧
      1 ≤ 1 ∧ 1 ≤ grid_env.gGrid_row - 1 ∧ 1 ≤ 2 ∧ 2 ≤ grid_env.gGrid_row - 1 ∧
      t.spk_delay (SPK_DELAY_IDX grid_env.gGrid_row 1 2 0) =
        t.spk_delay
          (SPK_DELAY_IDX grid_env.gGrid_row (grid_env.gGrid_row - 1)
            (grid_env.gGrid_row - 2) 3) := by
  obtain ⟨t, ht⟩ := build_tables_some grid_env (fun _ => 0) (fun _ => -1) jitter_supply
    jitter_supply_count
  exact ⟨t, ht, rfl, by decide, by decide, by decide, by decide,
    delay_periodic_symmetry grid_env rfl _ _ _ t ht 1 2 (by decide) (by decide) (by decide)
      (by decide)⟩

/-- C8. After the table-building loops of `LCM::init`, every delay-table entry
`(dx, dy, path)` with `dx, dy < S` holds
`static_cast<TInt>(sqrt(dx'^2 + dy'^2) * gElmt_size / (spk_speed * gStep_size) + 0.5)`,
where `(dx', dy')` is `(dx, dy)`, `(S - dx, dy)`, `(dx, S - dy)`, `(S - dx, S - dy)` for
path 0, 1, 2, 3. The entry is a function of the displacement and the path alone: any
other run of the loops (other generator values, other initial memory) gives the same
entries, whichever element pair wrote them first. -/
theorem delay_table_entry (env : ConnEnv α)
    (hE : env.gElmt_num = env.gGrid_row * env.gGrid_row) (junk_delay : Nat → Int)
    (junk_pct : Nat → α) (draws : List α) (t : ConnTables α)
    (h : build_tables env junk_delay junk_pct draws = some t) (dx dy : Nat)
    (hx : dx < env.gGrid_row) (hy : dy < env.gGrid_row) :
    t.spk_delay (SPK_DELAY_IDX env.gGrid_row dx dy 0) = env.elmt_delay dx dy ∧
    t.spk_delay (SPK_DELAY_IDX env.gGrid_row dx dy 1) =
      env.elmt_delay (env.gGrid_row - dx) dy ∧
    t.spk_delay (SPK_DELAY_IDX env.gGrid_row dx dy 2) =
      env.elmt_delay dx (env.gGrid_row - dy) ∧
    t.spk_delay (SPK_DELAY_IDX env.gGrid_row dx dy 3) =
      env.elmt_delay (env.gGrid_row - dx) (env.gGrid_row - dy) ∧
    ∀ (junk_delay' : Nat → Int) (junk_pct' : Nat → α) (draws' : List α) (t' : ConnTables α),
      build_tables env junk_delay' junk_pct' draws' = some t' → ∀ p, p < 4 →
        t'.spk_delay (SPK_DELAY_IDX env.gGrid_row dx dy p) =
          t.spk_delay (SPK_DELAY_IDX env.gGrid_row dx dy p) := by
  have key := fun p hp => build_tables_delay env hE junk_delay junk_pct draws t h dx dy p hx hy hp
  refine ⟨?_, ?_, ?_, ?_, ?_⟩
  · rw [key 0 (by decide)]
    simp [delay_ref, wrap_disp]
  · rw [key 1 (by decide)]
    simp [delay_ref, wrap_disp]
  · rw [key 2 (by decide)]
    simp [delay_ref, wrap_disp]
  · rw [key 3 (by decide)]
    simp [delay_ref, wrap_disp]
  · intro jd' jp' dr' t' h' p hp
    rw [key p hp, build_tables_delay env hE jd' jp' dr' t' h' dx dy p hx hy hp]

/-- C8 on the 3 x 3 grid at the displacement `(1, 2)`. -/
theorem delay_table_entry_witness :
    ∃ t, build_tables grid_env (fun _ => 0) (fun _ => -1) jitter_supply = some t ∧
      grid_env.gElmt_num = grid_env.gGrid_row * grid_env.gGrid_row ∧
      1 < grid_env.gGrid_row ∧ 2 < grid_env.gGrid_row ∧
      t.spk_delay (SPK_DELAY_IDX grid_env.gGrid_row 1 2 0) = grid_env.elmt_delay 1 2 ∧
      t.spk_delay (SPK_DELAY_IDX grid_env.gGrid_row 1 2 1) =
        grid_env.elmt_delay (grid_env.gGrid_row - 1) 2 ∧
      t.spk_delay (SPK_DELAY_IDX grid_env.gGrid_row 1 2 2) =
        grid_env.elmt_delay 1 (grid_env.gGrid_row - 2) ∧
      t.spk_delay (SPK_DELAY_IDX grid_env.gGrid_row 1 2 3) =
        grid_env.elmt_delay (grid_env.gGrid_row - 1) (grid_env.gGrid_row - 2) := by
  obtain ⟨t, ht⟩ := build_tables_some grid_env (fun _ => 0) (fun _ => -1) jitter_supply
    jitter_supply_count
  have hw := delay_table_entry grid_env rfl _ _ _ t ht 1 2 (by decide) (by decide)
  exact ⟨t, ht, rfl, by decide, by decide, hw.1, hw.2.1, hw.2.2.1, hw.2.2.2.1⟩

/-- C9. After the table-building loops of `LCM::init`, every stored density coefficient
(every element pair and path of the group) is exactly 0 or at least `SYNP_RATIO_EPS`:
none is negative and none lies strictly between 0 and `SYNP_RATIO_EPS`, whatever the
generator and `eqn_synp_ratio` return. -/
theorem density_zero_or_above_eps (env : ConnEnv α) (junk_delay : Nat → Int)
    (junk_pct : Nat → α) (draws : List α) (t : ConnTables α)
    (h : build_tables env junk_delay junk_pct draws = some t)
    (i j p : Nat) (hi : i < env.gElmt_num) (hj : j < env.gElmt_num) (hp : p < 4) :
    (t.synp_pct (SYNP_PCT_IDX env.gElmt_num i j p) = 0 ∨
      SYNP_RATIO_EPS α ≤ t.synp_pct (SYNP_PCT_IDX env.gElmt_num i j p)) ∧
    0 ≤ t.synp_pct (SYNP_PCT_IDX env.gElmt_num i j p) ∧
    ¬ (0 < t.synp_pct (SYNP_PCT_IDX env.gElmt_num i j p) ∧
      t.synp_pct (SYNP_PCT_IDX env.gElmt_num i j p) < SYNP_RATIO_EPS α) := by
  have hd := build_tables_pct env junk_delay junk_pct draws t h i j p hi hj hp
  have hpos : (0 : α) < SYNP_RATIO_EPS α := SYNP_RATIO_EPS_pos
  refine ⟨hd, ?_, ?_⟩
  · rcases hd with h0 | h1
    · exact le_of_eq h0.symm
    · exact le_trans (le_of_lt hpos) h1
  · rintro ⟨hgt, hlt⟩
    rcases hd with h0 | h1
    · exact absurd h0 (ne_of_gt hgt)
    · exact absurd hlt (not_lt.mpr h1)

/-- C9 on the 3 x 3 grid for the element pair `(4, 7)` under path 2. -/
theorem density_zero_or_above_eps_witness :
    ∃ t, build_tables grid_env (fun _ => 0) (fun _ => -1) jitter_supply = some t ∧
      4 < grid_env.gElmt_num ∧ 7 < grid_env.gElmt_num ∧
      ((t.synp_pct (SYNP_PCT_IDX grid_env.gElmt_num 4 7 2) = 0 ∨
        SYNP_RATIO_EPS ℚ ≤ t.synp_pct (SYNP_PCT_IDX grid_env.gElmt_num 4 7 2)) ∧
      0 ≤ t.synp_pct (SYNP_PCT_IDX grid_env.gElmt_num 4 7 2) ∧
      ¬ (0 < t.synp_pct (SYNP_PCT_IDX grid_env.gElmt_num 4 7 2) ∧
        t.synp_pct (SYNP_PCT_IDX grid_env.gElmt_num 4 7 2) < SYNP_RATIO_EPS ℚ)) := by
  obtain ⟨t, ht⟩ := build_tables_some grid_env (fun _ => 0) (fun _ => -1) jitter_supply
    jitter_supply_count
  exact ⟨t, ht, by decide, by decide,
    density_zero_or_above_eps grid_env _ _ _ t ht 4 7 2 (by decide) (by decide) (by decide)⟩

end Connectivity

/-! ## Step 5 of `advance`: the accumulated magnitude -/

section Engine

variable {α ω : Type} [LinearOrderedField α]

theorem path_term_eq (tmp_NM : α) (sy : SynpConn α) (s_psp : DynamicArray α)
    (spk_delay : Int) (synp_pct : α) (mag : α) :
    path_term tmp_NM sy s_psp spk_delay synp_pct mag =
      mag + (if synp_pct > SYNP_RATIO_EPS α then
        tmp_NM * synp_pct * s_psp.get_front (((sy.sy_spk_delay : Int) + spk_delay).toNat)
      else 0) := by
  unfold path_term
  split
  · rfl
  · rw [add_zero]

theorem foldl_add_eq_sum {ι : Type} (f : ι → α) :
    ∀ (l : List ι) (a : α), l.foldl (fun acc x => acc + f x) a = a + (l.map f).sum
  | [], a => by simp
  | x :: l, a => by
    rw [List.foldl_cons, foldl_add_eq_sum f l (a + f x), List.map_cons, List.sum_cons, add_assoc]

theorem source_term_eq (s : Simulation α ω) (sn : NeurGrp α) (sy : SynpConn α)
    (ircpt t_elmt : Nat) (V : α) (mag : α) (s_elmt : Nat) :
    source_term s sn.index ircpt t_elmt sy (sy.sy_weight * (sn.V_rev - V)) mag s_elmt =
      mag + ((List.range 4).map fun p =>
        (if s.gSynp_pct sn.index (SYNP_PCT_IDX s.gElmt_num s_elmt t_elmt p) >
            SYNP_RATIO_EPS α then 1 else 0) *
        sy.sy_weight * (sn.V_rev - V) *
        s.gSynp_pct sn.index (SYNP_PCT_IDX s.gElmt_num s_elmt t_elmt p) *
        (s.gPSP s_elmt sn.index ircpt).get_front
          (((sy.sy_spk_delay : Int) +
            s.gSpk_delay sn.index
              (SPK_DELAY_IDX s.gGrid_row
                (Int.natAbs ((s.gElmtX t_elmt : Int) - (s.gElmtX s_elmt : Int)))
                (Int.natAbs ((s.gElmtY t_elmt : Int) - (s.gElmtY s_elmt : Int)))
                p)).toNat)).sum := by
  have hr : List.range 4 = [0, 1, 2, 3] := by decide
  simp only [source_term, path_term_eq, hr, List.map_cons, List.map_nil, List.sum_cons,
    List.sum_nil, SPK_DELAY_IDX_succ, SYNP_PCT_IDX_succ]
  split_ifs <;> ring

theorem source_walk_eq (s : Simulation α ω) (sn : NeurGrp α) (sy : SynpConn α)
    (ircpt t_elmt : Nat) (V : α) :
    source_walk s sn.index ircpt t_elmt sy (sy.sy_weight * (sn.V_rev - V)) =
      mag_ref s sn sy ircpt t_elmt V := by
  unfold source_walk mag_ref
  have h : source_term s sn.index ircpt t_elmt sy (sy.sy_weight * (sn.V_rev - V)) =
      fun mag s_elmt => mag + ((List.range 4).map fun p =>
        (if s.gSynp_pct sn.index (SYNP_PCT_IDX s.gElmt_num s_elmt t_elmt p) >
            SYNP_RATIO_EPS α then 1 else 0) *
        sy.sy_weight * (sn.V_rev - V) *
        s.gSynp_pct sn.index (SYNP_PCT_IDX s.gElmt_num s_elmt t_elmt p) *
        (s.gPSP s_elmt sn.index ircpt).get_front
          (((sy.sy_spk_delay : Int) +
            s.gSpk_delay sn.index
              (SPK_DELAY_IDX s.gGrid_row
                (Int.natAbs ((s.gElmtX t_elmt : Int) - (s.gElmtX s_elmt : Int)))
                (Int.natAbs ((s.gElmtY t_elmt : Int) - (s.gElmtY s_elmt : Int)))
                p)).toNat)).sum := by
    funext mag s_elmt
    exact source_term_eq s sn sy ircpt t_elmt V mag s_elmt
  rw [h, foldl_add_eq_sum, zero_add]

/-- C3. For every target element `t_elmt`, source group `sn`, connection `sy` of `sn`
and receptor `rc` at position `ircpt`, the magnitude that step 5 of `advance`
accumulates with its unrolled four-path pointer walk, with `V` the current voltage of
the target line, equals the double sum `mag_ref` over the source elements and the paths
0..3; the body of the receptor loop adds the receptor kernel scaled by that magnitude
to the target voltage line at offset `psp_delay` exactly when the magnitude exceeds
`VOLT_EPS`, leaving the line unchanged otherwise; and the connection loop runs this
body for every receptor of the source polarity with `V` the rear voltage of the target
line `(t_elmt, sy.post)`. -/
theorem step5_magnitude (s : Simulation α ω) (sn : NeurGrp α) (sy : SynpConn α)
    (ircpt t_elmt : Nat) (rc : Receptor α) (V : α) (t_volt : DynamicArray α)
    (row : Nat → DynamicArray α) :
    source_walk s sn.index ircpt t_elmt sy (sy.sy_weight * (sn.V_rev - V)) =
      mag_ref s sn sy ircpt t_elmt V ∧
    rcpt_body s sn sy t_elmt (sy.sy_weight * (sn.V_rev - V)) t_volt ircpt rc =
      (if mag_ref s sn sy ircpt t_elmt V > VOLT_EPS α then
        t_volt.add2rear rc.psp rc.psp_size sy.sy_psp_delay (mag_ref s sn sy ircpt t_elmt V)
      else t_volt) ∧
    conn_body s sn t_elmt row sy =
      Function.update row sy.sy_post
        (fold_idx
          (fun tv i r =>
            if mag_ref s sn sy i t_elmt (row sy.sy_post).rear > VOLT_EPS α then
              tv.add2rear r.psp r.psp_size sy.sy_psp_delay
                (mag_ref s sn sy i t_elmt (row sy.sy_post).rear)
            else tv)
          (if sn.ng_type = TNeur.cEXCIT then s.gRcpt_excit else s.gRcpt_inhib) 0
          (row sy.sy_post)) := by
  have h := source_walk_eq s sn sy ircpt t_elmt V
  refine ⟨h, ?_, ?_⟩
  · unfold rcpt_body
    rw [h]
  · have hf : rcpt_body s sn sy t_elmt (sy.sy_weight * (sn.V_rev - (row sy.sy_post).rear)) =
        fun tv i r =>
          if mag_ref s sn sy i t_elmt (row sy.sy_post).rear > VOLT_EPS α then
            tv.add2rear r.psp r.psp_size sy.sy_psp_delay
              (mag_ref s sn sy i t_elmt (row sy.sy_post).rear)
          else tv := by
      funext tv i r
      unfold rcpt_body
      rw [source_walk_eq s sn sy i t_elmt (row sy.sy_post).rear]
    unfold conn_body
    rw [hf]

end Engine

/-! ## Step 6 of `advance`: the clamp -/

theorem fold_idx_update_below {β γ : Type} (g : Nat → γ → β → β) :
    ∀ (l : List γ) (k : Nat) (row : Nat → β) (j : Nat), j < k →
      fold_idx (fun row i x => Function.update row i (g i x (row i))) l k row j = row j
  | [], _, _, _, _ => rfl
  | x :: l, k, row, j, hj => by
    rw [fold_idx, fold_idx_update_below g l (k + 1) _ j (by omega),
      Function.update_noteq (by omega)]

theorem fold_idx_update_prop {β γ : Type} (g : Nat → γ → β → β) (P : β → Prop)
    (hP : ∀ i x v, P (g i x v)) :
    ∀ (l : List γ) (k : Nat) (row : Nat → β) (j : Nat), k ≤ j → j < k + l.length →
      P (fold_idx (fun row i x => Function.update row i (g i x (row i))) l k row j)
  | [], k, _, j, h1, h2 => by
    simp at h2
    omega
  | x :: l, k, row, j, h1, h2 => by
    rw [fold_idx]
    by_cases hj : j = k
    · rw [fold_idx_update_below g l (k + 1) _ j (by omega), hj, Function.update_same]
      exact hP _ _ _
    · exact fold_idx_update_prop g P hP l (k + 1) _ j (by omega)
        (by rw [List.length_cons] at h2; omega)

theorem foldl_range_update {β : Type} (F : Nat → β → β) (v : Nat → β) :
    ∀ (n e : Nat),
      (List.range n).foldl (fun m i => Function.update m i (F i (m i))) v e =
        if e < n then F e (v e) else v e
  | 0, e => by simp
  | n + 1, e => by
    rw [List.range_succ, List.foldl_append, List.foldl_cons, List.foldl_nil]
    by_cases he : e = n
    · rw [he, Function.update_same, foldl_range_update F v n n, if_neg (by omega),
        if_pos (by omega)]
    · rw [Function.update_noteq he, foldl_range_update F v n e]
      by_cases h2 : e < n
      · rw [if_pos h2, if_pos (by omega)]
      · rw [if_neg h2, if_neg (by omega)]

section Engine

variable {α ω : Type} [LinearOrderedField α]

theorem V_rev_step_le (b : α × α) (ng : NeurGrp α) (h : b.1 ≤ b.2) :
    (V_rev_step b ng).1 ≤ (V_rev_step b ng).2 := by
  unfold V_rev_step
  dsimp only
  split_ifs with h1 h2 h2
  · exact le_refl _
  · exact le_trans (le_of_lt h1) h
  · exact le_trans h (le_of_lt h2)
  · exact h

theorem foldl_V_rev_step_le :
    ∀ (l : List (NeurGrp α)) (b : α × α), b.1 ≤ b.2 →
      (l.foldl V_rev_step b).1 ≤ (l.foldl V_rev_step b).2
  | [], _, h => h
  | ng :: l, b, h => foldl_V_rev_step_le l (V_rev_step b ng) (V_rev_step_le b ng h)

/-- The bounds computed by `LCM::init` are ordered. -/
theorem init_V_rev_le (gNeur : List (NeurGrp α)) :
    (init_V_rev gNeur).1 ≤ (init_V_rev gNeur).2 := by
  unfold init_V_rev
  split
  · exact le_refl _
  · exact foldl_V_rev_step_le _ _ (le_refl _)

/-- The voltage written by step 6 lies between the two bounds, and it is the value
`rear()` returns afterwards. -/
theorem volt_cell_rear (s : Simulation α ω) (ng : NeurGrp α) (t_volt : DynamicArray α)
    (h : s.gV_rev_min ≤ s.gV_rev_max) :
    s.gV_rev_min ≤ (volt_cell s ng t_volt).rear ∧
      (volt_cell s ng t_volt).rear ≤ s.gV_rev_max := by
  have hidx : ((t_volt.f_rear + 1) &&& t_volt.f_last) + 0 &&& t_volt.f_last =
      (t_volt.f_rear + 1) &&& t_volt.f_last := by
    rw [Nat.add_zero, Nat.and_assoc, Nat.and_self]
  have hrear : (volt_cell s ng t_volt).rear =
      (if (t_volt.rear - ng.V_0) * ng.mp_decay_step + t_volt.step_backward.rear <
          s.gV_rev_min then s.gV_rev_min
       else if (t_volt.rear - ng.V_0) * ng.mp_decay_step + t_volt.step_backward.rear >
          s.gV_rev_max then s.gV_rev_max
       else (t_volt.rear - ng.V_0) * ng.mp_decay_step + t_volt.step_backward.rear) := by
    show Function.update t_volt.step_backward.p_bgn
      (((t_volt.f_rear + 1) &&& t_volt.f_last) + 0 &&& t_volt.f_last) _
      ((t_volt.f_rear + 1) &&& t_volt.f_last) = _
    rw [hidx, Function.update_same]
  rw [hrear]
  split_ifs with h1 h2
  · exact ⟨le_refl _, h⟩
  · exact ⟨h, le_refl _⟩
  · exact ⟨not_lt.mp h1, not_lt.mp h2⟩

end Engine

/-! ## `advance`: what the steps leave unchanged -/

section EngineFrame

variable {α ω : Type}

theorem advance_head_consts (ops : StimOps α ω) (s : Simulation α ω) :
    (advance_head ops s).gNeur = s.gNeur ∧ (advance_head ops s).gElmt_num = s.gElmt_num ∧
    (advance_head ops s).gV_rev_min = s.gV_rev_min ∧
    (advance_head ops s).gV_rev_max = s.gV_rev_max ∧
    (advance_head ops s).gTotal_step = s.gTotal_step ∧
    (advance_head ops s).tEvlt_step = s.tEvlt_step := by
  unfold advance_head
  dsimp only
  split <;> exact ⟨rfl, rfl, rfl, rfl, rfl, rfl⟩

theorem advance_head_windows (ops : StimOps α ω) (s : Simulation α ω) :
    (advance_head ops s).output_time = (window_scan s.tEvlt_step s.output_time).1 ∧
    (advance_head ops s).tOut_flg = (window_scan s.tEvlt_step s.output_time).2 := by
  unfold advance_head
  dsimp only
  split <;> exact ⟨rfl, rfl⟩

end EngineFrame

section Engine

variable {α ω : Type} [LinearOrderedField α]

/-- The state on which step 6 of a full `advance` works. -/
theorem advance_of_le (ops : StimOps α ω) (s : Simulation α ω)
    (h : s.tEvlt_step + 1 ≤ s.gTotal_step) :
    advance ops s =
      stim_advance ops (volt_update (synaptic_drive (psp_update (ext_drive ops
        (advance_head ops { s with tEvlt_step := s.tEvlt_step + 1, tOut_flg := false }))))) := by
  unfold advance
  dsimp only
  rw [if_neg (not_lt.mpr h)]

theorem advance_of_gt (ops : StimOps α ω) (s : Simulation α ω)
    (h : s.gTotal_step < s.tEvlt_step + 1) :
    advance ops s = { s with tEvlt_step := s.tEvlt_step + 1, tOut_flg := false } := by
  unfold advance
  dsimp only
  rw [if_pos h]

/-- C4. After every `advance()` call that executes a step (the incremented step counter
does not exceed `gTotal_step`), the current (rear) voltage of every element and neuron
group lies in `[gV_rev_min, gV_rev_max]`, the minimum and maximum reversal potential
as the loop of `LCM::init` computes them. -/
theorem advance_voltage_clamped (ops : StimOps α ω) (s : Simulation α ω)
    (hmin : s.gV_rev_min = (init_V_rev s.gNeur).1)
    (hmax : s.gV_rev_max = (init_V_rev s.gNeur).2)
    (hstep : s.tEvlt_step + 1 ≤ s.gTotal_step) (e g : Nat) (he : e < s.gElmt_num)
    (hg : g < s.gNeur.length) :
    s.gV_rev_min ≤ ((advance ops s).gVolt e g).rear ∧
      ((advance ops s).gVolt e g).rear ≤ s.gV_rev_max := by
  have hle : s.gV_rev_min ≤ s.gV_rev_max := by
    rw [hmin, hmax]
    exact init_V_rev_le s.gNeur
  rw [advance_of_le ops s hstep]
  obtain ⟨c1, c2, c3, c4, _, _⟩ :=
    advance_head_consts ops { s with tEvlt_step := s.tEvlt_step + 1, tOut_flg := false }
  generalize hX : synaptic_drive (psp_update (ext_drive ops
    (advance_head ops { s with tEvlt_step := s.tEvlt_step + 1, tOut_flg := false }))) = X
  have x1 : X.gNeur = s.gNeur := by rw [← hX]; exact c1
  have x2 : X.gElmt_num = s.gElmt_num := by rw [← hX]; exact c2
  have x3 : X.gV_rev_min = s.gV_rev_min := by rw [← hX]; exact c3
  have x4 : X.gV_rev_max = s.gV_rev_max := by rw [← hX]; exact c4
  show s.gV_rev_min ≤ ((volt_update X).gVolt e g).rear ∧
    ((volt_update X).gVolt e g).rear ≤ s.gV_rev_max
  have hv : (volt_update X).gVolt e =
      fold_idx (fun row s_neur ng => Function.update row s_neur (volt_cell X ng (row s_neur)))
        X.gNeur 0 (X.gVolt e) := by
    show (List.range X.gElmt_num).foldl _ X.gVolt e = _
    rw [foldl_range_update
      (fun _ row => fold_idx
        (fun row s_neur ng => Function.update row s_neur (volt_cell X ng (row s_neur)))
        X.gNeur 0 row) X.gVolt X.gElmt_num e, if_pos (by rw [x2]; exact he)]
  rw [hv, ← x3, ← x4]
  exact fold_idx_update_prop (fun _ ng v => volt_cell X ng v)
    (fun v => X.gV_rev_min ≤ v.rear ∧ v.rear ≤ X.gV_rev_max)
    (fun _ ng v => volt_cell_rear X ng v (by rw [x3, x4]; exact hle))
    X.gNeur 0 (X.gVolt e) g (Nat.zero_le g) (by rw [x1, Nat.zero_add]; exact hg)

end Engine

/-! ## Step 1 of `advance`: the output windows -/

theorem window_scan_sublist (t : Int) :
    ∀ l : List TTimeWin, (window_scan t l).1.Sublist l
  | [] => List.Sublist.refl _
  | w :: ws => by
    unfold window_scan
    split
    · exact List.Sublist.cons w (window_scan_sublist t ws)
    · split
      · exact List.Sublist.refl _
      · exact List.Sublist.cons₂ w (window_scan_sublist t ws)

theorem window_scan_keeps (t : Int) :
    ∀ (l : List TTimeWin) (w : TTimeWin), w ∈ l → t ≤ w.end_step → w ∈ (window_scan t l).1
  | [], _, h, _ => absurd h (List.not_mem_nil _)
  | v :: vs, w, h, hw => by
    unfold window_scan
    split
    · rename_i hv
      rcases List.mem_cons.mp h with h0 | h0
      · rw [h0] at hw
        omega
      · exact window_scan_keeps t vs w h0 hw
    · split
      · exact h
      · rcases List.mem_cons.mp h with h0 | h0
        · rw [h0]
          exact List.mem_cons_self _ _
        · exact List.mem_cons_of_mem _ (window_scan_keeps t vs w h0 hw)

theorem window_scan_flag (t : Int) :
    ∀ l : List TTimeWin,
      l.Pairwise (fun a b => a.end_step < b.bgn_step ∨ b.end_step < a.bgn_step) →
      ((window_scan t l).2 = true ↔
        ∃ w ∈ l, w.bgn_step ≤ t ∧ t ≤ w.end_step ∧
          Int.tmod (t - w.bgn_step) w.inc_step = 0)
  | [], _ => by simp [window_scan]
  | v :: vs, hp => by
    obtain ⟨hv, hvs⟩ := List.pairwise_cons.mp hp
    have ih := window_scan_flag t vs hvs
    unfold window_scan
    split
    · rename_i h1
      rw [ih]
      constructor
      · rintro ⟨w, hw, h⟩
        exact ⟨w, List.mem_cons_of_mem _ hw, h⟩
      · rintro ⟨w, hw, hb, he, hm⟩
        rcases List.mem_cons.mp hw with h0 | h0
        · rw [h0] at he
          omega
        · exact ⟨w, h0, hb, he, hm⟩
    · rename_i h1
      split
      · rename_i h2
        constructor
        · intro hf
          exact ⟨v, List.mem_cons_self _ _, h2, not_lt.mp h1, of_decide_eq_true hf⟩
        · rintro ⟨w, hw, hb, he, hm⟩
          rcases List.mem_cons.mp hw with h0 | h0
          · rw [h0] at hm
            exact decide_eq_true hm
          · have := hv w h0
            omega
      · rename_i h2
        show (window_scan t vs).2 = true ↔ _
        rw [ih]
        constructor
        · rintro ⟨w, hw, h⟩
          exact ⟨w, List.mem_cons_of_mem _ hw, h⟩
        · rintro ⟨w, hw, hb, he, hm⟩
          rcases List.mem_cons.mp hw with h0 | h0
          · rw [h0] at hb
            omega
          · exact ⟨w, h0, hb, he, hm⟩


section Engine

variable {α ω : Type} [LinearOrderedField α]

theorem advance_counter (ops : StimOps α ω) (s : Simulation α ω) :
    (advance ops s).tEvlt_step = s.tEvlt_step + 1 ∧
      (advance ops s).gTotal_step = s.gTotal_step := by
  by_cases h : s.tEvlt_step + 1 ≤ s.gTotal_step
  · rw [advance_of_le ops s h]
    obtain ⟨_, _, _, _, c5, c6⟩ :=
      advance_head_consts ops { s with tEvlt_step := s.tEvlt_step + 1, tOut_flg := false }
    exact ⟨c6, c5⟩
  · rw [advance_of_gt ops s (not_le.mp h)]
    exact ⟨rfl, rfl⟩

theorem advance_windows (ops : StimOps α ω) (s : Simulation α ω)
    (h : s.tEvlt_step + 1 ≤ s.gTotal_step) :
    (advance ops s).output_time = (window_scan (s.tEvlt_step + 1) s.output_time).1 ∧
      (advance ops s).tOut_flg = (window_scan (s.tEvlt_step + 1) s.output_time).2 := by
  rw [advance_of_le ops s h]
  exact advance_head_windows ops { s with tEvlt_step := s.tEvlt_step + 1, tOut_flg := false }

/-- After `n` steps inside the run the counter is `n`, and the window list is the
configured list without windows that have expired. -/
theorem run_windows (ops : StimOps α ω) (s0 : Simulation α ω) (h0 : s0.tEvlt_step = 0) :
    ∀ n : Nat, (n : Int) ≤ s0.gTotal_step →
      (run ops s0 n).tEvlt_step = n ∧ (run ops s0 n).gTotal_step = s0.gTotal_step ∧
      (run ops s0 n).output_time.Sublist s0.output_time ∧
      ∀ w ∈ s0.output_time, (n : Int) ≤ w.end_step → w ∈ (run ops s0 n).output_time
  | 0, _ => ⟨h0, rfl, List.Sublist.refl _, fun _ hw _ => hw⟩
  | n + 1, hn => by
    obtain ⟨i1, i2, i3, i4⟩ := run_windows ops s0 h0 n (by push_cast at hn; omega)
    have hstep : (run ops s0 n).tEvlt_step + 1 ≤ (run ops s0 n).gTotal_step := by
      rw [i1, i2]
      push_cast at hn
      exact hn
    obtain ⟨a1, a2⟩ := advance_counter ops (run ops s0 n)
    obtain ⟨w1, _⟩ := advance_windows ops (run ops s0 n) hstep
    show (advance ops (run ops s0 n)).tEvlt_step = ((n + 1 : Nat) : Int) ∧ _
    refine ⟨by rw [a1, i1]; push_cast; rfl, a2.trans i2, ?_, ?_⟩
    · show (advance ops (run ops s0 n)).output_time.Sublist _
      rw [w1]
      exact (window_scan_sublist _ _).trans i3
    · intro w hw he
      show w ∈ (advance ops (run ops s0 n)).output_time
      rw [w1, i1]
      push_cast at he
      exact window_scan_keeps _ _ w (i4 w hw (by omega)) (by omega)

/-- C5. For pairwise non-overlapping output windows with `inc_step ≥ 1` and every step
`n` with `1 ≤ n ≤ gTotal_step`: after the `n`-th call of `advance()`, `is_out()` is true
if and only if some window satisfies `bgn_step ≤ n ≤ end_step` and
`(n - bgn_step) % inc_step = 0`; on every other step it is false. -/
theorem is_out_iff (ops : StimOps α ω) (s0 : Simulation α ω) (h0 : s0.tEvlt_step = 0)
    (hpair : s0.output_time.Pairwise
      (fun a b => a.end_step < b.bgn_step ∨ b.end_step < a.bgn_step))
    (hinc : ∀ w ∈ s0.output_time, 1 ≤ w.inc_step) (n : Nat) (h1 : 1 ≤ n)
    (h2 : (n : Int) ≤ s0.gTotal_step) :
    (run ops s0 n).tOut_flg = true ↔
      ∃ w ∈ s0.output_time, w.bgn_step ≤ n ∧ (n : Int) ≤ w.end_step ∧
        ((n : Int) - w.bgn_step) % w.inc_step = 0 := by
  obtain ⟨m, rfl⟩ : ∃ m, n = m + 1 := ⟨n - 1, by omega⟩
  obtain ⟨i1, i2, i3, i4⟩ := run_windows ops s0 h0 m (by push_cast at h2; omega)
  have hstep : (run ops s0 m).tEvlt_step + 1 ≤ (run ops s0 m).gTotal_step := by
    rw [i1, i2]
    push_cast at h2
    exact h2
  obtain ⟨_, w2⟩ := advance_windows ops (run ops s0 m) hstep
  show (advance ops (run ops s0 m)).tOut_flg = true ↔ _
  rw [w2, window_scan_flag _ _ (List.Pairwise.sublist i3 hpair), i1]
  push_cast
  constructor
  · rintro ⟨w, hw, hb, he, hm⟩
    have hwl := i3.subset hw
    refine ⟨w, hwl, hb, he, ?_⟩
    rw [← Int.tmod_eq_emod (by omega) (by have := hinc w hwl; omega)]
    exact hm
  · rintro ⟨w, hw, hb, he, hm⟩
    refine ⟨w, i4 w hw (by omega), hb, he, ?_⟩
    rw [Int.tmod_eq_emod (by omega) (by have := hinc w hw; omega)]
    exact hm

end Engine

/-! ## Step 2 of `advance`: the check points of the external sources -/

section EngineFrame

variable {α ω : Type}

theorem ite_lt_facts (a chk : Int) :
    (if a < chk then a else chk) ≤ chk ∧ (if a < chk then a else chk) ≤ a ∧
      ∀ c : Int, c < a → c < chk → c < (if a < chk then a else chk) := by
  split_ifs with h
  · exact ⟨le_of_lt h, le_refl a, fun _ h1 _ => h1⟩
  · exact ⟨le_refl chk, not_lt.mp h, fun _ _ h2 => h2⟩

/-- What one run of the loop of `ExSource::check` establishes. -/
theorem check_loop_spec (ops : StimOps α ω) (c : Int) :
    ∀ (stims : List (Stimulator ω)) (nact : Nat) (chk : Int),
      ((check_loop ops c stims nact chk).1.map fun st => (st.st_start, st.st_stop)) =
        (stims.map fun st => (st.st_start, st.st_stop)) ∧
      (∀ st ∈ (check_loop ops c stims nact chk).1,
        st.st_active = decide (st.st_start ≤ c ∧ c < st.st_stop) ∧
        (c < st.st_start → (check_loop ops c stims nact chk).2.2 ≤ st.st_start) ∧
        (st.st_start ≤ c → c < st.st_stop →
          (check_loop ops c stims nact chk).2.2 ≤ st.st_stop)) ∧
      (check_loop ops c stims nact chk).2.2 ≤ chk ∧
      (c < chk → c < (check_loop ops c stims nact chk).2.2)
  | [], _, chk => ⟨rfl, fun _ h => absurd h (List.not_mem_nil _), le_refl chk, fun h => h⟩
  | st :: rest, nact, chk => by
    by_cases h1 : c < st.st_start
    · obtain ⟨m1, m2, m3⟩ := ite_lt_facts st.st_start chk
      have hdef : check_loop ops c (st :: rest) nact chk =
          (st.deactivate ::
            (check_loop ops c rest nact (if st.st_start < chk then st.st_start else chk)).1,
           (check_loop ops c rest nact (if st.st_start < chk then st.st_start else chk)).2) := by
        rw [check_loop, if_pos h1]
      rw [hdef]
      generalize (if st.st_start < chk then st.st_start else chk) = m at m1 m2 m3
      obtain ⟨a, b, c3, d⟩ := check_loop_spec ops c rest nact m
      generalize check_loop ops c rest nact m = r at a b c3 d
      refine ⟨?_, ?_, le_trans c3 m1, fun hc => d (m3 c h1 hc)⟩
      · show (st.st_start, st.st_stop) :: r.1.map _ = _
        rw [a]
        rfl
      · intro x hx
        rcases List.mem_cons.mp hx with h0 | h0
        · subst h0
          refine ⟨?_, fun _ => le_trans c3 m2, fun hc => absurd hc (not_le.mpr h1)⟩
          show false = decide (st.st_start ≤ c ∧ c < st.st_stop)
          rw [eq_comm, decide_eq_false_iff_not]
          exact fun hc => absurd hc.1 (not_le.mpr h1)
        · exact b x h0
    · by_cases h2 : c < st.st_stop
      · obtain ⟨m1, m2, m3⟩ := ite_lt_facts st.st_stop chk
        have hdef : check_loop ops c (st :: rest) nact chk =
            (st.activate ops ::
              (check_loop ops c rest (nact + 1)
                (if st.st_stop < chk then st.st_stop else chk)).1,
             (check_loop ops c rest (nact + 1)
                (if st.st_stop < chk then st.st_stop else chk)).2) := by
          rw [check_loop, if_neg h1, if_pos h2]
        rw [hdef]
        generalize (if st.st_stop < chk then st.st_stop else chk) = m at m1 m2 m3
        obtain ⟨a, b, c3, d⟩ := check_loop_spec ops c rest (nact + 1) m
        generalize check_loop ops c rest (nact + 1) m = r at a b c3 d
        refine ⟨?_, ?_, le_trans c3 m1, fun hc => d (m3 c h2 hc)⟩
        · show (st.st_start, st.st_stop) :: r.1.map _ = _
          rw [a]
          rfl
        · intro x hx
          rcases List.mem_cons.mp hx with h0 | h0
          · subst h0
            refine ⟨?_, fun hc => absurd hc h1, fun _ _ => le_trans c3 m2⟩
            show true = decide (st.st_start ≤ c ∧ c < st.st_stop)
            rw [eq_comm, decide_eq_true_iff]
            exact ⟨not_lt.mp h1, h2⟩
          · exact b x h0
      · have hdef : check_loop ops c (st :: rest) nact chk =
            (st.deactivate :: (check_loop ops c rest nact chk).1,
             (check_loop ops c rest nact chk).2) := by
          rw [check_loop, if_neg h1, if_neg h2]
        rw [hdef]
        obtain ⟨a, b, c3, d⟩ := check_loop_spec ops c rest nact chk
        generalize check_loop ops c rest nact chk = r at a b c3 d
        refine ⟨?_, ?_, c3, d⟩
        · show (st.st_start, st.st_stop) :: r.1.map _ = _
          rw [a]
          rfl
        · intro x hx
          rcases List.mem_cons.mp hx with h0 | h0
          · subst h0
            refine ⟨?_, fun hc => absurd hc h1, fun _ hc => absurd hc h2⟩
            show false = decide (st.st_start ≤ c ∧ c < st.st_stop)
            rw [eq_comm, decide_eq_false_iff_not]
            exact fun hc => absurd hc.2 h2
          · exact b x h0

end EngineFrame

section EngineFrame

variable {α ω : Type}

theorem check_sources_spec (ops : StimOps α ω) (c : Int) :
    ∀ (srcs : List (ExSource α ω)) (chk : Int),
      stim_windows (check_sources ops c srcs chk).1 = stim_windows srcs ∧
      ActiveAt c (check_sources ops c srcs chk).1 ∧
      CheckBound c (check_sources ops c srcs chk).2 (check_sources ops c srcs chk).1 ∧
      (check_sources ops c srcs chk).2 ≤ chk ∧
      (c < MAX_INT_NUM → c < chk → c < (check_sources ops c srcs chk).2)
  | [], chk =>
    ⟨rfl, fun _ h => absurd h (List.not_mem_nil _), fun _ h => absurd h (List.not_mem_nil _),
      le_refl chk, fun _ h => h⟩
  | es :: rest, chk => by
    obtain ⟨l1, l2, _, l4⟩ := check_loop_spec ops c es.es_stim 0 MAX_INT_NUM
    obtain ⟨m1, m2, m3⟩ := ite_lt_facts (es.check ops c).2 chk
    have hcomm : (if chk > (es.check ops c).2 then (es.check ops c).2 else chk) =
        (if (es.check ops c).2 < chk then (es.check ops c).2 else chk) := rfl
    have hdef : check_sources ops c (es :: rest) chk =
        ((es.check ops c).1 ::
          (check_sources ops c rest
            (if (es.check ops c).2 < chk then (es.check ops c).2 else chk)).1,
         (check_sources ops c rest
            (if (es.check ops c).2 < chk then (es.check ops c).2 else chk)).2) := by
      rw [check_sources, hcomm]
    rw [hdef]
    generalize (if (es.check ops c).2 < chk then (es.check ops c).2 else chk) = m
      at m1 m2 m3
    obtain ⟨a, b, c3, d, e⟩ := check_sources_spec ops c rest m
    generalize check_sources ops c rest m = r at a b c3 d e
    have hstim : (es.check ops c).1.es_stim = (check_loop ops c es.es_stim 0 MAX_INT_NUM).1 :=
      rfl
    have hret : (es.check ops c).2 = (check_loop ops c es.es_stim 0 MAX_INT_NUM).2.2 := rfl
    refine ⟨?_, ?_, ?_, le_trans d m1, ?_⟩
    · show ((es.check ops c).1.es_stim.map fun st => (st.st_start, st.st_stop)) ::
        stim_windows r.1 = _
      rw [a, hstim, l1]
      rfl
    · intro x hx st hst
      rcases List.mem_cons.mp hx with h0 | h0
      · subst h0
        rw [hstim] at hst
        exact (l2 st hst).1
      · exact b x h0 st hst
    · intro x hx st hst
      rcases List.mem_cons.mp hx with h0 | h0
      · subst h0
        rw [hstim] at hst
        have h := l2 st hst
        rw [← hret] at h
        exact ⟨fun hc => le_trans (le_trans d m2) (h.2.1 hc),
          fun hc1 hc2 => le_trans (le_trans d m2) (h.2.2 hc1 hc2)⟩
      · exact c3 x h0 st hst
    · intro hmax hc
      exact e hmax (m3 c (by rw [hret]; exact l4 hmax) hc)

end EngineFrame

section EngineFrame

variable {α ω : Type}

theorem init_sources_eq (ops : StimOps α ω) :
    ∀ (srcs : List (ExSource α ω)) (chk : Int),
      init_sources ops srcs chk =
        check_sources ops 0
          (srcs.map fun es =>
            { es with es_stim := es.es_stim.map fun st => { st with wave := ops.init st.wave } })
          chk
  | [], _ => rfl
  | es :: rest, chk => by
    rw [init_sources, List.map_cons, check_sources, init_sources_eq ops rest]

theorem stim_windows_init (ops : StimOps α ω) (srcs : List (ExSource α ω)) :
    stim_windows
        (srcs.map fun es =>
          { es with es_stim := es.es_stim.map fun st => { st with wave := ops.init st.wave } }) =
      stim_windows srcs := by
  unfold stim_windows
  rw [List.map_map]
  apply List.map_congr_left
  intro es _
  show (es.es_stim.map _).map _ = _
  rw [List.map_map]
  rfl

/-- Between two check points nothing changes: a step that is not the check point keeps
the activation flags right. -/
theorem active_next (n chk : Int) (srcs : List (ExSource α ω)) (ha : ActiveAt n srcs)
    (hb : CheckBound n chk srcs) (hlt : n < chk) (hne : n + 1 ≠ chk) :
    ActiveAt (n + 1) srcs ∧ CheckBound (n + 1) chk srcs := by
  constructor
  · intro es hes st hst
    rw [ha es hes st hst]
    obtain ⟨b1, b2⟩ := hb es hes st hst
    apply decide_eq_decide.mpr
    constructor
    · rintro ⟨h1, h2⟩
      have := b2 h1 h2
      omega
    · rintro ⟨h1, h2⟩
      by_cases hs : n < st.st_start
      · have := b1 hs
        omega
      · omega
  · intro es hes st hst
    obtain ⟨b1, b2⟩ := hb es hes st hst
    constructor
    · intro h1
      exact b1 (by omega)
    · intro h1 h2
      by_cases hs : n < st.st_start
      · have := b1 hs
        omega
      · exact b2 (by omega) (by omega)

theorem advance_stims (ops : StimOps α ω) (es : ExSource α ω) :
    ∀ st' ∈ (if es.Nact_stim = 0 then es else es.advance ops).es_stim,
      ∃ st ∈ es.es_stim, st'.st_start = st.st_start ∧ st'.st_stop = st.st_stop ∧
        st'.st_active = st.st_active := by
  intro st' hst'
  split at hst'
  · exact ⟨st', hst', rfl, rfl, rfl⟩
  · obtain ⟨st, hst, hf⟩ := List.mem_map.mp hst'
    refine ⟨st, hst, ?_⟩
    rw [← hf]
    split <;> exact ⟨rfl, rfl, rfl⟩

theorem stim_advance_keeps (ops : StimOps α ω) (n chk : Int) (srcs : List (ExSource α ω))
    (ha : ActiveAt n srcs) (hb : CheckBound n chk srcs) :
    stim_windows (srcs.map fun es => if es.Nact_stim = 0 then es else es.advance ops) =
        stim_windows srcs ∧
      ActiveAt n (srcs.map fun es => if es.Nact_stim = 0 then es else es.advance ops) ∧
      CheckBound n chk
        (srcs.map fun es => if es.Nact_stim = 0 then es else es.advance ops) := by
  refine ⟨?_, ?_, ?_⟩
  · unfold stim_windows
    rw [List.map_map]
    apply List.map_congr_left
    intro es _
    show (if es.Nact_stim = 0 then es else es.advance ops).es_stim.map _ = _
    split
    · rfl
    · show (es.es_stim.map _).map _ = _
      rw [List.map_map]
      apply List.map_congr_left
      intro st _
      show ((if st.st_active then _ else st : Stimulator ω).st_start,
        (if st.st_active then _ else st : Stimulator ω).st_stop) = _
      split <;> rfl
  · intro es' hes' st' hst'
    obtain ⟨es, hes, hf⟩ := List.mem_map.mp hes'
    rw [← hf] at hst'
    obtain ⟨st, hst, e1, e2, e3⟩ := advance_stims ops es st' hst'
    rw [e1, e2, e3]
    exact ha es hes st hst
  · intro es' hes' st' hst'
    obtain ⟨es, hes, hf⟩ := List.mem_map.mp hes'
    rw [← hf] at hst'
    obtain ⟨st, hst, e1, e2, _⟩ := advance_stims ops es st' hst'
    rw [e1, e2]
    exact hb es hes st hst

end EngineFrame

section EngineFrame

variable {α ω : Type}

theorem advance_head_sources (ops : StimOps α ω) (s : Simulation α ω) :
    (s.tEvlt_step = s.tCheck_pnt →
        (advance_head ops s).gExSrc =
          (check_sources ops s.tEvlt_step s.gExSrc MAX_INT_NUM).1 ∧
        (advance_head ops s).tCheck_pnt =
          (check_sources ops s.tEvlt_step s.gExSrc MAX_INT_NUM).2) ∧
      (s.tEvlt_step ≠ s.tCheck_pnt →
        (advance_head ops s).gExSrc = s.gExSrc ∧
        (advance_head ops s).tCheck_pnt = s.tCheck_pnt) := by
  unfold advance_head
  dsimp only
  constructor
  · intro h
    rw [if_pos h]
    exact ⟨rfl, rfl⟩
  · intro h
    rw [if_neg h]
    exact ⟨rfl, rfl⟩

end EngineFrame

section Engine

variable {α ω : Type} [LinearOrderedField α]

theorem advance_sources (ops : StimOps α ω) (s : Simulation α ω)
    (h : s.tEvlt_step + 1 ≤ s.gTotal_step) :
    ((s.tEvlt_step + 1 = s.tCheck_pnt →
        (advance ops s).gExSrc =
          (check_sources ops (s.tEvlt_step + 1) s.gExSrc MAX_INT_NUM).1.map
            (fun es => if es.Nact_stim = 0 then es else es.advance ops) ∧
        (advance ops s).tCheck_pnt =
          (check_sources ops (s.tEvlt_step + 1) s.gExSrc MAX_INT_NUM).2) ∧
      (s.tEvlt_step + 1 ≠ s.tCheck_pnt →
        (advance ops s).gExSrc =
          s.gExSrc.map (fun es => if es.Nact_stim = 0 then es else es.advance ops) ∧
        (advance ops s).tCheck_pnt = s.tCheck_pnt)) := by
  rw [advance_of_le ops s h]
  obtain ⟨hc, hn⟩ :=
    advance_head_sources ops { s with tEvlt_step := s.tEvlt_step + 1, tOut_flg := false }
  constructor
  · intro heq
    obtain ⟨e1, e2⟩ := hc heq
    constructor
    · show (advance_head ops _).gExSrc.map _ = _
      rw [e1]
    · show (advance_head ops _).tCheck_pnt = _
      rw [e2]
  · intro hne
    obtain ⟨e1, e2⟩ := hn hne
    constructor
    · show (advance_head ops _).gExSrc.map _ = _
      rw [e1]
    · show (advance_head ops _).tCheck_pnt = _
      rw [e2]

/-- The state of the stimulators along a run that starts from `Simulation::init`. -/
theorem run_sources (ops : StimOps α ω) (srcs : List (ExSource α ω)) (s0 : Simulation α ω)
    (h0 : s0.tEvlt_step = 0) (hsrc : s0.gExSrc = (init_sources ops srcs MAX_INT_NUM).1)
    (hchk : s0.tCheck_pnt = (init_sources ops srcs MAX_INT_NUM).2)
    (htot : s0.gTotal_step ≤ MAX_INT_NUM) :
    ∀ n : Nat, (n : Int) ≤ s0.gTotal_step →
      (run ops s0 n).tEvlt_step = n ∧ (run ops s0 n).gTotal_step = s0.gTotal_step ∧
      stim_windows (run ops s0 n).gExSrc = stim_windows srcs ∧
      ActiveAt n (run ops s0 n).gExSrc ∧
      CheckBound n (run ops s0 n).tCheck_pnt (run ops s0 n).gExSrc ∧
      ((n : Int) < (run ops s0 n).tCheck_pnt ∨ s0.gTotal_step ≤ n)
  | 0, _ => by
    obtain ⟨a, b, c, _, e⟩ := check_sources_spec ops 0
      (srcs.map fun es =>
        { es with es_stim := es.es_stim.map fun st => { st with wave := ops.init st.wave } })
      MAX_INT_NUM
    rw [← init_sources_eq] at a b c e
    rw [← hsrc] at a b c
    rw [← hchk] at c e
    rw [stim_windows_init] at a
    exact ⟨h0, rfl, a, b, c, Or.inl (e (by decide) (by decide))⟩
  | n + 1, hn => by
    have hn' : (n : Int) + 1 ≤ s0.gTotal_step := by
      push_cast at hn
      exact hn
    obtain ⟨i1, i2, i3, i4, i5, i6⟩ :=
      run_sources ops srcs s0 h0 hsrc hchk htot n (by omega)
    have hlt : (n : Int) < (run ops s0 n).tCheck_pnt := by
      rcases i6 with h | h
      · exact h
      · omega
    have hstep : (run ops s0 n).tEvlt_step + 1 ≤ (run ops s0 n).gTotal_step := by
      rw [i1, i2]
      exact hn'
    obtain ⟨a1, a2⟩ := advance_counter ops (run ops s0 n)
    obtain ⟨cs, ns⟩ := advance_sources ops (run ops s0 n) hstep
    rw [i1] at cs ns
    show (advance ops (run ops s0 n)).tEvlt_step = ((n + 1 : Nat) : Int) ∧
      (advance ops (run ops s0 n)).gTotal_step = s0.gTotal_step ∧
      stim_windows (advance ops (run ops s0 n)).gExSrc = stim_windows srcs ∧
      ActiveAt ((n + 1 : Nat) : Int) (advance ops (run ops s0 n)).gExSrc ∧
      CheckBound ((n + 1 : Nat) : Int) (advance ops (run ops s0 n)).tCheck_pnt
        (advance ops (run ops s0 n)).gExSrc ∧
      (((n + 1 : Nat) : Int) < (advance ops (run ops s0 n)).tCheck_pnt ∨
        s0.gTotal_step ≤ ((n + 1 : Nat) : Int))
    push_cast
    refine ⟨by rw [a1, i1], a2.trans i2, ?_⟩
    by_cases hc : (n : Int) + 1 = (run ops s0 n).tCheck_pnt
    · obtain ⟨e1, e2⟩ := cs hc
      obtain ⟨w, a, b, _, e⟩ :=
        check_sources_spec ops ((n : Int) + 1) (run ops s0 n).gExSrc MAX_INT_NUM
      obtain ⟨k1, k2, k3⟩ := stim_advance_keeps ops ((n : Int) + 1)
        (check_sources ops ((n : Int) + 1) (run ops s0 n).gExSrc MAX_INT_NUM).2
        (check_sources ops ((n : Int) + 1) (run ops s0 n).gExSrc MAX_INT_NUM).1 a b
      rw [e1, e2]
      refine ⟨by rw [k1, w, i3], k2, k3, ?_⟩
      by_cases hmax : (n : Int) + 1 < MAX_INT_NUM
      · exact Or.inl (e hmax hmax)
      · exact Or.inr (by omega)
    · obtain ⟨e1, e2⟩ := ns hc
      obtain ⟨p1, p2⟩ := active_next (n : Int) _ _ i4 i5 hlt hc
      obtain ⟨k1, k2, k3⟩ := stim_advance_keeps ops ((n : Int) + 1)
        (run ops s0 n).tCheck_pnt (run ops s0 n).gExSrc p1 p2
      rw [e1, e2]
      exact ⟨by rw [k1, i3], k2, k3, Or.inl (by omega)⟩

end Engine

/-! ## The engine claims on the check points -/

section EngineFrame

variable {α ω : Type}

theorem check_loop_min_ahead (ops : StimOps α ω) (c : Int) :
    ∀ (stims : List (Stimulator ω)) (nact : Nat) (chk : Int),
      (∀ st ∈ stims, st.st_start ≤ st.st_stop) →
      (check_loop ops c stims nact chk).2.2 =
        stims.foldl
          (fun m st =>
            if c < st.st_stop ∧
                st.st_stop < (if c < st.st_start ∧ st.st_start < m then st.st_start else m)
            then st.st_stop
            else (if c < st.st_start ∧ st.st_start < m then st.st_start else m))
          chk
  | [], _, _, _ => rfl
  | st :: rest, nact, chk, h => by
    have hst : st.st_start ≤ st.st_stop := h st (List.mem_cons_self _ _)
    have hrest : ∀ x ∈ rest, x.st_start ≤ x.st_stop :=
      fun x hx => h x (List.mem_cons_of_mem _ hx)
    rw [List.foldl_cons]
    by_cases h1 : c < st.st_start
    · have e : check_loop ops c (st :: rest) nact chk =
          (st.deactivate ::
            (check_loop ops c rest nact (if st.st_start < chk then st.st_start else chk)).1,
           (check_loop ops c rest nact (if st.st_start < chk then st.st_start else chk)).2) := by
        rw [check_loop, if_pos h1]
      rw [e]
      show (check_loop ops c rest nact _).2.2 = _
      rw [check_loop_min_ahead ops c rest nact _ hrest]
      congr 1
      split_ifs <;> omega
    · by_cases h2 : c < st.st_stop
      · have e : check_loop ops c (st :: rest) nact chk =
            (st.activate ops ::
              (check_loop ops c rest (nact + 1)
                (if st.st_stop < chk then st.st_stop else chk)).1,
             (check_loop ops c rest (nact + 1)
                (if st.st_stop < chk then st.st_stop else chk)).2) := by
          rw [check_loop, if_neg h1, if_pos h2]
        rw [e]
        show (check_loop ops c rest (nact + 1) _).2.2 = _
        rw [check_loop_min_ahead ops c rest (nact + 1) _ hrest]
        congr 1
        split_ifs <;> omega
      · have e : check_loop ops c (st :: rest) nact chk =
            (st.deactivate :: (check_loop ops c rest nact chk).1,
             (check_loop ops c rest nact chk).2) := by
          rw [check_loop, if_neg h1, if_neg h2]
        rw [e]
        show (check_loop ops c rest nact chk).2.2 = _
        rw [check_loop_min_ahead ops c rest nact chk hrest]
        congr 1
        split_ifs <;> omega

end EngineFrame

section Engine

variable {α ω : Type} [LinearOrderedField α]

/-- C6 as stated fails: for a stimulator with `start = 5` and `stop = 3`, `check(0)`
returns 5, while the minimum start or stop value lying ahead of step 0 is 3. -/
theorem check_min_ahead_counterexample :
    (reversed_src.check toy_ops 0).2 = 5 ∧ min_ahead 0 reversed_src.es_stim = 3 ∧
      (reversed_src.check toy_ops 0).2 ≠ min_ahead 0 reversed_src.es_stim := by
  decide

/-- C6, amended. In a run after `Simulation::init`, after the `n`-th `advance()`
(`n ≤ gTotal_step`) the sources hold the configured stimulators and each of them is
active exactly when `start ≤ n < stop`. Every `check(c)` with `c < MAX_INT_NUM` returns
a value strictly greater than `c`, namely the minimum of the starts of the stimulators
not yet started and the stops of the running ones (`MAX_INT_NUM` if none); when every
stimulator has `start ≤ stop` this is the minimum start or stop value lying ahead of
`c`. -/
theorem stimulators_active (ops : StimOps α ω) (srcs : List (ExSource α ω))
    (s0 : Simulation α ω) (h0 : s0.tEvlt_step = 0)
    (hsrc : s0.gExSrc = (init_sources ops srcs MAX_INT_NUM).1)
    (hchk : s0.tCheck_pnt = (init_sources ops srcs MAX_INT_NUM).2)
    (htot : s0.gTotal_step ≤ MAX_INT_NUM) (n : Nat) (hn : (n : Int) ≤ s0.gTotal_step) :
    (stim_windows (run ops s0 n).gExSrc = stim_windows srcs ∧
      ∀ es ∈ (run ops s0 n).gExSrc, ∀ st ∈ es.es_stim,
        (st.st_active = true ↔ st.st_start ≤ n ∧ (n : Int) < st.st_stop)) ∧
    (∀ (es : ExSource α ω) (c : Int), c < MAX_INT_NUM → c < (es.check ops c).2) ∧
    (∀ (es : ExSource α ω) (c : Int), (∀ st ∈ es.es_stim, st.st_start ≤ st.st_stop) →
      (es.check ops c).2 = min_ahead c es.es_stim) := by
  obtain ⟨_, _, i3, i4, _, _⟩ := run_sources ops srcs s0 h0 hsrc hchk htot n hn
  refine ⟨⟨i3, ?_⟩, ?_, ?_⟩
  · intro es hes st hst
    rw [i4 es hes st hst, decide_eq_true_iff]
  · intro es c hc
    exact (check_loop_spec ops c es.es_stim 0 MAX_INT_NUM).2.2.2 hc
  · intro es c h
    exact check_loop_min_ahead ops c es.es_stim 0 MAX_INT_NUM h

end Engine

/-! ## The engine claims on the one-element model -/

/-- C4 on the one-element model, for the inhibitory group. -/
theorem advance_voltage_clamped_witness :
    toy_sim.gV_rev_min = (init_V_rev toy_sim.gNeur).1 ∧
      toy_sim.gV_rev_max = (init_V_rev toy_sim.gNeur).2 ∧
      toy_sim.tEvlt_step + 1 ≤ toy_sim.gTotal_step ∧ 0 < toy_sim.gElmt_num ∧
      1 < toy_sim.gNeur.length ∧
      (toy_sim.gV_rev_min ≤ ((advance toy_ops toy_sim).gVolt 0 1).rear ∧
        ((advance toy_ops toy_sim).gVolt 0 1).rear ≤ toy_sim.gV_rev_max) :=
  have hmin : toy_sim.gV_rev_min = (init_V_rev toy_sim.gNeur).1 := by
    norm_num [toy_sim, init_V_rev, V_rev_step, toy_excit, toy_inhib]
  have hmax : toy_sim.gV_rev_max = (init_V_rev toy_sim.gNeur).2 := by
    norm_num [toy_sim, init_V_rev, V_rev_step, toy_excit, toy_inhib]
  ⟨hmin, hmax, by decide, by decide, by decide,
    advance_voltage_clamped toy_ops toy_sim hmin hmax (by decide) 0 1 (by decide) (by decide)⟩

/-- C5 on the one-element model at step 4, inside the window `2:2:6`. -/
theorem is_out_iff_witness :
    toy_sim.tEvlt_step = 0 ∧
      toy_sim.output_time.Pairwise
        (fun a b => a.end_step < b.bgn_step ∨ b.end_step < a.bgn_step) ∧
      (∀ w ∈ toy_sim.output_time, 1 ≤ w.inc_step) ∧ 1 ≤ 4 ∧
      ((4 : Nat) : Int) ≤ toy_sim.gTotal_step ∧
      ((run toy_ops toy_sim 4).tOut_flg = true ↔
        ∃ w ∈ toy_sim.output_time, w.bgn_step ≤ (4 : Nat) ∧ ((4 : Nat) : Int) ≤ w.end_step ∧
          (((4 : Nat) : Int) - w.bgn_step) % w.inc_step = 0) :=
  ⟨rfl, by decide, by decide, by decide, by decide,
    is_out_iff toy_ops toy_sim rfl (by decide) (by decide) 4 (by decide) (by decide)⟩

/-- C6, amended, on the one-element model after three steps. -/
theorem stimulators_active_witness :
    toy_sim.tEvlt_step = 0 ∧
      toy_sim.gExSrc = (init_sources toy_ops [toy_src] MAX_INT_NUM).1 ∧
      toy_sim.tCheck_pnt = (init_sources toy_ops [toy_src] MAX_INT_NUM).2 ∧
      toy_sim.gTotal_step ≤ MAX_INT_NUM ∧ ((3 : Nat) : Int) ≤ toy_sim.gTotal_step ∧
      (stim_windows (run toy_ops toy_sim 3).gExSrc = stim_windows [toy_src] ∧
        ∀ es ∈ (run toy_ops toy_sim 3).gExSrc, ∀ st ∈ es.es_stim,
          (st.st_active = true ↔ st.st_start ≤ (3 : Nat) ∧ ((3 : Nat) : Int) < st.st_stop)) :=
  ⟨rfl, rfl, rfl, by decide, by decide,
    (stimulators_active toy_ops [toy_src] toy_sim rfl rfl rfl (by decide) 3 (by decide)).1⟩

/-! ## nextpow2: the loop is left, and the result is the least power of two -/

theorem nextpow2_exit_spec (h : Nat) (hh : h < 32) :
    ∀ (fuel x y : Nat), 2 ^ h ≤ x → x < 2 ^ (h + 1) → x < fuel + 2 ^ h →
      nextpow2_exit fuel x y = some (if x = 2 ^ h then y else 2 ^ (h + 1))
  | 0, x, y, h1, _, h3 => by omega
  | fuel + 1, x, y, h1, h2, h3 => by
    have hpos : 0 < 2 ^ h := Nat.two_pow_pos h
    have hlt : x < 4294967296 :=
      Nat.lt_of_lt_of_le h2 (Nat.pow_le_pow_right (by decide) (by omega : h + 1 ≤ 32))
    rw [nextpow2_exit, nextpow2_step_eq x (by omega) hlt]
    by_cases hx : x = 2 ^ h
    · rw [hx, clear_low_pow]
      simp
    · have hb := clear_low_bounds x h (by omega) h2
      have hne : x &&& (x - 1) ≠ 0 := by omega
      rw [if_pos hne, if_neg hx,
        nextpow2_exit_spec h hh fuel _ _ hb.1 (by omega) (by omega)]
      split
      · rename_i he
        rw [he, Nat.shiftLeft_eq, Nat.pow_one]
        exact congrArg some (pow_succ 2 h).symm
      · rfl

theorem nextpow2_exit_loop :
    ∀ (fuel x y r : Nat), nextpow2_exit fuel x y = some r → nextpow2_loop fuel x y = r
  | 0, x, y, r, h => by simp [nextpow2_exit] at h
  | fuel + 1, x, y, r, h => by
    rw [nextpow2_exit] at h
    rw [nextpow2_loop]
    by_cases hs : nextpow2_step x ≠ 0
    · rw [if_pos hs] at h ⊢
      exact nextpow2_exit_loop fuel _ _ r h
    · rw [if_neg hs] at h ⊢
      exact Option.some.inj h

theorem nextpow2_exit_some (x : Nat) (h1 : 1 ≤ x) (h2 : x ≤ 2 ^ 30) :
    nextpow2_exit x x x = some (nextpow2 x) := by
  have hx0 : x ≠ 0 := by omega
  have hlo : 2 ^ x.log2 ≤ x := Nat.log2_self_le hx0
  have hhi : x < 2 ^ (x.log2 + 1) := Nat.lt_log2_self
  have hh : x.log2 < 32 := by
    by_contra hc
    have : 2 ^ 32 ≤ 2 ^ x.log2 := Nat.pow_le_pow_right (by decide) (by omega)
    have : (2:Nat) ^ 30 < 2 ^ 32 := by norm_num
    omega
  have hpos : 0 < 2 ^ x.log2 := Nat.two_pow_pos _
  have hs := nextpow2_exit_spec x.log2 hh x x x hlo hhi (by omega)
  rw [hs]
  exact congrArg some (nextpow2_exit_loop x x x _ hs).symm

theorem pow2_least (n e : Nat) (h1 : 2 ^ e < 2 * n) (e' : Nat) (h2 : n ≤ 2 ^ e') :
    2 ^ e ≤ 2 ^ e' := by
  by_contra hc
  have hlt : e' < e := by
    by_contra hge
    exact hc (Nat.pow_le_pow_right (by decide) (by omega))
  have h3 : 2 ^ (e' + 1) ≤ 2 ^ e := Nat.pow_le_pow_right (by decide) (by omega)
  rw [Nat.pow_succ] at h3
  omega

/-- C16. The loop of `nextpow2` is left after at most `x` evaluations of its
condition, for every `x` with `1 ≤ x ≤ 2^30`, and the value returned is a power of
two `r` with `x ≤ r < 2 * x`, the least power of two that is at least `x`; for
instance `nextpow2(3) = 4` and `nextpow2(8) = 8`. -/
theorem nextpow2_least_pow2 :
    (nextpow2 3 = 4 ∧ nextpow2 8 = 8) ∧
    ∀ x, 1 ≤ x → x ≤ 2 ^ 30 →
      nextpow2_exit x x x = some (nextpow2 x) ∧
      ∃ e, nextpow2 x = 2 ^ e ∧ x ≤ nextpow2 x ∧ nextpow2 x < 2 * x ∧
        ∀ e', x ≤ 2 ^ e' → nextpow2 x ≤ 2 ^ e' := by
  refine ⟨⟨by decide, by decide⟩, ?_⟩
  intro x h1 h2
  obtain ⟨e, he, hle, hlt⟩ := nextpow2_spec x h1 h2
  refine ⟨nextpow2_exit_some x h1 h2, e, he, by omega, by omega, ?_⟩
  intro e' h'
  rw [he]
  exact pow2_least x e hlt e' h'

/-- C16 at `x = 5`: the loop is left and returns 8. -/
theorem nextpow2_least_pow2_witness :
    nextpow2_exit 5 5 5 = some (nextpow2 5) ∧
      ∃ e, nextpow2 5 = 2 ^ e ∧ 5 ≤ nextpow2 5 ∧ nextpow2 5 < 2 * 5 ∧
        ∀ e', 5 ≤ 2 ^ e' → nextpow2 5 ≤ 2 ^ e' :=
  nextpow2_least_pow2.2 5 (by decide) (by decide)

/-! ## Delay line: one shift in either direction -/

namespace DynamicArray

variable {α : Type}

theorem size_eq {a : DynamicArray α} (hv : a.Valid) :
    a.size = (a.f_front + a.f_size - a.f_rear) % a.f_size + 1 := by
  have h0 : a.f_size ≠ 0 := Nat.pos_iff_ne_zero.mp hv.size_pos
  unfold size
  rw [if_neg h0, hv.mask_eq_mod, hv.or_eq_add]

theorem step_forward_size {a : DynamicArray α} (hv : a.Valid) :
    a.step_forward.size = a.size := by
  have hr := hv.rear_lt
  have hf := hv.front_lt
  have e1 : a.step_forward.f_rear = (a.f_rear + a.f_size - 1) % a.f_size := hv.mask_eq_mod _
  have e2 : a.step_forward.f_size = a.f_size := rfl
  have e3 : a.step_forward.f_front = (a.f_front + a.f_size - 1) % a.f_size := hv.mask_eq_mod _
  rw [size_eq (step_forward_valid hv), size_eq hv, e1, e2, e3]
  have c1 := mod_cases (a.f_rear + a.f_size - 1) a.f_size (by omega)
  have c2 := mod_cases (a.f_front + a.f_size - 1) a.f_size (by omega)
  generalize (a.f_rear + a.f_size - 1) % a.f_size = r1 at c1 ⊢
  generalize (a.f_front + a.f_size - 1) % a.f_size = f1 at c2 ⊢
  have c3 := mod_cases (f1 + a.f_size - r1) a.f_size (by omega)
  have c4 := mod_cases (a.f_front + a.f_size - a.f_rear) a.f_size (by omega)
  generalize (f1 + a.f_size - r1) % a.f_size = s1 at c3 ⊢
  generalize (a.f_front + a.f_size - a.f_rear) % a.f_size = s0 at c4 ⊢
  omega

theorem step_backward_size {a : DynamicArray α} (hv : a.Valid) :
    a.step_backward.size = a.size := by
  have hr := hv.rear_lt
  have hf := hv.front_lt
  have e1 : a.step_backward.f_rear = (a.f_rear + 1) % a.f_size := hv.mask_eq_mod _
  have e2 : a.step_backward.f_size = a.f_size := rfl
  have e3 : a.step_backward.f_front = (a.f_front + 1) % a.f_size := hv.mask_eq_mod _
  rw [size_eq (step_backward_valid hv), size_eq hv, e1, e2, e3]
  have c1 := mod_cases (a.f_rear + 1) a.f_size (by omega)
  have c2 := mod_cases (a.f_front + 1) a.f_size (by omega)
  generalize (a.f_rear + 1) % a.f_size = r1 at c1 ⊢
  generalize (a.f_front + 1) % a.f_size = f1 at c2 ⊢
  have c3 := mod_cases (f1 + a.f_size - r1) a.f_size (by omega)
  have c4 := mod_cases (a.f_front + a.f_size - a.f_rear) a.f_size (by omega)
  generalize (f1 + a.f_size - r1) % a.f_size = s1 at c3 ⊢
  generalize (a.f_front + a.f_size - a.f_rear) % a.f_size = s0 at c4 ⊢
  omega

theorem step_backward_cells {a : DynamicArray α} (hv : a.Valid) :
    a.step_backward.p_bgn =
      Function.update a.p_bgn ((a.f_front + 1) % a.f_size) a.f_val := by
  show Function.update a.p_bgn ((a.f_front + 1) &&& a.f_last) a.f_val = _
  rw [hv.mask_eq_mod]

theorem step_backward_get_front_zero {a : DynamicArray α} (hv : a.Valid) :
    a.step_backward.get_front 0 = a.f_val := by
  have e2 : a.step_backward.f_size = a.f_size := rfl
  have e3 : a.step_backward.f_front = (a.f_front + 1) % a.f_size := hv.mask_eq_mod _
  rw [get_front_eq (step_backward_valid hv), e2, e3, step_backward_cells hv, Nat.sub_zero,
    Nat.add_mod_right, Nat.mod_mod, Function.update_same]

theorem step_backward_get_rear {a : DynamicArray α} (hv : a.Valid) (k : Nat)
    (hk : k + 1 < a.size) : a.step_backward.get_rear k = a.get_rear (k + 1) := by
  have hr := hv.rear_lt
  have hf := hv.front_lt
  have e1 : a.step_backward.f_rear = (a.f_rear + 1) % a.f_size := hv.mask_eq_mod _
  have e2 : a.step_backward.f_size = a.f_size := rfl
  rw [size_eq hv] at hk
  rw [get_rear_eq (step_backward_valid hv), get_rear_eq hv, e1, e2, step_backward_cells hv]
  have c4 := mod_cases (a.f_front + a.f_size - a.f_rear) a.f_size (by omega)
  generalize (a.f_front + a.f_size - a.f_rear) % a.f_size = s0 at c4 hk
  have c1 := mod_cases (a.f_rear + 1) a.f_size (by omega)
  have c2 := mod_cases (a.f_front + 1) a.f_size (by omega)
  generalize (a.f_rear + 1) % a.f_size = r1 at c1 ⊢
  generalize (a.f_front + 1) % a.f_size = f1 at c2 ⊢
  have c3 := mod_cases (r1 + k) a.f_size (by omega)
  have c5 := mod_cases (a.f_rear + (k + 1)) a.f_size (by omega)
  generalize (r1 + k) % a.f_size = i2 at c3 ⊢
  generalize (a.f_rear + (k + 1)) % a.f_size = i3 at c5 ⊢
  have h21 : i2 ≠ f1 := by omega
  have h23 : i2 = i3 := by omega
  rw [Function.update_noteq h21, h23]

theorem backward_steps_get_rear :
    ∀ (k : Nat) (a : DynamicArray α), a.Valid → k < a.size →
      (a.backward_steps k).get_rear 0 = a.get_rear k
  | 0, _, _, _ => rfl
  | k + 1, a, hv, hk => by
    rw [backward_steps,
      backward_steps_get_rear k a.step_backward (step_backward_valid hv)
        (by rw [step_backward_size hv]; omega),
      step_backward_get_rear hv k hk]

/-- C12. On a valid delay line (capacity `C ≥ 1`) with default `d`, after
`step_forward()` the rear reads `d`, every offset `k + 1 < C` reads what offset `k`
read before the call, and `size()` is unchanged. -/
theorem step_forward_moves_from_rear (a : DynamicArray α) (hv : a.Valid) :
    1 ≤ a.capacity ∧
    a.step_forward.get_rear 0 = a.f_val ∧
    (∀ k, k + 1 < a.capacity → a.step_forward.get_rear (k + 1) = a.get_rear k) ∧
    a.step_forward.size = a.size :=
  ⟨hv.size_pos, step_forward_get_rear_zero hv,
    fun k hk => step_forward_get_rear_succ hv k hk, step_forward_size hv⟩

/-- C12 on the line of capacity 4 whose rear sits on the last cell. -/
theorem step_forward_moves_from_rear_witness :
    1 ≤ wrapped_line.capacity ∧
    wrapped_line.step_forward.get_rear 0 = wrapped_line.f_val ∧
    (∀ k, k + 1 < wrapped_line.capacity →
      wrapped_line.step_forward.get_rear (k + 1) = wrapped_line.get_rear k) ∧
    wrapped_line.step_forward.size = wrapped_line.size :=
  step_forward_moves_from_rear wrapped_line wrapped_line_valid

/-- C13. On a valid delay line of logical size `s ≥ 1` with default `d`, after
`step_backward()` the front reads `d`, every offset `k` with `k + 1 < s` reads what
offset `k + 1` read before the call, so that the value `k < s` slots ahead of the rear
is at the rear after `k` calls; the storage changes only in the cell of the new
front, and `size()` is unchanged. -/
theorem step_backward_moves_to_rear (a : DynamicArray α) (hv : a.Valid) :
    1 ≤ a.size ∧
    a.step_backward.get_front 0 = a.f_val ∧
    (∀ k, k + 1 < a.size → a.step_backward.get_rear k = a.get_rear (k + 1)) ∧
    (∀ k, k < a.size → (a.backward_steps k).get_rear 0 = a.get_rear k) ∧
    (∀ i, i ≠ a.step_backward.f_front → a.step_backward.p_bgn i = a.p_bgn i) ∧
    a.step_backward.size = a.size := by
  refine ⟨by rw [size_eq hv]; omega, step_backward_get_front_zero hv,
    fun k hk => step_backward_get_rear hv k hk,
    fun k hk => backward_steps_get_rear k a hv hk, ?_, step_backward_size hv⟩
  intro i hi
  exact Function.update_noteq hi _ _

/-- C13 on the line of capacity 4 whose rear sits on the last cell. -/
theorem step_backward_moves_to_rear_witness :
    1 ≤ wrapped_line.size ∧
    wrapped_line.step_backward.get_front 0 = wrapped_line.f_val ∧
    (∀ k, k + 1 < wrapped_line.size →
      wrapped_line.step_backward.get_rear k = wrapped_line.get_rear (k + 1)) ∧
    (∀ k, k < wrapped_line.size →
      (wrapped_line.backward_steps k).get_rear 0 = wrapped_line.get_rear k) ∧
    (∀ i, i ≠ wrapped_line.step_backward.f_front →
      wrapped_line.step_backward.p_bgn i = wrapped_line.p_bgn i) ∧
    wrapped_line.step_backward.size = wrapped_line.size :=
  step_backward_moves_to_rear wrapped_line wrapped_line_valid

end DynamicArray

/-! ## Delay line: construction and resizing -/

namespace DynamicArray

variable {α : Type}

theorem resize_shrink (a : DynamicArray α) (hv : a.Valid) (n : Nat) (h1 : 1 ≤ n)
    (hle : n ≤ a.f_size) :
    (a.resize n).f_size = a.f_size ∧ (a.resize n).size = n ∧
      ∀ k, (a.resize n).get_rear k = a.f_val := by
  have hn0 : n ≠ 0 := by omega
  have hr : a.resize n = { a with
      f_front := (a.f_rear + n - 1) &&& a.f_last
      p_front := (a.f_rear + n - 1) &&& a.f_last
      p_bgn := fill_range a.p_bgn a.p_end a.f_val } := by
    simp [resize, hn0, hle]
  have hv2 : (a.resize n).Valid := by
    rw [hr]
    refine ⟨hv.pow, hv.last, hv.rear_lt, ?_, hv.end_eq, hv.rear_eq, rfl⟩
    show (a.f_rear + n - 1) &&& a.f_last < a.f_size
    rw [hv.mask_eq_mod]
    exact Nat.mod_lt _ hv.size_pos
  have hrl := hv.rear_lt
  refine ⟨by rw [hr], ?_, ?_⟩
  · rw [size_eq hv2, hr]
    show (((a.f_rear + n - 1) &&& a.f_last) + a.f_size - a.f_rear) % a.f_size + 1 = n
    rw [hv.mask_eq_mod]
    have c1 := mod_cases (a.f_rear + n - 1) a.f_size (by omega)
    generalize (a.f_rear + n - 1) % a.f_size = f1 at c1 ⊢
    have c2 := mod_cases (f1 + a.f_size - a.f_rear) a.f_size (by omega)
    generalize (f1 + a.f_size - a.f_rear) % a.f_size = s1 at c2 ⊢
    omega
  · intro k
    rw [get_rear_eq hv2, hr]
    show fill_range a.p_bgn a.p_end a.f_val ((a.f_rear + k) % a.f_size) = a.f_val
    rw [hv.end_eq]
    simp only [fill_range]
    rw [if_pos (Nat.mod_lt _ hv.size_pos)]

theorem resize_grow (a : DynamicArray α) (n : Nat) (h1 : 1 ≤ n) (h2 : n ≤ 2 ^ 30)
    (hgt : a.f_size < n) :
    (a.resize n).f_size = nextpow2 n ∧ (a.resize n).size = n ∧
      ∀ k, (a.resize n).get_rear k = a.f_val := by
  have hn0 : n ≠ 0 := by omega
  have hle : ¬ n ≤ a.f_size := by omega
  obtain ⟨e, he, hge, _⟩ := nextpow2_spec n h1 h2
  have hr : a.resize n = { a with
      f_size := nextpow2 n, f_last := nextpow2 n - 1, f_rear := 0, f_front := n - 1,
      p_end := nextpow2 n, p_rear := 0, p_front := n - 1,
      p_bgn := fill_range a.p_bgn (nextpow2 n) a.f_val } := by
    simp [resize, hn0, hle]
  have hv2 : (a.resize n).Valid := by
    rw [hr]
    refine ⟨⟨e, he⟩, rfl, ?_, ?_, rfl, rfl, rfl⟩
    · show 0 < nextpow2 n
      omega
    · show n - 1 < nextpow2 n
      omega
  refine ⟨by rw [hr], ?_, ?_⟩
  · rw [size_eq hv2, hr]
    show (n - 1 + nextpow2 n - 0) % nextpow2 n + 1 = n
    have c1 := mod_cases (n - 1 + nextpow2 n - 0) (nextpow2 n) (by omega)
    generalize (n - 1 + nextpow2 n - 0) % nextpow2 n = s1 at c1 ⊢
    omega
  · intro k
    rw [get_rear_eq hv2, hr]
    show fill_range a.p_bgn (nextpow2 n) a.f_val ((0 + k) % nextpow2 n) = a.f_val
    simp only [fill_range]
    rw [if_pos (Nat.mod_lt _ (by omega))]

theorem resize_zero (a : DynamicArray α) :
    (a.resize 0).capacity = 0 ∧ (a.resize 0).size = 0 := by
  simp [resize, capacity, size]

theorem nextpow2_least (n : Nat) (h1 : 1 ≤ n) (h2 : n ≤ 2 ^ 30) :
    (∃ e, nextpow2 n = 2 ^ e) ∧ n ≤ nextpow2 n ∧ ∀ e', n ≤ 2 ^ e' → nextpow2 n ≤ 2 ^ e' := by
  obtain ⟨e, he, hle, hlt⟩ := nextpow2_spec n h1 h2
  refine ⟨⟨e, he⟩, by omega, ?_⟩
  intro e' h'
  rw [he]
  exact pow2_least n e hlt e' h'

/-- C14. The constructor `DynamicArray(n, d)` gives, for `n = 0`, an empty delay line
(`capacity() = 0`, `size() = 0`) and, for `1 ≤ n ≤ 2^30`, a delay line whose capacity
is the least power of two that is at least `n`, whose `size()` is `n`, and all of whose
cells read `d`. -/
theorem mk_array_spec (mem : Nat → α) (d : α) :
    ((mk_array mem 0 d).capacity = 0 ∧ (mk_array mem 0 d).size = 0) ∧
    ∀ n, 1 ≤ n → n ≤ 2 ^ 30 →
      (∃ e, (mk_array mem n d).capacity = 2 ^ e) ∧
      n ≤ (mk_array mem n d).capacity ∧
      (∀ e', n ≤ 2 ^ e' → (mk_array mem n d).capacity ≤ 2 ^ e') ∧
      (mk_array mem n d).size = n ∧
      ∀ k, k < (mk_array mem n d).capacity → (mk_array mem n d).get_rear k = d := by
  refine ⟨⟨rfl, rfl⟩, ?_⟩
  intro n h1 h2
  have hn0 : n ≠ 0 := by omega
  have hm : mk_array mem n d =
      ({ p_bgn := mem, f_front := 0, f_last := 0, f_rear := 0, f_size := 0,
         p_rear := 0, p_end := 0, p_front := 0, f_val := d } : DynamicArray α).resize n := by
    simp [mk_array, hn0]
  obtain ⟨g1, g2, g3⟩ := resize_grow
    ({ p_bgn := mem, f_front := 0, f_last := 0, f_rear := 0, f_size := 0,
       p_rear := 0, p_end := 0, p_front := 0, f_val := d } : DynamicArray α) n h1 h2
    (by show 0 < n; omega)
  obtain ⟨l1, l2, l3⟩ := nextpow2_least n h1 h2
  rw [hm]
  unfold capacity
  rw [g1]
  exact ⟨l1, l2, l3, g2, fun k _ => g3 k⟩

/-- C14 for a line of five cells of the value 7: capacity 8, size 5. -/
theorem mk_array_spec_witness :
    (∃ e, (mk_array (fun _ => (0 : Int)) 5 7).capacity = 2 ^ e) ∧
      5 ≤ (mk_array (fun _ => (0 : Int)) 5 7).capacity ∧
      (∀ e', 5 ≤ 2 ^ e' → (mk_array (fun _ => (0 : Int)) 5 7).capacity ≤ 2 ^ e') ∧
      (mk_array (fun _ => (0 : Int)) 5 7).size = 5 ∧
      ∀ k, k < (mk_array (fun _ => (0 : Int)) 5 7).capacity →
        (mk_array (fun _ => (0 : Int)) 5 7).get_rear k = 7 :=
  (mk_array_spec (fun _ => (0 : Int)) 7).2 5 (by decide) (by decide)

/-- C15. Calling `resize(n)` on a delay line of capacity `C` and default `d`, valid or
empty: for `1 ≤ n ≤ C` the capacity stays `C`, `size()` becomes `n` and every cell
reads `d`; for `C < n ≤ 2^30` the capacity becomes the least power of two that is at
least `n`, `size()` becomes `n` and every cell reads `d`; `resize(0)` leaves an empty
line of capacity 0. -/
theorem resize_discards (a : DynamicArray α) (h0 : a.Valid ∨ a.f_size = 0) (n : Nat) :
    (1 ≤ n → n ≤ a.capacity →
      (a.resize n).capacity = a.capacity ∧ (a.resize n).size = n ∧
        ∀ k, k < (a.resize n).capacity → (a.resize n).get_rear k = a.f_val) ∧
    (a.capacity < n → n ≤ 2 ^ 30 →
      (∃ e, (a.resize n).capacity = 2 ^ e) ∧ n ≤ (a.resize n).capacity ∧
        (∀ e', n ≤ 2 ^ e' → (a.resize n).capacity ≤ 2 ^ e') ∧ (a.resize n).size = n ∧
        ∀ k, k < (a.resize n).capacity → (a.resize n).get_rear k = a.f_val) ∧
    ((a.resize 0).capacity = 0 ∧ (a.resize 0).size = 0) := by
  unfold capacity
  refine ⟨?_, ?_, resize_zero a⟩
  · intro h1 hle
    have hv : a.Valid := by
      rcases h0 with hv | hz
      · exact hv
      · omega
    obtain ⟨g1, g2, g3⟩ := resize_shrink a hv n h1 hle
    exact ⟨g1, g2, fun k _ => g3 k⟩
  · intro hgt h2
    obtain ⟨g1, g2, g3⟩ := resize_grow a n (by omega) h2 hgt
    obtain ⟨l1, l2, l3⟩ := nextpow2_least n (by omega) h2
    rw [g1]
    exact ⟨l1, l2, l3, g2, fun k _ => g3 k⟩

/-- C15 on the line of capacity 4 whose rear sits on the last cell: `resize(3)` keeps
the capacity, `resize(6)` grows it to 8. -/
theorem resize_discards_witness :
    ((wrapped_line.resize 3).capacity = wrapped_line.capacity ∧
      (wrapped_line.resize 3).size = 3 ∧
      ∀ k, k < (wrapped_line.resize 3).capacity →
        (wrapped_line.resize 3).get_rear k = wrapped_line.f_val) ∧
    ((∃ e, (wrapped_line.resize 6).capacity = 2 ^ e) ∧ 6 ≤ (wrapped_line.resize 6).capacity ∧
      (∀ e', 6 ≤ 2 ^ e' → (wrapped_line.resize 6).capacity ≤ 2 ^ e') ∧
      (wrapped_line.resize 6).size = 6 ∧
      ∀ k, k < (wrapped_line.resize 6).capacity →
        (wrapped_line.resize 6).get_rear k = wrapped_line.f_val) :=
  ⟨(resize_discards wrapped_line (Or.inl wrapped_line_valid) 3).1 (by decide) (by decide),
    (resize_discards wrapped_line (Or.inl wrapped_line_valid) 6).2.1 (by decide) (by decide)⟩

end DynamicArray

/-! ## Delay line: a kernel written at the rear -/

namespace DynamicArray

variable {α : Type}

/-- C11, as stated, fails when the kernel is longer than the capacity: on the line
of capacity 4 whose rear sits on the last cell, a kernel of six samples reaches only
the offsets 0 and 1, and offset 2 keeps its value. -/
theorem add2rear_longer_than_capacity_counterexample :
    wrapped_line.capacity < 6 ∧
    ¬ (∀ i, i < 6 →
      (wrapped_line.add2rear (fun i => (i : Int) + 5) 6 0 2).get_rear i =
        wrapped_line.get_rear i + 2 * ((i : Int) + 5)) :=
  ⟨by decide, fun h => absurd (h 2 (by decide)) (by decide)⟩

/-- C11, amended. On a valid delay line, for a kernel of `n` samples with
`n ≤ capacity()`, `add2rear(kernel, n, 0, scale)` followed by `get_rear(i)` yields the
prior value plus `scale * kernel[i]` for every `i < n`, also when the destination
wraps past the end of the storage. -/
theorem add2rear_at_rear [Add α] [CommMagma α] (a : DynamicArray α) (hv : a.Valid)
    (kernel : Nat → α) (n : Nat) (scale : α) (hn : n ≤ a.capacity) :
    ∀ i, i < n →
      (a.add2rear kernel n 0 scale).get_rear i = a.get_rear i + scale * kernel i := by
  intro i hi
  unfold capacity at hn
  rw [add2rear_cell a hv kernel n 0 scale (by omega) (by omega) i (by omega),
    if_pos (by omega), Nat.sub_zero, mul_comm]

/-- C11, amended, at a wrapping destination: capacity 4, rear on the last cell, a
kernel of four samples. -/
theorem add2rear_at_rear_witness :
    4 ≤ wrapped_line.capacity ∧
    ∀ i, i < 4 →
      (wrapped_line.add2rear (fun i => (i : Int) + 5) 4 0 2).get_rear i =
        wrapped_line.get_rear i + 2 * ((i : Int) + 5) :=
  ⟨by decide,
    add2rear_at_rear wrapped_line wrapped_line_valid (fun i => (i : Int) + 5) 4 2 (by decide)⟩

end DynamicArray

/-! ## The synaptic connection: the weight is the product of its three factors -/

namespace SynpConnObj

variable {α : Type} [LinearOrderedField α]

theorem weight_of_reachable (s : SynpConnObj α) (h : Reachable s) :
    s.weight = s.synp * s.psp_decay * s.eqM_const := by
  induction h with
  | default => simp [weight, synp, psp_decay, eqM_const, ctor_default]
  | value val pre post ilayer => simp [weight, synp, psp_decay, eqM_const, ctor_value]
  | copy p _ ih => exact ih
  | set s val pre post ilayer _ _ => rfl
  | set_presynp s pre _ ih =>
    unfold SynpConnObj.set_presynp
    split
    · exact ih
    · exact ih
  | set_postsynp s post _ ih =>
    unfold SynpConnObj.set_postsynp
    split
    · exact ih
    · exact ih
  | set_layer s ly _ ih =>
    unfold SynpConnObj.set_layer
    split
    · exact ih
    · exact ih
  | set_synp s sy _ ih =>
    unfold SynpConnObj.set_synp
    split
    · exact ih
    · rfl
  | set_psp_decay s decay _ ih =>
    unfold SynpConnObj.set_psp_decay
    split
    · exact ih
    · rfl
  | set_eqM_const s val _ _ => rfl
  | set_spk_delay s delay _ ih => exact ih
  | set_psp_delay s delay _ ih => exact ih
  | swap_this s p _ _ _ ihp => exact ihp
  | swap_other s p _ _ ihs _ => exact ihs

/-- C18. In every state of a `SynpConn` reachable from its constructors through `set`,
the setters and `swap`, `weight() = synp() * psp_decay() * eqM_const()`; `set_synp`
with a negative count and `set_psp_decay` with a factor outside `[0, 1]` return
`false` and leave the object as it was, and return `true` otherwise. -/
theorem weight_is_product :
    (∀ s : SynpConnObj α, Reachable s → s.weight = s.synp * s.psp_decay * s.eqM_const) ∧
    (∀ (s : SynpConnObj α) (sy : α), sy < 0 → s.set_synp sy = (false, s)) ∧
    (∀ (s : SynpConnObj α) (decay : α), decay < 0 ∨ 1 < decay →
      s.set_psp_decay decay = (false, s)) ∧
    (∀ (s : SynpConnObj α) (sy : α), 0 ≤ sy → (s.set_synp sy).1 = true) ∧
    (∀ (s : SynpConnObj α) (decay : α), 0 ≤ decay → decay ≤ 1 →
      (s.set_psp_decay decay).1 = true) := by
  refine ⟨weight_of_reachable, ?_, ?_, ?_, ?_⟩
  · intro s sy h
    unfold SynpConnObj.set_synp
    rw [if_pos h]
  · intro s decay h
    unfold SynpConnObj.set_psp_decay
    rw [if_pos h]
  · intro s sy h
    unfold SynpConnObj.set_synp
    rw [if_neg (not_lt.mpr h)]
  · intro s decay h1 h2
    unfold SynpConnObj.set_psp_decay
    rw [if_neg (by rw [not_or]; exact ⟨not_lt.mpr h1, not_lt.mpr h2⟩)]

end SynpConnObj

/-- C18 on a connection built by the value constructor and two setters; a negative
synapse count is rejected. -/
theorem weight_is_product_witness :
    SynpConnObj.Reachable lab_conn ∧
      lab_conn.weight = lab_conn.synp * lab_conn.psp_decay * lab_conn.eqM_const ∧
      (-1 : ℚ) < 0 ∧ lab_conn.set_synp (-1) = (false, lab_conn) :=
  have hr : SynpConnObj.Reachable lab_conn :=
    SynpConnObj.Reachable.set_psp_decay _ _
      (SynpConnObj.Reachable.set_eqM_const _ _ (SynpConnObj.Reachable.value 3 0 1 2))
  ⟨hr, SynpConnObj.weight_is_product.1 lab_conn hr, by norm_num,
    SynpConnObj.weight_is_product.2.1 lab_conn (-1) (by norm_num)⟩

/-! ## The sizing of the voltage lines -/

theorem foldl_max_ge_init {γ : Type} (f : γ → Nat) :
    ∀ (l : List γ) (m : Nat), m ≤ l.foldl (fun m x => max m (f x)) m
  | [], _ => Nat.le_refl _
  | x :: l, m => Nat.le_trans (Nat.le_max_left m (f x)) (foldl_max_ge_init f l _)

theorem foldl_max_ge_mem {γ : Type} (f : γ → Nat) :
    ∀ (l : List γ) (m : Nat) (x : γ), x ∈ l → f x ≤ l.foldl (fun m x => max m (f x)) m
  | [], _, _, h => absurd h (List.not_mem_nil _)
  | y :: l, m, x, h => by
    rcases List.mem_cons.mp h with he | hm
    · rw [he]
      exact Nat.le_trans (Nat.le_max_right m (f y)) (foldl_max_ge_init f l _)
    · exact foldl_max_ge_mem f l _ x hm

section EngineFrame

variable {α ω : Type}

theorem psp_size_le_max (s : Simulation α ω) (rc : Receptor α)
    (h : rc ∈ s.gRcpt_excit ∨ rc ∈ s.gRcpt_inhib) : rc.psp_size ≤ max_psp_size s := by
  unfold max_psp_size
  rcases h with h | h
  · exact Nat.le_trans (foldl_max_ge_mem (fun rc : Receptor α => rc.psp_size) _ 0 rc h)
      (foldl_max_ge_init (fun rc : Receptor α => rc.psp_size) _ _)
  · exact foldl_max_ge_mem (fun rc : Receptor α => rc.psp_size) _ _ rc h

theorem group_delay_ge_init :
    ∀ (l : List (NeurGrp α)) (m : Nat),
      m ≤ l.foldl
        (fun m ng => ng.synp_conn.foldl (fun m sy => max m sy.sy_psp_delay) m) m
  | [], _ => Nat.le_refl _
  | ng :: l, m =>
    Nat.le_trans (foldl_max_ge_init (fun sy : SynpConn α => sy.sy_psp_delay) ng.synp_conn m)
      (group_delay_ge_init l _)

theorem group_delay_ge_mem :
    ∀ (l : List (NeurGrp α)) (m : Nat) (sn : NeurGrp α), sn ∈ l →
      ∀ sy ∈ sn.synp_conn,
        sy.sy_psp_delay ≤ l.foldl
          (fun m ng => ng.synp_conn.foldl (fun m sy => max m sy.sy_psp_delay) m) m
  | [], _, _, h, _, _ => absurd h (List.not_mem_nil _)
  | ng :: l, m, sn, h, sy, hsy => by
    rcases List.mem_cons.mp h with he | hm
    · rw [he] at hsy
      exact Nat.le_trans
        (foldl_max_ge_mem (fun sy : SynpConn α => sy.sy_psp_delay) ng.synp_conn m sy hsy)
        (group_delay_ge_init l _)
    · exact group_delay_ge_mem l _ sn hm sy hsy

end EngineFrame

section Engine

variable {α ω : Type} [LinearOrderedField α]

theorem init_volt_line_capacity (junk : Nat → α) (n : Nat) (V_0 : α) (h1 : 1 ≤ n)
    (h2 : n ≤ 2 ^ 30) :
    (init_volt_line junk n V_0).Valid ∧ (init_volt_line junk n V_0).capacity = nextpow2 n := by
  obtain ⟨r1, _, _⟩ := DynamicArray.resize_spec (DynamicArray.mk_array junk 0 (0 : α))
    (Or.inr rfl) n h1 h2
  obtain ⟨g1, _, _⟩ := DynamicArray.resize_grow (DynamicArray.mk_array junk 0 (0 : α)) n h1 h2
    (by show 0 < n; omega)
  have hz : ((DynamicArray.mk_array junk 0 (0 : α)).resize n).f_size ≠ 0 :=
    Nat.pos_iff_ne_zero.mp r1.size_pos
  have hf : ((((DynamicArray.mk_array junk 0 (0 : α)).resize n).set_default V_0).fill V_0) =
      { (((DynamicArray.mk_array junk 0 (0 : α)).resize n).set_default V_0) with
        p_bgn := DynamicArray.fill_range
          (((DynamicArray.mk_array junk 0 (0 : α)).resize n).set_default V_0).p_bgn
          (((DynamicArray.mk_array junk 0 (0 : α)).resize n).set_default V_0).p_end V_0 } := by
    exact if_pos hz
  have hv : ((((DynamicArray.mk_array junk 0 (0 : α)).resize n).set_default V_0).fill V_0).Valid := by
    rw [hf]
    exact ⟨r1.pow, r1.last, r1.rear_lt, r1.front_lt, r1.end_eq, r1.rear_eq, r1.front_eq⟩
  refine ⟨DynamicArray.step_backward_valid hv, ?_⟩
  show ((((DynamicArray.mk_array junk 0 (0 : α)).resize n).set_default V_0).fill V_0).f_size = _
  rw [hf]
  exact g1

end Engine

namespace DynamicArray

variable {α : Type}

/-- An offset beyond the capacity is reduced modulo the capacity by the index mask of
`add2rear`: the kernel lands where the offset `eps % capacity` would put it. -/
theorem add2rear_offset_mod [Add α] [Mul α] (a : DynamicArray α) (hv : a.Valid)
    (p_val : Nat → α) (n eps : Nat) (mag : α) (hn : 1 ≤ n) :
    a.add2rear p_val n eps mag = a.add2rear p_val n (eps % a.f_size) mag := by
  have h1 : (a.f_rear + eps) &&& a.f_last = (a.f_rear + eps % a.f_size) &&& a.f_last := by
    rw [hv.mask_eq_mod, hv.mask_eq_mod, Nat.add_mod_mod]
  have h2 : (a.f_rear + eps + n - 1) &&& a.f_last =
      (a.f_rear + eps % a.f_size + n - 1) &&& a.f_last := by
    have e1 : a.f_rear + eps + n - 1 = a.f_rear + (n - 1) + eps := by omega
    have e2 : a.f_rear + eps % a.f_size + n - 1 = a.f_rear + (n - 1) + eps % a.f_size := by
      omega
    rw [hv.mask_eq_mod, hv.mask_eq_mod, e1, e2, Nat.add_mod_mod]
  unfold add2rear
  simp only [h1, h2]

end DynamicArray

section Engine

variable {α ω : Type} [LinearOrderedField α]

theorem init_volt_at (junk : Nat → α) (s : Simulation α ω) (e g : Nat)
    (he : e < s.gElmt_num) (hg : g < s.gNeur.length) :
    ∃ V_0, (init_volt junk s).gVolt e g = init_volt_line junk (volt_arry_size s) V_0 := by
  have hv : (init_volt junk s).gVolt e =
      fold_idx
        (fun row ineur ng =>
          Function.update row ineur (init_volt_line junk (volt_arry_size s) ng.V_0))
        s.gNeur 0 (s.gVolt e) := by
    show (List.range s.gElmt_num).foldl _ s.gVolt e = _
    rw [foldl_range_update
      (fun _ row => fold_idx
        (fun row ineur ng =>
          Function.update row ineur (init_volt_line junk (volt_arry_size s) ng.V_0))
        s.gNeur 0 row) s.gVolt s.gElmt_num e, if_pos he]
  rw [hv]
  exact fold_idx_update_prop
    (fun _ (ng : NeurGrp α) _ => init_volt_line junk (volt_arry_size s) ng.V_0)
    (fun v => ∃ V_0, v = init_volt_line junk (volt_arry_size s) V_0)
    (fun _ ng _ => ⟨ng.V_0, rfl⟩)
    s.gNeur 0 (s.gVolt e) g (Nat.zero_le g) (by rw [Nat.zero_add]; exact hg)

/-- The voltage lines sized by `Simulation::init` cover every `add2rear` call of step 5:
for a connection of a neuron group and a receptor of either polarity,
`psp_delay + psp_size` does not exceed the capacity of the target line. -/
theorem init_volt_covers_group_conns (junk : Nat → α) (s : Simulation α ω)
    (hN : max_psp_size s + max_psp_delay s + 1 ≤ 2 ^ 30)
    (e : Nat) (he : e < s.gElmt_num) (sn : NeurGrp α) (hsn : sn ∈ s.gNeur)
    (sy : SynpConn α) (hsy : sy ∈ sn.synp_conn) (hpost : sy.sy_post < s.gNeur.length)
    (rc : Receptor α) (hrc : rc ∈ s.gRcpt_excit ∨ rc ∈ s.gRcpt_inhib) :
    ((init_volt junk s).gVolt e sy.sy_post).Valid ∧
      sy.sy_psp_delay + rc.psp_size ≤ ((init_volt junk s).gVolt e sy.sy_post).capacity := by
  obtain ⟨V_0, hl⟩ := init_volt_at junk s e sy.sy_post he hpost
  have b1 := psp_size_le_max s rc hrc
  have b2 : sy.sy_psp_delay ≤ max_psp_delay s := group_delay_ge_mem s.gNeur 0 sn hsn sy hsy
  obtain ⟨k, hk, hge, hlt⟩ := nextpow2_spec (max_psp_size s + max_psp_delay s + 1) (by omega) hN
  have hV : volt_arry_size s = 2 ^ k := hk
  have hk30 : k ≤ 30 := by
    by_contra hc
    have : 2 ^ 31 ≤ 2 ^ k := Nat.pow_le_pow_right (by decide) (by omega)
    have : (2 : Nat) ^ 31 = 2 * 2 ^ 30 := by norm_num
    omega
  have hV30 : volt_arry_size s ≤ 2 ^ 30 := by
    rw [hV]
    exact Nat.pow_le_pow_right (by decide) hk30
  have hV1 : 1 ≤ volt_arry_size s := by
    rw [hV]
    exact Nat.one_le_two_pow
  obtain ⟨c1, c2⟩ := init_volt_line_capacity junk (volt_arry_size s) V_0 hV1 hV30
  obtain ⟨_, _, hge2, _⟩ := nextpow2_spec (volt_arry_size s) hV1 hV30
  rw [hl]
  refine ⟨c1, ?_⟩
  rw [c2]
  have : max_psp_size s + max_psp_delay s + 1 ≤ volt_arry_size s := by rw [hV]; exact hge
  omega

end Engine

/-- C17 fails for an external source: in the one-element model whose external
connection has a PSP delay of 10 steps while the connections between the neuron
groups have at most 1, `Simulation::init` sizes the voltage lines to 8 cells
(`nextpow2(3 + 1 + 1)`), so the `add2rear` call of step 3 has
`psp_delay + psp_size = 13 > 8`, and the kernel lands at the offset 2 instead of 10. -/
theorem external_delay_exceeds_volt_line :
    far_sim.gExSrc = [far_src] ∧
    (far_sim.gVolt 0 0).capacity = 8 ∧
    (∀ sy ∈ far_src.synp_conn, ∀ rc ∈ far_sim.gRcpt_excit,
      sy.sy_post = 0 ∧ (far_sim.gVolt 0 0).capacity < sy.sy_psp_delay + rc.psp_size) ∧
    ∀ m : ℚ,
      (far_sim.gVolt 0 0).add2rear toy_rcpt.psp toy_rcpt.psp_size 10 m =
        (far_sim.gVolt 0 0).add2rear toy_rcpt.psp toy_rcpt.psp_size 2 m := by
  have hcap : (far_sim.gVolt 0 0).capacity = 8 := by decide
  refine ⟨rfl, hcap, ?_, ?_⟩
  · intro sy hsy rc hrc
    have e1 : sy = { sy_spk_delay := 0, sy_psp_delay := 10, sy_weight := 1 / 100, sy_post := 0 } :=
      List.mem_singleton.mp hsy
    have e2 : rc = toy_rcpt := List.mem_singleton.mp hrc
    rw [hcap, e1, e2]
    exact ⟨rfl, by decide⟩
  · intro m
    obtain ⟨V_0, hl⟩ := init_volt_at (fun _ => (0 : ℚ))
      { toy_sim with gExSrc := [far_src], tCheck_pnt := 5 } 0 0 (by decide) (by decide)
    have hl2 : far_sim.gVolt 0 0 = init_volt_line (fun _ => (0 : ℚ))
        (volt_arry_size { toy_sim with gExSrc := [far_src], tCheck_pnt := 5 }) V_0 := hl
    have hv : (far_sim.gVolt 0 0).Valid := by
      rw [hl2]
      exact (init_volt_line_capacity _ _ V_0 (by decide) (by decide)).1
    have h8 : (far_sim.gVolt 0 0).f_size = 8 := hcap
    have := DynamicArray.add2rear_offset_mod (far_sim.gVolt 0 0) hv toy_rcpt.psp
      toy_rcpt.psp_size 10 m (by decide)
    rw [h8] at this
    exact this

/-! ## The Gaussian waveform of a stimulator -/

namespace DynamicArray

variable {α : Type}

theorem set_elem_valid {a : DynamicArray α} (hv : a.Valid) (i : Nat) (v : α) :
    (a.set_elem i v).Valid :=
  ⟨hv.pow, hv.last, hv.rear_lt, hv.front_lt, hv.end_eq, hv.rear_eq, hv.front_eq⟩

theorem set_elem_elem {a : DynamicArray α} (hv : a.Valid) (i j : Nat) (v : α)
    (hi : i < a.f_size) (hj : j < a.f_size) :
    (a.set_elem i v).elem j = if j = i then v else a.elem j := by
  have hr := hv.rear_lt
  show Function.update a.p_bgn ((a.f_rear + i) &&& a.f_last) v ((a.f_rear + j) &&& a.f_last) =
    if j = i then v else a.p_bgn ((a.f_rear + j) &&& a.f_last)
  rw [hv.mask_eq_mod, hv.mask_eq_mod]
  by_cases hji : j = i
  · rw [hji, if_pos rfl, Function.update_same]
  · rw [if_neg hji]
    have c1 := mod_cases (a.f_rear + i) a.f_size (by omega)
    have c2 := mod_cases (a.f_rear + j) a.f_size (by omega)
    generalize (a.f_rear + i) % a.f_size = x at c1 ⊢
    generalize (a.f_rear + j) % a.f_size = y at c2 ⊢
    exact Function.update_noteq (by omega) _ _

theorem foldl_set_elem (f : Nat → α) :
    ∀ (n : Nat) (a : DynamicArray α), a.Valid → n ≤ a.f_size →
      ((List.range n).foldl (fun a idx => a.set_elem idx (f idx)) a).Valid ∧
      ((List.range n).foldl (fun a idx => a.set_elem idx (f idx)) a).f_size = a.f_size ∧
      ∀ j, j < a.f_size →
        ((List.range n).foldl (fun a idx => a.set_elem idx (f idx)) a).elem j =
          if j < n then f j else a.elem j
  | 0, a, hv, _ => by
    refine ⟨hv, rfl, ?_⟩
    intro j _
    rw [if_neg (by omega)]
    rfl
  | n + 1, a, hv, hn => by
    obtain ⟨i1, i2, i3⟩ := foldl_set_elem f n a hv (by omega)
    rw [List.range_succ, List.foldl_append, List.foldl_cons, List.foldl_nil]
    refine ⟨set_elem_valid i1 n (f n), i2, ?_⟩
    intro j hj
    rw [set_elem_elem i1 n j (f n) (by rw [i2]; omega) (by rw [i2]; exact hj)]
    by_cases hjn : j = n
    · rw [if_pos hjn, if_pos (by omega), hjn]
    · rw [if_neg hjn, i3 j hj]
      by_cases hlt : j < n
      · rw [if_pos hlt, if_pos (by omega)]
      · rw [if_neg hlt, if_neg (by omega)]

end DynamicArray

section Engine

variable {α ρ : Type} [LinearOrderedField α]

theorem gauss_fill_elem (env : WaveEnv α ρ) (ampl : α) (P : Nat) (a : DynamicArray α)
    (h0 : a.Valid ∨ a.f_size = 0) (h1 : 1 ≤ P) (h2 : P ≤ 2 ^ 30) (j : Nat) (hj : j < P) :
    (gauss_fill env ampl P (a.resize P)).elem j = gauss_entry env ampl P j := by
  obtain ⟨hv, _, _⟩ := DynamicArray.resize_spec a h0 P h1 h2
  have hsz : P ≤ (a.resize P).f_size := by
    by_cases hle : P ≤ a.f_size
    · have hva : a.Valid := by
        rcases h0 with hva | hz
        · exact hva
        · omega
      rw [(DynamicArray.resize_shrink a hva P h1 hle).1]
      exact hle
    · rw [(DynamicArray.resize_grow a P h1 h2 (by omega)).1]
      obtain ⟨e, he, hge, _⟩ := nextpow2_spec P h1 h2
      omega
  obtain ⟨_, _, i3⟩ := DynamicArray.foldl_set_elem (gauss_entry env ampl P) P (a.resize P) hv hsz
  unfold gauss_fill
  rw [i3 j (by omega), if_pos hj]

theorem gauss_init_eq (env : WaveEnv α ρ) (w : StimWave α ρ) (g : RandGlobal ρ)
    (hflg : ∀ idx, idx < ST_PARA_NUM → w.st_paramFlg idx = true) (helm : w.st_elmts ≠ [])
    (hmode : w.st_mode = StimMode.ST_GAUSS) :
    StimWave.init env w g =
      ({ w with
         st_elmts := w.st_elmts.insertionSort fun a b => a ≤ b
         st_phi_in := w.st_phi_in.clear
         st_phi_out := gauss_fill env w.st_ampl w.st_period_win
           (w.st_phi_out.resize w.st_period_win)
         st_pos := 0
         st_state := true },
       if g.Rand_state then g else rand_init env 0 g) := by
  have he : w.st_elmts.isEmpty = false := by
    cases hl : w.st_elmts with
    | nil => exact absurd hl helm
    | cons x xs => rfl
  unfold StimWave.init
  rw [if_neg (not_not.mpr hflg), he]
  simp only [Bool.false_eq_true, if_false, hmode]

theorem succ_mod_wrap (k P : Nat) (h1 : 1 ≤ P) :
    (if k % P + 1 = P then 0 else k % P + 1) = (k + 1) % P := by
  have hlt : k % P < P := Nat.mod_lt k h1
  have e : (k + 1) % P = (k % P + 1) % P := (Nat.mod_add_mod k P 1).symm
  rw [e]
  by_cases hc : k % P + 1 = P
  · rw [if_pos hc, hc, Nat.mod_self]
  · rw [if_neg hc, Nat.mod_eq_of_lt (show k % P + 1 < P by omega)]

theorem gauss_after (env : WaveEnv α ρ) (w : StimWave α ρ) (g : RandGlobal ρ)
    (hflg : ∀ idx, idx < ST_PARA_NUM → w.st_paramFlg idx = true) (helm : w.st_elmts ≠ [])
    (hmode : w.st_mode = StimMode.ST_GAUSS) (h1 : 1 ≤ w.st_period_win) :
    ∀ k, (StimWave.after env w g k).1 =
        { (StimWave.init env w g).1 with st_pos := k % w.st_period_win } ∧
      (StimWave.after env w g k).2 = (StimWave.init env w g).2
  | 0 => by
    refine ⟨?_, rfl⟩
    show (StimWave.init env w g).1 = _
    rw [gauss_init_eq env w g hflg helm hmode, Nat.zero_mod]
  | k + 1 => by
    obtain ⟨i1, i2⟩ := gauss_after env w g hflg helm hmode h1 k
    have hm : (StimWave.after env w g k).1.st_mode = StimMode.ST_GAUSS := by
      rw [i1, gauss_init_eq env w g hflg helm hmode]
      exact hmode
    have hp : (StimWave.after env w g k).1.st_period_win = w.st_period_win := by
      rw [i1, gauss_init_eq env w g hflg helm hmode]
    have hpos : (StimWave.after env w g k).1.st_pos = k % w.st_period_win := by
      rw [i1]
    have hstep : StimWave.after env w g (k + 1) =
        ({ (StimWave.after env w g k).1 with
           st_pos := if (StimWave.after env w g k).1.st_pos + 1 =
             (StimWave.after env w g k).1.st_period_win then 0
             else (StimWave.after env w g k).1.st_pos + 1 },
         (StimWave.after env w g k).2) := by
      show StimWave.advance env _ _ = _
      unfold StimWave.advance
      rw [if_pos hm]
    have hidx := succ_mod_wrap k w.st_period_win h1
    rw [hstep, hpos, hp, hidx, i2]
    refine ⟨?_, rfl⟩
    rw [i1]

end Engine

section Engine

variable {α ρ : Type} [LinearOrderedField α]

theorem gauss_entry_eq (env : WaveEnv α ρ) (ampl : α) (P j : Nat) :
    gauss_entry env ampl P j =
      ampl * env.exp (-((j : α) - (P : α) / 2) ^ 2 / (2 * ((P : α) / 8) ^ 2)) := by
  unfold gauss_entry
  have e : ((j : α) - 1 / 2 * (P : α)) * ((j : α) - 1 / 2 * (P : α)) /
      (-2 * ((P : α) / 8) * ((P : α) / 8)) =
      -((j : α) - (P : α) / 2) ^ 2 / (2 * ((P : α) / 8) ^ 2) := by
    have d1 : -2 * ((P : α) / 8) * ((P : α) / 8) = -(2 * ((P : α) / 8) ^ 2) := by ring
    have d2 : ((j : α) - 1 / 2 * (P : α)) * ((j : α) - 1 / 2 * (P : α)) =
        ((j : α) - (P : α) / 2) ^ 2 := by ring
    rw [d1, d2, div_neg, neg_div]
  simp only [e]

/-- C19. A stimulator in the mode `ST_GAUSS` with all parameters set, an element
attached, amplitude `A`, a period of `P` steps with `1 ≤ P ≤ 2^30`, and the
activation flag set: after `init()` and `k` calls of `advance()`, `generate` returns
the table entry `A * exp(-(j - P/2)^2 / (2 * (P/8)^2))` for `j = k mod P`, and the
same value again `P` calls later. The generator is left in the state it had before
`init()`, except that `init()` seeds a generator that was never seeded
(`rand_init(0)`); none of the drawing functions is called. -/
theorem gauss_waveform (env : WaveEnv α ρ) (w : StimWave α ρ) (g : RandGlobal ρ)
    (hflg : ∀ idx, idx < ST_PARA_NUM → w.st_paramFlg idx = true) (helm : w.st_elmts ≠ [])
    (hmode : w.st_mode = StimMode.ST_GAUSS) (h1 : 1 ≤ w.st_period_win)
    (h2 : w.st_period_win ≤ 2 ^ 30)
    (h0 : w.st_phi_out.Valid ∨ w.st_phi_out.f_size = 0) (hact : w.st_active = true)
    (k ielmt : Nat) :
    (StimWave.after env w g k).1.generate ielmt =
      w.st_ampl * env.exp
        (-(((k % w.st_period_win : Nat) : α) - (w.st_period_win : α) / 2) ^ 2 /
          (2 * ((w.st_period_win : α) / 8) ^ 2)) ∧
    (StimWave.after env w g (k + w.st_period_win)).1.generate ielmt =
      (StimWave.after env w g k).1.generate ielmt ∧
    (StimWave.after env w g k).2 = (if g.Rand_state then g else rand_init env 0 g) ∧
    (g.Rand_state = true → (StimWave.after env w g k).2 = g) := by
  have hgen : ∀ n, (StimWave.after env w g n).1.generate ielmt =
      gauss_entry env w.st_ampl w.st_period_win (n % w.st_period_win) := by
    intro n
    rw [(gauss_after env w g hflg helm hmode h1 n).1, gauss_init_eq env w g hflg helm hmode]
    unfold StimWave.generate
    rw [if_neg (by rw [hact]; exact fun h => h rfl), if_pos hmode]
    exact gauss_fill_elem env w.st_ampl w.st_period_win w.st_phi_out h0 h1 h2 _
      (Nat.mod_lt _ (by omega))
  have hrng : (StimWave.after env w g k).2 = (if g.Rand_state then g else rand_init env 0 g) := by
    rw [(gauss_after env w g hflg helm hmode h1 k).2, gauss_init_eq env w g hflg helm hmode]
  refine ⟨?_, ?_, hrng, ?_⟩
  · rw [hgen k, gauss_entry_eq]
  · rw [hgen k, hgen (k + w.st_period_win), Nat.add_mod_right]
  · intro hr
    rw [hrng, if_pos hr]

end Engine

/-- C19 for amplitude 3 and period 5, after seven calls of `advance()`. -/
theorem gauss_waveform_witness :
    gauss_stim.st_mode = StimMode.ST_GAUSS ∧ 1 ≤ gauss_stim.st_period_win ∧
    gauss_stim.st_active = true ∧
    ((StimWave.after lab_env gauss_stim ready_rng 7).1.generate 0 =
      gauss_stim.st_ampl * lab_env.exp
        (-(((7 % gauss_stim.st_period_win : Nat) : ℚ) - (gauss_stim.st_period_win : ℚ) / 2) ^ 2 /
          (2 * ((gauss_stim.st_period_win : ℚ) / 8) ^ 2)) ∧
    (StimWave.after lab_env gauss_stim ready_rng (7 + gauss_stim.st_period_win)).1.generate 0 =
      (StimWave.after lab_env gauss_stim ready_rng 7).1.generate 0 ∧
    (StimWave.after lab_env gauss_stim ready_rng 7).2 =
      (if ready_rng.Rand_state then ready_rng else rand_init lab_env 0 ready_rng) ∧
    (ready_rng.Rand_state = true →
      (StimWave.after lab_env gauss_stim ready_rng 7).2 = ready_rng)) :=
  ⟨rfl, by decide, rfl,
    gauss_waveform lab_env gauss_stim ready_rng (fun _ _ => rfl) (List.cons_ne_nil _ _) rfl
      (by decide) (by decide) (Or.inr rfl) rfl 7 0⟩

/-! ## Steps 3 and 5 of `advance` without stimulation and without synaptic weight -/

theorem fold_idx_id {β γ : Type} (f : β → Nat → γ → β) (b : β) :
    ∀ (l : List γ) (i : Nat), (∀ x ∈ l, ∀ j, f b j x = b) → fold_idx f l i b = b
  | [], _, _ => rfl
  | x :: l, i, h => by
    rw [fold_idx, h x (List.mem_cons_self _ _) i]
    exact fold_idx_id f b l (i + 1) fun y hy j => h y (List.mem_cons_of_mem _ hy) j

theorem foldl_id {β γ : Type} (f : β → γ → β) (b : β) :
    ∀ (l : List γ), (∀ x ∈ l, f b x = b) → l.foldl f b = b
  | [], _ => rfl
  | x :: l, h => by
    rw [List.foldl_cons, h x (List.mem_cons_self _ _)]
    exact foldl_id f b l fun y hy => h y (List.mem_cons_of_mem _ hy)

theorem fold_idx_update_at {β γ : Type} (g : Nat → γ → β → β) :
    ∀ (l : List γ) (k : Nat) (row : Nat → β) (j : Nat) (x : γ), k ≤ j →
      l.get? (j - k) = some x →
      fold_idx (fun row i x => Function.update row i (g i x (row i))) l k row j = g j x (row j)
  | [], _, _, _, _, _, h => by simp at h
  | y :: l, k, row, j, x, h1, h2 => by
    rw [fold_idx]
    by_cases hj : j = k
    · rw [fold_idx_update_below g l (k + 1) _ j (by omega), hj, Function.update_same]
      rw [hj, Nat.sub_self] at h2
      have : y = x := Option.some.inj h2
      rw [this]
    · have e : j - k = (j - (k + 1)) + 1 := by omega
      rw [e, List.get?_cons_succ] at h2
      rw [fold_idx_update_at g l (k + 1) _ j x (by omega) h2, Function.update_noteq hj]

section Engine

variable {α ω : Type} [LinearOrderedField α]

theorem generate_zero (ops : StimOps α ω) (hgen : ∀ w i, ops.generate w i = 0)
    (es : ExSource α ω) (idx : Nat) : es.generate ops idx = 0 := by
  unfold ExSource.generate
  apply fold_idx_id
  intro st _ j
  have h0 : st.generate ops (es.elmt_stim idx j) = 0 := by
    unfold Stimulator.generate
    split
    · exact hgen _ _
    · rfl
  rw [h0, add_zero]
  split <;> rfl

theorem ext_source_zero (ops : StimOps α ω) (hgen : ∀ w i, ops.generate w i = 0)
    (s : Simulation α ω) (volt : Nat → Nat → DynamicArray α) (es : ExSource α ω) :
    ext_source ops s volt es = volt := by
  unfold ext_source
  split
  · rfl
  · apply fold_idx_id
    intro elmt _ j
    rw [if_pos (generate_zero ops hgen es j)]

theorem ext_drive_volt (ops : StimOps α ω) (hgen : ∀ w i, ops.generate w i = 0)
    (s : Simulation α ω) : (ext_drive ops s).gVolt = s.gVolt := by
  show s.gExSrc.foldl (ext_source ops s) s.gVolt = s.gVolt
  exact foldl_id _ _ _ fun es _ => ext_source_zero ops hgen s s.gVolt es

theorem path_term_zero (sy : SynpConn α) (s_psp : DynamicArray α) (spk_delay : Int)
    (synp_pct mag : α) : path_term 0 sy s_psp spk_delay synp_pct mag = mag := by
  unfold path_term
  split
  · rw [zero_mul, zero_mul, add_zero]
  · rfl

theorem source_walk_zero (s : Simulation α ω) (s_neur ircpt t_elmt : Nat) (sy : SynpConn α) :
    source_walk s s_neur ircpt t_elmt sy 0 = 0 := by
  unfold source_walk
  apply foldl_id
  intro s_elmt _
  unfold source_term
  simp only [path_term_zero]

theorem VOLT_EPS_pos : (0 : α) < VOLT_EPS α := by
  unfold VOLT_EPS
  positivity

theorem conn_body_zero (s : Simulation α ω) (sn : NeurGrp α) (t_elmt : Nat)
    (row : Nat → DynamicArray α) (sy : SynpConn α) (hw : sy.sy_weight = 0) :
    conn_body s sn t_elmt row sy = row := by
  unfold conn_body
  rw [hw, zero_mul]
  have h : fold_idx (rcpt_body s sn sy t_elmt 0)
      (if sn.ng_type = TNeur.cEXCIT then s.gRcpt_excit else s.gRcpt_inhib) 0
      (row sy.sy_post) = row sy.sy_post := by
    apply fold_idx_id
    intro rc _ j
    unfold rcpt_body
    rw [source_walk_zero, if_neg (not_lt.mpr (le_of_lt VOLT_EPS_pos))]
  rw [h, Function.update_eq_self]

theorem synaptic_drive_volt (s : Simulation α ω)
    (hw : ∀ ng ∈ s.gNeur, ∀ sy ∈ ng.synp_conn, sy.sy_weight = 0) :
    (synaptic_drive s).gVolt = s.gVolt := by
  show (List.range s.gElmt_num).foldl _ s.gVolt = s.gVolt
  apply foldl_id
  intro t_elmt _
  have h : s.gNeur.foldl (fun row sn => sn.synp_conn.foldl (conn_body s sn t_elmt) row)
      (s.gVolt t_elmt) = s.gVolt t_elmt := by
    apply foldl_id
    intro sn hsn
    apply foldl_id
    intro sy hsy
    exact conn_body_zero s sn t_elmt _ sy (hw sn hsn sy hsy)
  rw [h, Function.update_eq_self]

end Engine

/-! ## Step 6 of `advance` on a line without pending drive -/

section Engine

variable {α ω : Type} [LinearOrderedField α]

theorem volt_cell_rest (s : Simulation α ω) (ng : NeurGrp α) (t_volt : DynamicArray α)
    (hl : RestLine ng.V_0 t_volt)
    (hd0 : 0 ≤ ng.mp_decay_step) (hd1 : ng.mp_decay_step ≤ 1)
    (h0a : s.gV_rev_min ≤ ng.V_0) (h0b : ng.V_0 ≤ s.gV_rev_max)
    (hva : s.gV_rev_min ≤ t_volt.rear) (hvb : t_volt.rear ≤ s.gV_rev_max) :
    RestLine ng.V_0 (volt_cell s ng t_volt) ∧
      (volt_cell s ng t_volt).rear = ng.V_0 + (t_volt.rear - ng.V_0) * ng.mp_decay_step := by
  obtain ⟨hv, hfull, hval, hcells⟩ := hl
  have hr := hv.rear_lt
  have hpos := hv.size_pos
  have hrear : t_volt.rear = t_volt.p_bgn t_volt.f_rear := by
    unfold DynamicArray.rear
    rw [hv.rear_eq]
  have e1 : t_volt.step_backward.f_rear = (t_volt.f_rear + 1) % t_volt.f_size :=
    hv.mask_eq_mod _
  have hr1 : (t_volt.f_rear + 1) % t_volt.f_size < t_volt.f_size := Nat.mod_lt _ hpos
  have ecells : t_volt.step_backward.p_bgn =
      Function.update t_volt.p_bgn t_volt.f_rear ng.V_0 := by
    rw [DynamicArray.step_backward_cells hv, hfull, hval]
  have hnext : t_volt.step_backward.rear = ng.V_0 := by
    show t_volt.step_backward.p_bgn t_volt.step_backward.p_rear = ng.V_0
    have : t_volt.step_backward.p_rear = (t_volt.f_rear + 1) % t_volt.f_size := e1
    rw [this, ecells]
    by_cases hc : (t_volt.f_rear + 1) % t_volt.f_size = t_volt.f_rear
    · rw [hc, Function.update_same]
    · rw [Function.update_noteq hc]
      exact hcells _ hr1 hc
  have hcurr : (t_volt.rear - ng.V_0) * ng.mp_decay_step + t_volt.step_backward.rear =
      ng.V_0 + (t_volt.rear - ng.V_0) * ng.mp_decay_step := by
    rw [hnext, add_comm]
  have hlo : s.gV_rev_min ≤ ng.V_0 + (t_volt.rear - ng.V_0) * ng.mp_decay_step := by
    by_cases hs : ng.V_0 ≤ t_volt.rear
    · have : 0 ≤ (t_volt.rear - ng.V_0) * ng.mp_decay_step :=
        mul_nonneg (sub_nonneg.mpr hs) hd0
      linarith
    · have hneg : t_volt.rear - ng.V_0 ≤ 0 := by linarith
      have : t_volt.rear - ng.V_0 ≤ (t_volt.rear - ng.V_0) * ng.mp_decay_step := by
        have := mul_le_mul_of_nonpos_left hd1 hneg
        linarith
      linarith
  have hhi : ng.V_0 + (t_volt.rear - ng.V_0) * ng.mp_decay_step ≤ s.gV_rev_max := by
    by_cases hs : ng.V_0 ≤ t_volt.rear
    · have hnn : 0 ≤ t_volt.rear - ng.V_0 := sub_nonneg.mpr hs
      have : (t_volt.rear - ng.V_0) * ng.mp_decay_step ≤ t_volt.rear - ng.V_0 := by
        have := mul_le_mul_of_nonneg_left hd1 hnn
        linarith
      linarith
    · have hneg : t_volt.rear - ng.V_0 ≤ 0 := by linarith
      have : (t_volt.rear - ng.V_0) * ng.mp_decay_step ≤ 0 :=
        mul_nonpos_of_nonpos_of_nonneg hneg hd0
      linarith
  have hcell : volt_cell s ng t_volt =
      t_volt.step_backward.set_rear
        (ng.V_0 + (t_volt.rear - ng.V_0) * ng.mp_decay_step) 0 := by
    unfold volt_cell
    simp only [hcurr]
    rw [if_neg (not_lt.mpr hlo), if_neg (not_lt.mpr hhi)]
  have hidx : (t_volt.step_backward.f_rear + 0) &&& t_volt.step_backward.f_last =
      (t_volt.f_rear + 1) % t_volt.f_size := by
    rw [(DynamicArray.step_backward_valid hv).mask_eq_mod, Nat.add_zero, e1]
    exact Nat.mod_mod _ _
  have hp : (volt_cell s ng t_volt).p_bgn =
      Function.update (Function.update t_volt.p_bgn t_volt.f_rear ng.V_0)
        ((t_volt.f_rear + 1) % t_volt.f_size)
        (ng.V_0 + (t_volt.rear - ng.V_0) * ng.mp_decay_step) := by
    rw [hcell]
    show Function.update t_volt.step_backward.p_bgn
      ((t_volt.step_backward.f_rear + 0) &&& t_volt.step_backward.f_last) _ = _
    rw [hidx, ecells]
  have hvc : (volt_cell s ng t_volt).Valid := by
    rw [hcell]
    exact DynamicArray.set_rear_valid (DynamicArray.step_backward_valid hv) _ _
  have hrear2 : (volt_cell s ng t_volt).f_rear = (t_volt.f_rear + 1) % t_volt.f_size := by
    rw [hcell]
    exact e1
  have hfront2 : (volt_cell s ng t_volt).f_front = t_volt.f_rear := by
    rw [hcell]
    show (t_volt.f_front + 1) &&& t_volt.f_last = t_volt.f_rear
    rw [hv.mask_eq_mod]
    exact hfull
  have hsize2 : (volt_cell s ng t_volt).f_size = t_volt.f_size := by rw [hcell]; rfl
  have hval2 : (volt_cell s ng t_volt).f_val = ng.V_0 := by rw [hcell]; exact hval
  refine ⟨⟨hvc, ?_, hval2, ?_⟩, ?_⟩
  · rw [hfront2, hsize2, hrear2]
  · intro i hi hne
    rw [hsize2] at hi
    rw [hrear2] at hne
    rw [hp, Function.update_noteq hne]
    by_cases hc : i = t_volt.f_rear
    · rw [hc, Function.update_same]
    · rw [Function.update_noteq hc]
      exact hcells i hi hc
  · show (volt_cell s ng t_volt).p_bgn (volt_cell s ng t_volt).p_rear = _
    rw [hvc.rear_eq, hrear2, hp, Function.update_same]

theorem volt_update_at (X : Simulation α ω) (e g : Nat) (ng : NeurGrp α)
    (he : e < X.gElmt_num) (hg : X.gNeur.get? g = some ng) :
    (volt_update X).gVolt e g = volt_cell X ng (X.gVolt e g) := by
  have hv : (volt_update X).gVolt e =
      fold_idx (fun row s_neur ng => Function.update row s_neur (volt_cell X ng (row s_neur)))
        X.gNeur 0 (X.gVolt e) := by
    show (List.range X.gElmt_num).foldl _ X.gVolt e = _
    rw [foldl_range_update
      (fun _ row => fold_idx
        (fun row s_neur ng => Function.update row s_neur (volt_cell X ng (row s_neur)))
        X.gNeur 0 row) X.gVolt X.gElmt_num e, if_pos he]
  rw [hv]
  exact fold_idx_update_at (fun _ ng v => volt_cell X ng v) X.gNeur 0 (X.gVolt e) g ng
    (Nat.zero_le g) hg

end Engine

section EngineFrame

variable {α ω : Type}

theorem advance_head_volt (ops : StimOps α ω) (s : Simulation α ω) :
    (advance_head ops s).gVolt = s.gVolt := by
  unfold advance_head
  dsimp only
  split <;> rfl

end EngineFrame

section Engine

variable {α ω : Type} [LinearOrderedField α]

theorem advance_consts (ops : StimOps α ω) (s : Simulation α ω) :
    (advance ops s).gNeur = s.gNeur ∧ (advance ops s).gElmt_num = s.gElmt_num ∧
    (advance ops s).gV_rev_min = s.gV_rev_min ∧ (advance ops s).gV_rev_max = s.gV_rev_max := by
  by_cases h : s.tEvlt_step + 1 ≤ s.gTotal_step
  · rw [advance_of_le ops s h]
    obtain ⟨c1, c2, c3, c4, _, _⟩ :=
      advance_head_consts ops { s with tEvlt_step := s.tEvlt_step + 1, tOut_flg := false }
    exact ⟨c1, c2, c3, c4⟩
  · rw [advance_of_gt ops s (not_le.mp h)]
    exact ⟨rfl, rfl, rfl, rfl⟩

/-- One step of `advance` without stimulation and without synaptic weight, on a
voltage line without pending drive. -/
theorem advance_rest (ops : StimOps α ω) (hgen : ∀ w i, ops.generate w i = 0)
    (s : Simulation α ω)
    (hw : ∀ ng ∈ s.gNeur, ∀ sy ∈ ng.synp_conn, sy.sy_weight = 0)
    (hstep : s.tEvlt_step + 1 ≤ s.gTotal_step) (e g : Nat) (ng : NeurGrp α)
    (he : e < s.gElmt_num) (hg : s.gNeur.get? g = some ng)
    (hd0 : 0 ≤ ng.mp_decay_step) (hd1 : ng.mp_decay_step ≤ 1)
    (h0a : s.gV_rev_min ≤ ng.V_0) (h0b : ng.V_0 ≤ s.gV_rev_max)
    (hl : RestLine ng.V_0 (s.gVolt e g))
    (hva : s.gV_rev_min ≤ (s.gVolt e g).rear) (hvb : (s.gVolt e g).rear ≤ s.gV_rev_max) :
    RestLine ng.V_0 ((advance ops s).gVolt e g) ∧
      ((advance ops s).gVolt e g).rear =
        ng.V_0 + ((s.gVolt e g).rear - ng.V_0) * ng.mp_decay_step ∧
      s.gV_rev_min ≤ ((advance ops s).gVolt e g).rear ∧
      ((advance ops s).gVolt e g).rear ≤ s.gV_rev_max := by
  rw [advance_of_le ops s hstep]
  obtain ⟨c1, c2, c3, c4, _, _⟩ :=
    advance_head_consts ops { s with tEvlt_step := s.tEvlt_step + 1, tOut_flg := false }
  have hv0 := advance_head_volt ops { s with tEvlt_step := s.tEvlt_step + 1, tOut_flg := false }
  generalize hH : advance_head ops
    { s with tEvlt_step := s.tEvlt_step + 1, tOut_flg := false } = H at c1 c2 c3 c4 hv0
  have y1 : (psp_update (ext_drive ops H)).gNeur = s.gNeur := c1
  have y2 : (psp_update (ext_drive ops H)).gVolt = s.gVolt := by
    show (ext_drive ops H).gVolt = s.gVolt
    rw [ext_drive_volt ops hgen H]
    exact hv0
  have y3 := synaptic_drive_volt (psp_update (ext_drive ops H)) (by rw [y1]; exact hw)
  generalize hX : synaptic_drive (psp_update (ext_drive ops H)) = X at y3
  have x1 : X.gNeur = s.gNeur := by rw [← hX]; exact c1
  have x2 : X.gElmt_num = s.gElmt_num := by rw [← hX]; exact c2
  have x3 : X.gV_rev_min = s.gV_rev_min := by rw [← hX]; exact c3
  have x4 : X.gV_rev_max = s.gV_rev_max := by rw [← hX]; exact c4
  have x5 : X.gVolt = s.gVolt := y3.trans y2
  show RestLine ng.V_0 ((volt_update X).gVolt e g) ∧
    ((volt_update X).gVolt e g).rear = _ ∧
    s.gV_rev_min ≤ ((volt_update X).gVolt e g).rear ∧
    ((volt_update X).gVolt e g).rear ≤ s.gV_rev_max
  rw [volt_update_at X e g ng (by rw [x2]; exact he) (by rw [x1]; exact hg), x5]
  obtain ⟨r1, r2⟩ := volt_cell_rest X ng (s.gVolt e g) hl hd0 hd1
    (by rw [x3]; exact h0a) (by rw [x4]; exact h0b) (by rw [x3]; exact hva)
    (by rw [x4]; exact hvb)
  have hb := volt_cell_rear X ng (s.gVolt e g) (by rw [x3, x4]; exact le_trans h0a h0b)
  rw [x3, x4] at hb
  exact ⟨r1, r2, hb.1, hb.2⟩

theorem run_rest (ops : StimOps α ω) (hgen : ∀ w i, ops.generate w i = 0)
    (s : Simulation α ω)
    (hw : ∀ ng ∈ s.gNeur, ∀ sy ∈ ng.synp_conn, sy.sy_weight = 0)
    (e g : Nat) (ng : NeurGrp α)
    (he : e < s.gElmt_num) (hg : s.gNeur.get? g = some ng)
    (hd0 : 0 ≤ ng.mp_decay_step) (hd1 : ng.mp_decay_step ≤ 1)
    (h0a : s.gV_rev_min ≤ ng.V_0) (h0b : ng.V_0 ≤ s.gV_rev_max)
    (hl : RestLine ng.V_0 (s.gVolt e g))
    (hva : s.gV_rev_min ≤ (s.gVolt e g).rear) (hvb : (s.gVolt e g).rear ≤ s.gV_rev_max) :
    ∀ n : Nat, s.tEvlt_step + n ≤ s.gTotal_step →
      ((run ops s n).gNeur = s.gNeur ∧ (run ops s n).gElmt_num = s.gElmt_num ∧
        (run ops s n).gV_rev_min = s.gV_rev_min ∧ (run ops s n).gV_rev_max = s.gV_rev_max ∧
        (run ops s n).tEvlt_step = s.tEvlt_step + n ∧
        (run ops s n).gTotal_step = s.gTotal_step) ∧
      RestLine ng.V_0 ((run ops s n).gVolt e g) ∧
      ((run ops s n).gVolt e g).rear =
        ng.V_0 + ((s.gVolt e g).rear - ng.V_0) * ng.mp_decay_step ^ n ∧
      s.gV_rev_min ≤ ((run ops s n).gVolt e g).rear ∧
      ((run ops s n).gVolt e g).rear ≤ s.gV_rev_max
  | 0, _ => by
    refine ⟨⟨rfl, rfl, rfl, rfl, ?_, rfl⟩, hl, ?_, hva, hvb⟩
    · show s.tEvlt_step = s.tEvlt_step + ((0 : Nat) : Int)
      simp
    · show (s.gVolt e g).rear = _
      rw [pow_zero, mul_one]
      ring
  | n + 1, hn => by
    have hn' : s.tEvlt_step + (n : Int) ≤ s.gTotal_step := by push_cast at hn; linarith
    obtain ⟨⟨f1, f2, f3, f4, f5, f6⟩, i1, i2, i3, i4⟩ :=
      run_rest ops hgen s hw e g ng he hg hd0 hd1 h0a h0b hl hva hvb n hn'
    obtain ⟨a1, a2, a3, a4⟩ := advance_consts ops (run ops s n)
    obtain ⟨b1, b2⟩ := advance_counter ops (run ops s n)
    obtain ⟨r1, r2, r3, r4⟩ := advance_rest ops hgen (run ops s n)
      (by rw [f1]; exact hw) (by rw [f5, f6]; push_cast at hn; linarith) e g ng
      (by rw [f2]; exact he) (by rw [f1]; exact hg) hd0 hd1
      (by rw [f3]; exact h0a) (by rw [f4]; exact h0b) i1
      (by rw [f3]; exact i3) (by rw [f4]; exact i4)
    show (((advance ops (run ops s n)).gNeur = s.gNeur ∧ _ ∧ _ ∧ _ ∧ _ ∧ _) ∧ _ ∧ _ ∧ _ ∧ _)
    refine ⟨⟨a1.trans f1, a2.trans f2, a3.trans f3, a4.trans f4, ?_, b2.trans f6⟩, r1, ?_, ?_, ?_⟩
    · exact b1.trans (by rw [f5]; push_cast; ring)
    · exact r2.trans (by rw [i2, pow_succ]; ring)
    · rw [← f3]
      exact r3
    · rw [← f4]
      exact r4

end Engine

section Engine

variable {α ω : Type} [LinearOrderedField α]

/-- C20. Without external stimulation (the stimulators generate 0) and without
synaptic drive (no connection carries weight, the voltage line holds no pending
drive), for a group with resting potential `V_0` inside `[gV_rev_min, gV_rev_max]`
and a decay factor in `[0, 1]`, every executed `advance()` replaces the voltage `V`
by `V_0 + (V - V_0) * decay`; hence `|V - V_0|` never increases, `V` stays on its
side of `V_0`, and after `N` steps the voltage is `V_0 + (V - V_0) * decay ^ N`. -/
theorem resting_decay (ops : StimOps α ω) (hgen : ∀ w i, ops.generate w i = 0)
    (s : Simulation α ω)
    (hw : ∀ ng ∈ s.gNeur, ∀ sy ∈ ng.synp_conn, sy.sy_weight = 0)
    (e g : Nat) (ng : NeurGrp α)
    (he : e < s.gElmt_num) (hg : s.gNeur.get? g = some ng)
    (hd0 : 0 ≤ ng.mp_decay_step) (hd1 : ng.mp_decay_step ≤ 1)
    (h0a : s.gV_rev_min ≤ ng.V_0) (h0b : ng.V_0 ≤ s.gV_rev_max)
    (hl : RestLine ng.V_0 (s.gVolt e g))
    (hva : s.gV_rev_min ≤ (s.gVolt e g).rear) (hvb : (s.gVolt e g).rear ≤ s.gV_rev_max)
    (N : Nat) (hN : s.tEvlt_step + N ≤ s.gTotal_step) :
    (∀ n, n < N →
      ((run ops s (n + 1)).gVolt e g).rear =
        ng.V_0 + (((run ops s n).gVolt e g).rear - ng.V_0) * ng.mp_decay_step) ∧
    (∀ n, n < N →
      |((run ops s (n + 1)).gVolt e g).rear - ng.V_0| ≤
        |((run ops s n).gVolt e g).rear - ng.V_0|) ∧
    (∀ n, n ≤ N →
      (ng.V_0 ≤ (s.gVolt e g).rear → ng.V_0 ≤ ((run ops s n).gVolt e g).rear) ∧
      ((s.gVolt e g).rear ≤ ng.V_0 → ((run ops s n).gVolt e g).rear ≤ ng.V_0)) ∧
    ((run ops s N).gVolt e g).rear =
      ng.V_0 + ((s.gVolt e g).rear - ng.V_0) * ng.mp_decay_step ^ N := by
  have hrun := run_rest ops hgen s hw e g ng he hg hd0 hd1 h0a h0b hl hva hvb
  have hle : ∀ n : Nat, n ≤ N → s.tEvlt_step + (n : Int) ≤ s.gTotal_step := by
    intro n hn
    have : (n : Int) ≤ (N : Int) := by exact_mod_cast hn
    linarith
  have hstep : ∀ n, n < N →
      ((run ops s (n + 1)).gVolt e g).rear =
        ng.V_0 + (((run ops s n).gVolt e g).rear - ng.V_0) * ng.mp_decay_step := by
    intro n hn
    obtain ⟨_, _, c1, _, _⟩ := hrun (n + 1) (hle (n + 1) hn)
    obtain ⟨_, _, c0, _, _⟩ := hrun n (hle n (by omega))
    rw [c1, c0, pow_succ]
    ring
  refine ⟨hstep, ?_, ?_, (hrun N hN).2.2.1⟩
  · intro n hn
    have e1 : ((run ops s (n + 1)).gVolt e g).rear - ng.V_0 =
        (((run ops s n).gVolt e g).rear - ng.V_0) * ng.mp_decay_step := by
      rw [hstep n hn]
      ring
    rw [e1, abs_mul, abs_of_nonneg hd0]
    exact mul_le_of_le_one_right (abs_nonneg _) hd1
  · intro n hn
    obtain ⟨_, _, c0, _, _⟩ := hrun n (hle n hn)
    have hp : 0 ≤ ng.mp_decay_step ^ n := pow_nonneg hd0 n
    rw [c0]
    constructor
    · intro h
      have : 0 ≤ ((s.gVolt e g).rear - ng.V_0) * ng.mp_decay_step ^ n :=
        mul_nonneg (sub_nonneg.mpr h) hp
      linarith
    · intro h
      have : ((s.gVolt e g).rear - ng.V_0) * ng.mp_decay_step ^ n ≤ 0 :=
        mul_nonpos_of_nonpos_of_nonneg (sub_nonpos.mpr h) hp
      linarith

end Engine

theorem displaced_line_rest : RestLine (-65 : ℚ) displaced_line := by
  refine ⟨⟨⟨2, by decide⟩, by decide, by decide, by decide, by decide, by decide, by decide⟩,
    by decide, rfl, ?_⟩
  intro i hi hne
  have h4 : i < 4 := hi
  have h0 : i ≠ 0 := hne
  show Function.update (DynamicArray.fill_range (fun _ => (-65 : ℚ)) 4 (-65)) 0 (-60) i = -65
  rw [Function.update_noteq h0]
  simp [DynamicArray.fill_range]

theorem displaced_line_rear : displaced_line.rear = -60 := by
  show Function.update (DynamicArray.fill_range (fun _ => (-65 : ℚ)) 4 (-65)) 0 (-60) 0 = -60
  rw [Function.update_same]

/-- C20 on the one-element model without connections: the excitatory group at -60,
resting potential -65, decay factor 9/10, over three steps. -/
theorem resting_decay_witness :
    (∀ n, n < 3 →
      ((run silent_ops quiet_sim (n + 1)).gVolt 0 0).rear =
        rest_excit.V_0 +
          (((run silent_ops quiet_sim n).gVolt 0 0).rear - rest_excit.V_0) *
            rest_excit.mp_decay_step) ∧
    (∀ n, n < 3 →
      |((run silent_ops quiet_sim (n + 1)).gVolt 0 0).rear - rest_excit.V_0| ≤
        |((run silent_ops quiet_sim n).gVolt 0 0).rear - rest_excit.V_0|) ∧
    (∀ n, n ≤ 3 →
      (rest_excit.V_0 ≤ (quiet_sim.gVolt 0 0).rear →
        rest_excit.V_0 ≤ ((run silent_ops quiet_sim n).gVolt 0 0).rear) ∧
      ((quiet_sim.gVolt 0 0).rear ≤ rest_excit.V_0 →
        ((run silent_ops quiet_sim n).gVolt 0 0).rear ≤ rest_excit.V_0)) ∧
    ((run silent_ops quiet_sim 3).gVolt 0 0).rear =
      rest_excit.V_0 + ((quiet_sim.gVolt 0 0).rear - rest_excit.V_0) *
        rest_excit.mp_decay_step ^ 3 :=
  resting_decay silent_ops (fun _ _ => rfl) quiet_sim
    (by
      intro ng hng sy hsy
      have h : ng = rest_excit ∨ ng = rest_inhib := by
        simpa [quiet_sim] using hng
      rcases h with h | h <;> rw [h] at hsy <;> exact absurd hsy (List.not_mem_nil _))
    0 0 rest_excit (by decide) rfl
    (by norm_num [rest_excit, toy_excit]) (by norm_num [rest_excit, toy_excit])
    (by norm_num [rest_excit, toy_excit, quiet_sim, toy_sim])
    (by norm_num [rest_excit, toy_excit, quiet_sim, toy_sim])
    displaced_line_rest
    (by
      have h : (quiet_sim.gVolt 0 0).rear = -60 := displaced_line_rear
      rw [h]
      norm_num [quiet_sim, toy_sim])
    (by
      have h : (quiet_sim.gVolt 0 0).rear = -60 := displaced_line_rear
      rw [h]
      norm_num [quiet_sim, toy_sim])
    3 (by decide)

/-! ## `advance` after the last step -/

section Engine

variable {α ω : Type} [LinearOrderedField α]

/-- C22. When the step counter has reached the configured total before the call
(`evlt_step() >= total_step()`), `advance()` increments the step counter, sets
`is_out()` to false and leaves every other member as it was: the voltage lines, the
PSP traces, the external sources with their stimulators, the check point and the
list of output windows. -/
theorem advance_exhausted (ops : StimOps α ω) (s : Simulation α ω)
    (h : s.gTotal_step ≤ s.tEvlt_step) :
    advance ops s = { s with tEvlt_step := s.tEvlt_step + 1, tOut_flg := false } ∧
    (advance ops s).tEvlt_step = s.tEvlt_step + 1 ∧
    (advance ops s).tOut_flg = false ∧
    (advance ops s).gVolt = s.gVolt ∧
    (advance ops s).gPSP = s.gPSP ∧
    (advance ops s).gExSrc = s.gExSrc ∧
    (advance ops s).tCheck_pnt = s.tCheck_pnt ∧
    (advance ops s).output_time = s.output_time := by
  have hgt : s.gTotal_step < s.tEvlt_step + 1 := by linarith
  rw [advance_of_gt ops s hgt]
  exact ⟨rfl, rfl, rfl, rfl, rfl, rfl, rfl, rfl⟩

end Engine

/-- C22 on the one-element model with the step counter at the total of 20 steps. -/
theorem advance_exhausted_witness :
    ({ toy_sim with tEvlt_step := 20 } : Simulation ℚ Nat).gTotal_step ≤
      ({ toy_sim with tEvlt_step := 20 } : Simulation ℚ Nat).tEvlt_step ∧
    (advance toy_ops { toy_sim with tEvlt_step := 20 }).tEvlt_step = 21 ∧
    (advance toy_ops { toy_sim with tEvlt_step := 20 }).tOut_flg = false ∧
    (advance toy_ops { toy_sim with tEvlt_step := 20 }).gVolt = toy_sim.gVolt ∧
    (advance toy_ops { toy_sim with tEvlt_step := 20 }).gPSP = toy_sim.gPSP ∧
    (advance toy_ops { toy_sim with tEvlt_step := 20 }).gExSrc = toy_sim.gExSrc ∧
    (advance toy_ops { toy_sim with tEvlt_step := 20 }).tCheck_pnt = toy_sim.tCheck_pnt ∧
    (advance toy_ops { toy_sim with tEvlt_step := 20 }).output_time = toy_sim.output_time :=
  ⟨by decide, (advance_exhausted toy_ops { toy_sim with tEvlt_step := 20 } (by decide)).2⟩

/-! ## The coordinates of the elements -/

theorem init_coords_apply (S : Nat) (xy : (Nat → Nat) × (Nat → Nat)) :
    ∀ (n idx : Nat),
      (init_coords S n xy).1 idx = (if idx < n then idx - idx / S * S else xy.1 idx) ∧
      (init_coords S n xy).2 idx = (if idx < n then idx / S else xy.2 idx)
  | 0, idx => by simp [init_coords]
  | n + 1, idx => by
    obtain ⟨i1, i2⟩ := init_coords_apply S xy n idx
    unfold init_coords at i1 i2 ⊢
    rw [List.range_succ, List.foldl_append, List.foldl_cons, List.foldl_nil]
    generalize List.foldl
      (fun (xy : (Nat → Nat) × (Nat → Nat)) ielmt =>
        let gElmtY := Function.update xy.2 ielmt (ielmt / S)
        (Function.update xy.1 ielmt (ielmt - gElmtY ielmt * S), gElmtY))
      xy (List.range n) = r at i1 i2 ⊢
    show Function.update r.1 n (n - Function.update r.2 n (n / S) n * S) idx = _ ∧
      Function.update r.2 n (n / S) idx = _
    by_cases he : idx = n
    · rw [he]
      simp only [Function.update_same, Nat.lt_add_one, if_true, and_self]
    · rw [Function.update_noteq he, Function.update_noteq he, i1, i2]
      by_cases h2 : idx < n
      · simp only [h2, Nat.lt_succ_of_lt h2, if_true, and_self]
      · have h3 : ¬ idx < n + 1 := by omega
        simp only [h2, h3, if_false, and_self]

theorem coords_of_index (S idx : Nat) (hS : 1 ≤ S) (hi : idx < S * S) :
    idx - idx / S * S = idx % S ∧ idx % S < S ∧ idx / S < S ∧
      idx = idx / S * S + idx % S := by
  have h1 : S * (idx / S) + idx % S = idx := Nat.div_add_mod idx S
  have h2 : idx % S < S := Nat.mod_lt _ (by omega)
  have h3 : idx / S < S := Nat.div_lt_of_lt_mul hi
  have h4 : idx / S * S = S * (idx / S) := Nat.mul_comm _ _
  refine ⟨by omega, h2, h3, by omega⟩

section EngineFrame

variable {α ω : Type}

theorem init_elmt_at (s : Simulation α ω) (hS : 1 ≤ s.gGrid_row)
    (hE : s.gElmt_num = s.gGrid_row * s.gGrid_row) (idx : Nat)
    (hi : idx < s.gGrid_row * s.gGrid_row) :
    (init_elmt s).gElmtY idx = idx / s.gGrid_row ∧
      (init_elmt s).gElmtX idx = idx % s.gGrid_row := by
  obtain ⟨a1, a2⟩ := init_coords_apply s.gGrid_row (s.gElmtX, s.gElmtY) s.gElmt_num idx
  obtain ⟨c1, _, _, _⟩ := coords_of_index s.gGrid_row idx hS hi
  constructor
  · show (init_coords s.gGrid_row s.gElmt_num (s.gElmtX, s.gElmtY)).2 idx = _
    rw [a2, if_pos (by rw [hE]; exact hi)]
  · show (init_coords s.gGrid_row s.gElmt_num (s.gElmtX, s.gElmtY)).1 idx = _
    rw [a1, if_pos (by rw [hE]; exact hi), c1]

end EngineFrame

section EngineFrame

variable {α ω : Type}

/-- C23. For a grid of side `S ≥ 1` with `S * S` elements, the loop of
`Simulation::init` gives every element `idx < S * S` the coordinates `y = idx / S` and
`x = idx mod S`, so that `x < S`, `y < S` and `idx = y * S + x`; two elements with the
same coordinates are the same element. -/
theorem init_elmt_coords (s : Simulation α ω) (hS : 1 ≤ s.gGrid_row)
    (hE : s.gElmt_num = s.gGrid_row * s.gGrid_row) :
    (∀ idx, idx < s.gGrid_row * s.gGrid_row →
      (init_elmt s).gElmtY idx = idx / s.gGrid_row ∧
      (init_elmt s).gElmtX idx = idx % s.gGrid_row ∧
      (init_elmt s).gElmtX idx < s.gGrid_row ∧ (init_elmt s).gElmtY idx < s.gGrid_row ∧
      idx = (init_elmt s).gElmtY idx * s.gGrid_row + (init_elmt s).gElmtX idx) ∧
    (∀ i j, i < s.gGrid_row * s.gGrid_row → j < s.gGrid_row * s.gGrid_row →
      (init_elmt s).gElmtX i = (init_elmt s).gElmtX j →
      (init_elmt s).gElmtY i = (init_elmt s).gElmtY j → i = j) := by
  have key := init_elmt_at s hS hE
  constructor
  · intro idx hi
    obtain ⟨k1, k2⟩ := key idx hi
    obtain ⟨_, c2, c3, c4⟩ := coords_of_index s.gGrid_row idx hS hi
    rw [k1, k2]
    exact ⟨rfl, rfl, c2, c3, c4⟩
  · intro i j hi hj hx hy
    rw [(key i hi).2, (key j hj).2] at hx
    rw [(key i hi).1, (key j hj).1] at hy
    obtain ⟨_, _, _, ci⟩ := coords_of_index s.gGrid_row i hS hi
    obtain ⟨_, _, _, cj⟩ := coords_of_index s.gGrid_row j hS hj
    rw [ci, cj, hx, hy]

end EngineFrame

/-- C23 on the one-element model enlarged to a grid of side 3. -/
theorem init_elmt_coords_witness :
    (∀ idx, idx < 3 * 3 →
      (init_elmt { toy_sim with gGrid_row := 3, gElmt_num := 9 }).gElmtY idx = idx / 3 ∧
      (init_elmt { toy_sim with gGrid_row := 3, gElmt_num := 9 }).gElmtX idx = idx % 3 ∧
      (init_elmt { toy_sim with gGrid_row := 3, gElmt_num := 9 }).gElmtX idx < 3 ∧
      (init_elmt { toy_sim with gGrid_row := 3, gElmt_num := 9 }).gElmtY idx < 3 ∧
      idx = (init_elmt { toy_sim with gGrid_row := 3, gElmt_num := 9 }).gElmtY idx * 3 +
        (init_elmt { toy_sim with gGrid_row := 3, gElmt_num := 9 }).gElmtX idx) ∧
    (∀ i j, i < 3 * 3 → j < 3 * 3 →
      (init_elmt { toy_sim with gGrid_row := 3, gElmt_num := 9 }).gElmtX i =
        (init_elmt { toy_sim with gGrid_row := 3, gElmt_num := 9 }).gElmtX j →
      (init_elmt { toy_sim with gGrid_row := 3, gElmt_num := 9 }).gElmtY i =
        (init_elmt { toy_sim with gGrid_row := 3, gElmt_num := 9 }).gElmtY j → i = j) :=
  init_elmt_coords { toy_sim with gGrid_row := 3, gElmt_num := 9 } (by decide) (by decide)

/-! ## The delay table: what lies outside it, and which entry `advance` reads -/

section Connectivity

variable {α : Type} [LinearOrderedField α]

theorem path_fill_keep (env : ConnEnv α) (a b sd sp k : Nat) (t t' : ConnTables α)
    (h : path_fill env a b sd sp t = some t') (hk : sd ≠ k) :
    t'.spk_delay k = t.spk_delay k := by
  obtain ⟨h1, _⟩ := path_fill_eq env a b sd sp t t' h
  rw [h1]
  split
  · exact Function.update_noteq (Ne.symm hk) _ _
  · rfl

theorem pair_fill_keep (env : ConnEnv α) (hE : env.gElmt_num = env.gGrid_row * env.gGrid_row)
    (t t' : ConnTables α) (i j k : Nat) (hi : i < env.gElmt_num) (hj : j < env.gElmt_num)
    (hk : spk_delay_size env.gGrid_row ≤ k) (h : pair_fill env t i j = some t') :
    t'.spk_delay k = t.spk_delay k := by
  have hS : 0 < env.gGrid_row := by
    by_contra hc
    have : env.gGrid_row = 0 := by omega
    rw [hE, this] at hi
    omega
  have hx := init_d_x_lt env.gGrid_row i j (hE ▸ hi) (hE ▸ hj)
  have hy := init_d_y_lt env.gGrid_row i j hS
  have b0 := SPK_DELAY_IDX_lt env.gGrid_row _ _ 0 hx hy (by decide)
  have b3 := SPK_DELAY_IDX_lt env.gGrid_row _ _ 3 hx hy (by decide)
  have e3 : SPK_DELAY_IDX env.gGrid_row (init_d_x env.gGrid_row i j)
      (init_d_y env.gGrid_row i j) 3 =
      SPK_DELAY_IDX env.gGrid_row (init_d_x env.gGrid_row i j)
        (init_d_y env.gGrid_row i j) 0 + 3 := by
    unfold SPK_DELAY_IDX
    omega
  unfold spk_delay_size at hk
  unfold pair_fill at h
  obtain ⟨t1, h1, h⟩ := Option.bind_eq_some.mp h
  obtain ⟨t2, h2, h⟩ := Option.bind_eq_some.mp h
  obtain ⟨t3, h3, h4⟩ := Option.bind_eq_some.mp h
  rw [path_fill_keep env _ _ _ _ k t3 t' h4 (by omega),
    path_fill_keep env _ _ _ _ k t2 t3 h3 (by omega),
    path_fill_keep env _ _ _ _ k t1 t2 h2 (by omega),
    path_fill_keep env _ _ _ _ k t t1 h1 (by omega)]

theorem build_tables_outside (env : ConnEnv α)
    (hE : env.gElmt_num = env.gGrid_row * env.gGrid_row) (junk_delay : Nat → Int)
    (junk_pct : Nat → α) (draws : List α) (t : ConnTables α)
    (h : build_tables env junk_delay junk_pct draws = some t) (k : Nat)
    (hk : spk_delay_size env.gGrid_row ≤ k) :
    t.spk_delay k = junk_delay k := by
  unfold build_tables at h
  refine foldlM_some_inv (row_fill env) (fun t => t.spk_delay k = junk_delay k) _ _ t ?_ h ?_
  · intro s i s' hi hf hs
    unfold row_fill at hf
    refine foldlM_some_inv (fun t j => pair_fill env t i j)
      (fun t => t.spk_delay k = junk_delay k) _ s s' ?_ hf hs
    intro u j u' hj hp hu
    rw [pair_fill_keep env hE u u' i j k (List.mem_range.mp hi) (List.mem_range.mp hj) hk hp]
    exact hu
  · show (if k < env.gGrid_row * env.gGrid_row * SPK_PATH_NUM then MAX_INT_NUM
      else junk_delay k) = junk_delay k
    unfold spk_delay_size at hk
    rw [if_neg (by omega)]

end Connectivity

theorem max_delay_index_eq (S : Nat) :
    SPK_DELAY_IDX S S S 0 = spk_delay_size S + SPK_PATH_NUM * S := by
  unfold SPK_DELAY_IDX spk_delay_size SPK_PATH_NUM
  have : S * S * 4 = 4 * (S * S) := Nat.mul_comm _ _
  omega

/-- C30 fails: the index `SPK_DELAY_IDX(gGrid_row, gGrid_row, 0)` that
`Simulation::init` reads for the maximum delay is `4 * S` entries past the end of the
delay table of length `S * S * 4`, for every grid side `S`; on the 3 x 3 grid it is
entry 48 of a table of 36 entries, which the table-building loops never write, so the
value read is whatever the memory behind the table holds. -/
theorem max_delay_index_outside_table :
    (∀ S, spk_delay_size S ≤ SPK_DELAY_IDX S S S 0 ∧
      SPK_DELAY_IDX S S S 0 = spk_delay_size S + 4 * S) ∧
    spk_delay_size grid_env.gGrid_row = 36 ∧
    SPK_DELAY_IDX grid_env.gGrid_row grid_env.gGrid_row grid_env.gGrid_row 0 = 48 ∧
    ∃ t, build_tables grid_env (fun i => 1000 + (i : Int)) (fun _ => -1) jitter_supply = some t ∧
      t.spk_delay
        (SPK_DELAY_IDX grid_env.gGrid_row grid_env.gGrid_row grid_env.gGrid_row 0) = 1048 := by
  refine ⟨?_, by decide, by decide, ?_⟩
  · intro S
    have h := max_delay_index_eq S
    unfold SPK_PATH_NUM at h
    exact ⟨by omega, h⟩
  · obtain ⟨t, ht⟩ := build_tables_some grid_env (fun i => 1000 + (i : Int)) (fun _ => -1)
      jitter_supply jitter_supply_count
    refine ⟨t, ht, ?_⟩
    rw [build_tables_outside grid_env rfl _ _ _ t ht _ (by decide)]
    decide

/-! ## The displacement of an element pair in the builder and in `advance` -/

section Engine

variable {α ω : Type} [LinearOrderedField α]

/-- The table entries that step 5 of `advance` reads for the pair `(s_elmt, t_elmt)`
are those under `advance_d_x`, `advance_d_y`. -/
theorem source_term_reads (s : Simulation α ω) (s_neur ircpt t_elmt : Nat) (sy : SynpConn α)
    (tmp_NM mag : α) (s_elmt : Nat) :
    source_term s s_neur ircpt t_elmt sy tmp_NM mag s_elmt =
      path_term tmp_NM sy (s.gPSP s_elmt s_neur ircpt)
          (s.gSpk_delay s_neur
            (SPK_DELAY_IDX s.gGrid_row (advance_d_x s t_elmt s_elmt)
              (advance_d_y s t_elmt s_elmt) 0 + 3))
          (s.gSynp_pct s_neur (SYNP_PCT_IDX s.gElmt_num s_elmt t_elmt 0 + 3))
        (path_term tmp_NM sy (s.gPSP s_elmt s_neur ircpt)
            (s.gSpk_delay s_neur
              (SPK_DELAY_IDX s.gGrid_row (advance_d_x s t_elmt s_elmt)
                (advance_d_y s t_elmt s_elmt) 0 + 2))
            (s.gSynp_pct s_neur (SYNP_PCT_IDX s.gElmt_num s_elmt t_elmt 0 + 2))
          (path_term tmp_NM sy (s.gPSP s_elmt s_neur ircpt)
              (s.gSpk_delay s_neur
                (SPK_DELAY_IDX s.gGrid_row (advance_d_x s t_elmt s_elmt)
                  (advance_d_y s t_elmt s_elmt) 0 + 1))
              (s.gSynp_pct s_neur (SYNP_PCT_IDX s.gElmt_num s_elmt t_elmt 0 + 1))
            (path_term tmp_NM sy (s.gPSP s_elmt s_neur ircpt)
              (s.gSpk_delay s_neur
                (SPK_DELAY_IDX s.gGrid_row (advance_d_x s t_elmt s_elmt)
                  (advance_d_y s t_elmt s_elmt) 0))
              (s.gSynp_pct s_neur (SYNP_PCT_IDX s.gElmt_num s_elmt t_elmt 0)) mag))) :=
  rfl

end Engine

section EngineFrame

variable {α ω : Type}

/-- With the coordinates of `Simulation::init`, the displacement `advance` computes
for a pair of elements is the displacement of the builder with its two components
exchanged. -/
theorem advance_disp_transposed (s : Simulation α ω) (hS : 1 ≤ s.gGrid_row)
    (hE : s.gElmt_num = s.gGrid_row * s.gGrid_row) (i j : Nat)
    (hi : i < s.gGrid_row * s.gGrid_row) (hj : j < s.gGrid_row * s.gGrid_row) :
    advance_d_x (init_elmt s) j i = init_d_y s.gGrid_row i j ∧
      advance_d_y (init_elmt s) j i = init_d_x s.gGrid_row i j := by
  obtain ⟨yi, xi⟩ := init_elmt_at s hS hE i hi
  obtain ⟨yj, xj⟩ := init_elmt_at s hS hE j hj
  unfold advance_d_x advance_d_y init_d_x init_d_y
  rw [yi, xi, yj, xj]
  constructor
  · generalize i % s.gGrid_row = u
    generalize j % s.gGrid_row = v
    omega
  · generalize i / s.gGrid_row = u
    generalize j / s.gGrid_row = v
    omega

end EngineFrame

theorem rat_floor_eq (q : ℚ) : Rat.floor q = ⌊q⌋ := rfl

theorem grid_delay_short : grid_env.elmt_delay 2 0 = 5 := by
  have e1 : ((1 : ℚ) * ((2 : Nat) : ℚ) * ((2 : Nat) : ℚ) + ((0 * 0 : Nat) : ℚ)) = 4 := by
    norm_num
  have e2 : Rat.floor (4 : ℚ) = 4 := by rfl
  have e3 : Nat.sqrt (Int.toNat 4) = 2 := by
    show Nat.sqrt 4 = 2
    exact (Nat.eq_sqrt.mpr ⟨by norm_num, by norm_num⟩).symm
  show Rat.floor (((Nat.sqrt (Rat.floor ((1 : ℚ) * ((2 : Nat) : ℚ) * ((2 : Nat) : ℚ) +
    ((0 * 0 : Nat) : ℚ))).toNat : Nat) : ℚ) * (1 / 2) / (2 * (1 / 10)) + 1 / 2) = 5
  rw [e1, e2, e3, rat_floor_eq, Int.floor_eq_iff]
  norm_num

theorem grid_delay_long : grid_env.elmt_delay 3 1 = 8 := by
  have e1 : ((1 : ℚ) * ((3 : Nat) : ℚ) * ((3 : Nat) : ℚ) + ((1 * 1 : Nat) : ℚ)) = 10 := by
    norm_num
  have e2 : Rat.floor (10 : ℚ) = 10 := by rfl
  have e3 : Nat.sqrt (Int.toNat 10) = 3 := by
    show Nat.sqrt 10 = 3
    exact (Nat.eq_sqrt.mpr ⟨by norm_num, by norm_num⟩).symm
  show Rat.floor (((Nat.sqrt (Rat.floor ((1 : ℚ) * ((3 : Nat) : ℚ) * ((3 : Nat) : ℚ) +
    ((1 * 1 : Nat) : ℚ))).toNat : Nat) : ℚ) * (1 / 2) / (2 * (1 / 10)) + 1 / 2) = 8
  rw [e1, e2, e3, rat_floor_eq, Int.floor_eq_iff]
  norm_num

/-- C29 fails: `LCM::init` takes `d_x` from `idx / gGrid_row` and `d_y` from
`idx mod gGrid_row`, `advance` takes `d_x` from `gElmtX` (`idx mod gGrid_row`) and `d_y`
from `gElmtY` (`idx / gGrid_row`). On the 3 x 3 grid, for the source element 0, the
target element 1 and path 1, the density was computed for the displacement `(3, 1)`,
while `advance` reads the delay entry `(1, 0, path 1)`, which holds the delay of the
displacement `(2, 0)`: 5 steps instead of the 8 steps of the route of the density. -/
theorem displacement_transposed :
    wrap_disp 3 1 (init_d_x 3 0 1) (init_d_y 3 0 1) = (3, 1) ∧
    wrap_disp 3 1 (advance_d_x grid_sim 1 0) (advance_d_y grid_sim 1 0) = (2, 0) ∧
    (∃ t, build_tables grid_env (fun _ => 0) (fun _ => -1) jitter_supply = some t ∧
      t.spk_delay (SPK_DELAY_IDX grid_env.gGrid_row (advance_d_x grid_sim 1 0)
        (advance_d_y grid_sim 1 0) 1) = 5) ∧
    grid_env.elmt_delay (wrap_disp 3 1 (init_d_x 3 0 1) (init_d_y 3 0 1)).1
      (wrap_disp 3 1 (init_d_x 3 0 1) (init_d_y 3 0 1)).2 = 8 := by
  have hd : advance_d_x grid_sim 1 0 = 1 ∧ advance_d_y grid_sim 1 0 = 0 := by
    have h := advance_disp_transposed
      ({ toy_sim with gGrid_row := 3, gElmt_num := 9 } : Simulation ℚ Nat)
      (by decide) (by decide) 0 1 (by decide) (by decide)
    exact ⟨h.1.trans (by decide), h.2.trans (by decide)⟩
  refine ⟨by decide, ?_, ?_, ?_⟩
  · rw [hd.1, hd.2]
    decide
  · obtain ⟨t, ht⟩ := build_tables_some grid_env (fun _ => 0) (fun _ => -1) jitter_supply
      jitter_supply_count
    refine ⟨t, ht, ?_⟩
    rw [hd.1, hd.2,
      build_tables_delay grid_env rfl _ _ _ t ht 1 0 1 (by decide) (by decide) (by decide)]
    exact grid_delay_short
  · exact grid_delay_long

/-! ## The boundary check of the cortical layers -/

section Connectivity

variable {α : Type} [LinearOrderedField α]

/-- For two ready layers (`upper < lower`) the first two conditions of
`ly_chk_boundary` cannot hold, and the check reports the pair exactly when the second
layer lies strictly inside the first. -/
theorem ly_chk_pair_ready (a b : Layer α) (ha : a.upper < a.lower) :
    ly_chk_pair a b = true ↔ (a.upper < b.upper ∧ b.lower < a.lower) := by
  unfold ly_chk_pair
  rw [decide_eq_true_iff]
  constructor
  · rintro (⟨h1, h2⟩ | ⟨h1, h2⟩ | ⟨h1, h2⟩)
    · exact absurd (lt_trans (lt_trans h1 h2) ha) (lt_irrefl _)
    · exact absurd (lt_trans (lt_trans h1 h2) ha) (lt_irrefl _)
    · exact ⟨h1, h2⟩
  · rintro ⟨h1, h2⟩
    exact Or.inr (Or.inr ⟨h1, h2⟩)

theorem ly_chk_inner_iff (a : Layer α) :
    ∀ l : List (Layer α), ly_chk_inner a l = true ↔ ∀ b ∈ l, ly_chk_pair a b = false
  | [] => by simp [ly_chk_inner]
  | b :: l => by
    rw [ly_chk_inner]
    by_cases h : ly_chk_pair a b = true
    · rw [if_pos h]
      constructor
      · intro hc
        exact absurd hc (by decide)
      · intro hc
        have := hc b (List.mem_cons_self _ _)
        rw [h] at this
        exact absurd this (by decide)
    · rw [if_neg h, ly_chk_inner_iff a l]
      have hb : ly_chk_pair a b = false := by
        cases hv : ly_chk_pair a b
        · rfl
        · exact absurd hv h
      constructor
      · intro hc c hcm
        rcases List.mem_cons.mp hcm with he | hm
        · rw [he]
          exact hb
        · exact hc c hm
      · intro hc c hcm
        exact hc c (List.mem_cons_of_mem _ hcm)

theorem ly_chk_outer_iff :
    ∀ l : List (Layer α),
      ly_chk_outer l = true ↔ l.Pairwise fun a b => ly_chk_pair a b = false
  | [] => by simp [ly_chk_outer]
  | a :: l => by
    rw [ly_chk_outer, List.pairwise_cons, ← ly_chk_inner_iff a l, ← ly_chk_outer_iff l]
    by_cases h : ly_chk_inner a l = true
    · rw [if_pos h]
      exact ⟨fun hc => ⟨h, hc⟩, fun hc => hc.2⟩
    · rw [if_neg h]
      constructor
      · intro hc
        exact absurd hc (by decide)
      · intro hc
        exact absurd hc.1 h

/-- What `ly_chk_boundary` decides on ready layers: it returns true exactly when no
layer lies strictly inside a layer that precedes it in the list. -/
theorem ly_chk_boundary_ready (l : List (Layer α)) (hr : ∀ a ∈ l, a.upper < a.lower) :
    ly_chk_boundary l = true ↔
      l.Pairwise fun a b => ¬ (a.upper < b.upper ∧ b.lower < a.lower) := by
  have hp : (l.Pairwise fun a b => ly_chk_pair a b = false) ↔
      l.Pairwise fun a b => ¬ (a.upper < b.upper ∧ b.lower < a.lower) := by
    constructor
    · intro h
      refine List.Pairwise.imp_of_mem ?_ h
      intro a b ha _ hab hc
      have := (ly_chk_pair_ready a b (hr a ha)).mpr hc
      rw [hab] at this
      exact absurd this (by decide)
    · intro h
      refine List.Pairwise.imp_of_mem ?_ h
      intro a b ha _ hab
      cases hv : ly_chk_pair a b
      · rfl
      · exact absurd ((ly_chk_pair_ready a b (hr a ha)).mp hv) hab
  unfold ly_chk_boundary
  by_cases hs : l.isEmpty ∨ l.length = 1
  · rw [if_pos hs]
    refine ⟨fun _ => ?_, fun _ => rfl⟩
    rcases hs with he | h1
    · have : l = [] := List.isEmpty_iff.mp he
      rw [this]
      exact List.Pairwise.nil
    · obtain ⟨a, ha⟩ := List.length_eq_one.mp h1
      rw [ha]
      exact List.pairwise_singleton _ _
  · rw [if_neg hs, ly_chk_outer_iff, hp]

end Connectivity

theorem shallow_layer_bounds :
    shallow_layer.upper = 10 ∧ shallow_layer.lower = 100 ∧ shallow_layer.is_ready = true := by
  have h1 : ¬ ((10 : ℚ) < 0) := by norm_num
  have h2 : ¬ ((100 : ℚ) < 0) := by norm_num
  have h3 : ¬ ((10 : ℚ) ≥ 100) := by norm_num
  simp [shallow_layer, Layer.set_param, Layer.init, Layer.upper, Layer.lower, Layer.is_ready,
    LY_IDX_UPPER, LY_IDX_LOWER, h1, h2, h3]

theorem deep_layer_bounds :
    deep_layer.upper = 50 ∧ deep_layer.lower = 150 ∧ deep_layer.is_ready = true := by
  have h1 : ¬ ((50 : ℚ) < 0) := by norm_num
  have h2 : ¬ ((150 : ℚ) < 0) := by norm_num
  have h3 : ¬ ((50 : ℚ) ≥ 150) := by norm_num
  simp [deep_layer, Layer.set_param, Layer.init, Layer.upper, Layer.lower, Layer.is_ready,
    LY_IDX_UPPER, LY_IDX_LOWER, h1, h2, h3]

/-- C24 fails: the two ready layers with the depth intervals `[10, 100]` and
`[50, 150]` share the depths from 50 to 100, and `ly_chk_boundary` returns true. -/
theorem ly_chk_boundary_misses_overlap :
    shallow_layer.is_ready = true ∧ deep_layer.is_ready = true ∧
    shallow_layer.upper < shallow_layer.lower ∧ deep_layer.upper < deep_layer.lower ∧
    ly_overlap shallow_layer deep_layer ∧
    ly_chk_boundary [shallow_layer, deep_layer] = true := by
  obtain ⟨a1, a2, a3⟩ := shallow_layer_bounds
  obtain ⟨b1, b2, b3⟩ := deep_layer_bounds
  have ha : shallow_layer.upper < shallow_layer.lower := by rw [a1, a2]; norm_num
  have hb : deep_layer.upper < deep_layer.lower := by rw [b1, b2]; norm_num
  refine ⟨a3, b3, ha, hb, ?_, ?_⟩
  · unfold ly_overlap
    rw [a1, a2, b1, b2]
    norm_num
  · rw [ly_chk_boundary_ready]
    · refine List.Pairwise.cons ?_ (List.pairwise_singleton _ _)
      intro b hb'
      rw [List.mem_singleton.mp hb', a1, a2, b1, b2]
      norm_num
    · intro a hm
      rcases List.mem_cons.mp hm with h | h
      · rw [h]; exact ha
      · rw [List.mem_singleton.mp h]; exact hb

/-! ## The output windows accepted by `Simulation::load` -/

/-- C21 fails: for `OUTPUT_TIME = {5:1:10, 3:1:7}` the window check of
`Simulation::load` ends after three scans without the overlap error and without a swap;
the stored list is the input, whose two windows share the times from 5 to 7 and are
not in ascending order of their begin times. -/
theorem load_accepts_overlap :
    load_windows 3 crossed_windows [] =
      some (some [{ bgn_time := 5, inc_time := 1, end_time := 10 },
        { bgn_time := 3, inc_time := 1, end_time := 7 }]) ∧
    win_overlap ({ bgn_time := 5, inc_time := 1, end_time := 10 } : TimeWin ℚ)
      { bgn_time := 3, inc_time := 1, end_time := 7 } ∧
    ¬ (({ bgn_time := 5, inc_time := 1, end_time := 10 } : TimeWin ℚ).bgn_time ≤
      ({ bgn_time := 3, inc_time := 1, end_time := 7 } : TimeWin ℚ).bgn_time) := by
  have p1 : ¬ ((5 : ℚ) + 1 > 10) := by norm_num
  have p2 : ¬ ((3 : ℚ) + 1 > 7) := by norm_num
  have q1 : ¬ ((10 : ℚ) < 3) := by norm_num
  have q2 : (5 : ℚ) > 3 := by norm_num
  have q3 : ¬ ((5 : ℚ) > 7) := by norm_num
  refine ⟨?_, ?_, ?_⟩
  · simp [load_windows, crossed_windows, load_parse, load_sort, load_scan, p1, p2, q1, q2, q3]
  · unfold win_overlap
    norm_num
  · norm_num

/-! ## The parameters of a receptor -/

section Connectivity

variable {α : Type} [LinearOrderedField α]

theorem param_scan_eq (r : ReceptorObj α) (paramName : String) (val : α) :
    param_scan r paramName val RCPT_PARA_NUM 0 =
      if paramName = "G0" then
        (if val < -1 ∨ val > 1 then ParamScan.rejected
         else ParamScan.stored { r with
            rcpt_paramVal := Function.update r.rcpt_paramVal 0 val
            rcpt_paramFlg := Function.update r.rcpt_paramFlg 0 true })
      else if paramName = "LAMBDA" then
        (if val < 0 ∨ val > 1 then ParamScan.rejected
         else ParamScan.stored { r with
            rcpt_paramVal := Function.update r.rcpt_paramVal 1 val
            rcpt_paramFlg := Function.update r.rcpt_paramFlg 1 true })
      else if paramName = "DELAY" then
        (if val < 0 ∨ val > 10000 then ParamScan.rejected
         else ParamScan.stored { r with
            rcpt_paramVal := Function.update r.rcpt_paramVal 2 val
            rcpt_paramFlg := Function.update r.rcpt_paramFlg 2 true })
      else if paramName = "TAU_RISE" then
        (if val < 0 ∨ val > 10000 then ParamScan.rejected
         else ParamScan.stored { r with
            rcpt_paramVal := Function.update r.rcpt_paramVal 3 val
            rcpt_paramFlg := Function.update r.rcpt_paramFlg 3 true })
      else if paramName = "TAU_FALL" then
        (if val < 0 ∨ val > 10000 then ParamScan.rejected
         else ParamScan.stored { r with
            rcpt_paramVal := Function.update r.rcpt_paramVal 4 val
            rcpt_paramFlg := Function.update r.rcpt_paramFlg 4 true })
      else ParamScan.unknown := rfl


/-- The parameter names, ranges and sign conditions under which `set_param` accepts the
value `val`. -/
theorem set_param_accepts_iff (r : ReceptorObj α) (paramName : String) (val : α) :
    (r.set_param paramName val).1 = true ↔
      (paramName = "G0" ∧ -1 ≤ val ∧ val ≤ 1 ∧
        (r.type = TNeur.cEXCIT → 0 < val) ∧ (r.type = TNeur.cINHIB → val < 0)) ∨
      (paramName = "LAMBDA" ∧ 0 ≤ val ∧ val ≤ 1) ∨
      (paramName = "DELAY" ∧ 0 ≤ val ∧ val ≤ 10000) ∨
      (paramName = "TAU_RISE" ∧ 0 ≤ val ∧ val ≤ 10000) ∨
      (paramName = "TAU_FALL" ∧ 0 ≤ val ∧ val ≤ 10000) := by
  unfold ReceptorObj.set_param
  rw [param_scan_eq]
  by_cases h0 : paramName = "G0"
  · subst h0
    simp only [true_and, if_true]
    have hn : ¬ ("G0" = "LAMBDA") ∧ ¬ ("G0" = "DELAY") ∧ ¬ ("G0" = "TAU_RISE") ∧
        ¬ ("G0" = "TAU_FALL") := by decide
    simp only [hn.1, hn.2.1, hn.2.2.1, hn.2.2.2, false_and, or_false]
    by_cases c1 : r.type = TNeur.cEXCIT ∧ val ≤ 0
    · rw [if_pos c1]
      simp only [Bool.false_eq_true, false_iff, not_and]
      intro _ _ h3
      exact absurd (h3 c1.1) (not_lt.mpr c1.2)
    · rw [if_neg c1]
      by_cases c2 : r.type = TNeur.cINHIB ∧ val ≥ 0
      · rw [if_pos c2]
        simp only [Bool.false_eq_true, false_iff, not_and]
        intro _ _ _ h4
        exact absurd (h4 c2.1) (not_lt.mpr c2.2)
      · rw [if_neg c2]
        by_cases c3 : val < -1 ∨ val > 1
        · rw [if_pos c3]
          simp only [Bool.false_eq_true, false_iff, not_and]
          intro h1 h2
          rcases c3 with c3 | c3
          · exact absurd h1 (not_le.mpr c3)
          · exact absurd h2 (not_le.mpr c3)
        · rw [if_neg c3]
          rw [not_or] at c3
          simp only [true_iff]
          refine ⟨not_lt.mp c3.1, not_lt.mp c3.2, ?_, ?_⟩
          · intro ht
            by_contra hc
            exact c1 ⟨ht, not_lt.mp hc⟩
          · intro ht
            by_contra hc
            exact c2 ⟨ht, not_lt.mp hc⟩
  · simp only [h0, false_and, if_false, false_or]
    by_cases h1 : paramName = "LAMBDA"
    · subst h1
      have hn : ¬ ("LAMBDA" = "DELAY") ∧ ¬ ("LAMBDA" = "TAU_RISE") ∧
          ¬ ("LAMBDA" = "TAU_FALL") := by decide
      simp only [hn.1, hn.2.1, hn.2.2, false_and, or_false, true_and, if_true]
      by_cases c3 : val < 0 ∨ val > 1
      · rw [if_pos c3]
        simp only [Bool.false_eq_true, false_iff, not_and]
        intro h1
        rcases c3 with c3 | c3
        · exact absurd h1 (not_le.mpr c3)
        · exact not_le.mpr c3
      · rw [if_neg c3]
        rw [not_or] at c3
        simp only [true_iff]
        exact ⟨not_lt.mp c3.1, not_lt.mp c3.2⟩
    · simp only [h1, false_and, if_false, false_or]
      by_cases h2 : paramName = "DELAY"
      · subst h2
        have hn : ¬ ("DELAY" = "TAU_RISE") ∧ ¬ ("DELAY" = "TAU_FALL") := by decide
        simp only [hn.1, hn.2, false_and, or_false, true_and, if_true]
        by_cases c3 : val < 0 ∨ val > 10000
        · rw [if_pos c3]
          simp only [Bool.false_eq_true, false_iff, not_and]
          intro h1
          rcases c3 with c3 | c3
          · exact absurd h1 (not_le.mpr c3)
          · exact not_le.mpr c3
        · rw [if_neg c3]
          rw [not_or] at c3
          simp only [true_iff]
          exact ⟨not_lt.mp c3.1, not_lt.mp c3.2⟩
      · simp only [h2, false_and, if_false, false_or]
        by_cases h3 : paramName = "TAU_RISE"
        · subst h3
          have hn : ¬ ("TAU_RISE" = "TAU_FALL") := by decide
          simp only [hn, false_and, or_false, true_and, if_true]
          by_cases c3 : val < 0 ∨ val > 10000
          · rw [if_pos c3]
            simp only [Bool.false_eq_true, false_iff, not_and]
            intro h1
            rcases c3 with c3 | c3
            · exact absurd h1 (not_le.mpr c3)
            · exact not_le.mpr c3
          · rw [if_neg c3]
            rw [not_or] at c3
            simp only [true_iff]
            exact ⟨not_lt.mp c3.1, not_lt.mp c3.2⟩
        · simp only [h3, false_and, if_false, false_or]
          by_cases h4 : paramName = "TAU_FALL"
          · subst h4
            simp only [true_and, if_true]
            by_cases c3 : val < 0 ∨ val > 10000
            · rw [if_pos c3]
              simp only [Bool.false_eq_true, false_iff, not_and]
              intro h1
              rcases c3 with c3 | c3
              · exact absurd h1 (not_le.mpr c3)
              · exact not_le.mpr c3
            · rw [if_neg c3]
              rw [not_or] at c3
              simp only [true_iff]
              exact ⟨not_lt.mp c3.1, not_lt.mp c3.2⟩
          · simp only [h4, false_and, if_false]
            exact ⟨fun h => absurd h (by decide), fun h => h.elim⟩

theorem set_param_false_keeps (r : ReceptorObj α) (paramName : String) (val : α)
    (h : (r.set_param paramName val).1 = false) : (r.set_param paramName val).2 = r := by
  unfold ReceptorObj.set_param at h ⊢
  split
  · rfl
  · split
    · rfl
    · rename_i h1 h2
      rw [if_neg h1, if_neg h2] at h
      split
      · rfl
      · rfl
      · rename_i r1 heq
        rw [heq] at h
        exact Bool.noConfusion h


/-- C25. The function `Receptor::set_param(name, v)` returns true if and only if `name`
is the name of one of the five parameters, `v` lies in the range `[min, max]` of that
parameter, and, for `G0`, `v > 0` when the type already set is excitatory and `v < 0`
when it is inhibitory; whenever it returns false the receptor is as it was (parameter
values, set-flags, ready state and every other member). -/
theorem receptor_set_param_spec (r : ReceptorObj α) (paramName : String) (val : α) :
    ((r.set_param paramName val).1 = true ↔
      ∃ idx, idx < RCPT_PARA_NUM ∧ RCPT_ParamName.get? idx = some paramName ∧
        (RCPT_ParamMin α).getD idx 0 ≤ val ∧ val ≤ (RCPT_ParamMax α).getD idx 0 ∧
        (paramName = "G0" →
          (r.type = TNeur.cEXCIT → 0 < val) ∧ (r.type = TNeur.cINHIB → val < 0))) ∧
    ((r.set_param paramName val).1 = false → (r.set_param paramName val).2 = r) := by
  refine ⟨?_, set_param_false_keeps r paramName val⟩
  rw [set_param_accepts_iff]
  constructor
  · rintro (⟨hn, h1, h2, h3⟩ | ⟨hn, h1, h2⟩ | ⟨hn, h1, h2⟩ | ⟨hn, h1, h2⟩ | ⟨hn, h1, h2⟩)
    · exact ⟨0, by decide, by rw [hn]; rfl, h1, h2, fun _ => h3⟩
    · refine ⟨1, by decide, by rw [hn]; rfl, h1, h2, fun hc => ?_⟩
      rw [hn] at hc
      exact absurd hc (by decide)
    · refine ⟨2, by decide, by rw [hn]; rfl, h1, h2, fun hc => ?_⟩
      rw [hn] at hc
      exact absurd hc (by decide)
    · refine ⟨3, by decide, by rw [hn]; rfl, h1, h2, fun hc => ?_⟩
      rw [hn] at hc
      exact absurd hc (by decide)
    · refine ⟨4, by decide, by rw [hn]; rfl, h1, h2, fun hc => ?_⟩
      rw [hn] at hc
      exact absurd hc (by decide)
  · rintro ⟨idx, hi, hn, h1, h2, h3⟩
    unfold RCPT_PARA_NUM at hi
    interval_cases idx
    · have e : paramName = "G0" := (Option.some.inj hn).symm
      exact Or.inl ⟨e, h1, h2, h3 e⟩
    · exact Or.inr (Or.inl ⟨(Option.some.inj hn).symm, h1, h2⟩)
    · exact Or.inr (Or.inr (Or.inl ⟨(Option.some.inj hn).symm, h1, h2⟩))
    · exact Or.inr (Or.inr (Or.inr (Or.inl ⟨(Option.some.inj hn).symm, h1, h2⟩)))
    · exact Or.inr (Or.inr (Or.inr (Or.inr ⟨(Option.some.inj hn).symm, h1, h2⟩)))

end Connectivity

/-- C25 on an excitatory receptor: a negative gain is refused and the receptor stays as
it was. -/
theorem receptor_set_param_spec_witness :
    (lab_rcpt.set_param "G0" (-1 / 2)).1 = false ∧
      (lab_rcpt.set_param "G0" (-1 / 2)).2 = lab_rcpt :=
  have h : (lab_rcpt.set_param "G0" (-1 / 2)).1 = false := by
    have ht : lab_rcpt.type = TNeur.cEXCIT := rfl
    have hv : (-1 / 2 : ℚ) ≤ 0 := by norm_num
    unfold ReceptorObj.set_param
    rw [if_pos ⟨rfl, ht, hv⟩]
  ⟨h, (receptor_set_param_spec lab_rcpt "G0" (-1 / 2)).2 h⟩

/-! ## The uniform generator -/

theorem TAUSWORTHE_lt (s a b c d : Nat) (hs : s < 2 ^ 32) : TAUSWORTHE s a b c d < 2 ^ 32 := by
  unfold TAUSWORTHE
  have hm : (4294967295 : Nat) < 2 ^ 32 := by norm_num
  have h1 : ((s &&& c) <<< d) &&& 4294967295 < 2 ^ 32 := Nat.and_lt_two_pow _ hm
  have h2 : (s <<< a) &&& 4294967295 < 2 ^ 32 := Nat.and_lt_two_pow _ hm
  have h3 : ((s <<< a) &&& 4294967295) ^^^ s < 2 ^ 32 := Nat.xor_lt_two_pow h2 hs
  have h4 : (((s <<< a) &&& 4294967295) ^^^ s) >>> b < 2 ^ 32 := by
    rw [Nat.shiftRight_eq_div_pow]
    exact Nat.lt_of_le_of_lt (Nat.div_le_self _ _) h3
  exact Nat.xor_lt_two_pow h1 h4

theorem rndm_step_valid (st : RandStream) (h : st.Valid) : (rndm_step st).Valid :=
  ⟨h.1, TAUSWORTHE_lt _ _ _ _ _ h.2.1, TAUSWORTHE_lt _ _ _ _ _ h.2.2.1,
    TAUSWORTHE_lt _ _ _ _ _ h.2.2.2⟩

theorem rndm_iy_lt (st : RandStream) (h : st.Valid) : rndm_iy st < 2 ^ 32 :=
  Nat.xor_lt_two_pow (Nat.xor_lt_two_pow h.2.1 h.2.2.1) h.2.2.2

section Connectivity

variable {α : Type} [LinearOrderedField α]

theorem rndm_some :
    ∀ (fuel : Nat) (st : RandStream) (v : α) (st' : RandStream), st.Valid →
      rndm fuel st = some (v, st') →
      st'.Valid ∧ rndm_iy st' ≠ 0 ∧ v = kScale α * (rndm_iy st' : α)
  | 0, _, _, _, _, h => by simp [rndm] at h
  | fuel + 1, st, v, st', hv, h => by
    rw [rndm] at h
    by_cases hz : rndm_iy (rndm_step st) ≠ 0
    · rw [if_pos hz] at h
      have h' := Option.some.inj h
      have e1 : v = kScale α * (rndm_iy (rndm_step st) : α) := (congrArg Prod.fst h').symm
      have e2 : st' = rndm_step st := (congrArg Prod.snd h').symm
      rw [e2]
      exact ⟨rndm_step_valid st hv, hz, e1⟩
    · rw [if_neg hz] at h
      exact rndm_some fuel (rndm_step st) v st' (rndm_step_valid st hv) h

/-- C26. Every value `rndm` returns, on a stream of 32-bit state words, is
`iy * 2^-32` for the non-zero 32-bit word `iy` that is the XOR of the three updated
state words, and so lies in `[2^-32, 1 - 2^-32]`, inside `[0, 1)`; an update whose XOR
is zero is not returned: the function continues with the next update. -/
theorem rndm_value (fuel : Nat) (st : RandStream) (v : α) (st' : RandStream)
    (hv : st.Valid) (h : rndm fuel st = some (v, st')) :
    (∃ iy : Nat, iy ≠ 0 ∧ iy < 2 ^ 32 ∧ iy = st'.fSeed1 ^^^ st'.fSeed2 ^^^ st'.fSeed3 ∧
      v = (iy : α) * (1 / 2 ^ 32)) ∧
    1 / 2 ^ 32 ≤ v ∧ v ≤ 1 - 1 / 2 ^ 32 ∧ 0 ≤ v ∧ v < 1 ∧
    (∀ (n : Nat) (s : RandStream), rndm_iy (rndm_step s) = 0 →
      (rndm (n + 1) s : Option (α × RandStream)) = rndm n (rndm_step s)) ∧
    (∀ (n : Nat) (s : RandStream), rndm_iy (rndm_step s) ≠ 0 →
      (rndm (n + 1) s : Option (α × RandStream)) =
        some (kScale α * (rndm_iy (rndm_step s) : α), rndm_step s)) := by
  obtain ⟨hv', hz, e⟩ := rndm_some fuel st v st' hv h
  have hlt := rndm_iy_lt st' hv'
  have hk : kScale α = 1 / 2 ^ 32 := by
    unfold kScale
    norm_num
  have hpos : (0 : α) < 1 / 2 ^ 32 := by positivity
  have h1 : (1 : α) ≤ (rndm_iy st' : α) := by
    exact_mod_cast Nat.one_le_iff_ne_zero.mpr hz
  have h2 : (rndm_iy st' : α) ≤ 2 ^ 32 - 1 := by
    have : rndm_iy st' + 1 ≤ 2 ^ 32 := hlt
    have h' : ((rndm_iy st' + 1 : Nat) : α) ≤ ((2 ^ 32 : Nat) : α) := by exact_mod_cast this
    push_cast at h'
    linarith
  have ev : v = (rndm_iy st' : α) * (1 / 2 ^ 32) := by rw [e, hk, mul_comm]
  have hlo : 1 / 2 ^ 32 ≤ v := by
    rw [ev]
    have := mul_le_mul_of_nonneg_right h1 (le_of_lt hpos)
    linarith
  have hhi : v ≤ 1 - 1 / 2 ^ 32 := by
    rw [ev]
    have h3 := mul_le_mul_of_nonneg_right h2 (le_of_lt hpos)
    have h4 : ((2 : α) ^ 32 - 1) * (1 / 2 ^ 32) = 1 - 1 / 2 ^ 32 := by
      field_simp
    linarith
  refine ⟨⟨rndm_iy st', hz, hlt, rfl, ev⟩, hlo, hhi, by linarith, by linarith, ?_, ?_⟩
  · intro n s hs
    rw [rndm, if_neg (not_not.mpr hs)]
  · intro n s hs
    rw [rndm, if_pos hs]

end Connectivity

/-- C26 on the stream with the state words 12345, 67890 and 424242: the first update
gives `iy = 4050851190`. -/
theorem rndm_value_witness :
    lab_stream.Valid ∧
    (rndm 1 lab_stream : Option (ℚ × RandStream)) =
      some (kScale ℚ * ((4050851190 : Nat) : ℚ),
        { fSeed := 1, fSeed1 := 50561216, fSeed2 := 1086208, fSeed3 := 4066379446 }) ∧
    (∃ iy : Nat, iy ≠ 0 ∧ iy < 2 ^ 32 ∧ iy = 50561216 ^^^ 1086208 ^^^ 4066379446 ∧
      kScale ℚ * ((4050851190 : Nat) : ℚ) = (iy : ℚ) * (1 / 2 ^ 32)) :=
  have hv : lab_stream.Valid := by
    refine ⟨?_, ?_, ?_, ?_⟩ <;> decide
  have hr : (rndm 1 lab_stream : Option (ℚ × RandStream)) =
      some (kScale ℚ * ((4050851190 : Nat) : ℚ),
        { fSeed := 1, fSeed1 := 50561216, fSeed2 := 1086208, fSeed3 := 4066379446 }) := by
    have e1 : rndm_step lab_stream =
        { fSeed := 1, fSeed1 := 50561216, fSeed2 := 1086208, fSeed3 := 4066379446 } := by
      decide
    have e2 : rndm_iy
        { fSeed := 1, fSeed1 := 50561216, fSeed2 := 1086208, fSeed3 := 4066379446 } =
        4050851190 := by decide
    rw [rndm, e1, e2, if_pos (by decide)]
  ⟨hv, hr, (rndm_value 1 lab_stream _ _ hv hr).1⟩

/-! ## The output record -/

theorem foldl_append_blocks {β : Type} (f : Nat → List β) (c : Nat)
    (hf : ∀ i, (f i).length = c) :
    ∀ (n : Nat) (b0 : List β),
      ((List.range n).foldl (fun b i => b ++ f i) b0).length = b0.length + c * n ∧
      (∀ k, k < b0.length →
        ((List.range n).foldl (fun b i => b ++ f i) b0)[k]? = b0[k]?) ∧
      ∀ i k, i < n → k < c →
        ((List.range n).foldl (fun b i => b ++ f i) b0)[b0.length + c * i + k]? =
          (f i)[k]?
  | 0, b0 => by
    refine ⟨by simp, fun _ _ => rfl, ?_⟩
    intro i k hi
    omega
  | n + 1, b0 => by
    obtain ⟨i1, i2, i3⟩ := foldl_append_blocks f c hf n b0
    rw [List.range_succ, List.foldl_append, List.foldl_cons, List.foldl_nil]
    refine ⟨?_, ?_, ?_⟩
    · rw [List.length_append, i1, hf, Nat.mul_succ]
      omega
    · intro k hk
      rw [List.getElem?_append_left (by rw [i1]; omega)]
      exact i2 k hk
    · intro i k hi hk
      by_cases hin : i = n
      · rw [hin, List.getElem?_append_right (by rw [i1]; omega), i1]
        congr 1
        omega
      · have hlt : i < n := by omega
        have hb : c * i + c ≤ c * n := by
          have := Nat.mul_le_mul_left c (by omega : i + 1 ≤ n)
          rw [Nat.mul_succ] at this
          exact this
        rw [List.getElem?_append_left (by rw [i1]; omega)]
        exact i3 i k hlt hk

theorem foldl_append_eq {β : Type} (f : Nat → List β) :
    ∀ (n : Nat) (b0 : List β),
      (List.range n).foldl (fun b i => b ++ f i) b0 =
        b0 ++ (List.range n).foldl (fun b i => b ++ f i) []
  | 0, b0 => by simp
  | n + 1, b0 => by
    rw [List.range_succ, List.foldl_append, List.foldl_append, List.foldl_cons,
      List.foldl_cons, List.foldl_nil, List.foldl_nil, foldl_append_eq f n b0,
      List.append_assoc]

theorem float_bytes_length {α : Type} (to_bytes : α → Fin sizeof_TFloat → Nat) (x : α) :
    (float_bytes to_bytes x).length = sizeof_TFloat := by
  unfold float_bytes
  exact List.length_ofFn _

section Engine

variable {α ω : Type} [LinearOrderedField α]

/-- C28. The function `get_data_block` never ends in its size test and produces
exactly `BLOCK_SIZE = (elementCount * groupCount + 1) * 4 + 1` bytes, the value
`get_data_header` prints: the four bytes of the current time, then the four bytes of
the voltage of element `e`, group `g` at the byte offset `4 * (1 + e * groupCount + g)`
for every `e` and `g`, then one byte 0. -/
theorem get_data_block_layout (to_bytes : α → Fin sizeof_TFloat → Nat) (s : Simulation α ω)
    (gStep_size : α) :
    ∃ buff, get_data_block to_bytes s gStep_size = some buff ∧
      buff.length = header_block_size s ∧
      header_block_size s = (s.gElmt_num * s.gNeur.length + 1) * 4 + 1 ∧
      (∀ k, k < 4 → buff[k]? = (float_bytes to_bytes (evlt_time s gStep_size))[k]?) ∧
      (∀ e g k, e < s.gElmt_num → g < s.gNeur.length → k < 4 →
        buff[4 * (1 + e * s.gNeur.length + g) + k]? =
          (float_bytes to_bytes (s.gVolt e g).rear)[k]?) ∧
      buff[4 * (s.gElmt_num * s.gNeur.length + 1)]? = some 0 := by
  have hlen := float_bytes_length to_bytes
  unfold sizeof_TFloat at hlen
  -- the record of one element
  have hin : ∀ (e : Nat) (b : List Nat),
      (List.range s.gNeur.length).foldl
        (fun buff ineur => buff ++ float_bytes to_bytes (s.gVolt e ineur).rear) b =
      b ++ (List.range s.gNeur.length).foldl
        (fun buff ineur => buff ++ float_bytes to_bytes (s.gVolt e ineur).rear) [] :=
    fun e b => foldl_append_eq (fun g => float_bytes to_bytes (s.gVolt e g).rear) _ b
  have hJ := fun e => foldl_append_blocks
    (fun g => float_bytes to_bytes (s.gVolt e g).rear) 4 (fun g => hlen _)
    s.gNeur.length []
  have hout : (List.range s.gElmt_num).foldl
      (fun buff ielmt =>
        (List.range s.gNeur.length).foldl
          (fun buff ineur => buff ++ float_bytes to_bytes (s.gVolt ielmt ineur).rear) buff)
      (float_bytes to_bytes (evlt_time s gStep_size)) =
      (List.range s.gElmt_num).foldl
        (fun buff ielmt => buff ++ (List.range s.gNeur.length).foldl
          (fun buff ineur => buff ++ float_bytes to_bytes (s.gVolt ielmt ineur).rear) [])
        (float_bytes to_bytes (evlt_time s gStep_size)) := by
    congr 1
    funext b e
    exact hin e b
  obtain ⟨o1, o2, o3⟩ := foldl_append_blocks
    (fun e => (List.range s.gNeur.length).foldl
      (fun buff ineur => buff ++ float_bytes to_bytes (s.gVolt e ineur).rear) [])
    (4 * s.gNeur.length)
    (fun e => by
      have := (hJ e).1
      simpa using this)
    s.gElmt_num (float_bytes to_bytes (evlt_time s gStep_size))
  rw [← hout, hlen] at o1 o3
  rw [← hout] at o2
  obtain ⟨buff1, hb1⟩ : ∃ b, b = (List.range s.gElmt_num).foldl
      (fun buff ielmt =>
        (List.range s.gNeur.length).foldl
          (fun buff ineur => buff ++ float_bytes to_bytes (s.gVolt ielmt ineur).rear) buff)
      (float_bytes to_bytes (evlt_time s gStep_size)) := ⟨_, rfl⟩
  rw [← hb1] at o1 o2 o3
  have hget : get_data_block to_bytes s gStep_size =
      if (buff1 ++ [0]).length ≠ (s.gElmt_num * s.gNeur.length + 1) * 4 + 1 then none
      else some (buff1 ++ [0]) := by
    rw [hb1]
    rfl
  have e1 : 4 * s.gNeur.length * s.gElmt_num = 4 * (s.gElmt_num * s.gNeur.length) := by
    rw [Nat.mul_assoc, Nat.mul_comm s.gNeur.length]
  have hsize : (buff1 ++ [0]).length = (s.gElmt_num * s.gNeur.length + 1) * 4 + 1 := by
    rw [List.length_append, o1, e1, List.length_singleton]
    omega
  refine ⟨buff1 ++ [0], ?_, hsize, rfl, ?_, ?_, ?_⟩
  · rw [hget, if_neg (not_not.mpr hsize)]
  · intro k hk
    rw [List.getElem?_append_left (by rw [o1]; omega)]
    exact o2 k (by rw [hlen]; exact hk)
  · intro e g k he hg hk
    have hb : 4 * s.gNeur.length * e + 4 * s.gNeur.length ≤
        4 * s.gNeur.length * s.gElmt_num := by
      have := Nat.mul_le_mul_left (4 * s.gNeur.length) (by omega : e + 1 ≤ s.gElmt_num)
      rw [Nat.mul_succ] at this
      exact this
    have e2 : 4 * (1 + e * s.gNeur.length + g) + k =
        4 + 4 * s.gNeur.length * e + (0 + 4 * g + k) := by
      have : 4 * s.gNeur.length * e = 4 * (e * s.gNeur.length) := by
        rw [Nat.mul_assoc, Nat.mul_comm s.gNeur.length]
      omega
    rw [List.getElem?_append_left (by rw [o1, e2]; omega), e2,
      o3 e (0 + 4 * g + k) he (by omega)]
    exact (hJ e).2.2 g k hg hk
  · rw [List.getElem?_append_right (by rw [o1, e1]; omega), o1, e1]
    have : 4 * (s.gElmt_num * s.gNeur.length + 1) - (4 + 4 * (s.gElmt_num * s.gNeur.length)) =
        0 := by omega
    rw [this]
    rfl

end Engine

/-! ## The PSP kernel of a receptor -/

section Kernel
variable {α : Type} [LinearOrderedField α]

theorem precalc_stop_spec (env : RcptEnv α) (r : ReceptorObj α) (step_size : α) :
    ∀ (fuel : Nat) (N0 N : Int), precalc_stop env r step_size fuel N0 = some N →
      N0 ≤ N ∧ r.eqn_R env ((N : α) * step_size) / r.gain < PSP_EPS α ∧
      ∀ M : Int, N0 ≤ M → M < N →
        PSP_EPS α ≤ r.eqn_R env ((M : α) * step_size) / r.gain
  | 0, _, _, h => by simp [precalc_stop] at h
  | fuel + 1, N0, N, h => by
    rw [precalc_stop] at h
    by_cases hc : r.eqn_R env ((N0 : α) * step_size) / r.gain ≥ PSP_EPS α
    · rw [if_pos hc] at h
      obtain ⟨i1, i2, i3⟩ := precalc_stop_spec env r step_size fuel (N0 + 1) N h
      refine ⟨by omega, i2, ?_⟩
      intro M h1 h2
      by_cases hM : M = N0
      · rw [hM]
        exact hc
      · exact i3 M (by omega) h2
    · rw [if_neg hc] at h
      have e : N0 = N := Option.some.inj h
      rw [← e]
      refine ⟨le_refl _, not_le.mp hc, ?_⟩
      intro M h1 h2
      omega

theorem precalc_stop_total (env : RcptEnv α) (r : ReceptorObj α) (step_size : α) (N : Int)
    (hstop : r.eqn_R env ((N : α) * step_size) / r.gain < PSP_EPS α) :
    ∀ (fuel : Nat) (N0 : Int), N0 ≤ N →
      (∀ M : Int, N0 ≤ M → M < N → PSP_EPS α ≤ r.eqn_R env ((M : α) * step_size) / r.gain) →
      (N - N0).toNat < fuel → precalc_stop env r step_size fuel N0 = some N
  | 0, _, _, _, hf => by omega
  | fuel + 1, N0, h0, hb, hf => by
    rw [precalc_stop]
    by_cases hN : N0 = N
    · rw [hN, if_neg (not_le.mpr hstop)]
    · rw [if_pos (hb N0 (le_refl _) (by omega))]
      exact precalc_stop_total env r step_size N hstop fuel (N0 + 1) (by omega)
        (fun M h1 h2 => hb M (by omega) h2) (by omega)


/-- C27, amended. The function `precalc(stepSize)` leaves its loop at the first index
`N ≥ static_cast<TInt>((delay + 20) / stepSize)` at which the response divided by the
gain, `R(N * stepSize) / G0`, is below `1e-3` (the response is normalised by the gain,
not by its peak value), and stores a kernel of `N + 1` samples, sample `i` being
`R((i + 0.5) * stepSize) * stepSize`; for a positive step the kernel covers more than
`delay + 20` time units. Whenever such an index exists the loop reaches it. -/
theorem precalc_kernel (env : RcptEnv α) (r : ReceptorObj α) (step_size : α) :
    (∀ (fuel : Nat) (r' : ReceptorObj α), r.precalc env step_size fuel = some r' →
      ∃ N : Int,
        env.to_int ((r.delay + 20) / step_size) ≤ N ∧
        r.eqn_R env ((N : α) * step_size) / r.gain < PSP_EPS α ∧
        (∀ M : Int, env.to_int ((r.delay + 20) / step_size) ≤ M → M < N →
          PSP_EPS α ≤ r.eqn_R env ((M : α) * step_size) / r.gain) ∧
        r'.rcpt_psp.length = (N + 1).toNat ∧
        (∀ i, i < (N + 1).toNat →
          r'.rcpt_psp[i]? = some (r.eqn_R env (((i : α) + 1 / 2) * step_size) * step_size)) ∧
        (0 < step_size → (∀ x, x < (env.to_int x : α) + 1) →
          r.delay + 20 < ((N + 1 : Int) : α) * step_size)) ∧
    (∀ N : Int, env.to_int ((r.delay + 20) / step_size) ≤ N →
      r.eqn_R env ((N : α) * step_size) / r.gain < PSP_EPS α →
      (∀ M : Int, env.to_int ((r.delay + 20) / step_size) ≤ M → M < N →
        PSP_EPS α ≤ r.eqn_R env ((M : α) * step_size) / r.gain) →
      ∀ fuel, (N - env.to_int ((r.delay + 20) / step_size)).toNat < fuel →
        ∃ r', r.precalc env step_size fuel = some r' ∧ r'.rcpt_psp.length = (N + 1).toNat) := by
  constructor
  · intro fuel r' h
    unfold ReceptorObj.precalc at h
    cases hs : precalc_stop env r step_size fuel
        (env.to_int ((r.rcpt_paramVal RCPT_IDX_DELAY + 20) / step_size)) with
    | none =>
      rw [hs] at h
      exact absurd h (by simp)
    | some N =>
      rw [hs] at h
      have hr : r' = { r with
          rcpt_psp := (List.range (N + 1).toNat).map fun (istep : Nat) =>
            r.eqn_R env (((istep : α) + 1 / 2) * step_size) * step_size } :=
        (Option.some.inj h).symm
      obtain ⟨i1, i2, i3⟩ := precalc_stop_spec env r step_size fuel _ N hs
      refine ⟨N, i1, i2, i3, ?_, ?_, ?_⟩
      · rw [hr]
        simp
      · intro i hi
        rw [hr]
        simp [hi]
      · intro hpos htr
        have h1 := htr ((r.delay + 20) / step_size)
        have h2 : ((env.to_int ((r.delay + 20) / step_size) : Int) : α) ≤ (N : α) := by
          exact_mod_cast i1
        have h3 : (r.delay + 20) / step_size < ((N + 1 : Int) : α) := by
          push_cast
          linarith
        exact (div_lt_iff₀ hpos).mp h3
  · intro N h0 hstop hb fuel hf
    have hs := precalc_stop_total env r step_size N hstop fuel _ h0 hb hf
    have hs' : precalc_stop env r step_size fuel
        (env.to_int ((r.rcpt_paramVal RCPT_IDX_DELAY + 20) / step_size)) = some N := hs
    refine ⟨_, by unfold ReceptorObj.precalc; rw [hs'], ?_⟩
    simp

end Kernel

theorem slow_rcpt_fields :
    (slow_rcpt ℝ).gain = 1 / 2 ∧ (slow_rcpt ℝ).delay = 0 ∧ (slow_rcpt ℝ).psp_rise = 1 ∧
      (slow_rcpt ℝ).psp_fall = 2000 ∧ (slow_rcpt ℝ).rcpt_paramVal RCPT_IDX_DELAY = 0 :=
  ⟨rfl, rfl, rfl, rfl, rfl⟩

theorem slow_rcpt_R (t : ℝ) (ht : 0 < t) :
    (slow_rcpt ℝ).eqn_R { exp := Real.exp, to_int := fun x => ⌊x⌋ } t =
      1 / 2 * (1 + 2000) * Real.exp ((0 - t) / 2000) * (1 - Real.exp ((0 - t) / 1)) /
        (2000 * 2000) := by
  obtain ⟨g, _, ri, fa, d⟩ := slow_rcpt_fields
  unfold ReceptorObj.eqn_R
  rw [d, if_neg (not_le.mpr ht)]
  simp only [g, ri, fa]

theorem slow_rcpt_R_le (t : ℝ) :
    (slow_rcpt ℝ).eqn_R { exp := Real.exp, to_int := fun x => ⌊x⌋ } t ≤ 2001 / 8000000 := by
  by_cases ht : 0 < t
  · rw [slow_rcpt_R t ht]
    have a1 : 0 < Real.exp ((0 - t) / 2000) := Real.exp_pos _
    have a2 : Real.exp ((0 - t) / 2000) ≤ 1 := Real.exp_le_one_iff.mpr (by linarith)
    have b1 : 0 < Real.exp ((0 - t) / 1) := Real.exp_pos _
    have b2 : Real.exp ((0 - t) / 1) ≤ 1 := Real.exp_le_one_iff.mpr (by linarith)
    have hp : Real.exp ((0 - t) / 2000) * (1 - Real.exp ((0 - t) / 1)) ≤ 1 := by
      nlinarith
    have : 1 / 2 * (1 + 2000) * Real.exp ((0 - t) / 2000) * (1 - Real.exp ((0 - t) / 1)) /
        (2000 * 2000) =
        2001 / 8000000 * (Real.exp ((0 - t) / 2000) * (1 - Real.exp ((0 - t) / 1))) := by ring
    rw [this]
    nlinarith
  · unfold ReceptorObj.eqn_R
    rw [slow_rcpt_fields.2.2.2.2, if_pos (not_lt.mp ht)]
    norm_num

theorem slow_rcpt_R_20 :
    2001 / 8000000 * (99 / 200) ≤
      (slow_rcpt ℝ).eqn_R { exp := Real.exp, to_int := fun x => ⌊x⌋ } (((20 : Int) : ℝ) * 1) := by
  have e : (((20 : Int) : ℝ) * 1) = 20 := by norm_num
  rw [e, slow_rcpt_R 20 (by norm_num)]
  have a1 : 99 / 100 ≤ Real.exp ((0 - 20) / 2000) := by
    have := Real.add_one_le_exp ((0 - 20 : ℝ) / 2000)
    linarith
  have b2 : Real.exp ((0 - 20 : ℝ) / 1) ≤ 1 / 2 := by
    have h1 : Real.exp ((0 - 20 : ℝ) / 1) ≤ Real.exp (-1) := Real.exp_le_exp.mpr (by norm_num)
    have h2 : Real.exp (-1) = (Real.exp 1)⁻¹ := Real.exp_neg 1
    have h3 : (2 : ℝ) ≤ Real.exp 1 := by
      have := Real.add_one_le_exp (1 : ℝ)
      linarith
    have h4 : (Real.exp 1)⁻¹ ≤ 2⁻¹ := inv_anti₀ (by norm_num) h3
    rw [h2] at h1
    linarith
  have : 1 / 2 * (1 + 2000) * Real.exp ((0 - 20) / 2000) * (1 - Real.exp ((0 - 20) / 1)) /
      (2000 * 2000) =
      2001 / 8000000 * (Real.exp ((0 - 20) / 2000) * (1 - Real.exp ((0 - 20) / 1))) := by ring
  rw [this]
  have hp : 99 / 200 ≤ Real.exp ((0 - 20 : ℝ) / 2000) * (1 - Real.exp ((0 - 20) / 1)) := by
    nlinarith
  nlinarith

theorem slow_rcpt_start :
    (⌊((slow_rcpt ℝ).rcpt_paramVal RCPT_IDX_DELAY + 20) / 1⌋ : Int) = 20 := by
  rw [slow_rcpt_fields.2.2.2.2]
  norm_num

theorem slow_rcpt_below :
    (slow_rcpt ℝ).eqn_R { exp := Real.exp, to_int := fun x => ⌊x⌋ }
      (((20 : Int) : ℝ) * 1) / (slow_rcpt ℝ).gain < PSP_EPS ℝ := by
  have h := slow_rcpt_R_le (((20 : Int) : ℝ) * 1)
  rw [slow_rcpt_fields.1]
  unfold PSP_EPS
  rw [div_lt_iff₀ (by norm_num)]
  linarith

theorem slow_rcpt_stop :
    precalc_stop { exp := Real.exp, to_int := fun x => ⌊x⌋ } (slow_rcpt ℝ) 1 1 20 = some 20 := by
  rw [precalc_stop, if_neg (not_le.mpr slow_rcpt_below)]

/-- C27, as stated, fails: for the receptor with gain 1/2, no delay, rise time 1 and
fall time 2000 and the step size 1, the loop of `precalc` is left at once at
`Nstep = 20 = (0 + 20) / 1` and the kernel has 21 samples, because `R(20) / G0` is below
`1e-3`; but `R(20)` is at least `1e-3` of every value of `R`, so the response has not
fallen below `1e-3` of its peak. -/
theorem precalc_stops_near_peak_counterexample :
    precalc_stop { exp := Real.exp, to_int := fun x => ⌊x⌋ } (slow_rcpt ℝ) 1 1
      (⌊((slow_rcpt ℝ).rcpt_paramVal RCPT_IDX_DELAY + 20) / 1⌋) = some 20 ∧
    (∃ r', (slow_rcpt ℝ).precalc { exp := Real.exp, to_int := fun x => ⌊x⌋ } 1 1 = some r' ∧
      r'.rcpt_psp.length = 21) ∧
    ∀ t : ℝ,
      ¬ ((slow_rcpt ℝ).eqn_R { exp := Real.exp, to_int := fun x => ⌊x⌋ } (((20 : Int) : ℝ) * 1) <
        1 / 1000 * (slow_rcpt ℝ).eqn_R { exp := Real.exp, to_int := fun x => ⌊x⌋ } t) := by
  have hs : precalc_stop { exp := Real.exp, to_int := fun x => ⌊x⌋ } (slow_rcpt ℝ) 1 1
      (⌊((slow_rcpt ℝ).rcpt_paramVal RCPT_IDX_DELAY + 20) / 1⌋) = some 20 := by
    rw [slow_rcpt_start]
    exact slow_rcpt_stop
  refine ⟨hs, ?_, ?_⟩
  · refine ⟨_, by unfold ReceptorObj.precalc; rw [hs], ?_⟩
    simp
  · intro t
    have h1 := slow_rcpt_R_le t
    have h2 := slow_rcpt_R_20
    rw [not_lt]
    linarith

/-- C27, amended, on the receptor with gain 1/2, no delay, rise time 1 and fall time
2000, with the step size 1: the loop is left at `N = 20` and the kernel has 21 samples. -/
theorem precalc_kernel_witness :
    ∃ r', (slow_rcpt ℝ).precalc { exp := Real.exp, to_int := fun x => ⌊x⌋ } 1 1 = some r' ∧
      r'.rcpt_psp.length = ((20 : Int) + 1).toNat :=
  (precalc_kernel { exp := Real.exp, to_int := fun x => ⌊x⌋ } (slow_rcpt ℝ) 1).2 20
    (le_of_eq slow_rcpt_start) slow_rcpt_below
    (fun M h1 h2 => by
      have := slow_rcpt_start
      have h1' : (20 : Int) ≤ M := by rw [← this]; exact h1
      omega)
    1 (by
      have e : (⌊((slow_rcpt ℝ).delay + 20) / 1⌋ : Int) = 20 := slow_rcpt_start
      show ((20 : Int) - ⌊((slow_rcpt ℝ).delay + 20) / 1⌋).toNat < 1
      rw [e]
      decide)


/-! ## Numbers and text: `str2nums`, `nums2str` and the elements of a stimulator -/

/-- C35: `str2nums` does not read the third documented form. For every text without
`-` and without `:` (after trimming), the last branch of `str2nums` returns `false`
whenever `str2int` converts the text, so a single integer is refused; and when `str2int`
fails, the function returns `true` with the one-element list holding the content left
in `val`. The source tests `if (str2int(str, val)) return false;`, the negation of what
the other two branches test. -/
theorem str2nums_single_integer (junk : Int) (fuel : Nat) (str : List Char)
    (h1 : find_char '-' (strtrim str) = none) (h2 : find_char ':' (strtrim str) = none) :
    (∀ n, str2int (strtrim str) = some n → str2nums junk fuel str = some none) ∧
    (str2int (strtrim str) = none → str2nums junk fuel str = some (some [junk])) := by
  unfold str2nums
  simp only [h1, h2]
  constructor
  · intro n h
    simp only [h]
  · intro h
    simp only [h]

/-- The text `5` is refused, and the text `x` is accepted with the list `[junk]`; the
two range forms are read as documented. -/
theorem str2nums_single_integer_witness :
    (find_char '-' (strtrim "5".data) = none ∧ find_char ':' (strtrim "5".data) = none ∧
      str2int (strtrim "5".data) = some 5 ∧ str2nums 0 8 "5".data = some none) ∧
    str2nums 7 8 "x".data = some (some [7]) ∧
    str2nums 0 8 "3-1".data = some (some [1, 2, 3]) ∧
    str2nums 0 8 "1:2:10".data = some (some [1, 3, 5, 7, 9]) :=
  ⟨⟨by decide, by decide, by decide,
      (str2nums_single_integer 0 8 "5".data (by decide) (by decide)).1 5 (by decide)⟩,
    by decide, by decide, by decide⟩

/-- C36: the printed `ELEMENT` value is not always read back. For the element list `[5]`
the stimulator prints `{5}` and for `[1, 3]` it prints `{1,3}`; the branch `ELEMENT` of
`set_stim_param` refuses both (whatever the fuel and the uninitialised `val`), because
`str2nums` refuses a single integer. The list `[1, 2, 3]`, printed as `{1-3}`, is read
back. -/
theorem printed_elements_refused :
    print_elmts { blank_stim with st_elmts := [5] } = "\x7b5\x7d".data ∧
    print_elmts { blank_stim with st_elmts := [1, 3] } = "\x7b1,3\x7d".data ∧
    print_elmts { blank_stim with st_elmts := [1, 2, 3] } = "\x7b1-3\x7d".data ∧
    (∀ junk fuel, (set_stim_elmts junk fuel blank_stim
      (print_elmts { blank_stim with st_elmts := [5] })).map Prod.fst = some false) ∧
    (∀ junk fuel, (set_stim_elmts junk fuel blank_stim
      (print_elmts { blank_stim with st_elmts := [1, 3] })).map Prod.fst = some false) ∧
    (∀ junk, (set_stim_elmts junk 4 blank_stim
      (print_elmts { blank_stim with st_elmts := [1, 2, 3] })).map
        (fun p => (p.1, p.2.st_elmts)) = some (true, [1, 2, 3])) :=
  ⟨by decide, by decide, by decide, fun _ _ => rfl, fun _ _ => rfl, fun _ => rfl⟩

/-- C31: an element outside the grid is accepted. On the 3 x 3 grid (9 elements),
`ELEMENT = {100-101}` is read by `set_stim_param` with the result `true` and attaches the
elements 100 and 101; `Stimulator::init` then makes the stimulator ready, and the list
`_es_elmt` that `ExSource::init` builds, from which `advance` takes the index into the
voltage lines, is `[100, 101]`. No step compares an element with the element count. -/
theorem element_outside_grid_is_ready :
    (set_stim_elmts 0 4 blank_stim "\x7b100-101\x7d".data).map
      (fun p => (p.1, p.2.st_elmts)) = some (true, [100, 101]) ∧
    outside_stim.st_elmts = [100, 101] ∧
    (StimWave.init lab_env outside_stim ready_rng).1.is_ready = true ∧
    es_elmt_init [(StimWave.init lab_env outside_stim ready_rng).1] = [100, 101] ∧
    grid_sim.gElmt_num = 9 ∧
    ∀ e ∈ es_elmt_init [(StimWave.init lab_env outside_stim ready_rng).1],
      ¬ e < (grid_sim.gElmt_num : Int) :=
  ⟨by decide, by decide, by decide, by decide, by decide, by decide⟩

/-! ## The output windows in `Simulation::init` and the number of blocks -/

section OutputWindows

variable {α : Type} [LinearOrderedField α]

/-- The step fields after the first four statements of the window loop: the guard
`if (it->inc_step <= 0) it->inc_time = 1;` changes `inc_time` and never `inc_step`. -/
theorem init_window_steps_fields (to_int : α → Int) (time_step : α) (it : TTimeWinObj α) :
    (init_window_steps to_int time_step it).inc_step = to_int (it.inc_time / time_step) ∧
    (init_window_steps to_int time_step it).bgn_step = to_int (it.bgn_time / time_step) ∧
    (init_window_steps to_int time_step it).end_step = to_int (it.end_time / time_step) ∧
    (to_int (it.inc_time / time_step) ≤ 0 →
      (init_window_steps to_int time_step it).inc_time = 1) := by
  by_cases h : to_int (it.inc_time / time_step) ≤ 0 <;> simp [init_window_steps, h]

end OutputWindows

theorem fine_window_steps : Rat.floor (fine_window.inc_time / (1 / 10)) = 0 := by
  show Rat.floor ((1 / 20 : ℚ) / (1 / 10)) = 0
  rw [rat_floor_eq, Int.floor_eq_iff]
  norm_num

/-- C32: `inc_step` can be 0 after `init()`. For every window the guard of
`Simulation::init` leaves `inc_step` as converted (it assigns `inc_time`); for the
window `0 : 0.05 : 1` and the time step `0.1`, `inc_step` is 0 after the guard, `inc_time`
has become 1, and the next statement divides by `inc_step = 0`. -/
theorem short_increment_keeps_zero_step :
    (∀ (to_int : ℚ → Int) (time_step : ℚ) (it : TTimeWinObj ℚ),
      (init_window_steps to_int time_step it).inc_step = to_int (it.inc_time / time_step)) ∧
    (init_window_steps Rat.floor (1 / 10) fine_window).inc_step = 0 ∧
    (init_window_steps Rat.floor (1 / 10) fine_window).inc_time = 1 ∧
    init_window Rat.floor (1 / 10) fine_window = none ∧
    init_output_time Rat.floor (1 / 10) [fine_window] = none := by
  have h0 : (init_window_steps Rat.floor (1 / 10) fine_window).inc_step = 0 :=
    ((init_window_steps_fields _ _ _).1).trans fine_window_steps
  have h1 : init_window Rat.floor (1 / 10) fine_window = none := by
    unfold init_window
    exact if_pos h0
  refine ⟨fun to_int time_step it => (init_window_steps_fields to_int time_step it).1, h0,
    (init_window_steps_fields _ _ _).2.2.2 (le_of_eq fine_window_steps), h1, ?_⟩
  unfold init_output_time
  rw [h1]

theorem zero_window_init :
    init_output_time Rat.floor 1 [zero_window] =
      some [{ zero_window with bgn_step := 0, end_step := 2, inc_step := 1, pnt_num := 3 }] := by
  have h0 : Rat.floor (0 : ℚ) = 0 := rfl
  have h1 : Rat.floor (1 : ℚ) = 1 := rfl
  have h2 : Rat.floor (2 : ℚ) = 2 := rfl
  simp [init_output_time, init_window, init_window_steps, zero_window, h0, h1, h2]

/-- C33: the header counts a block for step 0, which is never written. For the single
output window `0 : 1 : 2` with the time step 1 and a run of 2 steps, `Simulation::init`
computes `bgn_step = 0`, `end_step = 2`, `inc_step = 1` and `pnt_num = 3`, so the header
announces `BLOCK_NUM = 3`; the loop of the front end calls `advance()` twice and writes
2 blocks, because the first call already moves the step counter to 1. -/
theorem header_counts_step_zero :
    (∃ ws, init_output_time Rat.floor 1 [zero_window] = some ws ∧
      ws.map TTimeWinObj.view = zero_sim.output_time ∧ header_block_num ws = 3) ∧
    zero_sim.output_time = [{ bgn_step := 0, end_step := 2, inc_step := 1 }] ∧
    zero_sim.tEvlt_step = 0 ∧ zero_sim.gTotal_step = 2 ∧
    ∀ fuel, 3 ≤ fuel → write_loop toy_ops fuel zero_sim 0 = some 2 := by
  refine ⟨⟨_, zero_window_init, rfl, by decide⟩, rfl, rfl, rfl, ?_⟩
  intro fuel h
  obtain ⟨k, rfl⟩ : ∃ k, fuel = k + 3 := ⟨fuel - 3, by omega⟩
  rfl

/-! ## The connection list of a spike source: `SpikeSrc::init` -/

theorem idle_conn_dummy : idle_conn.is_dummy = true := by
  norm_num [SynpConnObj.is_dummy, idle_conn, SynpConnObj.ctor_default, SYNP_EPS]

theorem lab_conn_dummy : lab_conn.is_dummy = false := by
  norm_num [SynpConnObj.is_dummy, lab_conn, SynpConnObj.ctor_value, SynpConnObj.set_eqM_const,
    SynpConnObj.set_psp_decay, SynpConnObj.set, SYNP_EPS]

/-- C37: a dummy connection can remain. After an erasure the loop of `SpikeSrc::init`
sets the iterator to `begin()` and the loop header then increments it, so the new first
entry is never tested: from the list of two connections without synapses followed by
the connection `lab_conn` (3 synapses), `init()` erases only the first and leaves a
dummy in front; from a list holding a single dummy, the iterator is moved beyond
`end()`. -/
theorem spikesrc_init_leaves_dummy :
    idle_conn.is_dummy = true ∧ lab_conn.is_dummy = false ∧
    (∀ fuel, 3 ≤ fuel →
      spikesrc_init fuel [idle_conn, idle_conn, lab_conn] = some [idle_conn, lab_conn]) ∧
    ∀ fuel, spikesrc_init fuel [idle_conn] = none := by
  refine ⟨idle_conn_dummy, lab_conn_dummy, ?_, ?_⟩
  · intro fuel h
    obtain ⟨k, rfl⟩ : ∃ k, fuel = k + 3 := ⟨fuel - 3, by omega⟩
    simp [spikesrc_init, spikesrc_loop, idle_conn_dummy, lab_conn_dummy]
  · intro fuel
    cases fuel with
    | zero => rfl
    | succ k =>
      cases k with
      | zero => simp [spikesrc_init, spikesrc_loop, idle_conn_dummy]
      | succ j => simp [spikesrc_init, spikesrc_loop, idle_conn_dummy]

/-! ## The sorting pass of `LCM::init` -/

section ConnectionOrder

variable {α : Type}

theorem conn_le_trans {a b c : SynpConnObj α} (h1 : conn_le a b) (h2 : conn_le b c) :
    conn_le a c := by
  unfold conn_le at *
  omega

theorem conn_le_of_not {a b : SynpConnObj α} (h : ¬ conn_le a b) : conn_le b a := by
  unfold conn_le at *
  omega

theorem cons_set_perm {β : Type} (a b : β) :
    ∀ (xs : List β) (j : Nat), xs[j]? = some b → (b :: xs.set j a).Perm (a :: xs)
  | [], j, h => by simp at h
  | y :: ys, 0, h => by
    have hy : y = b := by simpa using h
    subst hy
    exact List.Perm.swap _ _ _
  | y :: ys, j + 1, h => by
    have h' : ys[j]? = some b := by simpa using h
    have ih := cons_set_perm a b ys j h'
    show (b :: y :: ys.set j a).Perm (a :: y :: ys)
    exact (List.Perm.swap y b _).trans (((ih.cons y)).trans (List.Perm.swap a y _))

theorem set_set_perm {β : Type} (a b : β) :
    ∀ (l : List β) (i j : Nat), l[i]? = some a → l[j]? = some b →
      ((l.set i b).set j a).Perm l
  | [], i, j, h, _ => by simp at h
  | x :: xs, 0, 0, h1, h2 => by
    have e1 : x = a := by simpa using h1
    subst e1
    exact List.Perm.refl _
  | x :: xs, 0, j + 1, h1, h2 => by
    have e1 : x = a := by simpa using h1
    have h' : xs[j]? = some b := by simpa using h2
    subst e1
    exact cons_set_perm _ _ xs j h'
  | x :: xs, i + 1, 0, h1, h2 => by
    have e1 : x = b := by simpa using h2
    have h' : xs[i]? = some a := by simpa using h1
    subst e1
    exact cons_set_perm _ _ xs i h'
  | x :: xs, i + 1, j + 1, h1, h2 => by
    have h1' : xs[i]? = some a := by simpa using h1
    have h2' : xs[j]? = some b := by simpa using h2
    exact (set_set_perm a b xs i j h1' h2').cons x

end ConnectionOrder

section ConnectionList

variable {α : Type}

theorem sort_cmp_cases (l : List (SynpConnObj α)) (i j : Nat) :
    (sort_cmp l i j = l ∧ ∀ a b, l[i]? = some a → l[j]? = some b → conn_le a b) ∨
    ∃ a b, l[i]? = some a ∧ l[j]? = some b ∧ ¬ conn_le a b ∧
      sort_cmp l i j = (l.set i b).set j a := by
  unfold sort_cmp
  cases hi : l[i]? with
  | none => exact Or.inl ⟨rfl, fun a b h => by simp at h⟩
  | some a =>
    cases hj : l[j]? with
    | none => exact Or.inl ⟨rfl, fun a b _ h => by simp at h⟩
    | some b =>
      simp only
      by_cases c1 : a.sy_post < b.sy_post
      · rw [if_pos c1]
        refine Or.inl ⟨rfl, fun a' b' ha hb => ?_⟩
        cases Option.some.inj ha
        cases Option.some.inj hb
        exact Or.inl c1
      · rw [if_neg c1]
        by_cases c2 : a.sy_post > b.sy_post
        · rw [if_pos c2]
          refine Or.inr ⟨a, b, rfl, rfl, ?_, rfl⟩
          unfold conn_le
          omega
        · rw [if_neg c2]
          by_cases c3 : a.sy_layer < b.sy_layer
          · rw [if_pos c3]
            refine Or.inl ⟨rfl, fun a' b' ha hb => ?_⟩
            cases Option.some.inj ha
            cases Option.some.inj hb
            exact Or.inr ⟨by omega, by omega⟩
          · rw [if_neg c3]
            by_cases c4 : a.sy_layer > b.sy_layer
            · rw [if_pos c4]
              refine Or.inr ⟨a, b, rfl, rfl, ?_, rfl⟩
              unfold conn_le
              omega
            · rw [if_neg c4]
              refine Or.inl ⟨rfl, fun a' b' ha hb => ?_⟩
              cases Option.some.inj ha
              cases Option.some.inj hb
              exact Or.inr ⟨by omega, by omega⟩

theorem sort_cmp_perm (l : List (SynpConnObj α)) (i j : Nat) : (sort_cmp l i j).Perm l := by
  rcases sort_cmp_cases l i j with ⟨h, _⟩ | ⟨a, b, ha, hb, _, h⟩
  · rw [h]
  · rw [h]
    exact set_set_perm a b l i j ha hb

theorem sort_cmp_inv (l : List (SynpConnObj α)) (i m : Nat) (him : i < m)
    (h : SortInv l i m) : SortInv (sort_cmp l i m) i (m + 1) := by
  rcases sort_cmp_cases l i m with ⟨e, hle⟩ | ⟨a0, b0, ha0, hb0, hn, e⟩
  · rw [e]
    intro p q a b hpq hp hq hc
    rcases hc with hc | ⟨hc1, hc2⟩
    · exact h p q a b hpq hp hq (Or.inl hc)
    · by_cases hqm : q = m
      · subst hqm
        subst hc1
        exact hle a b hp hq
      · exact h p q a b hpq hp hq (Or.inr ⟨hc1, by omega⟩)
  · rw [e]
    have hil : i < l.length := by
      by_contra hc
      rw [List.getElem?_eq_none (by omega)] at ha0
      exact Option.noConfusion ha0
    have hml : m < l.length := by
      by_contra hc
      rw [List.getElem?_eq_none (by omega)] at hb0
      exact Option.noConfusion hb0
    have hget : ∀ k, ((l.set i b0).set m a0)[k]? =
        if k = m then some a0 else if k = i then some b0 else l[k]? := by
      intro k
      by_cases hk : k = m
      · subst hk
        rw [if_pos rfl, List.getElem?_set_self (by simpa using hml)]
      · rw [if_neg hk, List.getElem?_set_ne (fun h => hk h.symm)]
        by_cases hk2 : k = i
        · subst hk2
          rw [if_pos rfl, List.getElem?_set_self hil]
        · rw [if_neg hk2, List.getElem?_set_ne (fun h => hk2 h.symm)]
    have hba : conn_le b0 a0 := conn_le_of_not hn
    intro p q a b hpq hp hq hc
    rw [hget] at hp hq
    rcases hc with hc | ⟨hc1, hc2⟩
    · rw [if_neg (by omega), if_neg (by omega)] at hp
      by_cases hqm : q = m
      · rw [if_pos hqm] at hq
        cases Option.some.inj hq
        exact h p i a a0 (by omega) hp ha0 (Or.inl hc)
      · rw [if_neg hqm] at hq
        by_cases hqi : q = i
        · rw [if_pos hqi] at hq
          cases Option.some.inj hq
          exact h p m a b0 (by omega) hp hb0 (Or.inl hc)
        · rw [if_neg hqi] at hq
          exact h p q a b hpq hp hq (Or.inl hc)
    · subst hc1
      rw [if_neg (by omega), if_pos rfl] at hp
      cases Option.some.inj hp
      by_cases hqm : q = m
      · rw [if_pos hqm] at hq
        cases Option.some.inj hq
        exact hba
      · rw [if_neg hqm, if_neg (by omega)] at hq
        exact conn_le_trans hba (h p q a0 b hpq ha0 hq (Or.inr ⟨rfl, by omega⟩))

theorem sort_cmp_length (l : List (SynpConnObj α)) (i j : Nat) :
    (sort_cmp l i j).length = l.length :=
  (sort_cmp_perm l i j).length_eq

theorem sort_inner_loop (i : Nat) :
    ∀ (cnt : Nat) (l : List (SynpConnObj α)), SortInv l i (i + 1) →
      SortInv ((List.range cnt).foldl (fun l k => sort_cmp l i (i + 1 + k)) l) i (i + 1 + cnt) ∧
      ((List.range cnt).foldl (fun l k => sort_cmp l i (i + 1 + k)) l).Perm l
  | 0, l, h => ⟨h, List.Perm.refl _⟩
  | cnt + 1, l, h => by
    obtain ⟨ih1, ih2⟩ := sort_inner_loop i cnt l h
    rw [List.range_succ, List.foldl_append]
    refine ⟨sort_cmp_inv _ i (i + 1 + cnt) (by omega) ih1, ?_⟩
    exact (sort_cmp_perm _ _ _).trans ih2

theorem sort_inner_spec (l : List (SynpConnObj α)) (i : Nat) (h : SortInv l i 0) :
    SortInv (sort_inner l i) (i + 1) 0 ∧ (sort_inner l i).Perm l := by
  have h1 : SortInv l i (i + 1) := by
    intro p q a b hpq hp hq hc
    rcases hc with hc | ⟨hc1, hc2⟩
    · exact h p q a b hpq hp hq (Or.inl hc)
    · omega
  obtain ⟨i1, i2⟩ := sort_inner_loop i (l.length - (i + 1)) l h1
  refine ⟨?_, i2⟩
  intro p q a b hpq hp hq hc
  have hq' : q < (sort_inner l i).length := by
    by_contra hcon
    rw [List.getElem?_eq_none (by omega)] at hq
    exact Option.noConfusion hq
  have hlen : (sort_inner l i).length = l.length := i2.length_eq
  rcases hc with hc | ⟨_, hc2⟩
  · by_cases hpi : p < i
    · exact i1 p q a b hpq hp hq (Or.inl hpi)
    · exact i1 p q a b hpq hp hq (Or.inr ⟨by omega, by omega⟩)
  · omega

theorem sort_outer_loop :
    ∀ (cnt : Nat) (l : List (SynpConnObj α)),
      SortInv ((List.range cnt).foldl sort_inner l) cnt 0 ∧
      ((List.range cnt).foldl sort_inner l).Perm l
  | 0, l => ⟨fun p q a b _ _ _ hc => by omega, List.Perm.refl _⟩
  | cnt + 1, l => by
    obtain ⟨ih1, ih2⟩ := sort_outer_loop cnt l
    rw [List.range_succ, List.foldl_append]
    obtain ⟨j1, j2⟩ := sort_inner_spec _ cnt ih1
    exact ⟨j1, j2.trans ih2⟩

theorem sort_conn_spec (synp_conn : List (SynpConnObj α)) :
    (sort_conn synp_conn).Perm synp_conn ∧
    (sort_conn synp_conn).Pairwise
      (fun a b => a.sy_post < b.sy_post ∨ (a.sy_post = b.sy_post ∧ a.sy_layer ≤ b.sy_layer)) := by
  obtain ⟨h1, h2⟩ := sort_outer_loop synp_conn.length synp_conn
  refine ⟨h2, ?_⟩
  rw [List.pairwise_iff_getElem]
  intro p q hp hq hpq
  exact h1 p q _ _ hpq (List.getElem?_eq_getElem hp) (List.getElem?_eq_getElem hq)
    (Or.inl (by rw [← h2.length_eq]; exact hp))

/-- C38. After the sorting pass of `LCM::init` the groups are as many as before, and the
connection list of every group is a permutation of the list it had before the pass in
which every entry precedes every later entry in the lexicographic order of
(postsynaptic index, layer index). -/
theorem sort_pass_sorted_perm (gNeur : List (List (SynpConnObj α))) :
    List.Forall₂
      (fun before after =>
        after.Perm before ∧
        after.Pairwise
          (fun a b =>
            a.sy_post < b.sy_post ∨ (a.sy_post = b.sy_post ∧ a.sy_layer ≤ b.sy_layer)))
      gNeur (sort_pass gNeur) := by
  unfold sort_pass
  induction gNeur with
  | nil => exact List.Forall₂.nil
  | cons l ls ih =>
    refine List.Forall₂.cons ?_ ih
    beta_reduce
    by_cases h : l.length = 0
    · rw [if_pos h]
      have hl : l = [] := List.length_eq_zero.mp h
      rw [hl]
      exact ⟨List.Perm.refl _, List.Pairwise.nil⟩
    · rw [if_neg h]
      exact sort_conn_spec l

end ConnectionList

/-! ## Delay line: the size and the two views under every sequence of calls -/

namespace DynamicArray

variable {α : Type}

theorem add2rear_fields [Add α] [Mul α] (a : DynamicArray α) (p_val : Nat → α) (num eps : Nat)
    (mag : α) :
    (a.add2rear p_val num eps mag).f_size = a.f_size ∧
    (a.add2rear p_val num eps mag).f_last = a.f_last ∧
    (a.add2rear p_val num eps mag).f_rear = a.f_rear ∧
    (a.add2rear p_val num eps mag).f_front = a.f_front ∧
    (a.add2rear p_val num eps mag).p_end = a.p_end ∧
    (a.add2rear p_val num eps mag).p_rear = a.p_rear ∧
    (a.add2rear p_val num eps mag).p_front = a.p_front := by
  unfold add2rear
  by_cases h : num = 0
  · rw [if_pos h]
    exact ⟨rfl, rfl, rfl, rfl, rfl, rfl, rfl⟩
  · rw [if_neg h]
    simp only
    split <;> exact ⟨rfl, rfl, rfl, rfl, rfl, rfl, rfl⟩

theorem add2rear_valid [Add α] [Mul α] {a : DynamicArray α} (hv : a.Valid) (p_val : Nat → α)
    (num eps : Nat) (mag : α) : (a.add2rear p_val num eps mag).Valid := by
  obtain ⟨e1, e2, e3, e4, e5, e6, e7⟩ := add2rear_fields a p_val num eps mag
  refine ⟨?_, ?_, ?_, ?_, ?_, ?_, ?_⟩
  · rw [e1]; exact hv.pow
  · rw [e1, e2]; exact hv.last
  · rw [e1, e3]; exact hv.rear_lt
  · rw [e1, e4]; exact hv.front_lt
  · rw [e1, e5]; exact hv.end_eq
  · rw [e6, e3]; exact hv.rear_eq
  · rw [e7, e4]; exact hv.front_eq

theorem add2rear_size [Add α] [Mul α] (a : DynamicArray α) (p_val : Nat → α) (num eps : Nat)
    (mag : α) : (a.add2rear p_val num eps mag).size = a.size := by
  obtain ⟨e1, e2, e3, e4, _, _, _⟩ := add2rear_fields a p_val num eps mag
  unfold size
  rw [e1, e2, e3, e4]

theorem call_valid_size [Add α] [Mul α] {a : DynamicArray α} (hv : a.Valid) (c : Call α) :
    (a.call c).Valid ∧ (a.call c).size = a.size := by
  cases c with
  | step_forward => exact ⟨step_forward_valid hv, step_forward_size hv⟩
  | step_backward => exact ⟨step_backward_valid hv, step_backward_size hv⟩
  | set_rear val eps => exact ⟨set_rear_valid hv val eps, rfl⟩
  | set_front val eps => exact ⟨set_front_valid hv val eps, rfl⟩
  | add2rear p_val num eps mag =>
    exact ⟨add2rear_valid hv p_val num eps mag, add2rear_size a p_val num eps mag⟩

theorem calls_valid_size [Add α] [Mul α] :
    ∀ (cs : List (Call α)) {a : DynamicArray α}, a.Valid →
      (a.calls cs).Valid ∧ (a.calls cs).size = a.size
  | [], _, hv => ⟨hv, rfl⟩
  | c :: cs, a, hv => by
    obtain ⟨h1, h2⟩ := call_valid_size hv c
    obtain ⟨h3, h4⟩ := calls_valid_size cs h1
    exact ⟨h3, h4.trans h2⟩

theorem front_rear_mirror {a : DynamicArray α} (hv : a.Valid) (k : Nat) (hk : k < a.size) :
    a.get_front k = a.get_rear (a.size - 1 - k) := by
  have hr := hv.rear_lt
  have hf := hv.front_lt
  rw [get_front_eq hv, get_rear_eq hv]
  rw [size_eq hv] at hk ⊢
  have c1 := mod_cases (a.f_front + a.f_size - a.f_rear) a.f_size (by omega)
  generalize (a.f_front + a.f_size - a.f_rear) % a.f_size = s at c1 hk ⊢
  congr 1
  have c2 := mod_cases (a.f_front + a.f_size - k) a.f_size (by omega)
  have c3 := mod_cases (a.f_rear + (s + 1 - 1 - k)) a.f_size (by omega)
  generalize (a.f_front + a.f_size - k) % a.f_size = x at c2 ⊢
  generalize (a.f_rear + (s + 1 - 1 - k)) % a.f_size = y at c3 ⊢
  omega

theorem resize_valid_size (a : DynamicArray α) (h0 : a.Valid ∨ a.f_size = 0) (n : Nat)
    (h1 : 1 ≤ n) (h2 : n ≤ 2 ^ 30) : (a.resize n).Valid ∧ (a.resize n).size = n := by
  refine ⟨(resize_spec a h0 n h1 h2).1, ?_⟩
  by_cases hle : n ≤ a.f_size
  · have hv : a.Valid := by
      rcases h0 with hv | hz
      · exact hv
      · omega
    exact (resize_shrink a hv n h1 hle).2.1
  · exact (resize_grow a n h1 h2 (by omega)).2.1

/-- C39. Let a delay line be sized by `resize(n)` (called on a valid or an empty line)
or constructed by `DynamicArray(n, d)`, with `1 ≤ n ≤ 2^30`. After every sequence of
calls of `step_forward`, `step_backward`, `set_rear`, `set_front` and `add2rear`,
`size()` is `n` and `get_front(k) = get_rear(n - 1 - k)` for every `k < n`. -/
theorem size_and_views_invariant [Add α] [Mul α] (a : DynamicArray α)
    (h0 : a.Valid ∨ a.f_size = 0) (mem : Nat → α) (d : α) (n : Nat) (h1 : 1 ≤ n)
    (h2 : n ≤ 2 ^ 30) (cs : List (Call α)) :
    (((a.resize n).calls cs).size = n ∧
      ∀ k, k < n → ((a.resize n).calls cs).get_front k =
        ((a.resize n).calls cs).get_rear (n - 1 - k)) ∧
    (((mk_array mem n d).calls cs).size = n ∧
      ∀ k, k < n → ((mk_array mem n d).calls cs).get_front k =
        ((mk_array mem n d).calls cs).get_rear (n - 1 - k)) := by
  have key : ∀ b : DynamicArray α, b.Valid → b.size = n →
      ((b.calls cs).size = n ∧
        ∀ k, k < n → (b.calls cs).get_front k = (b.calls cs).get_rear (n - 1 - k)) := by
    intro b hv hs
    obtain ⟨v1, v2⟩ := calls_valid_size cs hv
    have hsz : (b.calls cs).size = n := v2.trans hs
    refine ⟨hsz, fun k hk => ?_⟩
    have := front_rear_mirror v1 k (by rw [hsz]; exact hk)
    rw [hsz] at this
    exact this
  constructor
  · obtain ⟨r1, r2⟩ := resize_valid_size a h0 n h1 h2
    exact key _ r1 r2
  · have hn0 : n ≠ 0 := by omega
    have hm : mk_array mem n d =
        ({ p_bgn := mem, f_front := 0, f_last := 0, f_rear := 0, f_size := 0,
           p_rear := 0, p_end := 0, p_front := 0, f_val := d } : DynamicArray α).resize n := by
      simp [mk_array, hn0]
    rw [hm]
    have hz :
        ({ p_bgn := mem, f_front := 0, f_last := 0, f_rear := 0, f_size := 0,
           p_rear := 0, p_end := 0, p_front := 0, f_val := d } : DynamicArray α).f_size = 0 :=
      rfl
    obtain ⟨r1, r2⟩ := resize_valid_size _ (Or.inr hz) n h1 h2
    exact key _ r1 r2

/-- On the delay line `wrapped_line` resized to 3 cells, and on `DynamicArray(5, 7)`:
after a shift in each direction, two writes and a kernel added at the rear, the size
is unchanged and the two views mirror each other. -/
theorem size_and_views_invariant_witness :
    ((((wrapped_line.resize 3).calls
        [Call.step_forward, Call.set_rear 9 0, Call.step_backward, Call.step_backward,
          Call.set_front 4 1, Call.add2rear (fun i => (i : Int) + 5) 2 1 2]).size = 3 ∧
      ∀ k, k < 3 →
        ((wrapped_line.resize 3).calls
          [Call.step_forward, Call.set_rear 9 0, Call.step_backward, Call.step_backward,
            Call.set_front 4 1, Call.add2rear (fun i => (i : Int) + 5) 2 1 2]).get_front k =
        ((wrapped_line.resize 3).calls
          [Call.step_forward, Call.set_rear 9 0, Call.step_backward, Call.step_backward,
            Call.set_front 4 1, Call.add2rear (fun i => (i : Int) + 5) 2 1 2]).get_rear
          (3 - 1 - k))) :=
  (size_and_views_invariant wrapped_line (Or.inl wrapped_line_valid) (fun _ => 0) 7 3
    (by decide) (by decide)
    [Call.step_forward, Call.set_rear 9 0, Call.step_backward, Call.step_backward,
      Call.set_front 4 1, Call.add2rear (fun i => (i : Int) + 5) 2 1 2]).1

end DynamicArray

/-! ## The uniform generator: no component becomes degenerate -/

theorem taus_bit (s a b q d k : Nat) :
    (TAUSWORTHE s a b ((2 ^ (32 - q) - 1) <<< q) d).testBit k =
      xor (decide (k < 32) && (decide (d ≤ k) && (decide (q ≤ k - d) &&
          (decide (k - d - q < 32 - q) && s.testBit (k - d)))))
        (xor (decide (k + b < 32) && (decide (a ≤ k + b) && s.testBit (k + b - a)))
          (s.testBit (k + b))) := by
  have hm : (4294967295 : Nat) = 2 ^ 32 - 1 := by norm_num
  unfold TAUSWORTHE
  rw [hm]
  simp only [Nat.testBit_xor, Nat.testBit_and, Nat.testBit_shiftLeft, Nat.testBit_shiftRight,
    Nat.testBit_two_pow_sub_one, ge_iff_le]
  have e : b + k = k + b := Nat.add_comm b k
  rw [e]
  cases s.testBit (k - d) <;> cases s.testBit (k + b - a) <;> cases s.testBit (k + b) <;>
    cases decide (k < 32) <;> cases decide (d ≤ k) <;> cases decide (q ≤ k - d) <;>
    cases decide (k - d - q < 32 - q) <;> cases decide (k + b < 32) <;>
    cases decide (a ≤ k + b) <;> rfl

/-- One component of the generator: with the mask that clears the `q` low bits, the
shifts `d` and `b = 32 - q - d`, and `1 ≤ a ≤ 32 - q - d`, a word with a bit set at or
above position `q` is updated to a word with such a bit. -/
theorem taus_live (s a b q d : Nat) (hs : s < 2 ^ 32) (hb : d + b + q = 32) (ha : 1 ≤ a)
    (haq : q + a + d ≤ 32) (hqs : 2 ^ q ≤ s) :
    2 ^ q ≤ TAUSWORTHE s a b ((2 ^ (32 - q) - 1) <<< q) d := by
  by_contra hcon
  have hlt : TAUSWORTHE s a b ((2 ^ (32 - q) - 1) <<< q) d < 2 ^ q := not_le.mp hcon
  have ht : ∀ k, q ≤ k → (TAUSWORTHE s a b ((2 ^ (32 - q) - 1) <<< q) d).testBit k = false :=
    fun k hk => Nat.testBit_lt_two_pow
      (Nat.lt_of_lt_of_le hlt (Nat.pow_le_pow_right (by norm_num) hk))
  have hhigh : ∀ j, 32 ≤ j → s.testBit j = false := fun j hj =>
    Nat.testBit_lt_two_pow (Nat.lt_of_lt_of_le hs (Nat.pow_le_pow_right (by norm_num) hj))
  have hbits : ∀ j, q ≤ j → s.testBit j = false := by
    intro j
    induction j using Nat.strong_induction_on with
    | _ j ih =>
      intro hj
      by_cases h32 : 32 ≤ j
      · exact hhigh j h32
      · by_cases hd : j + d < 32
        · have h := ht (j + d) (by omega)
          rw [taus_bit] at h
          have f1 : decide (j + d < 32) = true := decide_eq_true hd
          have f2 : decide (d ≤ j + d) = true := decide_eq_true (by omega)
          have f3 : decide (q ≤ j + d - d) = true := decide_eq_true (by omega)
          have f4 : decide (j + d - d - q < 32 - q) = true := decide_eq_true (by omega)
          have f5 : decide (j + d + b < 32) = false := decide_eq_false (by omega)
          have f6 : s.testBit (j + d + b) = false := hhigh _ (by omega)
          have f7 : j + d - d = j := by omega
          rw [f1, f2, f3, f4, f5, f6, f7] at h
          simpa using h
        · have h := ht (j - b) (by omega)
          rw [taus_bit] at h
          have g0 : j - b + b = j := by omega
          have f1 : (decide (d ≤ j - b) && (decide (q ≤ j - b - d) &&
              (decide (j - b - d - q < 32 - q) && s.testBit (j - b - d)))) = false := by
            by_cases c : d ≤ j - b
            · have : decide (q ≤ j - b - d) = false := decide_eq_false (by omega)
              rw [this]
              simp
            · have : decide (d ≤ j - b) = false := decide_eq_false c
              rw [this]
              simp
          have f2 : s.testBit (j - a) = false := ih (j - a) (by omega) (by omega)
          rw [f1, g0, f2] at h
          simpa using h
  exact absurd (Nat.lt_pow_two_of_testBit s hbits) (not_lt.mpr hqs)

theorem rndm_step_live (st : RandStream) (hv : st.Valid) (hl : st.Live) :
    (rndm_step st).Live := by
  obtain ⟨_, v1, v2, v3⟩ := hv
  obtain ⟨l1, l2, l3⟩ := hl
  have c1 : (4294967294 : Nat) = (2 ^ (32 - 1) - 1) <<< 1 := by decide
  have c2 : (4294967288 : Nat) = (2 ^ (32 - 3) - 1) <<< 3 := by decide
  have c3 : (4294967280 : Nat) = (2 ^ (32 - 4) - 1) <<< 4 := by decide
  refine ⟨?_, ?_, ?_⟩
  · show 2 ≤ TAUSWORTHE st.fSeed1 13 19 4294967294 12
    rw [c1]
    exact taus_live st.fSeed1 13 19 1 12 v1 (by decide) (by decide) (by decide) l1
  · show 8 ≤ TAUSWORTHE st.fSeed2 2 25 4294967288 4
    rw [c2]
    exact taus_live st.fSeed2 2 25 3 4 v2 (by decide) (by decide) (by decide) l2
  · show 16 ≤ TAUSWORTHE st.fSeed3 3 11 4294967280 17
    rw [c3]
    exact taus_live st.fSeed3 3 11 4 17 v3 (by decide) (by decide) (by decide) l3

theorem rndm_step_iterate (st : RandStream) (hv : st.Valid) (hl : st.Live) :
    ∀ k, (rndm_step^[k] st).Valid ∧ (rndm_step^[k] st).Live
  | 0 => ⟨hv, hl⟩
  | k + 1 => by
    obtain ⟨i1, i2⟩ := rndm_step_iterate st hv hl k
    rw [Function.iterate_succ_apply']
    exact ⟨rndm_step_valid _ i1, rndm_step_live _ i1 i2⟩

theorem rndm_live :
    ∀ (fuel : Nat) (st : RandStream) (r : ℚ × RandStream), st.Valid → st.Live →
      rndm fuel st = some r → r.2.Valid ∧ r.2.Live
  | 0, _, _, _, _, h => by simp [rndm] at h
  | fuel + 1, st, r, hv, hl, h => by
    rw [rndm] at h
    by_cases hz : rndm_iy (rndm_step st) ≠ 0
    · rw [if_pos hz] at h
      have e : r.2 = rndm_step st := (congrArg Prod.snd (Option.some.inj h)).symm
      rw [e]
      exact ⟨rndm_step_valid _ hv, rndm_step_live _ hv hl⟩
    · rw [if_neg hz] at h
      exact rndm_live fuel (rndm_step st) r (rndm_step_valid _ hv) (rndm_step_live _ hv hl) h

theorem warm_up_live (fuel : Nat) :
    ∀ (n : Nat) (st st' : RandStream), st.Valid → st.Live → warm_up fuel n st = some st' →
      st'.Valid ∧ st'.Live
  | 0, st, st', hv, hl, h => by
    have e : st' = st := (Option.some.inj h).symm
    rw [e]
    exact ⟨hv, hl⟩
  | n + 1, st, st', hv, hl, h => by
    rw [warm_up] at h
    cases hr : @rndm ℚ _ fuel st with
    | none =>
      rw [hr] at h
      exact Option.noConfusion h
    | some r =>
      rw [hr] at h
      obtain ⟨i1, i2⟩ := rndm_live fuel st r hv hl hr
      exact warm_up_live fuel n r.2 st' i1 i2 h

theorem seed_words_live (time seed : Nat) (h : seed < 2 ^ 32) :
    (seed_words time seed).Valid ∧ (seed_words time seed).Live := by
  have hm : ∀ x : Nat, x &&& 2147483647 < 2 ^ 31 := fun x =>
    Nat.and_lt_two_pow x (by norm_num)
  have hb : ∀ x : Nat, x < 2 ^ 31 → ∀ c, c ≤ 16 → (if x < c then x + c else x) < 2 ^ 32 := by
    intro x hx c hc
    split <;> omega
  have hg : ∀ x c : Nat, c ≤ (if x < c then x + c else x) := by
    intro x c
    split <;> omega
  refine ⟨⟨?_, hb _ (hm _) 2 (by decide), hb _ (hm _) 8 (by decide),
    hb _ (hm _) 16 (by decide)⟩, hg _ 2, hg _ 8, hg _ 16⟩
  show (if seed ≤ 0 then time &&& 2147483647 else seed) ||| 1 < 2 ^ 32
  refine Nat.or_lt_two_pow ?_ (by norm_num)
  split
  · exact Nat.lt_of_lt_of_le (hm time) (by norm_num)
  · exact h

/-- C40. For every 32-bit state with `s1 ≥ 2`, `s2 ≥ 8` and `s3 ≥ 16`, the three updates
at the head of `rndm` give a 32-bit state with `s1 ≥ 2`, `s2 ≥ 8` and `s3 ≥ 16`. For
every 32-bit seed, `set_seed` computes such a state before the warm-up draws, every
number of updates from it gives such a state, and so is the state with which
`set_seed` returns. -/
theorem generator_stays_live (time seed : Nat) (h : seed < 2 ^ 32) :
    (∀ st : RandStream, st.Valid → st.Live → (rndm_step st).Valid ∧ (rndm_step st).Live) ∧
    ((seed_words time seed).Valid ∧ (seed_words time seed).Live) ∧
    (∀ k, (rndm_step^[k] (seed_words time seed)).Valid ∧
      (rndm_step^[k] (seed_words time seed)).Live) ∧
    ∀ fuel st, RandStream.set_seed time fuel seed = some st → st.Valid ∧ st.Live := by
  obtain ⟨s1, s2⟩ := seed_words_live time seed h
  refine ⟨fun st hv hl => ⟨rndm_step_valid st hv, rndm_step_live st hv hl⟩, ⟨s1, s2⟩,
    rndm_step_iterate _ s1 s2, ?_⟩
  intro fuel st hst
  exact warm_up_live fuel 6 _ st s1 s2 hst

/-- For the seed 1, `set_seed` returns after six draws of one update each, with a state
that is not degenerate. -/
theorem generator_stays_live_witness :
    RandStream.set_seed 0 1 1 = some (rndm_step^[6] (seed_words 0 1)) ∧
    (rndm_step^[6] (seed_words 0 1)).Valid ∧ (rndm_step^[6] (seed_words 0 1)).Live :=
  ⟨by decide, (generator_stays_live 0 1 (by decide)).2.2.2 1 _ (by decide)⟩

/-! ## The receptor tables in `LCM::init` -/

section Kernel

variable {α : Type} [LinearOrderedField α]

theorem init_pos (r : ReceptorObj α)
    (h : (∀ ii, ii < RCPT_PARA_NUM → r.rcpt_paramFlg ii = true) ∧ r.rcpt_type ≠ TNeur.cNaN ∧
      ¬ (r.type = TNeur.cEXCIT ∧ r.gain ≤ 0) ∧ ¬ (r.type = TNeur.cINHIB ∧ r.gain ≥ 0)) :
    r.init = { r with Jconst := -1 * r.rcpt_paramVal RCPT_IDX_LAMBDA, rcpt_state := true } := by
  unfold ReceptorObj.init
  rw [if_neg (not_not.mpr h.1), if_neg h.2.1, if_neg h.2.2.1, if_neg h.2.2.2]

theorem init_neg (r : ReceptorObj α)
    (h : ¬ ((∀ ii, ii < RCPT_PARA_NUM → r.rcpt_paramFlg ii = true) ∧
      r.rcpt_type ≠ TNeur.cNaN ∧
      ¬ (r.type = TNeur.cEXCIT ∧ r.gain ≤ 0) ∧ ¬ (r.type = TNeur.cINHIB ∧ r.gain ≥ 0))) :
    r.init = r := by
  unfold ReceptorObj.init
  by_cases c1 : ¬ (∀ ii, ii < RCPT_PARA_NUM → r.rcpt_paramFlg ii = true)
  · rw [if_pos c1]
  · rw [if_neg c1]
    by_cases c2 : r.rcpt_type = TNeur.cNaN
    · rw [if_pos c2]
    · rw [if_neg c2]
      by_cases c3 : r.type = TNeur.cEXCIT ∧ r.gain ≤ 0
      · rw [if_pos c3]
      · rw [if_neg c3]
        by_cases c4 : r.type = TNeur.cINHIB ∧ r.gain ≥ 0
        · rw [if_pos c4]
        · exact absurd ⟨not_not.mp c1, c2, c3, c4⟩ h

theorem init_init (r : ReceptorObj α) : r.init.init = r.init := by
  by_cases h : (∀ ii, ii < RCPT_PARA_NUM → r.rcpt_paramFlg ii = true) ∧
      r.rcpt_type ≠ TNeur.cNaN ∧
      ¬ (r.type = TNeur.cEXCIT ∧ r.gain ≤ 0) ∧ ¬ (r.type = TNeur.cINHIB ∧ r.gain ≥ 0)
  · rw [init_pos r h]
    exact init_pos _ h
  · rw [init_neg r h]
    exact init_neg r h

theorem init_with_psp (r : ReceptorObj α) (K : List α) :
    ({ r with rcpt_psp := K } : ReceptorObj α).init = { r.init with rcpt_psp := K } := by
  by_cases h : (∀ ii, ii < RCPT_PARA_NUM → r.rcpt_paramFlg ii = true) ∧
      r.rcpt_type ≠ TNeur.cNaN ∧
      ¬ (r.type = TNeur.cEXCIT ∧ r.gain ≤ 0) ∧ ¬ (r.type = TNeur.cINHIB ∧ r.gain ≥ 0)
  · rw [init_pos r h]
    exact init_pos _ h
  · rw [init_neg r h]
    exact init_neg _ h

theorem precalc_stop_with_psp (env : RcptEnv α) (r : ReceptorObj α) (K : List α)
    (step_size : α) :
    ∀ (fuel : Nat) (N : Int),
      precalc_stop env ({ r with rcpt_psp := K } : ReceptorObj α) step_size fuel N =
        precalc_stop env r step_size fuel N
  | 0, _ => rfl
  | fuel + 1, N => by
    rw [precalc_stop, precalc_stop, precalc_stop_with_psp env r K step_size fuel (N + 1)]
    rfl

theorem precalc_with_psp (env : RcptEnv α) (r : ReceptorObj α) (K : List α) (step_size : α)
    (fuel : Nat) :
    ({ r with rcpt_psp := K } : ReceptorObj α).precalc env step_size fuel =
      r.precalc env step_size fuel := by
  unfold ReceptorObj.precalc
  have e := precalc_stop_with_psp env r K step_size fuel
    (env.to_int ((r.rcpt_paramVal RCPT_IDX_DELAY + 20) / step_size))
  show (match precalc_stop env ({ r with rcpt_psp := K } : ReceptorObj α) step_size fuel
      (env.to_int ((r.rcpt_paramVal RCPT_IDX_DELAY + 20) / step_size)) with
    | none => none
    | some Nstep => _) = _
  rw [e]
  rfl

theorem precalc_shape (env : RcptEnv α) (r r1 : ReceptorObj α) (step_size : α) (fuel : Nat)
    (h : r.precalc env step_size fuel = some r1) :
    ∃ K, r1 = { r with rcpt_psp := K } := by
  unfold ReceptorObj.precalc at h
  cases hs : precalc_stop env r step_size fuel
      (env.to_int ((r.rcpt_paramVal RCPT_IDX_DELAY + 20) / step_size)) with
  | none =>
    rw [hs] at h
    exact Option.noConfusion h
  | some N =>
    rw [hs] at h
    exact ⟨_, (Option.some.inj h).symm⟩

theorem forall₂_diag {β : Type} {R S : β → β → Prop} (hRS : ∀ a b, R a b → S b b) :
    ∀ l l' : List β, List.Forall₂ R l l' → List.Forall₂ S l' l'
  | _, _, List.Forall₂.nil => List.Forall₂.nil
  | _, _, List.Forall₂.cons h t => List.Forall₂.cons (hRS _ _ h) (forall₂_diag hRS _ _ t)

/-- A receptor prepared by `init()` and `precalc()` is prepared to itself again. -/
theorem prepared_again (env : RcptEnv α) (r r1 : ReceptorObj α) (step_size : α) (fuel : Nat)
    (h : (r.init).precalc env step_size fuel = some r1) :
    (r1.init).precalc env step_size fuel = some r1 := by
  obtain ⟨K, hK⟩ := precalc_shape env _ r1 step_size fuel h
  rw [hK, init_with_psp, init_init, precalc_with_psp, h, hK]

/-- The receptor loop of `LCM::init` on a list whose receptors are prepared to the
receptors of `prepared`, all of them ready. -/
theorem rcpt_loop_prepared (env : RcptEnv α) (gStep_size : α) (fuel : Nat) :
    ∀ (todo prepared done excit inhib : List (ReceptorObj α)),
      List.Forall₂ (fun r r1 => (r.init).precalc env gStep_size fuel = some r1 ∧
        r1.is_ready = true) todo prepared →
      rcpt_loop env gStep_size fuel todo done excit inhib =
        some (true,
          { gRcpt := done ++ prepared
            gRcpt_excit := excit ++ prepared.filter fun r => decide (r.type = TNeur.cEXCIT)
            gRcpt_inhib := inhib ++ prepared.filter fun r => !decide (r.type = TNeur.cEXCIT) })
  | [], _, done, excit, inhib, h => by
    cases h
    simp [rcpt_loop]
  | it :: rest, _, done, excit, inhib, h => by
    cases h with
    | cons hp hrest =>
      rename_i it1 prepared
      obtain ⟨hp1, hp2⟩ := hp
      rw [rcpt_loop, hp1]
      simp only [hp2, not_true_eq_false, if_false]
      by_cases ht : it1.type = TNeur.cEXCIT
      · rw [if_pos ht, rcpt_loop_prepared env gStep_size fuel rest prepared _ _ _ hrest]
        simp [List.filter_cons, ht]
      · rw [if_neg ht, rcpt_loop_prepared env gStep_size fuel rest prepared _ _ _ hrest]
        simp [List.filter_cons, ht]

/-- When the receptor loop of `LCM::init` ends with `true`, every receptor of the list
has been prepared and is ready, and the prepared receptors have been appended to the
two lists. -/
theorem rcpt_loop_true (env : RcptEnv α) (gStep_size : α) (fuel : Nat) :
    ∀ (todo done excit inhib : List (ReceptorObj α)) (t : RcptTables α),
      rcpt_loop env gStep_size fuel todo done excit inhib = some (true, t) →
      ∃ prepared,
        List.Forall₂ (fun r r1 => (r.init).precalc env gStep_size fuel = some r1 ∧
          r1.is_ready = true) todo prepared ∧
        t = { gRcpt := done ++ prepared
              gRcpt_excit := excit ++ prepared.filter fun r => decide (r.type = TNeur.cEXCIT)
              gRcpt_inhib :=
                inhib ++ prepared.filter fun r => !decide (r.type = TNeur.cEXCIT) }
  | [], done, excit, inhib, t, h => by
    rw [rcpt_loop] at h
    refine ⟨[], List.Forall₂.nil, ?_⟩
    have := (congrArg Prod.snd (Option.some.inj h)).symm
    simpa using this
  | it :: rest, done, excit, inhib, t, h => by
    rw [rcpt_loop] at h
    cases hp : (it.init).precalc env gStep_size fuel with
    | none =>
      rw [hp] at h
      exact Option.noConfusion h
    | some it1 =>
      rw [hp] at h
      simp only at h
      by_cases hr : it1.is_ready = true
      · rw [if_neg (by simpa using hr)] at h
        by_cases ht : it1.type = TNeur.cEXCIT
        · rw [if_pos ht] at h
          obtain ⟨prepared, f, e⟩ := rcpt_loop_true env gStep_size fuel rest _ _ _ t h
          refine ⟨it1 :: prepared, List.Forall₂.cons ⟨hp, hr⟩ f, ?_⟩
          rw [e]
          simp [List.filter_cons, ht]
        · rw [if_neg ht] at h
          obtain ⟨prepared, f, e⟩ := rcpt_loop_true env gStep_size fuel rest _ _ _ t h
          refine ⟨it1 :: prepared, List.Forall₂.cons ⟨hp, hr⟩ f, ?_⟩
          rw [e]
          simp [List.filter_cons, ht]
      · rw [if_pos (by simpa using hr)] at h
        have hb : false = true := congrArg Prod.fst (Option.some.inj h)
        exact Bool.noConfusion hb

theorem init_rcpt_true (env : RcptEnv α) (gStep_size : α) (fuel : Nat) (t t1 : RcptTables α)
    (h : init_rcpt env gStep_size fuel t = some (true, t1)) :
    rcpt_loop env gStep_size fuel t.gRcpt [] t.gRcpt_excit t.gRcpt_inhib = some (true, t1) ∧
      t1.gRcpt_excit ≠ [] ∧ t1.gRcpt_inhib ≠ [] := by
  unfold init_rcpt at h
  cases hl : rcpt_loop env gStep_size fuel t.gRcpt [] t.gRcpt_excit t.gRcpt_inhib with
  | none =>
    rw [hl] at h
    exact Option.noConfusion h
  | some p =>
    obtain ⟨b, t'⟩ := p
    rw [hl] at h
    cases b with
    | false =>
      have hb : false = true := congrArg Prod.fst (Option.some.inj h)
      exact Bool.noConfusion hb
    | true =>
      simp only at h
      by_cases c1 : t'.gRcpt_excit.isEmpty = true
      · rw [if_pos c1] at h
        have hb : false = true := congrArg Prod.fst (Option.some.inj h)
        exact Bool.noConfusion hb
      · rw [if_neg c1] at h
        by_cases c2 : t'.gRcpt_inhib.isEmpty = true
        · rw [if_pos c2] at h
          have hb : false = true := congrArg Prod.fst (Option.some.inj h)
          exact Bool.noConfusion hb
        · rw [if_neg c2] at h
          have e : t' = t1 := congrArg Prod.snd (Option.some.inj h)
          rw [← e]
          refine ⟨rfl, ?_, ?_⟩
          · intro hn
            rw [hn] at c1
            exact c1 rfl
          · intro hn
            rw [hn] at c2
            exact c2 rfl

/-- C34: a second `init()` doubles the receptor lists. Let the model be freshly loaded
(both derived lists empty) and let the receptor section of `LCM::init` succeed with
the lists `t1`. Then neither derived list of `t1` is empty, and the receptor section
of a second `init()` succeeds as well and leaves every derived list followed by a
second copy of itself: the lists are appended to and never cleared. -/
theorem init_twice_doubles_receptors (env : RcptEnv α) (gStep_size : α) (fuel : Nat)
    (t t1 : RcptTables α) (h0 : t.gRcpt_excit = [] ∧ t.gRcpt_inhib = [])
    (h1 : init_rcpt env gStep_size fuel t = some (true, t1)) :
    t1.gRcpt_excit ≠ [] ∧ t1.gRcpt_inhib ≠ [] ∧
    init_rcpt env gStep_size fuel t1 =
      some (true,
        { gRcpt := t1.gRcpt
          gRcpt_excit := t1.gRcpt_excit ++ t1.gRcpt_excit
          gRcpt_inhib := t1.gRcpt_inhib ++ t1.gRcpt_inhib }) := by
  obtain ⟨hl, n1, n2⟩ := init_rcpt_true env gStep_size fuel t t1 h1
  obtain ⟨prepared, f, e⟩ := rcpt_loop_true env gStep_size fuel _ _ _ _ t1 hl
  rw [h0.1, h0.2] at e
  have e1 : t1.gRcpt = prepared := by rw [e]; rfl
  have e2 : t1.gRcpt_excit = prepared.filter fun r => decide (r.type = TNeur.cEXCIT) := by
    rw [e]; rfl
  have e3 : t1.gRcpt_inhib = prepared.filter fun r => !decide (r.type = TNeur.cEXCIT) := by
    rw [e]; rfl
  have f2 : List.Forall₂ (fun r r1 => (r.init).precalc env gStep_size fuel = some r1 ∧
      r1.is_ready = true) prepared prepared := by
    exact forall₂_diag (fun r r1 hr => ⟨prepared_again env r r1 gStep_size fuel hr.1, hr.2⟩)
      _ _ f
  have hsecond := rcpt_loop_prepared env gStep_size fuel prepared prepared []
    t1.gRcpt_excit t1.gRcpt_inhib f2
  refine ⟨n1, n2, ?_⟩
  unfold init_rcpt
  rw [e1, hsecond]
  simp only [List.nil_append]
  rw [← e2, ← e3]
  have c1 : ¬ (t1.gRcpt_excit ++ t1.gRcpt_excit).isEmpty = true := by
    simp [n1]
  have c2 : ¬ (t1.gRcpt_inhib ++ t1.gRcpt_inhib).isEmpty = true := by
    simp [n2]
  rw [if_neg c1, if_neg c2]

theorem init_fields (r : ReceptorObj α) :
    r.init.rcpt_paramVal = r.rcpt_paramVal ∧ r.init.rcpt_type = r.rcpt_type ∧
      r.init.rcpt_psp = r.rcpt_psp := by
  by_cases h : (∀ ii, ii < RCPT_PARA_NUM → r.rcpt_paramFlg ii = true) ∧
      r.rcpt_type ≠ TNeur.cNaN ∧
      ¬ (r.type = TNeur.cEXCIT ∧ r.gain ≤ 0) ∧ ¬ (r.type = TNeur.cINHIB ∧ r.gain ≥ 0)
  · rw [init_pos r h]
    exact ⟨rfl, rfl, rfl⟩
  · rw [init_neg r h]
    exact ⟨rfl, rfl, rfl⟩

end Kernel

theorem slow_ratio (r : ReceptorObj ℝ) (hd : r.rcpt_paramVal RCPT_IDX_DELAY = 0)
    (hr : r.rcpt_paramVal RCPT_IDX_TAU_RISE = 1) (hf : r.rcpt_paramVal RCPT_IDX_TAU_FALL = 2000)
    (hg : r.rcpt_paramVal RCPT_IDX_G0 ≠ 0) :
    r.eqn_R { exp := Real.exp, to_int := fun x => ⌊x⌋ } (((20 : Int) : ℝ) * 1) / r.gain <
      PSP_EPS ℝ := by
  unfold ReceptorObj.eqn_R ReceptorObj.gain ReceptorObj.psp_rise ReceptorObj.psp_fall PSP_EPS
  rw [hd, hr, hf, if_neg (by norm_num)]
  simp only
  have a1 : 0 < Real.exp ((0 - ((20 : Int) : ℝ) * 1) / 2000) := Real.exp_pos _
  have a2 : Real.exp ((0 - ((20 : Int) : ℝ) * 1) / 2000) ≤ 1 :=
    Real.exp_le_one_iff.mpr (by norm_num)
  have b1 : 0 < Real.exp ((0 - ((20 : Int) : ℝ) * 1) / 1) := Real.exp_pos _
  have b2 : Real.exp ((0 - ((20 : Int) : ℝ) * 1) / 1) ≤ 1 :=
    Real.exp_le_one_iff.mpr (by norm_num)
  generalize Real.exp ((0 - ((20 : Int) : ℝ) * 1) / 2000) = x at a1 a2
  generalize Real.exp ((0 - ((20 : Int) : ℝ) * 1) / 1) = y at b1 b2
  have e : r.rcpt_paramVal RCPT_IDX_G0 * (1 + 2000) * x * (1 - y) / (2000 * 2000) /
      r.rcpt_paramVal RCPT_IDX_G0 = 2001 / 4000000 * (x * (1 - y)) := by
    field_simp
    ring
  rw [e]
  nlinarith

theorem slow_prepared (r : ReceptorObj ℝ) (hd : r.rcpt_paramVal RCPT_IDX_DELAY = 0)
    (hr : r.rcpt_paramVal RCPT_IDX_TAU_RISE = 1) (hf : r.rcpt_paramVal RCPT_IDX_TAU_FALL = 2000)
    (hg : r.rcpt_paramVal RCPT_IDX_G0 ≠ 0) :
    ∃ r1, r.precalc { exp := Real.exp, to_int := fun x => ⌊x⌋ } 1 1 = some r1 ∧
      r1.rcpt_psp ≠ [] ∧ r1.rcpt_state = r.rcpt_state ∧ r1.rcpt_type = r.rcpt_type := by
  have hs : precalc_stop { exp := Real.exp, to_int := fun x => ⌊x⌋ } r 1 1
      (⌊(r.rcpt_paramVal RCPT_IDX_DELAY + 20) / 1⌋) = some 20 := by
    have e : (⌊(r.rcpt_paramVal RCPT_IDX_DELAY + 20) / 1⌋ : Int) = 20 := by
      rw [hd]
      norm_num
    rw [e, precalc_stop, if_neg (not_le.mpr (slow_ratio r hd hr hf hg))]
  refine ⟨{ r with
      rcpt_psp := (List.range ((20 : Int) + 1).toNat).map fun (istep : Nat) =>
        r.eqn_R { exp := Real.exp, to_int := fun x => ⌊x⌋ } (((istep : ℝ) + 1 / 2) * 1) * 1 },
    by unfold ReceptorObj.precalc; rw [hs], ?_, rfl, rfl⟩
  have e : ((20 : Int) + 1).toNat = 20 + 1 := rfl
  show List.map _ (List.range ((20 : Int) + 1).toNat) ≠ []
  rw [e, List.range_succ]
  simp

theorem loaded_tables_init :
    ∃ t1 : RcptTables ℝ,
      init_rcpt { exp := Real.exp, to_int := fun x => ⌊x⌋ } 1 1 (loaded_tables ℝ) =
        some (true, t1) ∧
      t1.gRcpt_excit.length = 1 ∧ t1.gRcpt_inhib.length = 1 := by
  have pe : (∀ ii, ii < RCPT_PARA_NUM → (slow_rcpt ℝ).rcpt_paramFlg ii = true) ∧
      (slow_rcpt ℝ).rcpt_type ≠ TNeur.cNaN ∧
      ¬ ((slow_rcpt ℝ).type = TNeur.cEXCIT ∧ (slow_rcpt ℝ).gain ≤ 0) ∧
      ¬ ((slow_rcpt ℝ).type = TNeur.cINHIB ∧ (slow_rcpt ℝ).gain ≥ 0) := by
    refine ⟨fun _ _ => rfl, by decide, ?_, ?_⟩
    · rintro ⟨_, h⟩
      have : (slow_rcpt ℝ).gain = 1 / 2 := rfl
      rw [this] at h
      norm_num at h
    · rintro ⟨h, _⟩
      exact absurd h (by decide)
  have pi : (∀ ii, ii < RCPT_PARA_NUM → (slow_inhib ℝ).rcpt_paramFlg ii = true) ∧
      (slow_inhib ℝ).rcpt_type ≠ TNeur.cNaN ∧
      ¬ ((slow_inhib ℝ).type = TNeur.cEXCIT ∧ (slow_inhib ℝ).gain ≤ 0) ∧
      ¬ ((slow_inhib ℝ).type = TNeur.cINHIB ∧ (slow_inhib ℝ).gain ≥ 0) := by
    refine ⟨fun _ _ => rfl, by decide, ?_, ?_⟩
    · rintro ⟨h, _⟩
      exact absurd h (by decide)
    · rintro ⟨_, h⟩
      have : (slow_inhib ℝ).gain = -1 / 2 := rfl
      rw [this] at h
      norm_num at h
  obtain ⟨re, he1, he2, he3, he4⟩ := slow_prepared (slow_rcpt ℝ).init
    (by rw [(init_fields _).1]; rfl) (by rw [(init_fields _).1]; rfl)
    (by rw [(init_fields _).1]; rfl)
    (by rw [(init_fields _).1]; show (1 / 2 : ℝ) ≠ 0; norm_num)
  obtain ⟨ri, hi1, hi2, hi3, hi4⟩ := slow_prepared (slow_inhib ℝ).init
    (by rw [(init_fields _).1]; rfl) (by rw [(init_fields _).1]; rfl)
    (by rw [(init_fields _).1]; rfl)
    (by rw [(init_fields _).1]; show (-1 / 2 : ℝ) ≠ 0; norm_num)
  have se : re.rcpt_state = true := by rw [he3, init_pos _ pe]
  have si : ri.rcpt_state = true := by rw [hi3, init_pos _ pi]
  have te : re.type = TNeur.cEXCIT := by
    show re.rcpt_type = _
    rw [he4, (init_fields _).2.1]
    rfl
  have ti : ¬ ri.type = TNeur.cEXCIT := by
    show ¬ ri.rcpt_type = _
    rw [hi4, (init_fields _).2.1]
    show ¬ TNeur.cINHIB = TNeur.cEXCIT
    decide
  have rdy : ∀ r : ReceptorObj ℝ, r.rcpt_state = true → r.rcpt_psp ≠ [] → r.is_ready = true := by
    intro r h1 h2
    unfold ReceptorObj.is_ready
    rw [h1]
    cases hp : r.rcpt_psp with
    | nil => exact absurd hp h2
    | cons _ _ => rfl
  have f : List.Forall₂ (fun r r1 =>
      (r.init).precalc { exp := Real.exp, to_int := fun x => ⌊x⌋ } 1 1 = some r1 ∧
        r1.is_ready = true) (loaded_tables ℝ).gRcpt [re, ri] :=
    List.Forall₂.cons ⟨he1, rdy re se he2⟩
      (List.Forall₂.cons ⟨hi1, rdy ri si hi2⟩ List.Forall₂.nil)
  have hloop := rcpt_loop_prepared { exp := Real.exp, to_int := fun x => ⌊x⌋ } 1 1
    (loaded_tables ℝ).gRcpt [re, ri] [] (loaded_tables ℝ).gRcpt_excit
    (loaded_tables ℝ).gRcpt_inhib f
  refine ⟨{ gRcpt := [re, ri], gRcpt_excit := [re], gRcpt_inhib := [ri] }, ?_, rfl, rfl⟩
  unfold init_rcpt
  rw [hloop]
  simp [loaded_tables, List.filter_cons, te, ti]

/-- With the real exponential, the time step 1 and the two receptors of
`loaded_tables`: the first `init()` succeeds with one receptor in each derived list,
and the second leaves two in each. -/
theorem init_twice_doubles_receptors_witness :
    ∃ t1 : RcptTables ℝ,
      init_rcpt { exp := Real.exp, to_int := fun x => ⌊x⌋ } 1 1 (loaded_tables ℝ) =
        some (true, t1) ∧
      t1.gRcpt_excit.length = 1 ∧ t1.gRcpt_inhib.length = 1 ∧
      init_rcpt { exp := Real.exp, to_int := fun x => ⌊x⌋ } 1 1 t1 =
        some (true,
          { gRcpt := t1.gRcpt
            gRcpt_excit := t1.gRcpt_excit ++ t1.gRcpt_excit
            gRcpt_inhib := t1.gRcpt_inhib ++ t1.gRcpt_inhib }) := by
  obtain ⟨t1, h1, l1, l2⟩ := loaded_tables_init
  exact ⟨t1, h1, l1, l2,
    (init_twice_doubles_receptors _ 1 1 (loaded_tables ℝ) t1 ⟨rfl, rfl⟩ h1).2.2⟩

/-! ## The number of blocks written by the front end, for windows that begin after step 0 -/

theorem countP_or_disjoint {β : Type} (p q : β → Bool) :
    ∀ l : List β, (∀ x ∈ l, ¬ (p x = true ∧ q x = true)) →
      l.countP (fun x => p x || q x) = l.countP p + l.countP q
  | [], _ => rfl
  | x :: xs, h => by
    have ih := countP_or_disjoint p q xs (fun y hy => h y (List.mem_cons_of_mem _ hy))
    have hx := h x (List.mem_cons_self _ _)
    rw [List.countP_cons, List.countP_cons, List.countP_cons, ih]
    cases hp : p x <;> cases hq : q x
    · simp
    · simp
      omega
    · simp
      omega
    · exact absurd ⟨hp, hq⟩ hx

theorem count_multiples (b e c : Nat) (hb : 1 ≤ b) (hbe : b ≤ e) (hc : 1 ≤ c) :
    ∀ T : Nat,
      (List.range T).countP
          (fun n => decide (b ≤ n + 1 ∧ n + 1 ≤ e ∧ (n + 1 - b) % c = 0)) =
        if T < b then 0 else (min T e - b) / c + 1
  | 0 => by
    rw [if_pos (by omega)]
    rfl
  | T + 1 => by
    rw [List.range_succ, List.countP_append, count_multiples b e c hb hbe hc T]
    simp only [List.countP_cons, List.countP_nil, Nat.zero_add]
    by_cases h1 : T + 1 < b
    · rw [if_pos (by omega), if_pos h1]
      have : ¬ (b ≤ T + 1 ∧ T + 1 ≤ e ∧ (T + 1 - b) % c = 0) := by omega
      simp [this]
    · rw [if_neg h1]
      by_cases h2 : T + 1 = b
      · rw [if_pos (by omega)]
        have e1 : min (T + 1) e - b = 0 := by
          rw [Nat.min_eq_left (by omega)]
          omega
        have : b ≤ T + 1 ∧ T + 1 ≤ e ∧ (T + 1 - b) % c = 0 := by
          refine ⟨by omega, by omega, ?_⟩
          have : T + 1 - b = 0 := by omega
          rw [this]
          exact Nat.zero_mod c
        rw [e1]
        simp [this]
      · rw [if_neg (by omega)]
        by_cases h3 : T + 1 ≤ e
        · rw [Nat.min_eq_left (by omega), Nat.min_eq_left h3]
          have e2 : T + 1 - b = (T - b) + 1 := by omega
          rw [e2, Nat.succ_div]
          by_cases hd : c ∣ T - b + 1
          · have hm : (T - b + 1) % c = 0 := Nat.mod_eq_zero_of_dvd hd
            have : b ≤ T + 1 ∧ T + 1 ≤ e ∧ (T - b + 1) % c = 0 := ⟨by omega, h3, hm⟩
            simp [this, hd]
          · have hm : ¬ (T - b + 1) % c = 0 := fun h => hd (Nat.dvd_of_mod_eq_zero h)
            have : ¬ (b ≤ T + 1 ∧ T + 1 ≤ e ∧ (T - b + 1) % c = 0) := fun h => hm h.2.2
            simp [this, hd]
        · have : ¬ (b ≤ T + 1 ∧ T + 1 ≤ e ∧ (T + 1 - b) % c = 0) := fun h => h3 h.2.1
          have e3 : min (T + 1) e = min T e := by
            rw [Nat.min_eq_right (by omega), Nat.min_eq_right (by omega)]
          rw [e3]
          simp [this]

/-- The steps `1 .. T` on which a window with `1 ≤ bgn ≤ end ≤ T` and `inc ≥ 1` asks for
output are `(end - bgn) / inc + 1` many. -/
theorem count_window (b e c : Int) (T : Nat) (h1 : 1 ≤ b) (h2 : b ≤ e) (h3 : e ≤ T)
    (h4 : 1 ≤ c) :
    (((List.range T).countP
        (fun n => decide (b ≤ ((n + 1 : Nat) : Int) ∧ ((n + 1 : Nat) : Int) ≤ e ∧
          (((n + 1 : Nat) : Int) - b) % c = 0)) : Nat) : Int) =
      Int.tdiv (e - b) c + 1 := by
  lift b to ℕ using (by omega)
  lift e to ℕ using (by omega)
  lift c to ℕ using (by omega)
  have hb1 : 1 ≤ b := by omega
  have hbe : b ≤ e := by omega
  have heT : e ≤ T := by omega
  have hc1 : 1 ≤ c := by omega
  have hpred : ∀ n : Nat,
      decide ((b : Int) ≤ ((n + 1 : Nat) : Int) ∧ ((n + 1 : Nat) : Int) ≤ (e : Int) ∧
        (((n + 1 : Nat) : Int) - (b : Int)) % (c : Int) = 0) =
      decide (b ≤ n + 1 ∧ n + 1 ≤ e ∧ (n + 1 - b) % c = 0) := by
    intro n
    congr 1
    apply propext
    constructor
    · rintro ⟨a1, a2, a3⟩
      have a1' : b ≤ n + 1 := by omega
      refine ⟨a1', by omega, ?_⟩
      have e1 : (((n + 1 : Nat) : Int) - (b : Int)) = ((n + 1 - b : Nat) : Int) := by omega
      rw [e1] at a3
      exact_mod_cast a3
    · rintro ⟨a1, a2, a3⟩
      refine ⟨by omega, by omega, ?_⟩
      have e1 : (((n + 1 : Nat) : Int) - (b : Int)) = ((n + 1 - b : Nat) : Int) := by omega
      rw [e1]
      exact_mod_cast a3
  simp only [hpred]
  rw [count_multiples b e c hb1 hbe hc1 T, if_neg (by omega), Nat.min_eq_right heT]
  have e2 : ((e : Int) - (b : Int)) = ((e - b : Nat) : Int) := by omega
  rw [e2, Int.tdiv_eq_ediv (by omega) (by omega)]
  push_cast
  rfl

section WindowCount

variable {α : Type}

theorem header_block_num_cons (w : TTimeWinObj α)
    (ws : List (TTimeWinObj α)) :
    header_block_num (w :: ws) = w.pnt_num + header_block_num ws := by
  have hshift : ∀ (l : List (TTimeWinObj α)) (k : Int),
      l.foldl (fun block_num it => block_num + it.pnt_num) k =
        k + l.foldl (fun block_num it => block_num + it.pnt_num) 0 := by
    intro l
    induction l with
    | nil => intro k; simp
    | cons x xs ih =>
      intro k
      rw [List.foldl_cons, List.foldl_cons, ih (k + x.pnt_num), ih (0 + x.pnt_num)]
      omega
  unfold header_block_num
  rw [List.foldl_cons, hshift]
  omega

/-- For pairwise disjoint windows inside the steps `1 .. T` with `inc_step ≥ 1` and
`pnt_num` as `Simulation::init` computes it, the steps `1 .. T` on which some window
asks for output are as many as the header counts. -/
theorem count_windows (T : Nat) :
    ∀ ws : List (TTimeWinObj α),
      ws.Pairwise (fun a b => a.end_step < b.bgn_step ∨ b.end_step < a.bgn_step) →
      (∀ w ∈ ws, 1 ≤ w.bgn_step ∧ w.bgn_step ≤ w.end_step ∧ w.end_step ≤ T ∧
        1 ≤ w.inc_step ∧ w.pnt_num = Int.tdiv (w.end_step - w.bgn_step) w.inc_step + 1) →
      (((List.range T).countP
          (fun n => decide (∃ w ∈ ws, w.bgn_step ≤ ((n + 1 : Nat) : Int) ∧
            ((n + 1 : Nat) : Int) ≤ w.end_step ∧
            (((n + 1 : Nat) : Int) - w.bgn_step) % w.inc_step = 0)) : Nat) : Int) =
        header_block_num ws
  | [], _, _ => by
    simp [header_block_num]
  | v :: vs, hp, hb => by
    obtain ⟨hv, hvs⟩ := List.pairwise_cons.mp hp
    have ih := count_windows T vs hvs (fun w hw => hb w (List.mem_cons_of_mem _ hw))
    obtain ⟨b1, b2, b3, b4, b5⟩ := hb v (List.mem_cons_self _ _)
    have hsplit : ∀ n : Nat,
        decide (∃ w ∈ v :: vs, w.bgn_step ≤ ((n + 1 : Nat) : Int) ∧
          ((n + 1 : Nat) : Int) ≤ w.end_step ∧
          (((n + 1 : Nat) : Int) - w.bgn_step) % w.inc_step = 0) =
        (decide (v.bgn_step ≤ ((n + 1 : Nat) : Int) ∧ ((n + 1 : Nat) : Int) ≤ v.end_step ∧
          (((n + 1 : Nat) : Int) - v.bgn_step) % v.inc_step = 0) ||
        decide (∃ w ∈ vs, w.bgn_step ≤ ((n + 1 : Nat) : Int) ∧
          ((n + 1 : Nat) : Int) ≤ w.end_step ∧
          (((n + 1 : Nat) : Int) - w.bgn_step) % w.inc_step = 0)) := by
      intro n
      rw [← Bool.decide_or]
      congr 1
      apply propext
      constructor
      · rintro ⟨w, hw, h⟩
        rcases List.mem_cons.mp hw with h0 | h0
        · rw [h0] at h
          exact Or.inl h
        · exact Or.inr ⟨w, h0, h⟩
      · rintro (h | ⟨w, hw, h⟩)
        · exact ⟨v, List.mem_cons_self _ _, h⟩
        · exact ⟨w, List.mem_cons_of_mem _ hw, h⟩
    simp only [hsplit]
    rw [countP_or_disjoint, header_block_num_cons, b5]
    · rw [Nat.cast_add, ih, count_window v.bgn_step v.end_step v.inc_step T b1 b2 b3 b4]
    · intro n _ hcon
      obtain ⟨c1, c2⟩ := hcon
      have d1 := of_decide_eq_true c1
      obtain ⟨w, hw, d2⟩ := of_decide_eq_true c2
      have := hv w hw
      omega

end WindowCount

section Engine

variable {α ω : Type} [LinearOrderedField α]

/-- The flag after step `n + 1` of a run, as a decision over the configured windows. -/
theorem run_flag (ops : StimOps α ω) (s0 : Simulation α ω) (h0 : s0.tEvlt_step = 0)
    (hpair : s0.output_time.Pairwise
      (fun a b => a.end_step < b.bgn_step ∨ b.end_step < a.bgn_step))
    (hinc : ∀ w ∈ s0.output_time, 1 ≤ w.inc_step) (m : Nat)
    (h2 : ((m + 1 : Nat) : Int) ≤ s0.gTotal_step) :
    (run ops s0 (m + 1)).tOut_flg =
      decide (∃ w ∈ s0.output_time, w.bgn_step ≤ ((m + 1 : Nat) : Int) ∧
        ((m + 1 : Nat) : Int) ≤ w.end_step ∧
        (((m + 1 : Nat) : Int) - w.bgn_step) % w.inc_step = 0) := by
  obtain ⟨i1, i2, i3, i4⟩ := run_windows ops s0 h0 m (by push_cast at h2; omega)
  have hstep : (run ops s0 m).tEvlt_step + 1 ≤ (run ops s0 m).gTotal_step := by
    rw [i1, i2]
    push_cast at h2
    exact h2
  obtain ⟨_, w2⟩ := advance_windows ops (run ops s0 m) hstep
  have hiff : (run ops s0 (m + 1)).tOut_flg = true ↔
      ∃ w ∈ s0.output_time, w.bgn_step ≤ ((m + 1 : Nat) : Int) ∧
        ((m + 1 : Nat) : Int) ≤ w.end_step ∧
        (((m + 1 : Nat) : Int) - w.bgn_step) % w.inc_step = 0 := by
    show (advance ops (run ops s0 m)).tOut_flg = true ↔ _
    rw [w2, window_scan_flag _ _ (List.Pairwise.sublist i3 hpair), i1]
    push_cast
    constructor
    · rintro ⟨w, hw, hb, he, hm⟩
      have hwl := i3.subset hw
      refine ⟨w, hwl, hb, he, ?_⟩
      rw [← Int.tmod_eq_emod (by omega) (by have := hinc w hwl; omega)]
      exact hm
    · rintro ⟨w, hw, hb, he, hm⟩
      refine ⟨w, i4 w hw (by omega), hb, he, ?_⟩
      rw [Int.tmod_eq_emod (by omega) (by have := hinc w hw; omega)]
      exact hm
  cases hf : (run ops s0 (m + 1)).tOut_flg with
  | true => exact (decide_eq_true (hiff.mp hf)).symm
  | false =>
    refine (decide_eq_false ?_).symm
    intro hcon
    rw [hiff.mpr hcon] at hf
    exact Bool.noConfusion hf

/-- The loop of the front end from step `n` on: it is left after the remaining
`T - n` rounds, and it has written one block for every step on which `is_out()` held. -/
theorem write_loop_count (ops : StimOps α ω) (s0 : Simulation α ω) (T : Nat)
    (h0 : s0.tEvlt_step = 0) (hT : s0.gTotal_step = T) :
    ∀ (d n k j : Nat), n + d = T →
      write_loop ops (d + 1 + j) (run ops s0 n) k =
        some (k + (List.range d).countP (fun i => (run ops s0 (n + 1 + i)).tOut_flg))
  | 0, n, k, j, hn => by
    obtain ⟨i1, i2, _, _⟩ := run_windows ops s0 h0 n (by rw [hT]; exact_mod_cast (by omega))
    have e : 0 + 1 + j = j + 1 := by omega
    rw [e, write_loop, if_neg (by rw [i1, i2, hT]; simp; omega)]
    simp
  | d + 1, n, k, j, hn => by
    obtain ⟨i1, i2, _, _⟩ := run_windows ops s0 h0 n (by rw [hT]; exact_mod_cast (by omega))
    have e : d + 1 + 1 + j = (d + 1 + j) + 1 := by omega
    have hne : (run ops s0 n).tEvlt_step ≠ (run ops s0 n).gTotal_step := by
      rw [i1, i2, hT]
      intro hc
      have : n = T := by exact_mod_cast hc
      omega
    rw [e, write_loop, if_pos hne]
    have ih := write_loop_count ops s0 T h0 hT d (n + 1)
      (if (advance ops (run ops s0 n)).tOut_flg then k + 1 else k) j (by omega)
    have hr : run ops s0 (n + 1) = advance ops (run ops s0 n) := rfl
    rw [hr] at ih
    rw [ih, List.range_succ_eq_map, List.countP_cons, List.countP_map]
    have hc : List.countP ((fun i => (run ops s0 (n + 1 + i)).tOut_flg) ∘ Nat.succ)
        (List.range d) =
        List.countP (fun i => (run ops s0 (n + 1 + 1 + i)).tOut_flg) (List.range d) := by
      apply List.countP_congr
      intro i _
      have e2 : n + 1 + Nat.succ i = n + 1 + 1 + i := by omega
      simp only [Function.comp, e2]
    rw [hc]
    have hz : run ops s0 (n + 1 + 0) = advance ops (run ops s0 n) := rfl
    rw [hz]
    cases (advance ops (run ops s0 n)).tOut_flg
    · simp
    · simp
      omega

/-- For pairwise disjoint output windows with `1 ≤ bgn_step ≤ end_step ≤ gTotal_step`,
`inc_step ≥ 1` and `pnt_num` as `Simulation::init` computes it, the loop of the front end
is left after `gTotal_step` rounds and has written as many blocks as the header
announces in `BLOCK_NUM`. -/
theorem blocks_match_header (ops : StimOps α ω) (s0 : Simulation α ω)
    (ws : List (TTimeWinObj α)) (T : Nat) (h0 : s0.tEvlt_step = 0) (hT : s0.gTotal_step = T)
    (hw : s0.output_time = ws.map TTimeWinObj.view)
    (hpair : ws.Pairwise (fun a b => a.end_step < b.bgn_step ∨ b.end_step < a.bgn_step))
    (hb : ∀ w ∈ ws, 1 ≤ w.bgn_step ∧ w.bgn_step ≤ w.end_step ∧ w.end_step ≤ T ∧
      1 ≤ w.inc_step ∧ w.pnt_num = Int.tdiv (w.end_step - w.bgn_step) w.inc_step + 1)
    (fuel : Nat) (hf : T < fuel) :
    ∃ n : Nat, write_loop ops fuel s0 0 = some n ∧ (n : Int) = header_block_num ws := by
  obtain ⟨j, rfl⟩ : ∃ j, fuel = T + 1 + j := ⟨fuel - (T + 1), by omega⟩
  have hl := write_loop_count ops s0 T h0 hT T 0 0 j (by omega)
  have hrun : run ops s0 0 = s0 := rfl
  rw [hrun] at hl
  refine ⟨_, hl, ?_⟩
  have hpair' : s0.output_time.Pairwise
      (fun a b => a.end_step < b.bgn_step ∨ b.end_step < a.bgn_step) := by
    rw [hw, List.pairwise_map]
    exact hpair
  have hinc : ∀ w ∈ s0.output_time, 1 ≤ w.inc_step := by
    intro w hwm
    rw [hw] at hwm
    obtain ⟨v, hv, rfl⟩ := List.mem_map.mp hwm
    exact (hb v hv).2.2.2.1
  have hcount : (List.range T).countP (fun i => (run ops s0 (0 + 1 + i)).tOut_flg) =
      (List.range T).countP
        (fun n => decide (∃ w ∈ ws, w.bgn_step ≤ ((n + 1 : Nat) : Int) ∧
          ((n + 1 : Nat) : Int) ≤ w.end_step ∧
          (((n + 1 : Nat) : Int) - w.bgn_step) % w.inc_step = 0)) := by
    apply List.countP_congr
    intro i hi
    have hiT : i < T := List.mem_range.mp hi
    have e : 0 + 1 + i = i + 1 := by omega
    rw [e, run_flag ops s0 h0 hpair' hinc i (by rw [hT]; exact_mod_cast (by omega))]
    have hex : (∃ w ∈ s0.output_time, w.bgn_step ≤ ((i + 1 : Nat) : Int) ∧
          ((i + 1 : Nat) : Int) ≤ w.end_step ∧
          (((i + 1 : Nat) : Int) - w.bgn_step) % w.inc_step = 0) ↔
        ∃ w ∈ ws, w.bgn_step ≤ ((i + 1 : Nat) : Int) ∧
          ((i + 1 : Nat) : Int) ≤ w.end_step ∧
          (((i + 1 : Nat) : Int) - w.bgn_step) % w.inc_step = 0 := by
      rw [hw]
      constructor
      · rintro ⟨w, hwm, h⟩
        obtain ⟨v, hv, rfl⟩ := List.mem_map.mp hwm
        exact ⟨v, hv, h⟩
      · rintro ⟨v, hv, h⟩
        exact ⟨v.view, List.mem_map_of_mem _ hv, h⟩
    simp only [hex]
  rw [Nat.zero_add, hcount]
  exact count_windows T ws hpair hb

end Engine

end LCM
